import Mathlib

/-!
GALGO-2.0: encoded parameters, selection, cross-over, mutation and adaptation to
constraints.

A shallow embedding of `src/Parameter.hpp` and of the operators of
`src/Evolution.hpp`.

* A `double` is a rational number. Two readings of the `double` arithmetic are given.
  The exact reading (`Parameter.encode`, `Parameter.decode`, `RWS`, `SUS`, ...) computes
  in `ℚ` without rounding: it is the idealisation in which the spec states its
  formulas. The binary64 reading (the definitions under `f64`, and `blend`) rounds the
  result of every operation to the nearest `double`, ties to even, with gradual
  underflow, as IEEE 754 prescribes; infinities, NaN and the sign of zero are not
  modelled, so its theorems bound the magnitudes of their inputs.
* `int` is modelled by `ℤ` (theorems on the `int` instantiation assume that the bounds
  and their difference fit in 32 bits, where the C++ subtraction is defined),
  `uint64_t` by `Nat` reduced modulo `2^64`.
* A `std::string` of characters `'0'`/`'1'` is a `List Bool` (`true` is `'1'`),
  first character first.
* Every random draw is an explicit argument of the operator that consumes it.
* A C++ exception is the `Except.error` branch of an `Except String` result.
  The `#ifndef NDEBUG` checks are modelled as compiled in.
-/

namespace galgo

/-! ## Helpers of the library that `Parameter.hpp` calls -/

/-- Modelled from the spec: `Randomize<N>::MAXVAL` (Randomize.hpp is not part of the
sources), the largest unsigned integer on `N` bits, `2^N − 1`. -/
def MAXVAL (N : Nat) : Nat := 2 ^ N - 1

/-- Modelled from the spec: `GetValue` (Converter.hpp is not part of the sources), the
unsigned integer `uint(bits)` written by a bit string, most significant bit first
(`x = (x << 1) + bit` over the characters). -/
def GetValue (s : List Bool) : Nat :=
  s.foldl (fun x b => 2 * x + (if b then 1 else 0)) 0

/-- The `w` low bits of `value`, most significant bit first. -/
def toBits : Nat → Nat → List Bool
  | 0, _ => []
  | w + 1, value => value.testBit w :: toBits w value

/-- Modelled from the spec: `GetBinary` (Converter.hpp is not part of the sources), the
binary representation of a `uint64_t`, most significant bit first, on 64 characters. -/
def GetBinary (value : Nat) : List Bool := toBits 64 value

/-- The call `str.substr(pos, len)` for `pos ≤ str.size()`. -/
def substr (str : List Bool) (pos len : Nat) : List Bool := (str.drop pos).take len

/-- Conversion of a `double` to an integer type: the fractional part is discarded
(rounding toward zero). -/
def truncate (q : ℚ) : ℤ := if 0 ≤ q then ⌊q⌋ else ⌈q⌉

/-- Conversion `double → uint64_t`. C++ defines it only when the truncated value is
representable; outside that range the model takes the non-negative part modulo `2^64`. -/
def double_to_uint64 (q : ℚ) : Nat := (truncate q).toNat % 2 ^ 64

/-- Conversion `int → uint64_t` of the usual arithmetic conversions (modulo `2^64`). -/
def int_to_uint64 (i : ℤ) : Nat := (i % 2 ^ 64).toNat

/-! ## `double` arithmetic (IEEE 754 binary64, round to nearest, ties to even) -/

/-- The integer nearest to `y`; when `y` lies half-way between two integers, the even
one. -/
def roundEven (y : ℚ) : ℤ :=
  if y - ⌊y⌋ < 1 / 2 then ⌊y⌋
  else if 1 / 2 < y - ⌊y⌋ then ⌊y⌋ + 1
  else if ⌊y⌋ % 2 = 0 then ⌊y⌋ else ⌊y⌋ + 1

/-- The exponent of the unit in the last place of binary64 at `x`: 52 below the
exponent `⌊log2 |x|⌋` of a normal number (53 significant bits), and `-1074` in the
subnormal range. -/
def ulpExp (x : ℚ) : ℤ := max (Int.log 2 |x| - 52) (-1074)

/-- The `double` nearest to the real number `x`: `x` is rounded to a multiple of its unit
in the last place, ties to even. Overflow is not modelled (the result is finite for
every `x`). -/
def fl (x : ℚ) : ℚ := (roundEven (x / 2 ^ ulpExp x) : ℚ) * 2 ^ ulpExp x

/-- The sum `a + b` of two `double`. -/
def f64.add (a b : ℚ) : ℚ := fl (a + b)

/-- The difference `a - b` of two `double`. -/
def f64.sub (a b : ℚ) : ℚ := fl (a - b)

/-- The product `a * b` of two `double`. -/
def f64.mul (a b : ℚ) : ℚ := fl (a * b)

/-- The quotient `a / b` of two `double`, for `b` other than zero. -/
def f64.div (a b : ℚ) : ℚ := fl (a / b)

/-- Conversion of an unsigned integer to `double`. -/
def f64.ofNat (n : Nat) : ℚ := fl (n : ℚ)

/-- Conversion of an `int` to `double`. -/
def f64.ofInt (i : ℤ) : ℚ := fl (i : ℚ)

/-! ## `Parameter<T,N>` -/

/-- The class `Parameter<T,N>`: the data vector (lower bound, upper bound, optional
initial value), the step size `_sigma` and the count of its updates. -/
structure Parameter (T : Type) where
  N : Nat
  data : List T
  _sigma : T
  _sigma_iteration : Nat
deriving Repr, DecidableEq

/-- The constructor `Parameter(const std::vector<T>& data)`. -/
def Parameter.new {T : Type} [LinearOrder T] [One T] (N : Nat) (data : List T) :
    Except String (Parameter T) :=
  if h : data.length < 2 then
    .error "Error: in class galgo::Parameter<T,N>, argument must contain at least 2 elements of type T, the lower bound and the upper bound, please adjust."
  else
    have h0 : 0 < data.length := by omega
    have h1 : 1 < data.length := by omega
    if data[0] ≥ data[1] then
      .error "Error: in class galgo::Parameter<T,N>, first argument (lower bound) cannot be equal or greater than second argument (upper bound), please amend."
    else
      .ok { N := N, data := data, _sigma := 1, _sigma_iteration := 0 }

/-- The element `data[0]`, the lower bound. -/
def Parameter.data0 {T : Type} [Zero T] (p : Parameter T) : T := p.data.getD 0 0

/-- The element `data[1]`, the upper bound. -/
def Parameter.data1 {T : Type} [Zero T] (p : Parameter T) : T := p.data.getD 1 0

/-- The method `sigma_update`. -/
def Parameter.sigma_update {T : Type} (p : Parameter T) (new_sigma : T) : Parameter T :=
  { p with _sigma_iteration := p._sigma_iteration + 1, _sigma := new_sigma }

/-- The integer `value` computed by `encode(T z)` for `T = double`:
`uint64_t value = MAXVAL * (z - data[0]) / (data[1] - data[0])`. -/
def Parameter.encodeValue (p : Parameter ℚ) (z : ℚ) : Nat :=
  double_to_uint64 ((MAXVAL p.N : ℚ) * (z - p.data0) / (p.data1 - p.data0))

/-- The method `encode(T z)` for `T = double`. -/
def Parameter.encode (p : Parameter ℚ) (z : ℚ) : List Bool :=
  let value := p.encodeValue z
  let str := GetBinary value
  substr str (str.length - p.N) p.N

/-- The method `decode` for `T = double`. -/
def Parameter.decode (p : Parameter ℚ) (str : List Bool) : ℚ :=
  p.data0 + ((GetValue str : ℚ) / (MAXVAL p.N : ℚ)) * (p.data1 - p.data0)

/-- The integer `value` computed by `encode(T z)` for `T = int`: the operands are
converted to `uint64_t`, the product wraps modulo `2^64` and the division is the
unsigned integer division. -/
def Parameter.encodeValueInt (p : Parameter ℤ) (z : ℤ) : Nat :=
  (MAXVAL p.N * int_to_uint64 (z - p.data0)) % 2 ^ 64 / int_to_uint64 (p.data1 - p.data0)

/-- The method `encode(T z)` for `T = int`. -/
def Parameter.encodeInt (p : Parameter ℤ) (z : ℤ) : List Bool :=
  let value := p.encodeValueInt z
  let str := GetBinary value
  substr str (str.length - p.N) p.N

/-- The method `decode` for `T = int`: the expression is evaluated in `double` and
the result is converted to `int`. -/
def Parameter.decodeInt (p : Parameter ℤ) (str : List Bool) : ℤ :=
  truncate ((p.data0 : ℚ) + ((GetValue str : ℚ) / (MAXVAL p.N : ℚ)) * ((p.data1 : ℚ) - (p.data0 : ℚ)))

/-- The rounding to the nearest integer (halves away from zero, as `std::round`). -/
def roundNearest (q : ℚ) : ℤ := if 0 ≤ q then ⌊q + 1 / 2⌋ else ⌈q - 1 / 2⌉

/-- The method `encode()` without argument, "encoding random unsigned integer":
`generate` is the value returned by `Randomize<N>::generate()`. -/
def Parameter.encodeRandom {T : Type} (p : Parameter T) (generate : Nat) : List Bool :=
  let str := GetBinary generate
  substr str (str.length - p.N) p.N

/-- The abstract class `BaseParameter<T>`: the virtual methods `encode(T)`, `decode`,
`size`, `getData` and `encode()` of one parameter. -/
structure BaseParameter (T : Type) where
  encode : T → List Bool
  decode : List Bool → T
  size : Nat
  getData : List T
  encodeRandom : Nat → List Bool

/-- A `Parameter<double,N>` seen through its base class. -/
def Parameter.toBase (p : Parameter ℚ) : BaseParameter ℚ :=
  { encode := p.encode, decode := p.decode, size := p.N, getData := p.data
    encodeRandom := p.encodeRandom }

/-- A `Parameter<int,N>` seen through its base class. -/
def Parameter.toBaseInt (p : Parameter ℤ) : BaseParameter ℤ :=
  { encode := p.encodeInt, decode := p.decodeInt, size := p.N, getData := p.data
    encodeRandom := p.encodeRandom }

/-- The integer `value` computed by `encode(T z)` for `T = double`, in binary64:
`uint64_t value = MAXVAL * (z - data[0]) / (data[1] - data[0])`, where `MAXVAL` is
converted to `double`, the difference, the product and the quotient are rounded, and
the quotient is converted to `uint64_t`. -/
def f64.encodeValue (p : Parameter ℚ) (z : ℚ) : Nat :=
  double_to_uint64
    (f64.div (f64.mul (f64.ofNat (MAXVAL p.N)) (f64.sub z p.data0)) (f64.sub p.data1 p.data0))

/-- The method `encode(T z)` for `T = double`, in binary64. -/
def f64.encode (p : Parameter ℚ) (z : ℚ) : List Bool :=
  let value := f64.encodeValue p z
  let str := GetBinary value
  substr str (str.length - p.N) p.N

/-- The method `decode` for `T = double`, in binary64:
`data[0] + (GetValue(str) / static_cast<double>(MAXVAL)) * (data[1] - data[0])`. -/
def f64.decode (p : Parameter ℚ) (str : List Bool) : ℚ :=
  f64.add p.data0
    (f64.mul (f64.div (f64.ofNat (GetValue str)) (f64.ofNat (MAXVAL p.N)))
      (f64.sub p.data1 p.data0))

/-- The method `decode` for `T = int`, in binary64: the quotient is a `double`, the
`int` operands `data[1] - data[0]` and `data[0]` are converted to `double`, the product
and the sum are rounded, and the result is converted to `int`. -/
def f64.decodeInt (p : Parameter ℤ) (str : List Bool) : ℤ :=
  truncate
    (f64.add (f64.ofInt p.data0)
      (f64.mul (f64.div (f64.ofNat (GetValue str)) (f64.ofNat (MAXVAL p.N)))
        (f64.ofInt (p.data1 - p.data0))))

/-- A `Parameter<double,N>` seen through its base class, in binary64. -/
def f64.toBase (p : Parameter ℚ) : BaseParameter ℚ :=
  { encode := f64.encode p, decode := f64.decode p, size := p.N, getData := p.data
    encodeRandom := p.encodeRandom }

/-- A `Parameter<int,N>` seen through its base class, in binary64 (`encode` works on
integers only). -/
def f64.toBaseInt (p : Parameter ℤ) : BaseParameter ℤ :=
  { encode := p.encodeInt, decode := f64.decodeInt p, size := p.N, getData := p.data
    encodeRandom := p.encodeRandom }

/-- The conversions between the template type `T` and `double` that the operators
write as `(T)(...)` and `(double)(...)`. -/
class Scalar (T : Type) where
  toDouble : T → ℚ
  ofDouble : ℚ → T

instance : Scalar ℚ where
  toDouble := id
  ofDouble := id

instance : Scalar ℤ where
  toDouble := fun i => (i : ℚ)
  ofDouble := truncate

/-! ## `Chromosome<T>` and `Population<T>` -/

/-- Modelled from the spec: the mutation-configuration record `MutationInfo<T>`: the
initial step size, its floor, and the fraction of the bound range used as initial step
size. -/
structure MutationInfo where
  _sigma : ℚ
  _sigma_lowest : ℚ
  _ratio_boundary : ℚ
deriving Repr, DecidableEq

/-- Modelled from the spec: the part of the class `GeneticAlgorithm<T>` (Algorithm.hpp
is not part of the sources) that the operators read: the parameters, the
forced-value mask, the mutation rate and the mutation configuration (by default the
one that `test_ga_binairo` sets). -/
structure GeneticAlgorithm (T : Type) where
  param : List (BaseParameter T)
  force_value_flag : List Bool
  force_value : List T
  mutrate : ℚ := 0
  mutinfo : MutationInfo := { _sigma := 1, _sigma_lowest := 1 / 100, _ratio_boundary := 1 / 10 }

/-- Modelled from the spec: the class `Chromosome<T>` (Chromosome.hpp is not part of the
sources): the bit string `chr`, the per-gene step sizes, the number of updates of each,
the cached fitness, the cached constraint values, the generation the chromosome
belongs to, and the algorithm `ptr` that owns the parameters. -/
structure Chromosome (T : Type) where
  ptr : GeneticAlgorithm T
  chr : List Bool
  _sigma : List ℚ
  _sigma_iteration : List Nat
  fitness : ℚ
  constraint : List ℚ := []
  numgen : ℤ := 0

/-- Modelled from the spec: `nbgene()`, the number of genes. -/
def Chromosome.nbgene {T : Type} (c : Chromosome T) : Nat := c.ptr.param.length

/-- Modelled from the spec: `size()`, the number of bits, the sum of the parameter widths. -/
def Chromosome.size {T : Type} (c : Chromosome T) : Nat := (c.ptr.param.map (fun p => p.size)).sum

/-- Modelled from the spec: the position of the first bit of gene `i` in the bit string. -/
def Chromosome.idx {T : Type} (c : Chromosome T) (i : Nat) : Nat :=
  ((c.ptr.param.take i).map (fun p => p.size)).sum

/-- The call `s.replace(pos, len, t)` of `std::string`. -/
def replace (s : List Bool) (pos len : Nat) (t : List Bool) : List Bool :=
  s.take pos ++ t ++ s.drop (pos + len)

/-- Modelled from the spec: `initGene(i, value)` re-encodes gene `i` from a decoded
value, overwriting its bits; it does not touch sigma. An index that is not a gene
leaves the chromosome as it is. -/
def Chromosome.initGene {T : Type} (c : Chromosome T) (i : Nat) (x : T) : Chromosome T :=
  match c.ptr.param[i]? with
  | some p =>
    let s := p.encode x
    { c with chr := replace c.chr (c.idx i) s.length s }
  | none => c

/-- Modelled from the spec: `get_value(i)` decodes gene `i`. -/
def Chromosome.get_value {T : Type} [Inhabited T] (c : Chromosome T) (i : Nat) : T :=
  match c.ptr.param[i]? with
  | some p => p.decode (substr c.chr (c.idx i) p.size)
  | none => default

/-- The bits of gene `i`: the characters `idx(i) .. idx(i) + N_i - 1` of the bit string
that `get_value(i)` decodes. -/
def Chromosome.gene {T : Type} (c : Chromosome T) (i : Nat) : List Bool :=
  match c.ptr.param[i]? with
  | some p => substr c.chr (c.idx i) p.size
  | none => []

/-- Modelled from the spec: `get_sigma(i)`, the step size of gene `i`. -/
def Chromosome.get_sigma {T : Type} (c : Chromosome T) (i : Nat) : ℚ := c._sigma.getD i 0

/-- Modelled from the spec: `sigma_update(i, value)` sets gene `i`'s adaptive step size
and increments its "times adapted" counter. -/
def Chromosome.sigma_update {T : Type} (c : Chromosome T) (i : Nat) (new_sigma : ℚ) :
    Chromosome T :=
  { c with
    _sigma_iteration := c._sigma_iteration.modify (fun n => n + 1) i
    _sigma := c._sigma.set i new_sigma }

/-- Modelled from the spec: `getBit(pos)` reads one bit. -/
def Chromosome.getBit {T : Type} (c : Chromosome T) (pos : Nat) : Bool := c.chr.getD pos false

/-- Modelled from the spec: `addBit(bit)` appends one bit to the bit string. -/
def Chromosome.addBit {T : Type} (c : Chromosome T) (bit : Bool) : Chromosome T :=
  { c with chr := c.chr ++ [bit] }

/-- Modelled from the spec: `setPortion(x, start, end)` copies the bits `start..end`
(both included) from the chromosome `x`: `end - start + 1` bits, none when
`start = end + 1`. -/
def Chromosome.setPortion {T : Type} (c x : Chromosome T) (start stop : Nat) : Chromosome T :=
  { c with chr := replace c.chr start (stop + 1 - start) (substr x.chr start (stop + 1 - start)) }

/-- Modelled from the spec: `setPortion(x, start)` with an open-ended range copies to the
end of the string. -/
def Chromosome.setPortionEnd {T : Type} (c x : Chromosome T) (start : Nat) : Chromosome T :=
  { c with chr := replace c.chr start c.size (substr x.chr start x.size) }

/-- Modelled from the spec: the class `Population<T>` (Population.hpp is not part of the
sources): the current generation, the mating pool (the positions given to `select`, in
call order: pooled chromosomes are shared with the current generation), the new
generation, the configured mating-pool size, the generation number, the selective
pressure, the owning algorithm and the tournament size. -/
structure Population (T : Type) where
  curpop : List (Chromosome T)
  matpop : List ℤ
  newpop : List (Chromosome T)
  matsize : Nat
  nogen : Nat
  SP : ℚ
  ga_algo : GeneticAlgorithm T
  tntsize : ℤ := 10

/-- Modelled from the spec: `popsize()`, the size of the current generation. -/
def Population.popsize {T : Type} (x : Population T) : Nat := x.curpop.length

/-- The fitness values `x(0)->fitness, x(1)->fitness, ...` of the current generation. -/
def Population.fitnesses {T : Type} (x : Population T) : List ℚ :=
  x.curpop.map (fun c => c.fitness)

/-- Modelled from the spec: `getSumFitness()`, the sum of the current-generation fitness. -/
def Population.getSumFitness {T : Type} (x : Population T) : ℚ := x.fitnesses.sum

/-- The least fitness of the current generation (`0` for an empty one). -/
def Population.minFitness {T : Type} (x : Population T) : ℚ :=
  match x.fitnesses with
  | [] => 0
  | f :: fs => fs.foldl min f

/-- Modelled from the spec: `adjustFitness()`: if any fitness value is negative, shifts
all fitness scores up by `|min fitness|`. -/
def Population.adjustFitness {T : Type} (x : Population T) : Population T :=
  if x.fitnesses.any (fun f => decide (f < 0)) then
    { x with curpop := x.curpop.map (fun c => { c with fitness := c.fitness + |x.minFitness| }) }
  else x

/-- Modelled from the spec: `select(index)` appends the chromosome at `index` in the
current generation to the mating pool. -/
def Population.select {T : Type} (x : Population T) (pos : ℤ) : Population T :=
  { x with matpop := x.matpop ++ [pos] }

/-- Modelled from the spec: `x[pos]`, the element of the mating pool at position `pos`. -/
def Population.mat {T : Type} (x : Population T) (pos : Nat) : Option (Chromosome T) :=
  match x.matpop[pos]? with
  | some k => if 0 ≤ k then x.curpop[k.toNat]? else none
  | none => none

/-! ## Selection operators of `Evolution.hpp`

The argument `rest` of a walk is the part of the current generation (or of the rank
table) from position `j` on, so that `j == popsize` is `rest = []`. -/

/-- The loop `while (fsum >= 0.0)` of `RWS`. -/
def RWS_walk : List ℚ → Nat → ℚ → Except String Nat
  | [], j, fsum =>
    if fsum ≥ 0 then
      .error "Error: in RWS(galgo::Population<T>&) index j cannot be equal to population size."
    else .ok j
  | f :: rest, j, fsum =>
    if fsum ≥ 0 then RWS_walk rest (j + 1) (fsum - f) else .ok j

/-- The operator `RWS`, proportional roulette wheel selection. `draw i` is the value
returned by `galgo::uniform<double>(0.0, fitsum)` in iteration `i`. -/
def RWS {T : Type} (x0 : Population T) (draw : Nat → ℚ) : Except String (Population T) :=
  let x := x0.adjustFitness
  let fitsum := x.getSumFitness
  (List.range x.matsize).foldlM (fun x i => do
    let j ← (if fitsum > 0 then RWS_walk x.fitnesses 0 (draw i) else pure 1)
    pure (x.select ((j : ℤ) - 1))) x

/-- The loop `while (fsum <= ptr)` of `SUS`. -/
def SUS_walk : List ℚ → Nat → ℚ → ℚ → Except String Nat
  | [], j, fsum, ptr =>
    if fsum ≤ ptr then
      .error "Error: in SUS(galgo::Population<T>&) index j cannot be equal to population size."
    else .ok j
  | f :: rest, j, fsum, ptr =>
    if fsum ≤ ptr then SUS_walk rest (j + 1) (fsum + f) ptr else .ok j

/-- The operator `SUS`, stochastic universal sampling. `ptr0` is the value returned by
`galgo::uniform<double>(0.0, dist)`. The result carries the final pointer too. -/
def SUS {T : Type} (x0 : Population T) (ptr0 : ℚ) : Except String (Population T × ℚ) :=
  let x := x0.adjustFitness
  let fitsum := x.getSumFitness
  let matsize := x.matsize
  let dist := fitsum / (matsize : ℚ)
  (List.range matsize).foldlM (fun (s : Population T × ℚ) _ => do
    let j ← SUS_walk s.1.fitnesses 0 0 s.2
    pure (s.1.select ((j : ℤ) - 1), s.2 + dist)) (x, ptr0)

/-- Modelled from the spec: `getSumFitness()`, the sum of the current-generation fitness,
accumulated in binary64 from `0.0` in index order. -/
def f64.getSumFitness {T : Type} (x : Population T) : ℚ := x.fitnesses.foldl f64.add 0

/-- Modelled from the spec: `adjustFitness()` in binary64: if any fitness value is
negative, adds `|min fitness|` to every fitness score. -/
def f64.adjustFitness {T : Type} (x : Population T) : Population T :=
  if x.fitnesses.any (fun f => decide (f < 0)) then
    { x with curpop := x.curpop.map (fun c => { c with fitness := f64.add c.fitness |x.minFitness| }) }
  else x

/-- The loop `while (fsum >= 0.0)` of `RWS` in binary64: `fsum -= x(j)->fitness` is
rounded. -/
def f64.RWS_walk : List ℚ → Nat → ℚ → Except String Nat
  | [], j, fsum =>
    if fsum ≥ 0 then
      .error "Error: in RWS(galgo::Population<T>&) index j cannot be equal to population size."
    else .ok j
  | f :: rest, j, fsum =>
    if fsum ≥ 0 then f64.RWS_walk rest (j + 1) (f64.sub fsum f) else .ok j

/-- The operator `RWS` in binary64. `draw i` is the value returned by
`galgo::uniform<double>(0.0, fitsum)` in iteration `i`. -/
def f64.RWS {T : Type} (x0 : Population T) (draw : Nat → ℚ) : Except String (Population T) :=
  let x := f64.adjustFitness x0
  let fitsum := f64.getSumFitness x
  (List.range x.matsize).foldlM (fun x i => do
    let j ← (if fitsum > 0 then f64.RWS_walk x.fitnesses 0 (draw i) else pure 1)
    pure (x.select ((j : ℤ) - 1))) x

/-- The loop `while (fsum <= ptr)` of `SUS` in binary64: `fsum += x(j)->fitness` is
rounded. -/
def f64.SUS_walk : List ℚ → Nat → ℚ → ℚ → Except String Nat
  | [], j, fsum, ptr =>
    if fsum ≤ ptr then
      .error "Error: in SUS(galgo::Population<T>&) index j cannot be equal to population size."
    else .ok j
  | f :: rest, j, fsum, ptr =>
    if fsum ≤ ptr then f64.SUS_walk rest (j + 1) (f64.add fsum f) ptr else .ok j

/-- The operator `SUS` in binary64: `dist = fitsum / matsize` and `ptr += dist` are
rounded. `ptr0` is the value returned by `galgo::uniform<double>(0.0, dist)`. The
result carries the final pointer too. -/
def f64.SUS {T : Type} (x0 : Population T) (ptr0 : ℚ) : Except String (Population T × ℚ) :=
  let x := f64.adjustFitness x0
  let fitsum := f64.getSumFitness x
  let matsize := x.matsize
  let dist := f64.div fitsum (f64.ofNat matsize)
  (List.range matsize).foldlM (fun (s : Population T × ℚ) _ => do
    let j ← f64.SUS_walk s.1.fitnesses 0 0 s.2
    pure (s.1.select ((j : ℤ) - 1), f64.add s.2 dist)) (x, ptr0)

/-- The pointer `ptr` of `SUS` at the start of iteration `i`: the offset `ptr0` after `i`
rounded additions `ptr += dist`. -/
def f64.SUS_ptr {T : Type} (x : Population T) (ptr0 : ℚ) (i : Nat) : ℚ :=
  (fun p => f64.add p (f64.div (f64.getSumFitness x) (f64.ofNat x.matsize)))^[i] ptr0

/-- The function-local statics `rank` and `ranksum` of `RNK`. -/
structure RNKState where
  rank : List ℤ
  ranksum : ℤ
deriving Repr, DecidableEq

/-- The loop `while (rsum > 0)` of `RNK`. -/
def RNK_walk : List ℤ → Nat → ℤ → Except String Nat
  | [], j, rsum =>
    if rsum > 0 then
      .error "Error: in RNK(galgo::Population<T>&) index j cannot be equal to population size."
    else .ok j
  | r :: rest, j, rsum =>
    if rsum > 0 then RNK_walk rest (j + 1) (rsum - r) else .ok j

/-- The rank table `popsize, popsize - 1, ..., 1` that `RNK` generates at the first
generation, with `ranksum = int(.5 * popsize * (popsize + 1))`. -/
def RNK_init {T : Type} (x : Population T) (st : RNKState) : RNKState :=
  let popsize := x.popsize
  { rank := (List.range popsize).map (fun (k : Nat) => (popsize : ℤ) - (k : ℤ)) ++ st.rank.drop popsize
    ranksum := truncate (0.5 * (popsize : ℚ) * ((popsize : ℚ) + 1)) }

/-- The operator `RNK`, classic linear rank-based selection. `st` holds the statics as
the previous call left them (on the first call `popsize` zeros and `0`); `draw i` is
the value returned by `galgo::uniform<int>(1, ranksum)` in iteration `i`. -/
def RNK {T : Type} (x : Population T) (st : RNKState) (draw : Nat → ℤ) :
    Except String (Population T × RNKState) :=
  let popsize := x.popsize
  let st := if x.nogen = 1 then RNK_init x st else st
  (List.range x.matsize).foldlM (fun (s : Population T × RNKState) i => do
    let j ← RNK_walk (s.2.rank.take popsize) 0 (draw i)
    pure (s.1.select ((j : ℤ) - 1), s.2)) (x, st)

/-- The function-local statics `rank` and `ranksum` of `RSP`. -/
structure RSPState where
  rank : List ℚ
  ranksum : ℚ
deriving Repr, DecidableEq

/-- The loop `while (rsum >= 0.0)` of `RSP`. -/
def RSP_walk : List ℚ → Nat → ℚ → Except String Nat
  | [], j, rsum =>
    if rsum ≥ 0 then
      .error "Error: in RSP(galgo::Population<T>&) index j cannot be equal to population size."
    else .ok j
  | r :: rest, j, rsum =>
    if rsum ≥ 0 then RSP_walk rest (j + 1) (rsum - r) else .ok j

/-- The rank table that `RSP` builds at the first generation, with its running sum. -/
def RSP_init {T : Type} (x : Population T) (st : RSPState) : RSPState :=
  let popsize := x.popsize
  (List.range popsize).foldl (fun (s : RSPState) (i : Nat) =>
    let rk := 2 - x.SP + 2 * (x.SP - 1) * ((popsize : ℚ) - (i : ℚ)) / (popsize : ℚ)
    { rank := s.rank.set i rk, ranksum := s.ranksum + rk })
    { rank := st.rank, ranksum := 0 }

/-- The operator `RSP`, linear rank-based selection with selective pressure. `draw i` is
the value returned by `galgo::uniform<double>(0.0, ranksum)` in iteration `i`. -/
def RSP {T : Type} (x : Population T) (st : RSPState) (draw : Nat → ℚ) :
    Except String (Population T × RSPState) :=
  let popsize := x.popsize
  let st := if x.nogen = 1 then RSP_init x st else st
  (List.range x.matsize).foldlM (fun (s : Population T × RSPState) i => do
    let j ← RSP_walk (s.2.rank.take popsize) 0 (draw i)
    pure (s.1.select ((j : ℤ) - 1), s.2)) (x, st)

/-- The loop `while (fsum >= 0)` of `TRS`. -/
def TRS_walk : List ℚ → Nat → ℚ → Except String Nat
  | [], j, fsum =>
    if fsum ≥ 0 then
      .error "Error: in TRS(galgo::Population<T>&) index j cannot be equal to population size."
    else .ok j
  | f :: rest, j, fsum =>
    if fsum ≥ 0 then TRS_walk rest (j + 1) (fsum - f) else .ok j

/-- The selection part of `TRS` (from `computing fitness sum` on), run on the
population whose fitness `TRS` has just transformed. `draw i` is the value returned by
`galgo::uniform<double>(0, fitsum)` in iteration `i`. -/
def TRS_select {T : Type} (x : Population T) (draw : Nat → ℚ) : Except String (Population T) :=
  let fitsum := x.getSumFitness
  (List.range x.matsize).foldlM (fun x i => do
    let j ← (if fitsum > 0 then TRS_walk x.fitnesses 0 (draw i) else pure 1)
    pure (x.select ((j : ℤ) - 1))) x

/-- The functions `std::exp` and `pow` of the C++ library; they have no exact rational
model and are a parameter of the operators that call them. -/
structure Libm where
  exp : ℚ → ℚ
  pow : ℚ → ℚ → ℚ

/-- The lambda `[](double& z)->double{return galgo::proba(galgo::rng);}` that `TRS` hands to
the first `std::for_each`, called on an element that holds `z` when the generator
delivers `draw`: the element afterwards (the lambda does not assign to `z`) and the
value returned (`std::for_each` discards it). -/
def TRS_lambda (z draw : ℚ) : ℚ × ℚ := (z, draw)

/-- The vector `r` of `TRS` after `std::vector<double> r(popsize)` (value-initialised
elements) and the first `std::for_each`; `proba k` is the value that
`galgo::proba(galgo::rng)` returns in the call for element `k`. -/
def TRS_r (popsize : Nat) (proba : Nat → ℚ) : List ℚ :=
  (List.range popsize).map (fun k => (TRS_lambda 0 (proba k)).1)

/-- The fitness `ceil((popsize - popsize*exp(-c*z))/(1 - exp(-c)))` that `TRS` writes. -/
def TRS_fitness (m : Libm) (popsize : Nat) (c z : ℚ) : ℚ :=
  ((⌈((popsize : ℚ) - (popsize : ℚ) * m.exp (-c * z)) / (1 - m.exp (-c))⌉ : ℤ) : ℚ)

/-- The population after the second `std::for_each` of `TRS`: the chromosome at position
`k` receives the fitness computed from element `k` of the sorted `r`. -/
def TRS_transform {T : Type} (m : Libm) (x : Population T) (c : ℚ) (r : List ℚ) : Population T :=
  { x with curpop := (List.zipWith (fun (ch : Chromosome T) (z : ℚ) =>
      { ch with fitness := TRS_fitness m x.popsize c z }) x.curpop r) }

/-- The operator `TRS`, transform ranking selection. `c` is the value that the static
variable holds when the call starts, `proba` the draws of the first `std::for_each`,
`draw i` the value of `galgo::uniform<double>(0, fitsum)` in iteration `i`. The result
is the population and the static `c` afterwards. -/
def TRS {T : Type} (m : Libm) (x : Population T) (c : ℚ) (proba : Nat → ℚ) (draw : Nat → ℚ) :
    Except String (Population T × ℚ) :=
  let c := if x.nogen = 1 then 0.2 else c
  let popsize := x.popsize
  let r := TRS_r popsize proba
  let r := r.insertionSort (fun z1 z2 => z1 ≥ z2)
  let x := TRS_transform m x c r
  let c := c + 0.1
  (TRS_select x draw).map (fun y => (y, c))

/-! ## Cross-over operators of `Evolution.hpp`

The draws `idx1`, `idx2`, `pos`, the blend ratio `r` and the coin flips are arguments.
The result is `none` when `x[idx1]` or `x[idx2]` is not an element of the mating pool. -/

/-- The two loops under `// Transmit sigma`, applied to one offspring. -/
def transmit_sigma {T : Type} (chr chrmat1 chrmat2 : Chromosome T) : Chromosome T :=
  (List.range chr.nbgene).foldl
    (fun c i => c.sigma_update i (0.5 * (chrmat1.get_sigma i + chrmat2.get_sigma i))) chr

/-- The blend `(T)(r * other + (1.0 - r) * own)`, evaluated in binary64: the two
products, the difference `1.0 - r` and the sum are rounded, and the result is
converted to `T`. -/
def blend {T : Type} [Scalar T] (r : ℚ) (other own : T) : T :=
  Scalar.ofDouble
    (f64.add (f64.mul r (Scalar.toDouble other)) (f64.mul (f64.sub 1 r) (Scalar.toDouble own)))

/-- The operator `RealValuedSimpleArithmeticRecombination`. -/
def RealValuedSimpleArithmeticRecombination {T : Type} [Scalar T] [Inhabited T]
    (x : Population T) (chr1 chr2 : Chromosome T) (idx1 idx2 pos : Nat) (r : ℚ) :
    Option (Chromosome T × Chromosome T) :=
  match x.mat idx1, x.mat idx2 with
  | some chrmat1, some chrmat2 =>
    let c1 := (List.range pos).foldl (fun c i => c.initGene i (chrmat1.get_value i)) chr1
    let c1 := (List.range' pos (chr1.nbgene - pos)).foldl
      (fun c i => c.initGene i (blend r (chrmat2.get_value i) (chrmat1.get_value i))) c1
    let c2 := (List.range pos).foldl (fun c i => c.initGene i (chrmat2.get_value i)) chr2
    let c2 := (List.range' pos (chr1.nbgene - pos)).foldl
      (fun c i => c.initGene i (blend r (chrmat1.get_value i) (chrmat2.get_value i))) c2
    some (transmit_sigma c1 chrmat1 chrmat2, transmit_sigma c2 chrmat1 chrmat2)
  | _, _ => none

/-- The operator `RealValuedSingleArithmeticRecombination`. -/
def RealValuedSingleArithmeticRecombination {T : Type} [Scalar T] [Inhabited T]
    (x : Population T) (chr1 chr2 : Chromosome T) (idx1 idx2 pos : Nat) (r : ℚ) :
    Option (Chromosome T × Chromosome T) :=
  match x.mat idx1, x.mat idx2 with
  | some chrmat1, some chrmat2 =>
    let c1 := (List.range chr1.nbgene).foldl (fun c i => c.initGene i (chrmat1.get_value i)) chr1
    let c1 := c1.initGene pos (blend r (chrmat2.get_value pos) (chrmat1.get_value pos))
    let c2 := (List.range chr2.nbgene).foldl (fun c i => c.initGene i (chrmat2.get_value i)) chr2
    let c2 := c2.initGene pos (blend r (chrmat1.get_value pos) (chrmat2.get_value pos))
    some (transmit_sigma c1 chrmat1 chrmat2, transmit_sigma c2 chrmat1 chrmat2)
  | _, _ => none

/-- The operator `RealValuedWholeArithmeticRecombination`. -/
def RealValuedWholeArithmeticRecombination {T : Type} [Scalar T] [Inhabited T]
    (x : Population T) (chr1 chr2 : Chromosome T) (idx1 idx2 : Nat) (r : ℚ) :
    Option (Chromosome T × Chromosome T) :=
  match x.mat idx1, x.mat idx2 with
  | some chrmat1, some chrmat2 =>
    let c1 := (List.range chr1.nbgene).foldl
      (fun c i => c.initGene i (blend r (chrmat2.get_value i) (chrmat1.get_value i))) chr1
    let c2 := (List.range chr2.nbgene).foldl
      (fun c i => c.initGene i (blend r (chrmat1.get_value i) (chrmat2.get_value i))) chr2
    some (transmit_sigma c1 chrmat1 chrmat2, transmit_sigma c2 chrmat1 chrmat2)
  | _, _ => none

/-- A sequence of calls `initGene(i, value)` on one chromosome, each call given as the
pair `(i, value)`. -/
def initGene_calls {T : Type} (c : Chromosome T) (calls : List (Nat × T)) : Chromosome T :=
  calls.foldl (fun c iv => c.initGene iv.1 iv.2) c

/-- The calls `initGene(i, value)` of `RealValuedSimpleArithmeticRecombination` on one
offspring, in order: `own` is the parent whose values are taken before `pos` and
`other` the parent blended in from `pos` on; `nbgene` is the bound `chr1->nbgene()` of
the second loop. -/
def Simple_calls {T : Type} [Scalar T] [Inhabited T] (own other : Chromosome T)
    (pos nbgene : Nat) (r : ℚ) : List (Nat × T) :=
  (List.range pos).map (fun i => (i, own.get_value i)) ++
    (List.range' pos (nbgene - pos)).map
      (fun i => (i, blend r (other.get_value i) (own.get_value i)))

/-- The calls `initGene(i, value)` of `RealValuedSingleArithmeticRecombination` on one
offspring, in order. -/
def Single_calls {T : Type} [Scalar T] [Inhabited T] (own other : Chromosome T)
    (pos nbgene : Nat) (r : ℚ) : List (Nat × T) :=
  (List.range nbgene).map (fun i => (i, own.get_value i)) ++
    [(pos, blend r (other.get_value pos) (own.get_value pos))]

/-- The calls `initGene(i, value)` of `RealValuedWholeArithmeticRecombination` on one
offspring, in order. -/
def Whole_calls {T : Type} [Scalar T] [Inhabited T] (own other : Chromosome T)
    (nbgene : Nat) (r : ℚ) : List (Nat × T) :=
  (List.range nbgene).map (fun i => (i, blend r (other.get_value i) (own.get_value i)))

/-- The operator `P1XO`, one-point random cross-over. -/
def P1XO {T : Type} (x : Population T) (chr1 chr2 : Chromosome T) (idx1 idx2 pos : Nat) :
    Option (Chromosome T × Chromosome T) :=
  match x.mat idx1, x.mat idx2 with
  | some chrmat1, some chrmat2 =>
    let c1 := chr1.setPortion chrmat1 0 pos
    let c2 := chr2.setPortion chrmat2 0 pos
    let c1 := c1.setPortionEnd chrmat2 (pos + 1)
    let c2 := c2.setPortionEnd chrmat1 (pos + 1)
    some (transmit_sigma c1 chrmat1 chrmat2, transmit_sigma c2 chrmat1 chrmat2)
  | _, _ => none

/-- The operator `P2XO`, two-point random cross-over. -/
def P2XO {T : Type} (x : Population T) (chr1 chr2 : Chromosome T) (idx1 idx2 pos1 pos2 : Nat) :
    Option (Chromosome T × Chromosome T) :=
  match x.mat idx1, x.mat idx2 with
  | some chrmat1, some chrmat2 =>
    let m := min pos1 pos2
    let M := max pos1 pos2
    let c1 := chr1.setPortion chrmat1 0 m
    let c2 := chr2.setPortion chrmat2 0 m
    let c1 := c1.setPortion chrmat2 (m + 1) M
    let c2 := c2.setPortion chrmat1 (m + 1) M
    let c1 := c1.setPortionEnd chrmat1 (M + 1)
    let c2 := c2.setPortionEnd chrmat2 (M + 1)
    some (transmit_sigma c1 chrmat1 chrmat2, transmit_sigma c2 chrmat1 chrmat2)
  | _, _ => none

/-- The operator `UXO`, uniform random cross-over. `proba j` is the value returned by
`galgo::proba(galgo::rng)` for bit `j`. -/
def UXO {T : Type} (x : Population T) (chr1 chr2 : Chromosome T) (idx1 idx2 : Nat)
    (proba : Nat → ℚ) : Option (Chromosome T × Chromosome T) :=
  match x.mat idx1, x.mat idx2 with
  | some chrmat1, some chrmat2 =>
    let cs := (List.range chr1.size).foldl (fun (cs : Chromosome T × Chromosome T) j =>
      if proba j < 0.50 then
        (cs.1.addBit (chrmat1.getBit j), cs.2.addBit (chrmat2.getBit j))
      else
        (cs.1.addBit (chrmat2.getBit j), cs.2.addBit (chrmat1.getBit j))) (chr1, chr2)
    some (transmit_sigma cs.1 chrmat1 chrmat2, transmit_sigma cs.2 chrmat1 chrmat2)
  | _, _ => none

/-! ## Forced values -/

/-- The body of the inner loop of `FixedParameter` and of `FixedParameterBinairo` for
gene `j` of one chromosome: the chromosome afterwards, and the pair
`(desired_value, set_value)` of each "Invalid decode/encode" line it printed. -/
def FixedParameter_gene {T : Type} [Inhabited T] [DecidableEq T] (ga : GeneticAlgorithm T)
    (s : Chromosome T × List (T × T)) (j : Nat) : Chromosome T × List (T × T) :=
  if ga.force_value_flag.getD j false then
    let c := s.1.initGene j (ga.force_value.getD j default)
    if c.get_value j ≠ ga.force_value.getD j default then
      (c, s.2 ++ [(ga.force_value.getD j default, c.get_value j)])
    else (c, s.2)
  else s

/-- The loop over `j` of `FixedParameter` for one chromosome of the new generation. -/
def FixedParameter_chr {T : Type} [Inhabited T] [DecidableEq T] (ga : GeneticAlgorithm T)
    (s : Chromosome T × List (T × T)) : Chromosome T × List (T × T) :=
  (List.range ga.force_value_flag.length).foldl (FixedParameter_gene ga) s

/-- The operator `FixedParameter`: the population afterwards and the printed reports.
The outer loop runs over `i < x.matsize()`; an `np[i]` beyond the new generation is
left out. -/
def FixedParameter {T : Type} [Inhabited T] [DecidableEq T] (x : Population T) :
    Population T × List (T × T) :=
  (List.range x.matsize).foldl (fun (s : Population T × List (T × T)) i =>
    match s.1.newpop[i]? with
    | some c =>
      let r := FixedParameter_chr x.ga_algo (c, s.2)
      ({ s.1 with newpop := s.1.newpop.set i r.1 }, r.2)
    | none => s) (x, [])

/-- The forced-value loop at the head of `FixedParameterBinairo(x, k)`: chromosome
`np[k]` afterwards and the printed reports. -/
def FixedParameterBinairo_force {T : Type} [Inhabited T] [DecidableEq T] (x : Population T)
    (k : Nat) : Option (Chromosome T × List (T × T)) :=
  match x.newpop[k]? with
  | some c => some (FixedParameter_chr x.ga_algo (c, []))
  | none => none

/-! ## Tournament selection and adaptation to constraints -/

/-- The tournament of one mating-pool slot of `TNT`: `draw 0` is the first
`galgo::uniform<int>(0, popsize)`, `draw j` the one of iteration `j` of the inner loop.
The result is the final `(bestIdx, bestFit)`. -/
def TNT_tournament {T : Type} (x : Population T) (draw : Nat → Nat) : Nat × ℚ :=
  let bestIdx := draw 0
  let bestFit := x.fitnesses.getD bestIdx 0
  (List.range' 1 (x.tntsize - 1).toNat).foldl (fun (b : Nat × ℚ) j =>
    let idx := draw j
    let fit := x.fitnesses.getD idx 0
    if fit > b.2 then (idx, fit) else b) (bestIdx, bestFit)

/-- The operator `TNT`, tournament selection. `draw i j` is draw `j` of the tournament
of mating-pool slot `i`. -/
def TNT {T : Type} (x : Population T) (draw : Nat → Nat → Nat) : Population T :=
  (List.range x.matsize).foldl (fun (y : Population T) i =>
    y.select ((TNT_tournament y (draw i)).1 : ℤ)) x

/-- Modelled from the spec: `getWorstTotal()`, an aggregate helper over the
current-generation fitness: the worst (least) value. -/
def Population.getWorstTotal {T : Type} (x : Population T) : ℚ := x.minFitness

/-- Modelled from the spec: `getConstraint()`, the cached constraint-violation vector. -/
def Chromosome.getConstraint {T : Type} (c : Chromosome T) : List ℚ := c.constraint

/-- The operator `DAC`, adaptation of the population to the constraints. -/
def DAC {T : Type} (x : Population T) : Population T :=
  let worstTotal := x.getWorstTotal
  { x with curpop := x.curpop.map (fun c =>
      let cst := c.getConstraint
      if cst.any (fun v => decide (v ≥ 0)) then
        { c with fitness := worstTotal - cst.foldl (fun a v => a + v) 0 }
      else c) }

/-! ## Mutation operators of `Evolution.hpp`

The generator `galgo::rng` is modelled by the values it will deliver: uniform draws of
`galgo::proba`, standard normal draws of `distribution01`, and integers of
`Randomize<N>::generate()`, each with the number of values already consumed. A draw
of `std::normal_distribution<double>(mean, sigma)` is `mean + sigma * z` for the next
standard normal value `z`. -/

/-- The state of the random generator. -/
structure Rng where
  proba : Nat → ℚ
  normal : Nat → ℚ
  generate : Nat → Nat
  nproba : Nat
  nnormal : Nat
  ngenerate : Nat

/-- The call `galgo::proba(galgo::rng)`: the value and the generator afterwards. -/
def Rng.nextProba (r : Rng) : ℚ × Rng := (r.proba r.nproba, { r with nproba := r.nproba + 1 })

/-- The call `distribution01(galgo::rng)`: the value and the generator afterwards. -/
def Rng.nextNormal (r : Rng) : ℚ × Rng :=
  (r.normal r.nnormal, { r with nnormal := r.nnormal + 1 })

/-- The call `Randomize<N>::generate()`: the value and the generator afterwards. -/
def Rng.nextGenerate (r : Rng) : Nat × Rng :=
  (r.generate r.ngenerate, { r with ngenerate := r.ngenerate + 1 })

/-- Modelled from the spec: `mutrate()`, the mutation rate of the owning algorithm. -/
def Chromosome.mutrate {T : Type} (c : Chromosome T) : ℚ := c.ptr.mutrate

/-- Modelled from the spec: `mutinfo()`, the mutation configuration of the owning
algorithm. -/
def Chromosome.mutinfo {T : Type} (c : Chromosome T) : MutationInfo := c.ptr.mutinfo

/-- Modelled from the spec: `nogen()`, the generation the chromosome belongs to. -/
def Chromosome.nogen {T : Type} (c : Chromosome T) : ℤ := c.numgen

/-- Modelled from the spec: `lowerBound()`, the lower bound `data[0]` of every
parameter. -/
def Chromosome.lowerBound {T : Type} [Inhabited T] (c : Chromosome T) : List T :=
  c.ptr.param.map (fun p => p.getData.getD 0 default)

/-- Modelled from the spec: `upperBound()`, the upper bound `data[1]` of every
parameter. -/
def Chromosome.upperBound {T : Type} [Inhabited T] (c : Chromosome T) : List T :=
  c.ptr.param.map (fun p => p.getData.getD 1 default)

/-- Modelled from the spec: `flipBit(pos)` inverts a single bit of the underlying
string. -/
def Chromosome.flipBit {T : Type} (c : Chromosome T) (pos : Nat) : Chromosome T :=
  { c with chr := c.chr.modify (fun b => !b) pos }

/-- Modelled from the spec: `setGene(i)` replaces gene `i` with a fresh random
encoding; `generate` is the integer that the random `encode()` draws. -/
def Chromosome.setGene {T : Type} (c : Chromosome T) (i : Nat) (generate : Nat) : Chromosome T :=
  match c.ptr.param[i]? with
  | some p =>
    let s := p.encodeRandom generate
    { c with chr := replace c.chr (c.idx i) s.length s }
  | none => c

/-- The loop `for (int i = 0; i < chr->nbgene(); ++i)` with the test
`if (galgo::proba(galgo::rng) <= mutrate)` that the gene-wise mutation operators
share; `body c r i` is the block run for a gene that is mutated. -/
def mutation_loop {T : Type} (chr : Chromosome T) (rng : Rng) (mutrate : ℚ)
    (body : Chromosome T → Rng → Nat → Chromosome T × Rng) : Chromosome T × Rng :=
  (List.range chr.nbgene).foldl (fun (s : Chromosome T × Rng) i =>
    let d := s.2.nextProba
    if d.1 ≤ mutrate then body s.1 d.2 i else (s.1, d.2)) (chr, rng)

/-- The state of that loop after its first `k` iterations. -/
def mutation_upto {T : Type} (chr : Chromosome T) (rng : Rng) (mutrate : ℚ)
    (body : Chromosome T → Rng → Nat → Chromosome T × Rng) (k : Nat) : Chromosome T × Rng :=
  (List.range k).foldl (fun (s : Chromosome T × Rng) i =>
    let d := s.2.nextProba
    if d.1 ≤ mutrate then body s.1 d.2 i else (s.1, d.2)) (chr, rng)

/-- The block of `BDM` for a gene that is mutated. -/
def BDM_body {T : Type} [Inhabited T] (chr : Chromosome T) (c : Chromosome T) (r : Rng)
    (i : Nat) : Chromosome T × Rng :=
  let d := r.nextProba
  if d.1 < 0.5 then (c.initGene i (chr.lowerBound.getD i default), d.2)
  else (c.initGene i (chr.upperBound.getD i default), d.2)

/-- The operator `BDM`, boundary mutation. -/
def BDM {T : Type} [Inhabited T] (chr : Chromosome T) (rng : Rng) : Chromosome T × Rng :=
  let mutrate := chr.mutrate
  if mutrate = 0 then (chr, rng)
  else
    let lowerBound := chr.lowerBound
    let upperBound := chr.upperBound
    mutation_loop chr rng mutrate (fun c r i =>
      let d := r.nextProba
      if d.1 < 0.5 then (c.initGene i (lowerBound.getD i default), d.2)
      else (c.initGene i (upperBound.getD i default), d.2))

/-- The operator `SPM`, single point mutation: the loop runs over the bits. -/
def SPM {T : Type} (chr : Chromosome T) (rng : Rng) : Chromosome T × Rng :=
  let mutrate := chr.mutrate
  if mutrate = 0 then (chr, rng)
  else
    (List.range chr.size).foldl (fun (s : Chromosome T × Rng) i =>
      let d := s.2.nextProba
      if d.1 ≤ mutrate then (s.1.flipBit i, d.2) else (s.1, d.2)) (chr, rng)

/-- The operator `UNM`, uniform mutation. -/
def UNM {T : Type} (chr : Chromosome T) (rng : Rng) : Chromosome T × Rng :=
  let mutrate := chr.mutrate
  if mutrate = 0 then (chr, rng)
  else
    mutation_loop chr rng mutrate (fun c r i =>
      let d := r.nextGenerate
      (c.setGene i d.1, d.2))

/-- What the block of a self-adaptive mutation does for one mutated gene, up to the
call of `initGene`: the chromosome after the `sigma_update` calls, the generator
afterwards, the values handed to `sigma_update` (in call order), the step size `sigma`
that multiplies the normal draw, and the value `newvalue` handed to `initGene`. -/
structure GeneMutation (T : Type) where
  chr : Chromosome T
  rng : Rng
  stored : List ℚ
  sigma : ℚ
  newvalue : T

/-- The floor `if (sigma < chr->mutinfo()._sigma_lowest) sigma = chr->mutinfo()._sigma_lowest`. -/
def floor_sigma (sigma_lowest sigma : ℚ) : ℚ := if sigma < sigma_lowest then sigma_lowest else sigma

/-- The initial step size of the variants with a fixed step: `chr->mutinfo()._sigma`. -/
def seed_fixed {T : Type} (chr : Chromosome T) : ℚ := chr.mutinfo._sigma

/-- The initial step size of the boundary variants:
`(upperBound[i] - lowerBound[i]) * chr->mutinfo()._ratio_boundary`. -/
def seed_boundary {T : Type} [Inhabited T] [Sub T] [Scalar T] (chr : Chromosome T) (i : Nat) : ℚ :=
  Scalar.toDouble (chr.upperBound.getD i default - chr.lowerBound.getD i default)
    * chr.mutinfo._ratio_boundary

/-- The block of `GAM_UncorrelatedOneStepSizeFixed` (with `seed = seed_fixed chr`) and of
`GAM_UncorrelatedOneStepSizeBoundary` (with `seed = seed_boundary chr i`) for gene `i`. -/
def OneStepSize_gene {T : Type} [Inhabited T] [LinearOrder T] [Add T] [Scalar T]
    (m : Libm) (tau seed : ℚ) (chr : Chromosome T) (rng : Rng) (i : Nat) : GeneMutation T :=
  let value := chr.get_value i
  let sigma0 := chr.get_sigma i
  let first := sigma0 < 1 / 10 ^ 11
  let sigma := if first then floor_sigma chr.mutinfo._sigma_lowest seed else sigma0
  let chr1 := if first then chr.sigma_update i sigma else chr
  let d1 := rng.nextNormal
  let newsigma := floor_sigma chr.mutinfo._sigma_lowest (sigma * m.exp (tau * d1.1))
  let chr2 := chr1.sigma_update i newsigma
  let d2 := d1.2.nextNormal
  let norm01 := d2.1
  let step : T := Scalar.ofDouble (newsigma * norm01)
  let newvalue := min (max (value + step) (chr.lowerBound.getD i default))
    (chr.upperBound.getD i default)
  { chr := chr2, rng := d2.2, stored := (if first then [sigma] else []) ++ [newsigma],
    sigma := newsigma, newvalue := newvalue }

/-- The operator `GAM_UncorrelatedOneStepSizeFixed`. -/
def GAM_UncorrelatedOneStepSizeFixed {T : Type} [Inhabited T] [LinearOrder T] [Add T]
    [Scalar T] (m : Libm) (chr : Chromosome T) (rng : Rng) : Chromosome T × Rng :=
  let mutrate := chr.mutrate
  if mutrate = 0 then (chr, rng)
  else
    let n : ℚ := (chr.nbgene : ℚ)
    let tau := 1 / m.pow n (1 / 2)
    mutation_loop chr rng mutrate (fun c r i =>
      let g := OneStepSize_gene m tau (seed_fixed c) c r i
      (g.chr.initGene i g.newvalue, g.rng))

/-- The operator `GAM_UncorrelatedOneStepSizeBoundary`. -/
def GAM_UncorrelatedOneStepSizeBoundary {T : Type} [Inhabited T] [LinearOrder T] [Add T]
    [Sub T] [Scalar T] (m : Libm) (chr : Chromosome T) (rng : Rng) : Chromosome T × Rng :=
  let mutrate := chr.mutrate
  if mutrate = 0 then (chr, rng)
  else
    let n : ℚ := (chr.nbgene : ℚ)
    let tau := 1 / m.pow n (1 / 2)
    mutation_loop chr rng mutrate (fun c r i =>
      let g := OneStepSize_gene m tau (seed_boundary c i) c r i
      (g.chr.initGene i g.newvalue, g.rng))

/-- The block of `GAM_UncorrelatedNStepSize` (with `seed = seed_fixed chr`) and of
`GAM_UncorrelatedNStepSizeBoundary` (with `seed = seed_boundary chr i`) for gene `i`. -/
def NStepSize_gene {T : Type} [Inhabited T] [LinearOrder T] [Add T] [Scalar T]
    (m : Libm) (tau1 tau2 seed : ℚ) (chr : Chromosome T) (rng : Rng) (i : Nat) :
    GeneMutation T :=
  let value := chr.get_value i
  let sigma0 := chr.get_sigma i
  let upd : ℚ × Rng :=
    if sigma0 < 1 / 10 ^ 11 then (floor_sigma chr.mutinfo._sigma_lowest seed, rng)
    else
      let d1 := rng.nextNormal
      let factor1 := m.exp (tau1 * d1.1)
      let d2 := d1.2.nextNormal
      let factor2 := m.exp (tau2 * d2.1)
      (floor_sigma chr.mutinfo._sigma_lowest (sigma0 * factor1 * factor2), d2.2)
  let sigma := upd.1
  let chr1 := chr.sigma_update i sigma
  let d3 := upd.2.nextNormal
  let norm01 := d3.1
  let newvalue := min (max (value + (Scalar.ofDouble (sigma * norm01) : T))
    (chr.lowerBound.getD i default)) (chr.upperBound.getD i default)
  { chr := chr1, rng := d3.2, stored := [sigma], sigma := sigma, newvalue := newvalue }

/-- The operator `GAM_UncorrelatedNStepSize`. -/
def GAM_UncorrelatedNStepSize {T : Type} [Inhabited T] [LinearOrder T] [Add T]
    [Scalar T] (m : Libm) (chr : Chromosome T) (rng : Rng) : Chromosome T × Rng :=
  let mutrate := chr.mutrate
  if mutrate = 0 then (chr, rng)
  else
    let n : ℚ := (chr.nbgene : ℚ)
    let tau1 := 1 / m.pow (2 * n) (1 / 2)
    let tau2 := 1 / m.pow (2 * m.pow n (1 / 2)) (1 / 2)
    mutation_loop chr rng mutrate (fun c r i =>
      let g := NStepSize_gene m tau1 tau2 (seed_fixed c) c r i
      (g.chr.initGene i g.newvalue, g.rng))

/-- The operator `GAM_UncorrelatedNStepSizeBoundary`. -/
def GAM_UncorrelatedNStepSizeBoundary {T : Type} [Inhabited T] [LinearOrder T] [Add T]
    [Sub T] [Scalar T] (m : Libm) (chr : Chromosome T) (rng : Rng) : Chromosome T × Rng :=
  let mutrate := chr.mutrate
  if mutrate = 0 then (chr, rng)
  else
    let n : ℚ := (chr.nbgene : ℚ)
    let tau1 := 1 / m.pow (2 * n) (1 / 2)
    let tau2 := 1 / m.pow (2 * m.pow n (1 / 2)) (1 / 2)
    mutation_loop chr rng mutrate (fun c r i =>
      let g := NStepSize_gene m tau1 tau2 (seed_boundary c i) c r i
      (g.chr.initGene i g.newvalue, g.rng))

/-- The number of iterations of `for (int z = 1; z < chr->nogen() / 2; z++)`, with the
integer division of C++. -/
def decay_count (nogen : ℤ) : Nat := (Int.tdiv nogen 2 - 1).toNat

/-- The loop "sigma decreasing blindly with number generation produced" of
`GAM_sigma_adapting_per_generation`: `count` times a normal draw and
`sigma = std::max(double(0), sigma * exp(norm01))`. -/
def decay_sigma (m : Libm) (count : Nat) (sigma : ℚ) (rng : Rng) : ℚ × Rng :=
  (List.range count).foldl (fun (s : ℚ × Rng) _ =>
    let d := s.2.nextNormal
    (max 0 (s.1 * m.exp d.1), d.2)) (sigma, rng)

/-- The block of `GAM_sigma_adapting_per_generation` for gene `i`. -/
def sigma_adapting_per_generation_gene {T : Type} [Inhabited T] [LinearOrder T] [Sub T]
    [Scalar T] (m : Libm) (chr : Chromosome T) (rng : Rng) (i : Nat) : GeneMutation T :=
  let value := chr.get_value i
  let sigma := floor_sigma chr.mutinfo._sigma_lowest (seed_boundary chr i)
  let s := decay_sigma m (decay_count chr.nogen) sigma rng
  let d := s.2.nextNormal
  let norm := Scalar.toDouble value + s.1 * d.1
  let newvalue := min (max (Scalar.ofDouble norm : T) (chr.lowerBound.getD i default))
    (chr.upperBound.getD i default)
  { chr := chr, rng := d.2, stored := [], sigma := s.1, newvalue := newvalue }

/-- The operator `GAM_sigma_adapting_per_generation`. -/
def GAM_sigma_adapting_per_generation {T : Type} [Inhabited T] [LinearOrder T] [Sub T]
    [Scalar T] (m : Libm) (chr : Chromosome T) (rng : Rng) : Chromosome T × Rng :=
  let mutrate := chr.mutrate
  if mutrate = 0 then (chr, rng)
  else
    mutation_loop chr rng mutrate (fun c r i =>
      let g := sigma_adapting_per_generation_gene m c r i
      (g.chr.initGene i g.newvalue, g.rng))

/-- The block of `GAM_sigma_adapting_per_mutation` for gene `i`. -/
def sigma_adapting_per_mutation_gene {T : Type} [Inhabited T] [LinearOrder T] [Sub T]
    [Scalar T] (chr : Chromosome T) (rng : Rng) (i : Nat) : GeneMutation T :=
  let value := chr.get_value i
  let sigma0 := chr.get_sigma i
  let first := sigma0 < 1 / 10 ^ 11
  let sigma := if first then floor_sigma chr.mutinfo._sigma_lowest (seed_boundary chr i) else sigma0
  let chr1 := if first then chr.sigma_update i sigma else chr
  let d := rng.nextNormal
  let norm := Scalar.toDouble value + sigma * d.1
  let new_value := min (max (Scalar.ofDouble norm : T) (chr.lowerBound.getD i default))
    (chr.upperBound.getD i default)
  { chr := chr1, rng := d.2, stored := if first then [sigma] else [], sigma := sigma,
    newvalue := new_value }

/-- The operator `GAM_sigma_adapting_per_mutation`. -/
def GAM_sigma_adapting_per_mutation {T : Type} [Inhabited T] [LinearOrder T] [Sub T]
    [Scalar T] (chr : Chromosome T) (rng : Rng) : Chromosome T × Rng :=
  let mutrate := chr.mutrate
  if mutrate = 0 then (chr, rng)
  else
    mutation_loop chr rng mutrate (fun c r i =>
      let g := sigma_adapting_per_mutation_gene c r i
      (g.chr.initGene i g.newvalue, g.rng))

/-! ## Configurations of the scenarios -/

/-- The parameter of the scenarios of the spec: bounds `[0, 10]`, width 8 bits. -/
def scenarioParam : Parameter ℚ := { N := 8, data := [0, 10], _sigma := 1, _sigma_iteration := 0 }

/-- The same parameter declared with the type `int`: `Parameter<int,8>` with bounds
`[0, 10]`. -/
def scenarioParamInt : Parameter ℤ := { N := 8, data := [0, 10], _sigma := 1, _sigma_iteration := 0 }

/-- The algorithm of the forced-value scenario: one parameter with bounds `[0, 10]` and
width 8 bits, whose gene 0 is pinned to the value `7`. -/
def scenarioGA : GeneticAlgorithm ℚ :=
  { param := [scenarioParam.toBase], force_value_flag := [true], force_value := [7] }

/-- The parameter of every cell in `test_ga_binairo`: type `int`, `low = -1`,
`high = 1`, `NBIT = 2`. -/
def binairoParam : Parameter ℤ := { N := 2, data := [-1, 1], _sigma := 1, _sigma_iteration := 0 }

/-- The algorithm of `test_ga_binairo` for a grid whose cells carry the given forced
flags and forced values: one `int` parameter with bounds `[-1, 1]` and 2 bits per cell. -/
def binairoGA (force_value_flag : List Bool) (force_value : List ℤ) : GeneticAlgorithm ℤ :=
  { param := List.replicate force_value_flag.length binairoParam.toBaseInt
    force_value_flag := force_value_flag
    force_value := force_value }

/-- A chromosome without genes that carries the fitness `f`. -/
def fitChr (f : ℚ) : Chromosome ℚ :=
  { ptr := { param := [], force_value_flag := [], force_value := [] }
    chr := [], _sigma := [], _sigma_iteration := [], fitness := f }

/-- A population at generation 1 whose chromosomes carry the fitness values `fs`, with
an empty mating pool of configured size `matsize`. -/
def fitPop (fs : List ℚ) (matsize : Nat) : Population ℚ :=
  { curpop := fs.map fitChr, matpop := [], newpop := [], matsize := matsize, nogen := 1,
    SP := 3 / 2, ga_algo := { param := [], force_value_flag := [], force_value := [] } }

/-- A chromosome of the forced-value scenario (one gene of 8 bits) with the bit string
`chr` and the step size `sigma`. -/
def scenarioChr (chr : List Bool) (sigma : ℚ) : Chromosome ℚ :=
  { ptr := scenarioGA, chr := chr, _sigma := [sigma], _sigma_iteration := [0], fitness := 0 }

/-- A population of the forced-value scenario whose new generation holds two
chromosomes with the bits `11111111`, with the configured mating-pool size `matsize`. -/
def forcedPop (matsize : Nat) : Population ℚ :=
  { curpop := [], matpop := []
    newpop := [scenarioChr (List.replicate 8 true) 0, scenarioChr (List.replicate 8 true) 0]
    matsize := matsize, nogen := 1, SP := 3 / 2, ga_algo := scenarioGA }

/-- A population of two such chromosomes, with step sizes `2` and `4`, both of them in
the mating pool. -/
def scenarioPop : Population ℚ :=
  { curpop := [scenarioChr (List.replicate 8 false) 2, scenarioChr (List.replicate 8 true) 4]
    matpop := [0, 1], newpop := [], matsize := 2, nogen := 1, SP := 3 / 2,
    ga_algo := scenarioGA }

/-- A chromosome of `test_ga_binairo` with the bit string `chr`, two bits per cell. -/
def binairoChr (force_value_flag : List Bool) (force_value : List ℤ) (chr : List Bool) :
    Chromosome ℤ :=
  { ptr := binairoGA force_value_flag force_value, chr := chr
    _sigma := List.replicate force_value_flag.length 0
    _sigma_iteration := List.replicate force_value_flag.length 0, fitness := 0 }

/-- An algorithm with two real parameters, each with bounds `[0, 10]` and width 8 bits,
nothing forced, and the mutation rate `mutrate`. -/
def pairGA (mutrate : ℚ) : GeneticAlgorithm ℚ :=
  { param := [scenarioParam.toBase, scenarioParam.toBase], force_value_flag := [false, false],
    force_value := [0, 0], mutrate := mutrate }

/-- A chromosome of that algorithm with the bit string `chr`. -/
def pairChr (mutrate : ℚ) (chr : List Bool) : Chromosome ℚ :=
  { ptr := pairGA mutrate, chr := chr, _sigma := [0, 0], _sigma_iteration := [0, 0], fitness := 0 }

/-- A population of two such chromosomes with the bit strings `p1` and `p2`, both of them
in the mating pool. -/
def pairPop (p1 p2 : List Bool) : Population ℚ :=
  { curpop := [pairChr 0 p1, pairChr 0 p2], matpop := [0, 1], newpop := [], matsize := 2,
    nogen := 1, SP := 3 / 2, ga_algo := pairGA 0 }

/-- A population of two chromosomes of `test_ga_binairo` on a grid of two cells, nothing
forced, with the bit strings `p1` and `p2`, both of them in the mating pool. -/
def binairoPop (p1 p2 : List Bool) : Population ℤ :=
  { curpop := [binairoChr [false, false] [0, 0] p1, binairoChr [false, false] [0, 0] p2]
    matpop := [0, 1], newpop := [], matsize := 2, nogen := 1, SP := 3 / 2,
    ga_algo := binairoGA [false, false] [0, 0] }

/-- A chromosome without genes that carries the fitness `f` and the constraint values
`cst`. -/
def cstChr (f : ℚ) (cst : List ℚ) : Chromosome ℚ :=
  { ptr := { param := [], force_value_flag := [], force_value := [] }
    chr := [], _sigma := [], _sigma_iteration := [], fitness := f, constraint := cst }

/-- A population at generation 1 whose chromosomes carry the given fitness and
constraint values. -/
def cstPop (l : List (ℚ × List ℚ)) : Population ℚ :=
  { curpop := l.map (fun fc => cstChr fc.1 fc.2), matpop := [], newpop := [], matsize := 0,
    nogen := 1, SP := 3 / 2,
    ga_algo := { param := [], force_value_flag := [], force_value := [] } }

/-- A generator whose uniform draws are all `0`, whose standard normal draws are all
`-1` and whose integers are all `0`, with nothing consumed yet. -/
def rngFix : Rng :=
  { proba := fun _ => 0, normal := fun _ => -1, generate := fun _ => 0,
    nproba := 0, nnormal := 0, ngenerate := 0 }

/-- A generator whose first uniform draw is `2` and whose other uniform draws are `0`,
with nothing consumed yet. -/
def rngSkip : Rng :=
  { proba := fun k => if k = 0 then 2 else 0, normal := fun _ => -1, generate := fun _ => 0,
    nproba := 0, nnormal := 0, ngenerate := 0 }

/-- A rational stand-in for the library functions, for the concrete inputs of the
examples (the theorems hold for every `Libm`): `exp z` is `1 + z + z^2/2` and
`pow x y` is `x`. -/
def libmFix : Libm := { exp := fun z => 1 + z + z ^ 2 / 2, pow := fun x _ => x }

/-- The algorithm of the forced-value scenario with nothing forced and the mutation
rate `1`. -/
def mutGA : GeneticAlgorithm ℚ :=
  { param := [scenarioParam.toBase], force_value_flag := [false], force_value := [0],
    mutrate := 1 }

/-- A chromosome of that algorithm with the bit string `chr`, the step size `sigma`
and the generation `numgen`. -/
def mutChr (chr : List Bool) (sigma : ℚ) (numgen : ℤ) : Chromosome ℚ :=
  { ptr := mutGA, chr := chr, _sigma := [sigma], _sigma_iteration := [0], fitness := 0,
    numgen := numgen }

/-- `Parameter<double,8>` with the bounds `[-0.1, 0.2]`, the two decimal literals being
the `double` values `-3602879701896397 / 2^55` and `3602879701896397 / 2^54`. -/
def tenthParam : Parameter ℚ :=
  { N := 8
    data := [(-(3602879701896397 / 36028797018963968)), (3602879701896397 / 18014398509481984)]
    _sigma := 1, _sigma_iteration := 0 }

/-- `Parameter<double,54>` with the bounds `[0, 10]`. -/
def wideParam : Parameter ℚ := { N := 54, data := [0, 10], _sigma := 1, _sigma_iteration := 0 }

/-- `Parameter<double,2>` with the bounds `[0, 0.7]`, the decimal literal being the
`double` value `3152519739159347 / 2^52`. -/
def narrowParam : Parameter ℚ :=
  { N := 2, data := [0, 3152519739159347 / 4503599627370496], _sigma := 1,
    _sigma_iteration := 0 }

/-- `Parameter<int,8>` with the bounds `[3, 10]`. -/
def offsetParamInt : Parameter ℤ := { N := 8, data := [3, 10], _sigma := 1, _sigma_iteration := 0 }

/-- An algorithm with the parameters `params`, nothing forced, and the mutation rate
`mutrate`. -/
def plainGA {T : Type} [Zero T] (params : List (BaseParameter T)) (mutrate : ℚ) :
    GeneticAlgorithm T :=
  { param := params, force_value_flag := List.replicate params.length false,
    force_value := List.replicate params.length 0, mutrate := mutrate }

/-- A chromosome of that algorithm with the bit string `chr`. -/
def plainChr {T : Type} [Zero T] (params : List (BaseParameter T)) (mutrate : ℚ)
    (chr : List Bool) : Chromosome T :=
  { ptr := plainGA params mutrate, chr := chr, _sigma := List.replicate params.length 0,
    _sigma_iteration := List.replicate params.length 0, fitness := 0 }

/-- A population of the two chromosomes `c1` and `c2`, both of them in the mating pool. -/
def duoPop {T : Type} (c1 c2 : Chromosome T) : Population T :=
  { curpop := [c1, c2], matpop := [0, 1], newpop := [], matsize := 2, nogen := 1, SP := 3 / 2,
    ga_algo := c1.ptr }

/-- A generator whose second uniform draw is `0.9` and whose other uniform draws are
`0`, with nothing consumed yet. -/
def rngUpper : Rng :=
  { proba := fun k => if k = 1 then 9 / 10 else 0, normal := fun _ => -1,
    generate := fun _ => 0, nproba := 0, nnormal := 0, ngenerate := 0 }

/-! ## Bit strings -/

theorem toBits_length (w value : Nat) : (toBits w value).length = w := by
  induction w with
  | zero => rfl
  | succ w ih => simp [toBits, ih]

theorem toBits_drop (N k value : Nat) : (toBits (N + k) value).drop k = toBits N value := by
  induction k with
  | zero => simp
  | succ k ih => simpa [← Nat.add_assoc, toBits] using ih

theorem GetValue_foldl (s : List Bool) (a : Nat) :
    s.foldl (fun x b => 2 * x + (if b then 1 else 0)) a = a * 2 ^ s.length + GetValue s := by
  induction s generalizing a with
  | nil => simp [GetValue]
  | cons b s ih =>
    simp only [List.foldl_cons, List.length_cons, GetValue]
    rw [ih, ih (2 * 0 + _)]
    ring

theorem GetValue_cons (b : Bool) (s : List Bool) :
    GetValue (b :: s) = (if b then 1 else 0) * 2 ^ s.length + GetValue s := by
  simp only [GetValue, List.foldl_cons]
  rw [GetValue_foldl]
  simp [GetValue]

theorem GetValue_lt (s : List Bool) : GetValue s < 2 ^ s.length := by
  induction s with
  | nil => simp [GetValue]
  | cons b s ih =>
    rw [GetValue_cons, List.length_cons, pow_succ]
    split <;> omega

theorem GetValue_toBits (w value : Nat) : GetValue (toBits w value) = value % 2 ^ w := by
  induction w with
  | zero => simp [toBits, GetValue, Nat.mod_one]
  | succ w ih =>
    rw [toBits, GetValue_cons, toBits_length, ih, Nat.mod_pow_succ]
    have hb : (if value.testBit w then 1 else 0) = value / 2 ^ w % 2 := by
      rw [Nat.testBit_to_div_mod]
      by_cases h : value / 2 ^ w % 2 = 1
      · simp [h]
      · have : value / 2 ^ w % 2 = 0 := by omega
        simp [this]
    rw [hb]
    ring

theorem GetValue_replicate_false (n : Nat) : GetValue (List.replicate n false) = 0 := by
  induction n with
  | zero => rfl
  | succ n ih => rw [List.replicate_succ, GetValue_cons, ih]; simp

theorem GetValue_replicate_true (n : Nat) : GetValue (List.replicate n true) = 2 ^ n - 1 := by
  induction n with
  | zero => rfl
  | succ n ih =>
    rw [List.replicate_succ, GetValue_cons, ih, List.length_replicate, pow_succ]
    have : 0 < 2 ^ n := Nat.two_pow_pos _
    simp only [if_true]
    omega

/-! ## `encode` and `decode` -/

theorem substr_GetBinary (N value : Nat) (hN : N ≤ 64) :
    substr (GetBinary value) ((GetBinary value).length - N) N = toBits N value := by
  have h := toBits_drop N (64 - N) value
  have e : N + (64 - N) = 64 := by omega
  rw [e] at h
  unfold substr GetBinary
  rw [toBits_length, h, List.take_of_length_le]
  rw [toBits_length]

theorem encode_eq_toBits (p : Parameter ℚ) (z : ℚ) (hN : p.N ≤ 64) :
    p.encode z = toBits p.N (p.encodeValue z) := by
  unfold Parameter.encode
  exact substr_GetBinary _ _ hN

theorem encodeInt_eq_toBits (p : Parameter ℤ) (z : ℤ) (hN : p.N ≤ 64) :
    p.encodeInt z = toBits p.N (p.encodeValueInt z) := by
  unfold Parameter.encodeInt
  exact substr_GetBinary _ _ hN

theorem MAXVAL_cast (N : Nat) : ((MAXVAL N : Nat) : ℚ) = (2 : ℚ) ^ N - 1 := by
  unfold MAXVAL
  have : 1 ≤ 2 ^ N := Nat.one_le_two_pow
  push_cast [Nat.cast_sub this]
  ring

theorem MAXVAL_pos (N : Nat) (hN : 1 ≤ N) : 0 < MAXVAL N := by
  unfold MAXVAL
  have : 2 ^ 1 ≤ 2 ^ N := Nat.pow_le_pow_right (by norm_num) hN
  omega

theorem MAXVAL_lt (N : Nat) (hN : N ≤ 64) : MAXVAL N < 2 ^ 64 := by
  unfold MAXVAL
  have : 2 ^ N ≤ 2 ^ 64 := Nat.pow_le_pow_right (by norm_num) hN
  have : 0 < 2 ^ N := Nat.two_pow_pos _
  omega

/-- The scaled position `MAXVAL * (z - data[0]) / (data[1] - data[0])` of a value
within the bounds lies in `[0, MAXVAL]`. -/
theorem scaled_bounds (p : Parameter ℚ) (z : ℚ) (hb : p.data0 < p.data1)
    (hlo : p.data0 ≤ z) (hhi : z ≤ p.data1) :
    0 ≤ (MAXVAL p.N : ℚ) * (z - p.data0) / (p.data1 - p.data0) ∧
    (MAXVAL p.N : ℚ) * (z - p.data0) / (p.data1 - p.data0) ≤ (MAXVAL p.N : ℚ) := by
  have hw : 0 < p.data1 - p.data0 := by linarith
  have hM : (0 : ℚ) ≤ (MAXVAL p.N : ℚ) := Nat.cast_nonneg _
  constructor
  · apply div_nonneg _ hw.le
    exact mul_nonneg hM (by linarith)
  · rw [div_le_iff₀ hw]
    exact mul_le_mul_of_nonneg_left (by linarith) hM

/-- Within the bounds, the integer of `encode` is the floor of the scaled position and
fits in `N` bits. -/
theorem encodeValue_eq_floor (p : Parameter ℚ) (z : ℚ) (hb : p.data0 < p.data1)
    (hN : p.N ≤ 64) (hlo : p.data0 ≤ z) (hhi : z ≤ p.data1) :
    ((p.encodeValue z : Nat) : ℤ) = ⌊(MAXVAL p.N : ℚ) * (z - p.data0) / (p.data1 - p.data0)⌋ ∧
    p.encodeValue z ≤ MAXVAL p.N := by
  obtain ⟨h0, h1⟩ := scaled_bounds p z hb hlo hhi
  set q := (MAXVAL p.N : ℚ) * (z - p.data0) / (p.data1 - p.data0) with hq
  have hf0 : 0 ≤ ⌊q⌋ := Int.floor_nonneg.mpr h0
  have hf1 : ⌊q⌋ ≤ (MAXVAL p.N : ℤ) := by
    have : ⌊q⌋ ≤ ⌊((MAXVAL p.N : ℤ) : ℚ)⌋ := Int.floor_mono (by simpa using h1)
    simpa using this
  have hlt := MAXVAL_lt p.N hN
  have hval : p.encodeValue z = ⌊q⌋.toNat := by
    unfold Parameter.encodeValue double_to_uint64 truncate
    rw [← hq, if_pos h0]
    apply Nat.mod_eq_of_lt
    omega
  constructor
  · rw [hval]; omega
  · rw [hval]; omega

/-! ## Genes of a chromosome -/

theorem substr_replace (s t : List Bool) (pos : Nat) (h : pos ≤ s.length) :
    substr (replace s pos t.length t) pos t.length = t := by
  unfold substr replace
  have hl : (s.take pos).length = pos := by simp [h]
  rw [List.append_assoc, List.drop_append_of_le_length (by omega), List.drop_of_length_le (by omega),
    List.nil_append, List.take_append_of_le_length (by omega), List.take_of_length_le (by omega)]

theorem length_replace (s t : List Bool) (pos : Nat) (h : pos + t.length ≤ s.length) :
    (replace s pos t.length t).length = s.length := by
  unfold replace
  simp only [List.length_append, List.length_take, List.length_drop]
  omega

theorem initGene_ptr {T : Type} (c : Chromosome T) (i : Nat) (x : T) :
    (c.initGene i x).ptr = c.ptr := by
  unfold Chromosome.initGene
  split <;> rfl

theorem initGene_sigma {T : Type} (c : Chromosome T) (i : Nat) (x : T) :
    (c.initGene i x)._sigma = c._sigma ∧
    (c.initGene i x)._sigma_iteration = c._sigma_iteration := by
  unfold Chromosome.initGene
  split <;> exact ⟨rfl, rfl⟩

theorem initGene_idx {T : Type} (c : Chromosome T) (i j : Nat) (x : T) :
    (c.initGene i x).idx j = c.idx j := by
  unfold Chromosome.idx
  rw [initGene_ptr]

/-- After `initGene(i, x)` the gene `i` decodes to `decode(encode(x))`, whatever the
gene held before. -/
theorem get_value_initGene {T : Type} [Inhabited T] (c : Chromosome T) (i : Nat) (x : T)
    (p : BaseParameter T) (hp : c.ptr.param[i]? = some p)
    (hlen : (p.encode x).length = p.size) (hidx : c.idx i ≤ c.chr.length) :
    (c.initGene i x).get_value i = p.decode (p.encode x) := by
  unfold Chromosome.get_value
  rw [initGene_ptr, hp, initGene_idx]
  simp only
  have hchr : (c.initGene i x).chr = replace c.chr (c.idx i) (p.encode x).length (p.encode x) := by
    unfold Chromosome.initGene
    rw [hp]
  rw [hchr, ← hlen, substr_replace _ _ _ hidx]

/-- What `decode(encode(v))` is for a value within the bounds: the grid point below
the scaled position. -/
theorem decode_encode_eq (p : Parameter ℚ) (v : ℚ) (hb : p.data0 < p.data1)
    (hN : p.N ≤ 64) (hlo : p.data0 ≤ v) (hhi : v ≤ p.data1) :
    p.decode (p.encode v) = p.data0 +
      ((⌊(MAXVAL p.N : ℚ) * (v - p.data0) / (p.data1 - p.data0)⌋ : ℤ) : ℚ) / (MAXVAL p.N : ℚ)
        * (p.data1 - p.data0) := by
  obtain ⟨hfl, hle⟩ := encodeValue_eq_floor p v hb hN hlo hhi
  have hlt : p.encodeValue v < 2 ^ p.N := by
    have : 0 < 2 ^ p.N := Nat.two_pow_pos _
    unfold MAXVAL at hle
    omega
  rw [encode_eq_toBits p v hN]
  unfold Parameter.decode
  rw [GetValue_toBits, Nat.mod_eq_of_lt hlt, ← hfl]
  simp

/-- For an integer-typed parameter whose product `MAXVAL * (hi - lo)` fits in 64 bits,
the unsigned division of `encode` is the floor of the scaled position. -/
theorem encodeValueInt_eq_floor (p : Parameter ℤ) (v : ℤ) (hb : p.data0 < p.data1)
    (hN1 : 1 ≤ p.N) (hlo : p.data0 ≤ v) (hhi : v ≤ p.data1)
    (hov : (MAXVAL p.N : ℤ) * (p.data1 - p.data0) < 2 ^ 64) :
    ((p.encodeValueInt v : Nat) : ℤ)
      = ⌊((v : ℚ) - (p.data0 : ℚ)) / ((p.data1 : ℚ) - (p.data0 : ℚ)) * ((2 : ℚ) ^ p.N - 1)⌋ ∧
    p.encodeValueInt v ≤ MAXVAL p.N := by
  have hMpos := MAXVAL_pos p.N hN1
  obtain ⟨a, ha⟩ : ∃ a : Nat, v - p.data0 = (a : ℤ) := ⟨(v - p.data0).toNat, by omega⟩
  obtain ⟨w, hw⟩ : ∃ w : Nat, p.data1 - p.data0 = (w : ℤ) := ⟨(p.data1 - p.data0).toNat, by omega⟩
  have haw : a ≤ w := by omega
  have hw0 : 0 < w := by omega
  have hMw : MAXVAL p.N * w < 2 ^ 64 := by
    rw [hw] at hov
    exact_mod_cast hov
  have hw64 : w < 2 ^ 64 := lt_of_le_of_lt (Nat.le_mul_of_pos_left w hMpos) hMw
  have hMa : MAXVAL p.N * a < 2 ^ 64 :=
    lt_of_le_of_lt (Nat.mul_le_mul_left _ haw) hMw
  have hia : int_to_uint64 (v - p.data0) = a := by
    unfold int_to_uint64
    rw [ha, Int.emod_eq_of_lt (by omega) (by omega)]
    simp
  have hiw : int_to_uint64 (p.data1 - p.data0) = w := by
    unfold int_to_uint64
    rw [hw, Int.emod_eq_of_lt (by omega) (by omega)]
    simp
  have hval : p.encodeValueInt v = MAXVAL p.N * a / w := by
    unfold Parameter.encodeValueInt
    rw [hia, hiw, Nat.mod_eq_of_lt hMa]
  have hq : ((v : ℚ) - (p.data0 : ℚ)) / ((p.data1 : ℚ) - (p.data0 : ℚ)) * ((2 : ℚ) ^ p.N - 1)
      = ((MAXVAL p.N * a : Nat) : ℚ) / (w : ℚ) := by
    have h1 : (v : ℚ) - (p.data0 : ℚ) = (a : ℚ) := by exact_mod_cast ha
    have h2 : (p.data1 : ℚ) - (p.data0 : ℚ) = (w : ℚ) := by exact_mod_cast hw
    rw [h1, h2, ← MAXVAL_cast]
    push_cast
    ring
  constructor
  · rw [hq, Rat.floor_natCast_div_natCast, hval]
    exact Int.natCast_div _ _
  · rw [hval]
    calc MAXVAL p.N * a / w ≤ MAXVAL p.N * w / w := Nat.div_le_div_right (Nat.mul_le_mul_left _ haw)
      _ = MAXVAL p.N := Nat.mul_div_cancel _ hw0

/-- For an integer-typed parameter `encode` writes the floor of the scaled position,
provided the product fits in 64 bits. -/
theorem encode_int_floor (p : Parameter ℤ) (v : ℤ) (hb : p.data0 < p.data1)
    (hN1 : 1 ≤ p.N) (hN : p.N ≤ 64) (hlo : p.data0 ≤ v) (hhi : v ≤ p.data1)
    (hov : (MAXVAL p.N : ℤ) * (p.data1 - p.data0) < 2 ^ 64) :
    (p.encodeInt v).length = p.N ∧
    ((GetValue (p.encodeInt v) : Nat) : ℤ)
      = ⌊((v : ℚ) - (p.data0 : ℚ)) / ((p.data1 : ℚ) - (p.data0 : ℚ)) * ((2 : ℚ) ^ p.N - 1)⌋ ∧
    0 ≤ ⌊((v : ℚ) - (p.data0 : ℚ)) / ((p.data1 : ℚ) - (p.data0 : ℚ)) * ((2 : ℚ) ^ p.N - 1)⌋ ∧
    ⌊((v : ℚ) - (p.data0 : ℚ)) / ((p.data1 : ℚ) - (p.data0 : ℚ)) * ((2 : ℚ) ^ p.N - 1)⌋
      ≤ 2 ^ p.N - 1 := by
  obtain ⟨hfl, hle⟩ := encodeValueInt_eq_floor p v hb hN1 hlo hhi hov
  have hpos : 0 < 2 ^ p.N := Nat.two_pow_pos _
  have hlt : p.encodeValueInt v < 2 ^ p.N := by
    unfold MAXVAL at hle
    omega
  rw [← hfl, encodeInt_eq_toBits p v hN, toBits_length, GetValue_toBits,
    Nat.mod_eq_of_lt hlt]
  refine ⟨rfl, rfl, by positivity, ?_⟩
  have : ((p.encodeValueInt v : Nat) : ℤ) ≤ ((MAXVAL p.N : Nat) : ℤ) := by exact_mod_cast hle
  unfold MAXVAL at this
  push_cast [Nat.cast_sub hpos] at this
  exact this

theorem truncate_mono_bounds (q : ℚ) (lo hi : ℤ) (h0 : (lo : ℚ) ≤ q) (h1 : q ≤ (hi : ℚ)) :
    lo ≤ truncate q ∧ truncate q ≤ hi := by
  unfold truncate
  split
  · exact ⟨Int.le_floor.mpr h0, by
      have := Int.floor_le q
      have h2 : ((⌊q⌋ : ℤ) : ℚ) ≤ (hi : ℚ) := le_trans this h1
      exact_mod_cast h2⟩
  · exact ⟨by
      have := Int.le_ceil q
      have h2 : (lo : ℚ) ≤ ((⌈q⌉ : ℤ) : ℚ) := le_trans h0 this
      exact_mod_cast h2, Int.ceil_le.mpr h1⟩

theorem truncate_intCast (z : ℤ) : truncate (z : ℚ) = z := by
  unfold truncate
  split
  · exact Int.floor_intCast z
  · exact Int.ceil_intCast z

/-- Claim C4. Constructing a `Parameter` from a data vector raises an error if and
only if the vector has fewer than two elements or `data[0] ≥ data[1]`; when it
succeeds the stored data is the vector given, with `data[0] < data[1]`, sigma is `1`
and the sigma-update counter is `0`. -/
theorem Parameter_new_spec {T : Type} [LinearOrder T] [One T] (N : Nat) (data : List T) :
    ((∃ msg, Parameter.new N data = .error msg) ↔
      (data.length < 2 ∨ ∃ a b, data[0]? = some a ∧ data[1]? = some b ∧ a ≥ b)) ∧
    (∀ p, Parameter.new N data = .ok p →
      p.data = data ∧ p.N = N ∧ p._sigma = 1 ∧ p._sigma_iteration = 0 ∧
      ∃ a b, data[0]? = some a ∧ data[1]? = some b ∧ a < b) := by
  match data with
  | [] => simp [Parameter.new]
  | [a] => simp [Parameter.new]
  | a :: b :: rest =>
    have hlen : ¬ (rest.length + 1 + 1 < 2) := by omega
    by_cases hab : b ≤ a
    · simp [Parameter.new, hab, hlen]
    · constructor
      · simp [Parameter.new, hab, hlen]
      · intro p hp
        simp only [Parameter.new, List.length_cons, ge_iff_le] at hp
        simp [hab, hlen] at hp
        subst hp
        simp
        exact not_le.mp hab

/-- Claim C4, witness: the vector `[0, 10]` is accepted with sigma `1` and counter `0`,
and the vectors `[3]` and `[10, 10]` are refused. -/
theorem Parameter_new_witness :
    (Parameter.new 8 [(0 : ℤ), 10] = .ok { N := 8, data := [0, 10], _sigma := 1, _sigma_iteration := 0 }) ∧
    (∃ msg, Parameter.new 8 [(3 : ℤ)] = .error msg) ∧
    (∃ msg, Parameter.new 8 [(10 : ℤ), 10] = .error msg) :=
  ⟨by simp [Parameter.new],
   (Parameter_new_spec 8 [(3 : ℤ)]).1.mpr (Or.inl (by decide)),
   (Parameter_new_spec 8 [(10 : ℤ), 10]).1.mpr (Or.inr ⟨10, 10, rfl, rfl, le_refl _⟩)⟩

/-! ## Forced values -/

/-- The round trip of the value `7` in the forced-value scenario ends on the grid point
`178 * 10 / 255`. -/
theorem scenario_decode_encode : scenarioParam.decode (scenarioParam.encode 7) = 356 / 51 := by
  rw [decode_encode_eq scenarioParam 7 (by norm_num [scenarioParam, Parameter.data0, Parameter.data1])
    (by norm_num [scenarioParam]) (by norm_num [scenarioParam, Parameter.data0])
    (by norm_num [scenarioParam, Parameter.data1])]
  norm_num [scenarioParam, Parameter.data0, Parameter.data1, MAXVAL]

/-- The forced-value reassertion of the scenario, from any chromosome. -/
theorem scenario_reassert (c : Chromosome ℚ) (hptr : c.ptr = scenarioGA) :
    (c.initGene 0 7).get_value 0 = 356 / 51 ∧
    FixedParameter_chr scenarioGA (c, []) = (c.initGene 0 7, [(7, 356 / 51)]) := by
  have h : (c.initGene 0 7).get_value 0 = 356 / 51 := by
    rw [get_value_initGene c 0 7 scenarioParam.toBase (by rw [hptr]; rfl)
      (by
        show (scenarioParam.encode 7).length = 8
        rw [encode_eq_toBits _ _ (by norm_num [scenarioParam]), toBits_length]; rfl)
      (by simp [Chromosome.idx])]
    exact scenario_decode_encode
  refine ⟨h, ?_⟩
  have hr : List.range 1 = [0] := rfl
  have hne : (356 / 51 : ℚ) ≠ 7 := by norm_num
  simp only [FixedParameter_chr, scenarioGA, List.length_singleton, hr,
    List.foldl_cons, List.foldl_nil, FixedParameter_gene]
  simp [h, hne]

/-- Claim C5, counterexample: with bounds `[0, 10]` and width 8, after
`initGene(0, 7)` the gene decodes to `356/51` (about `6.98`), not to `7`, and
the forced-value loop prints the mismatch. -/
theorem forced_value_not_exact :
    ((scenarioChr (List.replicate 8 false) 0).initGene 0 7).get_value 0
      = 356 / 51 ∧
    ((scenarioChr (List.replicate 8 false) 0).initGene 0 7).get_value 0
      ≠ 7 ∧
    (FixedParameter_chr scenarioGA
      (scenarioChr (List.replicate 8 false) 0, [])).2 = [(7, 356 / 51)] := by
  obtain ⟨h, h2⟩ :=
    scenario_reassert (scenarioChr (List.replicate 8 false) 0) rfl
  refine ⟨h, ?_, ?_⟩
  · rw [h]; norm_num
  · rw [h2]

/-- Claim C5, amended: with bounds `[0, 10]` and width 8, whatever the chromosome held
before, after the forced-value reassertion of gene 0 to `7` the gene decodes to
`decode(encode(7)) = 356/51`, within `10/255` of `7`, and the mismatch is reported. -/
theorem forced_value_grid (c : Chromosome ℚ) (hptr : c.ptr = scenarioGA) :
    (c.initGene 0 7).get_value 0 = 356 / 51 ∧
    |(c.initGene 0 7).get_value 0 - 7| ≤ 10 / 255 ∧
    FixedParameter_chr scenarioGA (c, []) = (c.initGene 0 7, [(7, 356 / 51)]) := by
  obtain ⟨h, h2⟩ := scenario_reassert c hptr
  refine ⟨h, ?_, h2⟩
  rw [h]; norm_num [abs_le]

/-- Claim C5, witness of the amended statement: a chromosome whose gene held `11111111`. -/
theorem forced_value_grid_witness :
    ((scenarioChr (List.replicate 8 true) 0).initGene 0 7).get_value 0
      = 356 / 51 ∧
    |((scenarioChr (List.replicate 8 true) 0).initGene 0 7).get_value 0 - 7|
      ≤ 10 / 255 ∧
    FixedParameter_chr scenarioGA (scenarioChr (List.replicate 8 true) 0, [])
      = ((scenarioChr (List.replicate 8 true) 0).initGene 0 7,
          [(7, 356 / 51)]) :=
  forced_value_grid (scenarioChr (List.replicate 8 true) 0) rfl

theorem idx_add_size_le {T : Type} (c : Chromosome T) (j : Nat) (p : BaseParameter T)
    (hp : c.ptr.param[j]? = some p) : c.idx j + p.size ≤ c.size := by
  unfold Chromosome.idx Chromosome.size
  obtain ⟨hj, hget⟩ := List.getElem?_eq_some_iff.mp hp
  have h1 : c.ptr.param = c.ptr.param.take j ++ c.ptr.param.drop j :=
    (List.take_append_drop j _).symm
  have h2 : c.ptr.param.drop j = p :: c.ptr.param.drop (j + 1) := by
    rw [← hget]; exact List.drop_eq_getElem_cons hj
  conv_rhs => rw [h1, h2]
  simp only [List.map_append, List.sum_append, List.map_cons, List.sum_cons]
  omega

theorem initGene_length {T : Type} (c : Chromosome T) (i : Nat) (x : T)
    (hwf : c.chr.length = c.size)
    (henc : ∀ p, c.ptr.param[i]? = some p → (p.encode x).length = p.size) :
    (c.initGene i x).chr.length = c.chr.length := by
  unfold Chromosome.initGene
  split
  · next p hp =>
    have := idx_add_size_le c i p hp
    have he := henc p hp
    simp only
    rw [length_replace]
    omega
  · rfl

/-- One forced gene whose value survives the round trip: the gene is re-encoded and
nothing is printed. -/
theorem FixedParameter_gene_exact {T : Type} [Inhabited T] [DecidableEq T]
    (ga : GeneticAlgorithm T) (c : Chromosome T) (j : Nat) (hptr : c.ptr = ga)
    (hwf : c.chr.length = c.size)
    (henc : ∀ (p : BaseParameter T) (x : T),
      ga.param[j]? = some p → (p.encode x).length = p.size)
    (hrt : ga.force_value_flag.getD j false = true → ∃ p, ga.param[j]? = some p ∧
      p.decode (p.encode (ga.force_value.getD j default)) = ga.force_value.getD j default) :
    (FixedParameter_gene ga (c, []) j).2 = [] ∧ (FixedParameter_gene ga (c, []) j).1.ptr = ga ∧
    (FixedParameter_gene ga (c, []) j).1.chr.length = c.chr.length := by
  unfold FixedParameter_gene
  by_cases hf : ga.force_value_flag.getD j false = true
  · obtain ⟨p, hp, hdec⟩ := hrt hf
    have hp2 : c.ptr.param[j]? = some p := by rw [hptr]; exact hp
    have hidx : c.idx j ≤ c.chr.length := by
      have := idx_add_size_le c j p hp2
      omega
    have hv := get_value_initGene c j (ga.force_value.getD j default) p hp2 (henc p _ hp) hidx
    rw [hdec] at hv
    have hl := initGene_length c j (ga.force_value.getD j default) hwf
      (fun q hq => henc q _ (by rw [← hptr]; exact hq))
    simp only [hf, if_true, hv, ne_eq, not_true_eq_false, if_false]
    exact ⟨trivial, by rw [initGene_ptr]; exact hptr, hl⟩
  · simp only [hf]
    exact ⟨rfl, hptr, rfl⟩

/-- The forced-value loop over a chromosome all of whose forced values survive the
round trip prints nothing. -/
theorem FixedParameter_chr_exact {T : Type} [Inhabited T] [DecidableEq T]
    (ga : GeneticAlgorithm T) (c : Chromosome T) (hptr : c.ptr = ga)
    (hwf : c.chr.length = c.size)
    (henc : ∀ (j : Nat) (p : BaseParameter T) (x : T),
      ga.param[j]? = some p → (p.encode x).length = p.size)
    (hrt : ∀ j, ga.force_value_flag.getD j false = true → ∃ p, ga.param[j]? = some p ∧
      p.decode (p.encode (ga.force_value.getD j default)) = ga.force_value.getD j default) :
    (FixedParameter_chr ga (c, [])).2 = [] ∧ (FixedParameter_chr ga (c, [])).1.ptr = ga ∧
    (FixedParameter_chr ga (c, [])).1.chr.length = c.chr.length := by
  unfold FixedParameter_chr
  generalize ga.force_value_flag.length = n
  induction n with
  | zero => exact ⟨rfl, hptr, rfl⟩
  | succ n ih =>
    rw [List.range_succ, List.foldl_append, List.foldl_cons, List.foldl_nil]
    obtain ⟨h1, h2, h3⟩ := ih
    set s := List.foldl (FixedParameter_gene ga) (c, []) (List.range n) with hs
    have hs' : s = (s.1, []) := by rw [← h1]
    rw [hs']
    have hsz : s.1.size = c.size := by unfold Chromosome.size; rw [h2, hptr]
    obtain ⟨k1, k2, k3⟩ := FixedParameter_gene_exact ga s.1 n h2 (by rw [h3, hsz, hwf])
      (henc n) (hrt n)
    exact ⟨k1, k2, by rw [k3, h3]⟩

/-- The round trip of the three cell values of the Binairo configuration. -/
theorem binairo_roundtrip (v : ℤ) (hv : v = -1 ∨ v = 0 ∨ v = 1) :
    binairoParam.decodeInt (binairoParam.encodeInt v) = v := by
  have hN : binairoParam.N ≤ 64 := by decide
  rw [encodeInt_eq_toBits _ _ hN]
  rcases hv with h | h | h <;> subst h
  · have e : binairoParam.encodeValueInt (-1) = 0 := by decide
    rw [e]
    have b : toBits binairoParam.N 0 = [false, false] := by decide
    rw [b]
    norm_num [Parameter.decodeInt, GetValue, binairoParam, Parameter.data0, Parameter.data1,
      MAXVAL, truncate]
    exact_mod_cast Int.ceil_intCast (-1 : ℤ)
  · have e : binairoParam.encodeValueInt 0 = 1 := by decide
    rw [e]
    have b : toBits binairoParam.N 1 = [false, true] := by decide
    rw [b]
    norm_num [Parameter.decodeInt, GetValue, binairoParam, Parameter.data0, Parameter.data1,
      MAXVAL, truncate]
  · have e : binairoParam.encodeValueInt 1 = 3 := by decide
    rw [e]
    have b : toBits binairoParam.N 3 = [true, true] := by decide
    rw [b]
    norm_num [Parameter.decodeInt, GetValue, binairoParam, Parameter.data0, Parameter.data1,
      MAXVAL, truncate]

/-- Claim C6. In the Binairo configuration (type `int`, bounds `[-1, 1]`, width 2) the
integer-typed `decode(encode(v))` equals `v` for `v` in `{-1, 0, 1}`; hence, for a grid
of any size whose forced cells hold `0` or `1`, the forced-value loop of
`FixedParameterBinairo` re-encodes the forced genes of a chromosome and never prints
`Invalid decode/encode`. -/
theorem binairo_forced_exact :
    (∀ v : ℤ, v = -1 ∨ v = 0 ∨ v = 1 →
      binairoParam.decodeInt (binairoParam.encodeInt v) = v) ∧
    (∀ (x : Population ℤ) (k : Nat) (c : Chromosome ℤ),
      x.ga_algo.param
        = List.replicate x.ga_algo.force_value_flag.length binairoParam.toBaseInt →
      (∀ j, x.ga_algo.force_value_flag.getD j false = true →
        x.ga_algo.force_value.getD j default = 0 ∨ x.ga_algo.force_value.getD j default = 1) →
      x.newpop[k]? = some c → c.ptr = x.ga_algo → c.chr.length = c.size →
      ∃ c2, FixedParameterBinairo_force x k = some (c2, [])) := by
  refine ⟨binairo_roundtrip, ?_⟩
  intro x k c hparam hfv hk hptr hwf
  have hpar : ∀ (j : Nat) (p : BaseParameter ℤ), x.ga_algo.param[j]? = some p →
      p = binairoParam.toBaseInt := by
    intro j p hp
    rw [hparam] at hp
    obtain ⟨hj, hget⟩ := List.getElem?_eq_some_iff.mp hp
    rw [← hget]
    simp
  have henc : ∀ (j : Nat) (p : BaseParameter ℤ) (z : ℤ),
      x.ga_algo.param[j]? = some p → (p.encode z).length = p.size := by
    intro j p z hp
    rw [hpar j p hp]
    show (binairoParam.encodeInt z).length = binairoParam.N
    rw [encodeInt_eq_toBits _ _ (by decide), toBits_length]
  have hrt : ∀ j, x.ga_algo.force_value_flag.getD j false = true →
      ∃ p, x.ga_algo.param[j]? = some p ∧
        p.decode (p.encode (x.ga_algo.force_value.getD j default))
          = x.ga_algo.force_value.getD j default := by
    intro j hj
    have hlt : j < x.ga_algo.force_value_flag.length := by
      by_contra hge
      rw [List.getD_eq_default _ _ (by omega)] at hj
      exact Bool.false_ne_true hj
    refine ⟨binairoParam.toBaseInt, ?_, ?_⟩
    · rw [hparam]
      simp [hlt]
    · show binairoParam.decodeInt (binairoParam.encodeInt _) = _
      apply binairo_roundtrip
      rcases hfv j hj with h | h
      · exact Or.inr (Or.inl h)
      · exact Or.inr (Or.inr h)
  obtain ⟨h1, _, _⟩ := FixedParameter_chr_exact x.ga_algo c hptr hwf henc hrt
  refine ⟨(FixedParameter_chr x.ga_algo (c, [])).1, ?_⟩
  unfold FixedParameterBinairo_force
  rw [hk]
  exact congrArg some (Prod.ext rfl h1)

/-- Claim C6, witness: a grid of two cells, the first forced to `1`, and a chromosome
holding `00 10`. -/
theorem binairo_forced_exact_witness :
    ∃ c2, FixedParameterBinairo_force
      { curpop := [], matpop := [],
        newpop := [binairoChr [true, false] [1, -1] [false, false, true, false]],
        matsize := 1, nogen := 1, SP := 1, ga_algo := binairoGA [true, false] [1, -1] } 0
      = some (c2, []) :=
  binairo_forced_exact.2 _ 0
    (binairoChr [true, false] [1, -1] [false, false, true, false])
    rfl
    (by
      intro j hj
      match j with
      | 0 => exact Or.inr rfl
      | 1 => simp [binairoGA] at hj
      | j + 2 => simp [binairoGA] at hj)
    rfl rfl rfl

/-! ## Selection -/

theorem adjustFitness_of_nonneg {T : Type} (x : Population T)
    (hfit : ∀ f ∈ x.fitnesses, 0 ≤ f) : x.adjustFitness = x := by
  unfold Population.adjustFitness
  rw [if_neg]
  simp only [List.any_eq_true, decide_eq_true_eq, not_exists, not_and, not_lt]
  exact hfit

/-- Claim C8, failing input: with the fitness values `{0, 0}` (sum `0`), one
mating-pool slot and the offset `0`, the walk of `SUS` reaches `j = P` and raises;
`select` is never called. -/
theorem SUS_zero_sum_raises :
    SUS (fitPop [0, 0] 1) 0 = .error
      "Error: in SUS(galgo::Population<T>&) index j cannot be equal to population size." := by
  have h : (fitPop [0, 0] 1).adjustFitness = fitPop [0, 0] 1 :=
    adjustFitness_of_nonneg _ (by
      intro f hf
      simp [Population.fitnesses, fitPop, fitChr] at hf
      rw [hf])
  unfold SUS
  rw [h]
  have hr : List.range 1 = [0] := rfl
  have hf : (fitPop [0, 0] 1).fitnesses = [0, 0] := by
    simp [Population.fitnesses, fitPop, fitChr]
  have hm : (fitPop [0, 0] 1).matsize = 1 := rfl
  simp only [hm, hr, List.foldlM_cons, List.foldlM_nil, bind, Except.bind, hf]
  simp [SUS_walk]

/-! ## The walk that reaches `j = popsize` -/

theorem RWS_walk_overflow (rest : List ℚ) (j : Nat) (fsum : ℚ)
    (h : ∀ k, 0 ≤ fsum - (rest.take k).sum) :
    RWS_walk rest j fsum = .error
      "Error: in RWS(galgo::Population<T>&) index j cannot be equal to population size." := by
  induction rest generalizing j fsum with
  | nil =>
    have := h 0
    simp only [List.take_nil, List.sum_nil, sub_zero] at this
    simp [RWS_walk, this]
  | cons f rest ih =>
    have h0 := h 0
    simp only [List.take_zero, List.sum_nil, sub_zero] at h0
    simp only [RWS_walk, ge_iff_le, h0, if_true]
    apply ih
    intro k
    have := h (k + 1)
    simp only [List.take_succ_cons, List.sum_cons] at this
    linarith

theorem TRS_walk_overflow (rest : List ℚ) (j : Nat) (fsum : ℚ)
    (h : ∀ k, 0 ≤ fsum - (rest.take k).sum) :
    TRS_walk rest j fsum = .error
      "Error: in TRS(galgo::Population<T>&) index j cannot be equal to population size." := by
  induction rest generalizing j fsum with
  | nil =>
    have := h 0
    simp only [List.take_nil, List.sum_nil, sub_zero] at this
    simp [TRS_walk, this]
  | cons f rest ih =>
    have h0 := h 0
    simp only [List.take_zero, List.sum_nil, sub_zero] at h0
    simp only [TRS_walk, ge_iff_le, h0, if_true]
    apply ih
    intro k
    have := h (k + 1)
    simp only [List.take_succ_cons, List.sum_cons] at this
    linarith

theorem RSP_walk_overflow (rest : List ℚ) (j : Nat) (rsum : ℚ)
    (h : ∀ k, 0 ≤ rsum - (rest.take k).sum) :
    RSP_walk rest j rsum = .error
      "Error: in RSP(galgo::Population<T>&) index j cannot be equal to population size." := by
  induction rest generalizing j rsum with
  | nil =>
    have := h 0
    simp only [List.take_nil, List.sum_nil, sub_zero] at this
    simp [RSP_walk, this]
  | cons f rest ih =>
    have h0 := h 0
    simp only [List.take_zero, List.sum_nil, sub_zero] at h0
    simp only [RSP_walk, ge_iff_le, h0, if_true]
    apply ih
    intro k
    have := h (k + 1)
    simp only [List.take_succ_cons, List.sum_cons] at this
    linarith

theorem RNK_walk_overflow (rest : List ℤ) (j : Nat) (rsum : ℤ)
    (h : ∀ k, 0 < rsum - (rest.take k).sum) :
    RNK_walk rest j rsum = .error
      "Error: in RNK(galgo::Population<T>&) index j cannot be equal to population size." := by
  induction rest generalizing j rsum with
  | nil =>
    have := h 0
    simp only [List.take_nil, List.sum_nil, sub_zero] at this
    simp [RNK_walk, this]
  | cons f rest ih =>
    have h0 := h 0
    simp only [List.take_zero, List.sum_nil, sub_zero] at h0
    simp only [RNK_walk, gt_iff_lt, h0, if_true]
    apply ih
    intro k
    have := h (k + 1)
    simp only [List.take_succ_cons, List.sum_cons] at this
    linarith

theorem SUS_walk_overflow (rest : List ℚ) (j : Nat) (fsum ptr : ℚ)
    (h : ∀ k, fsum + (rest.take k).sum ≤ ptr) :
    SUS_walk rest j fsum ptr = .error
      "Error: in SUS(galgo::Population<T>&) index j cannot be equal to population size." := by
  induction rest generalizing j fsum with
  | nil =>
    have := h 0
    simp only [List.take_nil, List.sum_nil, add_zero] at this
    simp [SUS_walk, this]
  | cons f rest ih =>
    have h0 := h 0
    simp only [List.take_zero, List.sum_nil, add_zero] at h0
    simp only [SUS_walk, h0, if_true]
    apply ih
    intro k
    have := h (k + 1)
    simp only [List.take_succ_cons, List.sum_cons] at this
    linarith

/-- A loop over `0 .. n` whose first iteration raises, raises. -/
theorem foldlM_range_error {σ : Type} (f : σ → Nat → Except String σ) (s : σ) (n : Nat)
    (e : String) (h : f s 0 = .error e) : (List.range (n + 1)).foldlM f s = .error e := by
  rw [List.range_succ_eq_map, List.foldlM_cons, h]
  rfl

/-- The run of `RWS` on one chromosome of fitness `1` with the draw `1`, the upper end
of `[0, fitsum)`. -/
theorem RWS_boundary_draw :
    RWS (fitPop [1] 1) (fun _ => 1) = .error
      "Error: in RWS(galgo::Population<T>&) index j cannot be equal to population size." := by
  have h : (fitPop [1] 1).adjustFitness = fitPop [1] 1 :=
    adjustFitness_of_nonneg _ (by
      intro f hf
      simp [Population.fitnesses, fitPop, fitChr] at hf
      rw [hf]; norm_num)
  unfold RWS
  rw [h]
  have hr : List.range 1 = [0] := rfl
  have hf : (fitPop [1] 1).fitnesses = [1] := by
    simp [Population.fitnesses, fitPop, fitChr]
  have hs : (fitPop [1] 1).getSumFitness = 1 := by
    simp [Population.getSumFitness, hf]
  have hm : (fitPop [1] 1).matsize = 1 := rfl
  simp only [hm, hr, List.foldlM_cons, List.foldlM_nil, bind, Except.bind, hf, hs]
  simp [RWS_walk]

/-- Claim C9, counterexample: one chromosome of fitness `1`, one mating-pool slot and
a draw equal to the fitness sum. The walk reaches `j = popsize`; `RWS` raises
`invalid_argument` instead of selecting the last valid index `0`. -/
theorem RWS_overflow_not_clamped :
    RWS (fitPop [1] 1) (fun _ => 1) = .error
      "Error: in RWS(galgo::Population<T>&) index j cannot be equal to population size." ∧
    RWS (fitPop [1] 1) (fun _ => 1) ≠ .ok ((fitPop [1] 1).select 0) := by
  refine ⟨RWS_boundary_draw, ?_⟩
  rw [RWS_boundary_draw]
  intro h
  cases h

/-- Claim C9, amended: in `RWS`, `SUS`, `RNK`, `RSP` and the selection loop of `TRS`,
if the walk of the first mating-pool slot passes over every chromosome without its
stopping condition being met (it reaches `j = popsize`), the operator raises
`invalid_argument` with "index j cannot be equal to population size": it selects
nothing for that slot and does not continue. -/
theorem selection_overflow_raises {T : Type} (x : Population T) (hM : 1 ≤ x.matsize) :
    (∀ draw : Nat → ℚ, 0 < x.adjustFitness.getSumFitness →
      (∀ k, 0 ≤ draw 0 - (x.adjustFitness.fitnesses.take k).sum) →
      RWS x draw = .error
        "Error: in RWS(galgo::Population<T>&) index j cannot be equal to population size.") ∧
    (∀ ptr0 : ℚ, (∀ k, 0 + (x.adjustFitness.fitnesses.take k).sum ≤ ptr0) →
      SUS x ptr0 = .error
        "Error: in SUS(galgo::Population<T>&) index j cannot be equal to population size.") ∧
    (∀ (st : RNKState) (draw : Nat → ℤ),
      (∀ k, 0 < draw 0 -
        ((((if x.nogen = 1 then RNK_init x st else st).rank.take x.popsize)).take k).sum) →
      RNK x st draw = .error
        "Error: in RNK(galgo::Population<T>&) index j cannot be equal to population size.") ∧
    (∀ (st : RSPState) (draw : Nat → ℚ),
      (∀ k, 0 ≤ draw 0 -
        ((((if x.nogen = 1 then RSP_init x st else st).rank.take x.popsize)).take k).sum) →
      RSP x st draw = .error
        "Error: in RSP(galgo::Population<T>&) index j cannot be equal to population size.") ∧
    (∀ draw : Nat → ℚ, 0 < x.getSumFitness →
      (∀ k, 0 ≤ draw 0 - (x.fitnesses.take k).sum) →
      TRS_select x draw = .error
        "Error: in TRS(galgo::Population<T>&) index j cannot be equal to population size.") := by
  obtain ⟨n, hn⟩ : ∃ n, x.matsize = n + 1 := ⟨x.matsize - 1, by omega⟩
  have hn2 : x.adjustFitness.matsize = n + 1 := by
    unfold Population.adjustFitness
    split <;> exact hn
  refine ⟨?_, ?_, ?_, ?_, ?_⟩
  · intro draw hpos hk
    unfold RWS
    simp only [hn2]
    apply foldlM_range_error
    simp only [hpos, if_true, RWS_walk_overflow _ 0 _ hk, bind, Except.bind]
  · intro ptr0 hk
    unfold SUS
    simp only [hn2]
    apply foldlM_range_error
    simp only [SUS_walk_overflow _ 0 0 _ hk, bind, Except.bind]
  · intro st draw hk
    unfold RNK
    simp only [hn]
    apply foldlM_range_error
    simp only [RNK_walk_overflow _ 0 _ hk, bind, Except.bind]
  · intro st draw hk
    unfold RSP
    simp only [hn]
    apply foldlM_range_error
    simp only [RSP_walk_overflow _ 0 _ hk, bind, Except.bind]
  · intro draw hpos hk
    unfold TRS_select
    simp only [hn]
    apply foldlM_range_error
    simp only [hpos, if_true, TRS_walk_overflow _ 0 _ hk, bind, Except.bind]

/-- Claim C9, witness of the amended statement: fitness `{1, 2}`, one slot, and a
pointer of `SUS` that sits at the fitness sum `3`. -/
theorem selection_overflow_raises_witness :
    SUS (fitPop [1, 2] 1) 3 = .error
      "Error: in SUS(galgo::Population<T>&) index j cannot be equal to population size." :=
  (selection_overflow_raises (fitPop [1, 2] 1) (le_refl _)).2.1 3 (by
    have h : (fitPop [1, 2] 1).adjustFitness = fitPop [1, 2] 1 :=
      adjustFitness_of_nonneg _ (by
        intro f hf
        simp [Population.fitnesses, fitPop, fitChr] at hf
        rcases hf with h | h <;> rw [h] <;> norm_num)
    have hf : (fitPop [1, 2] 1).fitnesses = [1, 2] := by
      simp [Population.fitnesses, fitPop, fitChr]
    rw [h, hf]
    intro k
    match k with
    | 0 => norm_num
    | 1 => norm_num
    | k + 2 => norm_num)

/-! ## Cross-over: the transmitted sigma -/

theorem foldl_invariant {α β : Type} (P : β → Prop) (f : β → α → β) (l : List α) (b : β)
    (hb : P b) (hf : ∀ b a, P b → P (f b a)) : P (l.foldl f b) := by
  induction l generalizing b with
  | nil => exact hb
  | cons a l ih => exact ih (f b a) (hf b a hb)

/-- The loop `for i < n: c.sigma_update(i, g i)` leaves `ptr` alone and writes `g i`
in every entry `i < n` of the sigma vector. -/
theorem sigma_update_loop {T : Type} (c : Chromosome T) (g : Nat → ℚ) (n : Nat) :
    ((List.range n).foldl (fun c i => c.sigma_update i (g i)) c).ptr = c.ptr ∧
    ((List.range n).foldl (fun c i => c.sigma_update i (g i)) c)._sigma.length
      = c._sigma.length ∧
    ∀ i, i < n → i < c._sigma.length →
      ((List.range n).foldl (fun c i => c.sigma_update i (g i)) c)._sigma.getD i 0 = g i := by
  induction n with
  | zero => exact ⟨rfl, rfl, fun i hi => absurd hi (Nat.not_lt_zero i)⟩
  | succ n ih =>
    obtain ⟨h1, h2, h3⟩ := ih
    rw [List.range_succ, List.foldl_append, List.foldl_cons, List.foldl_nil]
    set d := (List.range n).foldl (fun c i => c.sigma_update i (g i)) c with hd
    refine ⟨h1, ?_, ?_⟩
    · simp only [Chromosome.sigma_update, List.length_set]
      exact h2
    · intro i hi hlen
      simp only [Chromosome.sigma_update, List.getD_eq_getElem?_getD, List.getElem?_set]
      by_cases hin : n = i
      · subst hin
        simp [h2, hlen]
      · have := h3 i (by omega) hlen
        rw [List.getD_eq_getElem?_getD] at this
        simp [hin, this]

/-- After the `// Transmit sigma` loop every gene of the offspring carries the average
of the two parents' sigma. -/
theorem transmit_sigma_get {T : Type} (c chrmat1 chrmat2 : Chromosome T) (i : Nat)
    (hi : i < c.nbgene) (hl : c._sigma.length = c.nbgene) :
    (transmit_sigma c chrmat1 chrmat2).get_sigma i
      = (chrmat1.get_sigma i + chrmat2.get_sigma i) / 2 := by
  unfold transmit_sigma Chromosome.get_sigma
  obtain ⟨_, _, h3⟩ := sigma_update_loop c
    (fun i => 0.5 * (chrmat1._sigma.getD i 0 + chrmat2._sigma.getD i 0)) c.nbgene
  have := h3 i hi (by omega)
  simp only [Chromosome.get_sigma] at this ⊢
  rw [this]
  norm_num
  ring

/-- The sigma law for an offspring `c` that a cross-over has built from `chr` without
touching `ptr` or the sigma vector, before the `// Transmit sigma` loop. -/
theorem transmit_sigma_law {T : Type} (chr c chrmat1 chrmat2 : Chromosome T)
    (hptr : c.ptr = chr.ptr) (hsig : c._sigma = chr._sigma)
    (hl : chr._sigma.length = chr.nbgene) :
    ∀ i, i < chr.nbgene → (transmit_sigma c chrmat1 chrmat2).get_sigma i
      = (chrmat1.get_sigma i + chrmat2.get_sigma i) / 2 := by
  intro i hi
  have hn : c.nbgene = chr.nbgene := by unfold Chromosome.nbgene; rw [hptr]
  exact transmit_sigma_get c chrmat1 chrmat2 i (by omega) (by rw [hsig, hl, hn])

theorem foldl_frame {T α : Type} (f : Chromosome T → α → Chromosome T)
    (hf : ∀ c a, (f c a).ptr = c.ptr ∧ (f c a)._sigma = c._sigma) (l : List α)
    (chr : Chromosome T) :
    (l.foldl f chr).ptr = chr.ptr ∧ (l.foldl f chr)._sigma = chr._sigma :=
  foldl_invariant (fun c => c.ptr = chr.ptr ∧ c._sigma = chr._sigma) f l chr ⟨rfl, rfl⟩
    (fun b a hb => ⟨(hf b a).1.trans hb.1, (hf b a).2.trans hb.2⟩)

theorem initGene_frame {T : Type} (c : Chromosome T) (i : Nat) (x : T) :
    (c.initGene i x).ptr = c.ptr ∧ (c.initGene i x)._sigma = c._sigma :=
  ⟨initGene_ptr c i x, (initGene_sigma c i x).1⟩

theorem Simple_sigma {T : Type} [Scalar T] [Inhabited T] (x : Population T)
    (chr1 chr2 chrmat1 chrmat2 : Chromosome T) (idx1 idx2 pos : Nat) (r : ℚ)
    (h1 : x.mat idx1 = some chrmat1) (h2 : x.mat idx2 = some chrmat2)
    (hs1 : chr1._sigma.length = chr1.nbgene) (hs2 : chr2._sigma.length = chr2.nbgene) :
    ∃ o1 o2, RealValuedSimpleArithmeticRecombination x chr1 chr2 idx1 idx2 pos r = some (o1, o2) ∧
      (∀ i, i < chr1.nbgene → o1.get_sigma i = (chrmat1.get_sigma i + chrmat2.get_sigma i) / 2) ∧
      (∀ i, i < chr2.nbgene → o2.get_sigma i = (chrmat1.get_sigma i + chrmat2.get_sigma i) / 2) := by
  unfold RealValuedSimpleArithmeticRecombination
  rw [h1, h2]
  refine ⟨_, _, rfl, transmit_sigma_law chr1 _ _ _ ?_ ?_ hs1, transmit_sigma_law chr2 _ _ _ ?_ ?_ hs2⟩
  · exact (foldl_frame _ (fun c a => initGene_frame c a _) _ _).1.trans
      (foldl_frame _ (fun c a => initGene_frame c a _) _ _).1
  · exact (foldl_frame _ (fun c a => initGene_frame c a _) _ _).2.trans
      (foldl_frame _ (fun c a => initGene_frame c a _) _ _).2
  · exact (foldl_frame _ (fun c a => initGene_frame c a _) _ _).1.trans
      (foldl_frame _ (fun c a => initGene_frame c a _) _ _).1
  · exact (foldl_frame _ (fun c a => initGene_frame c a _) _ _).2.trans
      (foldl_frame _ (fun c a => initGene_frame c a _) _ _).2

theorem Single_sigma {T : Type} [Scalar T] [Inhabited T] (x : Population T)
    (chr1 chr2 chrmat1 chrmat2 : Chromosome T) (idx1 idx2 pos : Nat) (r : ℚ)
    (h1 : x.mat idx1 = some chrmat1) (h2 : x.mat idx2 = some chrmat2)
    (hs1 : chr1._sigma.length = chr1.nbgene) (hs2 : chr2._sigma.length = chr2.nbgene) :
    ∃ o1 o2, RealValuedSingleArithmeticRecombination x chr1 chr2 idx1 idx2 pos r = some (o1, o2) ∧
      (∀ i, i < chr1.nbgene → o1.get_sigma i = (chrmat1.get_sigma i + chrmat2.get_sigma i) / 2) ∧
      (∀ i, i < chr2.nbgene → o2.get_sigma i = (chrmat1.get_sigma i + chrmat2.get_sigma i) / 2) := by
  unfold RealValuedSingleArithmeticRecombination
  rw [h1, h2]
  refine ⟨_, _, rfl, transmit_sigma_law chr1 _ _ _ ?_ ?_ hs1, transmit_sigma_law chr2 _ _ _ ?_ ?_ hs2⟩
  · exact (initGene_frame _ _ _).1.trans (foldl_frame _ (fun c a => initGene_frame c a _) _ _).1
  · exact (initGene_frame _ _ _).2.trans (foldl_frame _ (fun c a => initGene_frame c a _) _ _).2
  · exact (initGene_frame _ _ _).1.trans (foldl_frame _ (fun c a => initGene_frame c a _) _ _).1
  · exact (initGene_frame _ _ _).2.trans (foldl_frame _ (fun c a => initGene_frame c a _) _ _).2

theorem Whole_sigma {T : Type} [Scalar T] [Inhabited T] (x : Population T)
    (chr1 chr2 chrmat1 chrmat2 : Chromosome T) (idx1 idx2 : Nat) (r : ℚ)
    (h1 : x.mat idx1 = some chrmat1) (h2 : x.mat idx2 = some chrmat2)
    (hs1 : chr1._sigma.length = chr1.nbgene) (hs2 : chr2._sigma.length = chr2.nbgene) :
    ∃ o1 o2, RealValuedWholeArithmeticRecombination x chr1 chr2 idx1 idx2 r = some (o1, o2) ∧
      (∀ i, i < chr1.nbgene → o1.get_sigma i = (chrmat1.get_sigma i + chrmat2.get_sigma i) / 2) ∧
      (∀ i, i < chr2.nbgene → o2.get_sigma i = (chrmat1.get_sigma i + chrmat2.get_sigma i) / 2) := by
  unfold RealValuedWholeArithmeticRecombination
  rw [h1, h2]
  refine ⟨_, _, rfl, transmit_sigma_law chr1 _ _ _ ?_ ?_ hs1, transmit_sigma_law chr2 _ _ _ ?_ ?_ hs2⟩
  · exact (foldl_frame _ (fun c a => initGene_frame c a _) _ _).1
  · exact (foldl_frame _ (fun c a => initGene_frame c a _) _ _).2
  · exact (foldl_frame _ (fun c a => initGene_frame c a _) _ _).1
  · exact (foldl_frame _ (fun c a => initGene_frame c a _) _ _).2

theorem P1XO_sigma {T : Type} (x : Population T)
    (chr1 chr2 chrmat1 chrmat2 : Chromosome T) (idx1 idx2 pos : Nat)
    (h1 : x.mat idx1 = some chrmat1) (h2 : x.mat idx2 = some chrmat2)
    (hs1 : chr1._sigma.length = chr1.nbgene) (hs2 : chr2._sigma.length = chr2.nbgene) :
    ∃ o1 o2, P1XO x chr1 chr2 idx1 idx2 pos = some (o1, o2) ∧
      (∀ i, i < chr1.nbgene → o1.get_sigma i = (chrmat1.get_sigma i + chrmat2.get_sigma i) / 2) ∧
      (∀ i, i < chr2.nbgene → o2.get_sigma i = (chrmat1.get_sigma i + chrmat2.get_sigma i) / 2) := by
  unfold P1XO
  rw [h1, h2]
  exact ⟨_, _, rfl, transmit_sigma_law chr1 _ _ _ rfl rfl hs1,
    transmit_sigma_law chr2 _ _ _ rfl rfl hs2⟩

theorem P2XO_sigma {T : Type} (x : Population T)
    (chr1 chr2 chrmat1 chrmat2 : Chromosome T) (idx1 idx2 pos1 pos2 : Nat)
    (h1 : x.mat idx1 = some chrmat1) (h2 : x.mat idx2 = some chrmat2)
    (hs1 : chr1._sigma.length = chr1.nbgene) (hs2 : chr2._sigma.length = chr2.nbgene) :
    ∃ o1 o2, P2XO x chr1 chr2 idx1 idx2 pos1 pos2 = some (o1, o2) ∧
      (∀ i, i < chr1.nbgene → o1.get_sigma i = (chrmat1.get_sigma i + chrmat2.get_sigma i) / 2) ∧
      (∀ i, i < chr2.nbgene → o2.get_sigma i = (chrmat1.get_sigma i + chrmat2.get_sigma i) / 2) := by
  unfold P2XO
  rw [h1, h2]
  exact ⟨_, _, rfl, transmit_sigma_law chr1 _ _ _ rfl rfl hs1,
    transmit_sigma_law chr2 _ _ _ rfl rfl hs2⟩

theorem UXO_sigma {T : Type} (x : Population T)
    (chr1 chr2 chrmat1 chrmat2 : Chromosome T) (idx1 idx2 : Nat) (proba : Nat → ℚ)
    (h1 : x.mat idx1 = some chrmat1) (h2 : x.mat idx2 = some chrmat2)
    (hs1 : chr1._sigma.length = chr1.nbgene) (hs2 : chr2._sigma.length = chr2.nbgene) :
    ∃ o1 o2, UXO x chr1 chr2 idx1 idx2 proba = some (o1, o2) ∧
      (∀ i, i < chr1.nbgene → o1.get_sigma i = (chrmat1.get_sigma i + chrmat2.get_sigma i) / 2) ∧
      (∀ i, i < chr2.nbgene → o2.get_sigma i = (chrmat1.get_sigma i + chrmat2.get_sigma i) / 2) := by
  unfold UXO
  rw [h1, h2]
  have hinv := foldl_invariant
    (fun (cs : Chromosome T × Chromosome T) => (cs.1.ptr = chr1.ptr ∧ cs.1._sigma = chr1._sigma) ∧
      (cs.2.ptr = chr2.ptr ∧ cs.2._sigma = chr2._sigma))
    (fun (cs : Chromosome T × Chromosome T) j =>
      if proba j < 0.50 then
        (cs.1.addBit (chrmat1.getBit j), cs.2.addBit (chrmat2.getBit j))
      else
        (cs.1.addBit (chrmat2.getBit j), cs.2.addBit (chrmat1.getBit j)))
    (List.range chr1.size) (chr1, chr2) ⟨⟨rfl, rfl⟩, ⟨rfl, rfl⟩⟩
    (by
      intro b a hb
      by_cases hp : proba a < 0.50
      · simp only [hp, if_true]; exact hb
      · simp only [hp, if_false]; exact hb)
  exact ⟨_, _, rfl, transmit_sigma_law chr1 _ _ _ hinv.1.1 hinv.1.2 hs1,
    transmit_sigma_law chr2 _ _ _ hinv.2.1 hinv.2.2 hs2⟩

/-- Claim C10. Cross-over sigma law: for each of the six cross-over operators, every
pair of parents `x[idx1]`, `x[idx2]` of the mating pool and every gene `i`, both
offspring end with `sigma(i) = (sigma_parent1(i) + sigma_parent2(i)) / 2`, whatever
the cut positions, the coin flips and the blend ratio. -/
theorem crossover_sigma_law {T : Type} [Scalar T] [Inhabited T] (x : Population T)
    (chr1 chr2 chrmat1 chrmat2 : Chromosome T) (idx1 idx2 pos pos2 : Nat) (r : ℚ)
    (proba : Nat → ℚ)
    (h1 : x.mat idx1 = some chrmat1) (h2 : x.mat idx2 = some chrmat2)
    (hs1 : chr1._sigma.length = chr1.nbgene) (hs2 : chr2._sigma.length = chr2.nbgene) :
    ∀ res ∈ [RealValuedSimpleArithmeticRecombination x chr1 chr2 idx1 idx2 pos r,
        RealValuedSingleArithmeticRecombination x chr1 chr2 idx1 idx2 pos r,
        RealValuedWholeArithmeticRecombination x chr1 chr2 idx1 idx2 r,
        P1XO x chr1 chr2 idx1 idx2 pos,
        P2XO x chr1 chr2 idx1 idx2 pos pos2,
        UXO x chr1 chr2 idx1 idx2 proba],
      ∃ o1 o2, res = some (o1, o2) ∧
        (∀ i, i < chr1.nbgene →
          o1.get_sigma i = (chrmat1.get_sigma i + chrmat2.get_sigma i) / 2) ∧
        (∀ i, i < chr2.nbgene →
          o2.get_sigma i = (chrmat1.get_sigma i + chrmat2.get_sigma i) / 2) := by
  intro res hres
  simp only [List.mem_cons, List.mem_singleton, List.not_mem_nil, or_false] at hres
  rcases hres with h | h | h | h | h | h <;> rw [h]
  · exact Simple_sigma x chr1 chr2 chrmat1 chrmat2 idx1 idx2 pos r h1 h2 hs1 hs2
  · exact Single_sigma x chr1 chr2 chrmat1 chrmat2 idx1 idx2 pos r h1 h2 hs1 hs2
  · exact Whole_sigma x chr1 chr2 chrmat1 chrmat2 idx1 idx2 r h1 h2 hs1 hs2
  · exact P1XO_sigma x chr1 chr2 chrmat1 chrmat2 idx1 idx2 pos h1 h2 hs1 hs2
  · exact P2XO_sigma x chr1 chr2 chrmat1 chrmat2 idx1 idx2 pos pos2 h1 h2 hs1 hs2
  · exact UXO_sigma x chr1 chr2 chrmat1 chrmat2 idx1 idx2 proba h1 h2 hs1 hs2

/-- Claim C10, witness: parents with step sizes `2` and `4`, fresh offspring with step
size `0`; every operator leaves both offspring with the step size `3 = (2 + 4) / 2`. -/
theorem crossover_sigma_law_witness :
    (∃ o1 o2, RealValuedSimpleArithmeticRecombination scenarioPop
        (scenarioChr [] 0) (scenarioChr [] 0) 0 1 0 (1 / 3) = some (o1, o2) ∧
      o1.get_sigma 0 = 3 ∧ o2.get_sigma 0 = 3) ∧
    (∃ o1 o2, RealValuedSingleArithmeticRecombination scenarioPop
        (scenarioChr [] 0) (scenarioChr [] 0) 0 1 0 (1 / 3) = some (o1, o2) ∧
      o1.get_sigma 0 = 3 ∧ o2.get_sigma 0 = 3) ∧
    (∃ o1 o2, RealValuedWholeArithmeticRecombination scenarioPop
        (scenarioChr [] 0) (scenarioChr [] 0) 0 1 (1 / 3) = some (o1, o2) ∧
      o1.get_sigma 0 = 3 ∧ o2.get_sigma 0 = 3) ∧
    (∃ o1 o2, P1XO scenarioPop (scenarioChr [] 0) (scenarioChr [] 0) 0 1 0 = some (o1, o2) ∧
      o1.get_sigma 0 = 3 ∧ o2.get_sigma 0 = 3) ∧
    (∃ o1 o2, P2XO scenarioPop (scenarioChr [] 0) (scenarioChr [] 0) 0 1 0 5 = some (o1, o2) ∧
      o1.get_sigma 0 = 3 ∧ o2.get_sigma 0 = 3) ∧
    (∃ o1 o2, UXO scenarioPop (scenarioChr [] 0) (scenarioChr [] 0) 0 1 (fun _ => 1 / 4)
        = some (o1, o2) ∧
      o1.get_sigma 0 = 3 ∧ o2.get_sigma 0 = 3) := by
  have H := crossover_sigma_law scenarioPop (scenarioChr [] 0) (scenarioChr [] 0)
    (scenarioChr (List.replicate 8 false) 2) (scenarioChr (List.replicate 8 true) 4)
    0 1 0 5 (1 / 3) (fun _ => 1 / 4) rfl rfl rfl rfl
  have hv : ((scenarioChr (List.replicate 8 false) 2).get_sigma 0
      + (scenarioChr (List.replicate 8 true) 4).get_sigma 0) / 2 = 3 := by
    norm_num [Chromosome.get_sigma, scenarioChr]
  have hn : 0 < (scenarioChr [] 0).nbgene := by decide
  have K : ∀ res : Option (Chromosome ℚ × Chromosome ℚ),
      (∃ (o1 o2 : Chromosome ℚ), res = some (o1, o2) ∧
      (∀ i, i < (scenarioChr [] 0).nbgene →
        o1.get_sigma i = ((scenarioChr (List.replicate 8 false) 2).get_sigma i
          + (scenarioChr (List.replicate 8 true) 4).get_sigma i) / 2) ∧
      (∀ i, i < (scenarioChr [] 0).nbgene →
        o2.get_sigma i = ((scenarioChr (List.replicate 8 false) 2).get_sigma i
          + (scenarioChr (List.replicate 8 true) 4).get_sigma i) / 2)) →
      ∃ o1 o2, res = some (o1, o2) ∧ o1.get_sigma 0 = 3 ∧ o2.get_sigma 0 = 3 := by
    rintro res ⟨o1, o2, h, h1, h2⟩
    exact ⟨o1, o2, h, (h1 0 hn).trans hv, (h2 0 hn).trans hv⟩
  exact ⟨K _ (H _ (by simp)), K _ (H _ (by simp)), K _ (H _ (by simp)), K _ (H _ (by simp)),
    K _ (H _ (by simp)), K _ (H _ (by simp))⟩

/-! ## Adaptation to constraints -/

theorem foldl_add_eq_sum (l : List ℚ) (a : ℚ) : l.foldl (fun a v => a + v) a = a + l.sum := by
  induction l generalizing a with
  | nil => simp
  | cons v l ih => rw [List.foldl_cons, ih, List.sum_cons]; ring

/-- What `DAC` does to the chromosome at position `k`: with a constraint value `≥ 0`
its fitness becomes `worstTotal - sum(constraint values)`, where `worstTotal` is the
value of the population before the call; otherwise the chromosome is left as it is. -/
theorem DAC_getElem {T : Type} (x : Population T) (k : Nat) (c : Chromosome T)
    (hk : x.curpop[k]? = some c) :
    ∃ c2, (DAC x).curpop[k]? = some c2 ∧
      ((∃ v ∈ c.getConstraint, 0 ≤ v) →
        c2 = { c with fitness := x.getWorstTotal - c.getConstraint.sum }) ∧
      ((∀ v ∈ c.getConstraint, v < 0) → c2 = c) := by
  unfold DAC
  simp only [List.getElem?_map, hk, Option.map_some']
  refine ⟨_, rfl, ?_, ?_⟩
  · intro hv
    have : (c.getConstraint.any fun v => decide (v ≥ 0)) = true := by
      simpa [List.any_eq_true] using hv
    rw [if_pos this, foldl_add_eq_sum, zero_add]
  · intro hv
    have : ¬ (c.getConstraint.any fun v => decide (v ≥ 0)) = true := by
      simp only [List.any_eq_true, decide_eq_true_eq, not_exists, not_and, not_le, ge_iff_le]
      exact hv
    rw [if_neg this]

/-- Claim C11. Constraint penalty ordering: for two chromosomes `A` and `B` of a
population that both have a constraint value `≥ 0`, if
`sum(constraints of A) > sum(constraints of B)` then after `DAC`
`fitness(A) < fitness(B)`. -/
theorem DAC_penalty_ordering {T : Type} (x : Population T) (kA kB : Nat)
    (cA cB : Chromosome T) (hA : x.curpop[kA]? = some cA) (hB : x.curpop[kB]? = some cB)
    (hvA : ∃ v ∈ cA.getConstraint, 0 ≤ v) (hvB : ∃ v ∈ cB.getConstraint, 0 ≤ v)
    (hsum : cA.getConstraint.sum > cB.getConstraint.sum) :
    ∃ a2 b2, (DAC x).curpop[kA]? = some a2 ∧ (DAC x).curpop[kB]? = some b2 ∧
      a2.fitness < b2.fitness := by
  obtain ⟨a2, ha, ha2, _⟩ := DAC_getElem x kA cA hA
  obtain ⟨b2, hb, hb2, _⟩ := DAC_getElem x kB cB hB
  refine ⟨a2, b2, ha, hb, ?_⟩
  rw [ha2 hvA, hb2 hvB]
  show x.getWorstTotal - cA.getConstraint.sum < x.getWorstTotal - cB.getConstraint.sum
  linarith

/-- Claim C11, witness: fitness `{5, 3, 1}` with the constraint vectors `{-1}`,
`{2, -5}` and `{0, 3}`; the third chromosome (sum `3`) ends below the second
(sum `-3`). -/
theorem DAC_penalty_ordering_witness :
    ∃ a2 b2, (DAC (cstPop [(5, [-1]), (3, [2, -5]), (1, [0, 3])])).curpop[2]? = some a2 ∧
      (DAC (cstPop [(5, [-1]), (3, [2, -5]), (1, [0, 3])])).curpop[1]? = some b2 ∧
      a2.fitness < b2.fitness :=
  DAC_penalty_ordering (cstPop [(5, [-1]), (3, [2, -5]), (1, [0, 3])]) 2 1
    (cstChr 1 [0, 3]) (cstChr 3 [2, -5]) rfl rfl
    ⟨0, by simp [Chromosome.getConstraint, cstChr], le_refl _⟩
    ⟨2, by simp [Chromosome.getConstraint, cstChr], by norm_num⟩
    (by norm_num [Chromosome.getConstraint, cstChr])

/-- Claim C12. `DAC` keeps the size and the order of the population and touches
nothing but fitness values: the chromosome at position `k` gets the fitness
`worstTotal - sum(constraint values)` when its constraint vector contains a value
`≥ 0`, with `worstTotal` read from the population as it was before the call, and is
unchanged when all its constraint values are `< 0` (an empty vector included). -/
theorem DAC_spec {T : Type} (x : Population T) :
    (DAC x).curpop.length = x.curpop.length ∧
    (DAC x).matpop = x.matpop ∧ (DAC x).newpop = x.newpop ∧
    ∀ (k : Nat) (c : Chromosome T), x.curpop[k]? = some c →
      ∃ c2, (DAC x).curpop[k]? = some c2 ∧
        ((∃ v ∈ c.getConstraint, 0 ≤ v) →
          c2 = { c with fitness := x.getWorstTotal - c.getConstraint.sum }) ∧
        ((∀ v ∈ c.getConstraint, v < 0) → c2 = c) :=
  ⟨by simp [DAC], rfl, rfl, fun k c hk => DAC_getElem x k c hk⟩

/-- Claim C12, witness: fitness `{5, 3, 1, 2}` with the constraint vectors `{-1}`,
`{2, -5}`, `{0, 3}` and the empty vector; `worstTotal` is `1`, the fitness values
become `{5, 4, -2, 2}`. -/
theorem DAC_spec_witness :
    (DAC (cstPop [(5, [-1]), (3, [2, -5]), (1, [0, 3]), (2, [])])).curpop
      = [cstChr 5 [-1], cstChr 4 [2, -5], cstChr (-2) [0, 3], cstChr 2 []] := by
  have h := (DAC_spec (cstPop [(5, [-1]), (3, [2, -5]), (1, [0, 3]), (2, [])])).2.2.2
  have hW : (cstPop [(5, [-1]), (3, [2, -5]), (1, [0, 3]), (2, [])]).getWorstTotal = 1 := by
    norm_num [Population.getWorstTotal, Population.minFitness, Population.fitnesses, cstPop,
      cstChr]
  obtain ⟨c0, h0, _, k0⟩ := h 0 (cstChr 5 [-1]) rfl
  obtain ⟨c1, h1, k1, _⟩ := h 1 (cstChr 3 [2, -5]) rfl
  obtain ⟨c2, h2, k2, _⟩ := h 2 (cstChr 1 [0, 3]) rfl
  obtain ⟨c3, h3, _, k3⟩ := h 3 (cstChr 2 []) rfl
  have e0 := k0 (by simp [Chromosome.getConstraint, cstChr])
  have e1 := k1 ⟨2, by simp [Chromosome.getConstraint, cstChr], by norm_num⟩
  have e2 := k2 ⟨0, by simp [Chromosome.getConstraint, cstChr], le_refl _⟩
  have e3 := k3 (by simp [Chromosome.getConstraint, cstChr])
  rw [hW] at e1 e2
  have hl : (DAC (cstPop [(5, [-1]), (3, [2, -5]), (1, [0, 3]), (2, [])])).curpop.length = 4 := by
    simp [DAC, cstPop]
  apply List.ext_getElem?
  intro n
  match n with
  | 0 => rw [h0, e0]; rfl
  | 1 => rw [h1, e1]; norm_num [cstChr, Chromosome.getConstraint]
  | 2 => rw [h2, e2]; norm_num [cstChr, Chromosome.getConstraint]
  | 3 => rw [h3, e3]; rfl
  | n + 4 =>
    rw [List.getElem?_eq_none (by rw [hl]; omega), List.getElem?_eq_none (by simp)]

/-! ## Fitness adjustment -/

theorem foldl_min_le (fs : List ℚ) (f : ℚ) :
    fs.foldl min f ≤ f ∧ ∀ g ∈ fs, fs.foldl min f ≤ g := by
  induction fs generalizing f with
  | nil => exact ⟨le_refl _, fun g hg => absurd hg (List.not_mem_nil g)⟩
  | cons a fs ih =>
    obtain ⟨h1, h2⟩ := ih (min f a)
    rw [List.foldl_cons]
    refine ⟨le_trans h1 (min_le_left _ _), ?_⟩
    intro g hg
    rcases List.mem_cons.mp hg with h | h
    · rw [h]; exact le_trans h1 (min_le_right _ _)
    · exact h2 g h

theorem minFitness_le {T : Type} (x : Population T) (f : ℚ) (hf : f ∈ x.fitnesses) :
    x.minFitness ≤ f := by
  unfold Population.minFitness
  cases hfs : x.fitnesses with
  | nil => rw [hfs] at hf; exact absurd hf (List.not_mem_nil f)
  | cons a fs =>
    rw [hfs] at hf
    obtain ⟨h1, h2⟩ := foldl_min_le fs a
    rcases List.mem_cons.mp hf with h | h
    · rw [h]; exact h1
    · exact h2 f h

/-- The adjusted fitness values are the old ones shifted by one non-negative amount
that makes all of them non-negative. -/
theorem adjustFitness_shift {T : Type} (x : Population T) :
    ∃ d : ℚ, x.adjustFitness.fitnesses = x.fitnesses.map (fun f => f + d) ∧
      (∀ f ∈ x.fitnesses, 0 ≤ f + d) ∧
      ((∃ f ∈ x.fitnesses, f < 0) → d = |x.minFitness|) ∧
      ((∀ f ∈ x.fitnesses, 0 ≤ f) → d = 0) := by
  by_cases hneg : ∃ f ∈ x.fitnesses, f < 0
  · refine ⟨|x.minFitness|, ?_, ?_, fun _ => rfl, ?_⟩
    · unfold Population.adjustFitness
      rw [if_pos (by simpa [List.any_eq_true] using hneg)]
      simp [Population.fitnesses, List.map_map, Function.comp]
    · intro f hf
      have h1 := minFitness_le x f hf
      have h2 := neg_le_abs x.minFitness
      linarith
    · intro hall
      obtain ⟨f, hf, hlt⟩ := hneg
      exact absurd (hall f hf) (not_le.mpr hlt)
  · have hall : ∀ f ∈ x.fitnesses, 0 ≤ f := by
      intro f hf
      by_contra h
      exact hneg ⟨f, hf, not_le.mp h⟩
    refine ⟨0, ?_, ?_, fun h => absurd h hneg, fun _ => rfl⟩
    · rw [adjustFitness_of_nonneg x hall]; simp
    · intro f hf
      simpa using hall f hf

/-- Claim C13. Fitness-adjustment invariant: after `adjustFitness` no fitness value
is negative and, for every pair of chromosomes, the order relation between their
fitness values is the same as before; when a fitness value is negative every fitness
is shifted by `|min fitness|`, and otherwise nothing changes. -/
theorem adjustFitness_invariant {T : Type} (x : Population T) :
    (∀ f ∈ x.adjustFitness.fitnesses, 0 ≤ f) ∧
    x.adjustFitness.fitnesses.length = x.fitnesses.length ∧
    (∀ i j, i < x.fitnesses.length → j < x.fitnesses.length →
      (x.adjustFitness.fitnesses.getD i 0 < x.adjustFitness.fitnesses.getD j 0 ↔
        x.fitnesses.getD i 0 < x.fitnesses.getD j 0)) ∧
    ((∃ f ∈ x.fitnesses, f < 0) →
      x.adjustFitness.fitnesses = x.fitnesses.map (fun f => f + |x.minFitness|)) ∧
    ((∀ f ∈ x.fitnesses, 0 ≤ f) → x.adjustFitness = x) := by
  obtain ⟨d, hmap, hnn, hd, _⟩ := adjustFitness_shift x
  refine ⟨?_, ?_, ?_, ?_, adjustFitness_of_nonneg x⟩
  · intro f hf
    rw [hmap] at hf
    obtain ⟨g, hg, rfl⟩ := List.mem_map.mp hf
    exact hnn g hg
  · rw [hmap, List.length_map]
  · intro i j hi hj
    have hgi : (x.fitnesses.map (fun f => f + d)).getD i 0 = x.fitnesses.getD i 0 + d := by
      simp [List.getD_eq_getElem?_getD, hi]
    have hgj : (x.fitnesses.map (fun f => f + d)).getD j 0 = x.fitnesses.getD j 0 + d := by
      simp [List.getD_eq_getElem?_getD, hj]
    rw [hmap, hgi, hgj]
    constructor <;> intro h <;> linarith
  · intro hneg
    rw [hmap, hd hneg]

/-- Claim C13, witness: the fitness values `{1, -2, 3, 0}` become `{3, 0, 5, 2}`, with
sum `10`. -/
theorem adjustFitness_invariant_witness :
    (fitPop [1, -2, 3, 0] 0).adjustFitness.fitnesses = [3, 0, 5, 2] ∧
    (fitPop [1, -2, 3, 0] 0).adjustFitness.getSumFitness = 10 := by
  have hf : (fitPop [1, -2, 3, 0] 0).fitnesses = [1, -2, 3, 0] := by
    simp [Population.fitnesses, fitPop, fitChr]
  have hm : (fitPop [1, -2, 3, 0] 0).minFitness = -2 := by
    norm_num [Population.minFitness, hf]
  have h := (adjustFitness_invariant (fitPop [1, -2, 3, 0] 0)).2.2.2.1
    ⟨-2, by rw [hf]; simp, by norm_num⟩
  rw [hf, hm] at h
  have h2 : (fitPop [1, -2, 3, 0] 0).adjustFitness.fitnesses = [3, 0, 5, 2] := by
    rw [h]; norm_num
  refine ⟨h2, ?_⟩
  unfold Population.getSumFitness
  rw [h2]
  norm_num

/-! ## Rank-based selection -/

/-- Claim C19, failing input: population of size 3 at generation 1 (rank table
`3, 2, 1`, `ranksum = 6`) and the five draws `1, ..., 5` that the half-open range
`[1, ranksum)` holds. The walk selects index `0` three times and index `1` twice; the
last index `2`, of rank 1, is selected by no draw. -/
theorem RNK_last_rank_unreachable :
    RNK (fitPop [9, 5, 2] 5) { rank := [0, 0, 0], ranksum := 0 } (fun i => (i : ℤ) + 1)
      = .ok ({ fitPop [9, 5, 2] 5 with matpop := [0, 0, 0, 1, 1] },
          { rank := [3, 2, 1], ranksum := 6 }) := by
  have hinit : RNK_init (fitPop [9, 5, 2] 5) { rank := [0, 0, 0], ranksum := 0 }
      = { rank := [3, 2, 1], ranksum := 6 } := by
    have hp : (fitPop [9, 5, 2] 5).popsize = 3 := rfl
    unfold RNK_init
    simp only [hp]
    have ht : truncate (0.5 * ((3 : Nat) : ℚ) * (((3 : Nat) : ℚ) + 1)) = 6 := by
      norm_num [truncate]
    rw [ht]
    rfl
  have hp : (fitPop [9, 5, 2] 5).popsize = 3 := rfl
  have hm : (fitPop [9, 5, 2] 5).matsize = 5 := rfl
  have hg : (fitPop [9, 5, 2] 5).nogen = 1 := rfl
  have hr : List.range 5 = [0, 1, 2, 3, 4] := rfl
  have w1 : RNK_walk [3, 2, 1] 0 1 = .ok 1 := by simp [RNK_walk]
  have w2 : RNK_walk [3, 2, 1] 0 2 = .ok 1 := by simp [RNK_walk]
  have w3 : RNK_walk [3, 2, 1] 0 3 = .ok 1 := by simp [RNK_walk]
  have w4 : RNK_walk [3, 2, 1] 0 4 = .ok 2 := by simp [RNK_walk]
  have w5 : RNK_walk [3, 2, 1] 0 5 = .ok 2 := by simp [RNK_walk]
  unfold RNK
  simp only [hg, if_true, hinit, hp, hm, hr, List.foldlM_cons, List.foldlM_nil, bind,
    Except.bind, List.take, Nat.cast_zero, Nat.cast_one, Nat.cast_ofNat, zero_add]
  norm_num [w1, w2, w3, w4, w5, Population.select, pure, Except.pure, fitPop]

/-! ## Tournament selection -/

/-- The inner loop of a tournament after `m` iterations: the kept index is one of the
draws `0 .. m`, no draw has a higher fitness, and every earlier draw has a strictly
lower one. -/
theorem tournament_loop (F : Nat → ℚ) (draw : Nat → Nat) (m : Nat) :
    ∃ j0, j0 ≤ m ∧
      (List.range' 1 m).foldl (fun (b : Nat × ℚ) j =>
        let idx := draw j
        let fit := F idx
        if fit > b.2 then (idx, fit) else b) (draw 0, F (draw 0))
        = (draw j0, F (draw j0)) ∧
      (∀ j, j ≤ m → F (draw j) ≤ F (draw j0)) ∧
      (∀ j, j < j0 → F (draw j) < F (draw j0)) := by
  induction m with
  | zero =>
    refine ⟨0, le_refl _, rfl, ?_, fun j hj => absurd hj (Nat.not_lt_zero j)⟩
    intro j hj
    have : j = 0 := by omega
    rw [this]
  | succ m ih =>
    obtain ⟨j0, hj0, hfold, hmax, hfirst⟩ := ih
    rw [List.range'_1_concat, List.foldl_append, hfold]
    simp only [List.foldl_cons, List.foldl_nil]
    by_cases hgt : F (draw (1 + m)) > F (draw j0)
    · refine ⟨1 + m, by omega, by rw [if_pos hgt], ?_, ?_⟩
      · intro j hj
        by_cases hjm : j ≤ m
        · exact le_trans (hmax j hjm) (le_of_lt hgt)
        · have : j = 1 + m := by omega
          rw [this]
      · intro j hj
        exact lt_of_le_of_lt (hmax j (by omega)) hgt
    · refine ⟨j0, by omega, by rw [if_neg hgt], ?_, hfirst⟩
      intro j hj
      by_cases hjm : j ≤ m
      · exact hmax j hjm
      · have : j = 1 + m := by omega
        rw [this]
        exact not_lt.mp hgt

theorem tournament_count (t : ℤ) : (t - 1).toNat + 1 = (max t 1).toNat := by
  rcases le_total t 1 with h | h
  · rw [max_eq_right h]
    have : (t - 1).toNat = 0 := by omega
    rw [this]
    rfl
  · rw [max_eq_left h]
    omega

/-- The mating loop of `TNT`: slot `i` receives the winner of tournament `i`, and
nothing but the mating pool changes. -/
theorem TNT_loop {T : Type} (x : Population T) (draw : Nat → Nat → Nat) (n : Nat) :
    (List.range n).foldl (fun (y : Population T) i =>
      y.select ((TNT_tournament y (draw i)).1 : ℤ)) x
      = { x with matpop := x.matpop ++
            (List.range n).map (fun i => ((TNT_tournament x (draw i)).1 : ℤ)) } := by
  induction n with
  | zero => simp
  | succ n ih =>
    rw [List.range_succ, List.foldl_append, ih]
    simp [Population.select, TNT_tournament, Population.fitnesses]

/-- Claim C20. TNT tournament: for every population, tournament size `t` and index
draws, each of the `M` mating-pool entries is one of the `max(t, 1)` indices drawn
for its tournament, its fitness is `≥` the fitness of every index drawn in that
tournament, and on equal fitness the earliest-drawn index is kept (every index drawn
before it has a strictly lower fitness); `TNT` changes nothing but the mating pool,
so no fitness value is modified. -/
theorem TNT_spec {T : Type} (x : Population T) (draw : Nat → Nat → Nat) :
    ∃ sel : List ℤ, TNT x draw = { x with matpop := x.matpop ++ sel } ∧
      sel.length = x.matsize ∧
      ∀ i, i < x.matsize →
        ∃ j0, j0 < (max x.tntsize 1).toNat ∧ sel[i]? = some ((draw i j0 : Nat) : ℤ) ∧
          (∀ j, j < (max x.tntsize 1).toNat →
            x.fitnesses.getD (draw i j) 0 ≤ x.fitnesses.getD (draw i j0) 0) ∧
          (∀ j, j < j0 → x.fitnesses.getD (draw i j) 0 < x.fitnesses.getD (draw i j0) 0) := by
  refine ⟨(List.range x.matsize).map (fun i => ((TNT_tournament x (draw i)).1 : ℤ)),
    TNT_loop x draw x.matsize, by simp, ?_⟩
  intro i hi
  obtain ⟨j0, hj0, hfold, hmax, hfirst⟩ :=
    tournament_loop (fun k => x.fitnesses.getD k 0) (draw i) (x.tntsize - 1).toNat
  have hcount := tournament_count x.tntsize
  refine ⟨j0, by omega, ?_, fun j hj => hmax j (by omega), hfirst⟩
  rw [List.getElem?_map, List.getElem?_range hi, Option.map_some']
  unfold TNT_tournament
  simp only
  rw [hfold]

/-- Claim C20, witness: fitness `{1, 4, 4}`, tournament size 3, one slot with the draws
`0, 2, 1`: the winner is index `2`, drawn before index `1` of the same fitness. -/
theorem TNT_spec_witness :
    TNT { fitPop [1, 4, 4] 1 with tntsize := 3 }
        (fun _ j => if j = 0 then 0 else if j = 1 then 2 else 1)
      = { fitPop [1, 4, 4] 1 with tntsize := 3, matpop := [2] } := by
  obtain ⟨sel, hsel, hlen, hspec⟩ := TNT_spec { fitPop [1, 4, 4] 1 with tntsize := 3 }
    (fun _ j => if j = 0 then 0 else if j = 1 then 2 else 1)
  obtain ⟨j0, hj0, hget, hmax, hfirst⟩ := hspec 0 (by decide)
  have hF : ({ fitPop [1, 4, 4] 1 with tntsize := 3 } : Population ℚ).fitnesses = [1, 4, 4] := by
    simp [Population.fitnesses, fitPop, fitChr]
  rw [hF] at hmax hfirst
  have hj3 : j0 < 3 := hj0
  have hj0eq : j0 = 1 := by
    interval_cases j0
    · have := hmax 1 (by decide)
      norm_num at this
    · rfl
    · have := hfirst 1 (by decide)
      norm_num at this
  subst hj0eq
  have hl1 : sel.length = 1 := hlen
  have hs : sel = [2] := by
    match sel, hl1, hget with
    | [a], _, hget =>
      simp at hget
      rw [hget]
  rw [hsel, hs]
  rfl

/-! ## Mutation -/

/-- Claim C14. For every mutation operator and every chromosome, if `mutrate == 0` the
operator returns at once: the chromosome (its bits and its per-gene sigma) is
unchanged and the generator has delivered no draw. -/
theorem mutation_noop {T : Type} [Inhabited T] [LinearOrder T] [Add T] [Sub T] [Scalar T]
    (m : Libm) (chr : Chromosome T) (rng : Rng) (h : chr.mutrate = 0) :
    BDM chr rng = (chr, rng) ∧ SPM chr rng = (chr, rng) ∧ UNM chr rng = (chr, rng) ∧
    GAM_UncorrelatedOneStepSizeFixed m chr rng = (chr, rng) ∧
    GAM_UncorrelatedOneStepSizeBoundary m chr rng = (chr, rng) ∧
    GAM_UncorrelatedNStepSize m chr rng = (chr, rng) ∧
    GAM_UncorrelatedNStepSizeBoundary m chr rng = (chr, rng) ∧
    GAM_sigma_adapting_per_generation m chr rng = (chr, rng) ∧
    GAM_sigma_adapting_per_mutation chr rng = (chr, rng) := by
  refine ⟨?_, ?_, ?_, ?_, ?_, ?_, ?_, ?_, ?_⟩
  · simp only [BDM, h, if_true]
  · simp only [SPM, h, if_true]
  · simp only [UNM, h, if_true]
  · simp only [GAM_UncorrelatedOneStepSizeFixed, h, if_true]
  · simp only [GAM_UncorrelatedOneStepSizeBoundary, h, if_true]
  · simp only [GAM_UncorrelatedNStepSize, h, if_true]
  · simp only [GAM_UncorrelatedNStepSizeBoundary, h, if_true]
  · simp only [GAM_sigma_adapting_per_generation, h, if_true]
  · simp only [GAM_sigma_adapting_per_mutation, h, if_true]

/-- Claim C14, witness: a chromosome of the forced-value scenario, whose algorithm has
the mutation rate `0`. -/
theorem mutation_noop_witness :
    BDM (scenarioChr (List.replicate 8 true) 2) rngFix
      = (scenarioChr (List.replicate 8 true) 2, rngFix) ∧
    SPM (scenarioChr (List.replicate 8 true) 2) rngFix
      = (scenarioChr (List.replicate 8 true) 2, rngFix) ∧
    UNM (scenarioChr (List.replicate 8 true) 2) rngFix
      = (scenarioChr (List.replicate 8 true) 2, rngFix) ∧
    GAM_UncorrelatedOneStepSizeFixed libmFix (scenarioChr (List.replicate 8 true) 2) rngFix
      = (scenarioChr (List.replicate 8 true) 2, rngFix) ∧
    GAM_UncorrelatedOneStepSizeBoundary libmFix (scenarioChr (List.replicate 8 true) 2) rngFix
      = (scenarioChr (List.replicate 8 true) 2, rngFix) ∧
    GAM_UncorrelatedNStepSize libmFix (scenarioChr (List.replicate 8 true) 2) rngFix
      = (scenarioChr (List.replicate 8 true) 2, rngFix) ∧
    GAM_UncorrelatedNStepSizeBoundary libmFix (scenarioChr (List.replicate 8 true) 2) rngFix
      = (scenarioChr (List.replicate 8 true) 2, rngFix) ∧
    GAM_sigma_adapting_per_generation libmFix (scenarioChr (List.replicate 8 true) 2) rngFix
      = (scenarioChr (List.replicate 8 true) 2, rngFix) ∧
    GAM_sigma_adapting_per_mutation (scenarioChr (List.replicate 8 true) 2) rngFix
      = (scenarioChr (List.replicate 8 true) 2, rngFix) :=
  mutation_noop libmFix (scenarioChr (List.replicate 8 true) 2) rngFix rfl

theorem clamp_in_bounds {T : Type} [LinearOrder T] (v lb ub : T) (h : lb ≤ ub) :
    lb ≤ min (max v lb) ub ∧ min (max v lb) ub ≤ ub :=
  ⟨le_min (le_max_right v lb) h, min_le_right _ _⟩

/-- Claim C15. For every self-adaptive mutation variant (one-step fixed and boundary,
N-step fixed and boundary, sigma-adapting per generation and per mutation), every
gene `i` that is mutated and every value of the normal draws, the value handed to
`initGene` lies in `[lowerBound[i], upperBound[i]]`, given
`lowerBound[i] ≤ upperBound[i]`. -/
theorem mutation_value_in_bounds {T : Type} [Inhabited T] [LinearOrder T] [Add T] [Sub T]
    [Scalar T] (m : Libm) (tau tau1 tau2 : ℚ) (chr : Chromosome T) (rng : Rng) (i : Nat)
    (hb : chr.lowerBound.getD i default ≤ chr.upperBound.getD i default) :
    (chr.lowerBound.getD i default
        ≤ (OneStepSize_gene m tau (seed_fixed chr) chr rng i).newvalue ∧
      (OneStepSize_gene m tau (seed_fixed chr) chr rng i).newvalue
        ≤ chr.upperBound.getD i default) ∧
    (chr.lowerBound.getD i default
        ≤ (OneStepSize_gene m tau (seed_boundary chr i) chr rng i).newvalue ∧
      (OneStepSize_gene m tau (seed_boundary chr i) chr rng i).newvalue
        ≤ chr.upperBound.getD i default) ∧
    (chr.lowerBound.getD i default
        ≤ (NStepSize_gene m tau1 tau2 (seed_fixed chr) chr rng i).newvalue ∧
      (NStepSize_gene m tau1 tau2 (seed_fixed chr) chr rng i).newvalue
        ≤ chr.upperBound.getD i default) ∧
    (chr.lowerBound.getD i default
        ≤ (NStepSize_gene m tau1 tau2 (seed_boundary chr i) chr rng i).newvalue ∧
      (NStepSize_gene m tau1 tau2 (seed_boundary chr i) chr rng i).newvalue
        ≤ chr.upperBound.getD i default) ∧
    (chr.lowerBound.getD i default
        ≤ (sigma_adapting_per_generation_gene m chr rng i).newvalue ∧
      (sigma_adapting_per_generation_gene m chr rng i).newvalue
        ≤ chr.upperBound.getD i default) ∧
    (chr.lowerBound.getD i default
        ≤ (sigma_adapting_per_mutation_gene chr rng i).newvalue ∧
      (sigma_adapting_per_mutation_gene chr rng i).newvalue
        ≤ chr.upperBound.getD i default) :=
  ⟨clamp_in_bounds _ _ _ hb, clamp_in_bounds _ _ _ hb, clamp_in_bounds _ _ _ hb,
    clamp_in_bounds _ _ _ hb, clamp_in_bounds _ _ _ hb, clamp_in_bounds _ _ _ hb⟩

/-- Claim C15, witness: the gene `11111111` (value `10`) of a parameter with bounds
`[0, 10]`, step size `2` and normal draws `-1`: the one-step variant hands a value of
`[0, 10]` to `initGene`. -/
theorem mutation_value_in_bounds_witness :
    (mutChr (List.replicate 8 true) 2 6).lowerBound.getD 0 default
        ≤ (OneStepSize_gene libmFix 1 (seed_fixed (mutChr (List.replicate 8 true) 2 6))
            (mutChr (List.replicate 8 true) 2 6) rngFix 0).newvalue ∧
      (OneStepSize_gene libmFix 1 (seed_fixed (mutChr (List.replicate 8 true) 2 6))
            (mutChr (List.replicate 8 true) 2 6) rngFix 0).newvalue
        ≤ (mutChr (List.replicate 8 true) 2 6).upperBound.getD 0 default :=
  (mutation_value_in_bounds libmFix 1 1 1 (mutChr (List.replicate 8 true) 2 6) rngFix 0
    (by norm_num [Chromosome.lowerBound, Chromosome.upperBound, mutChr, mutGA,
      Parameter.toBase, scenarioParam])).1

theorem floor_sigma_ge (sigma_lowest sigma : ℚ) : sigma_lowest ≤ floor_sigma sigma_lowest sigma := by
  unfold floor_sigma
  split
  · exact le_refl _
  · next h => exact not_lt.mp h

theorem decay_sigma_zero (m : Libm) (sigma : ℚ) (rng : Rng) :
    decay_sigma m 0 sigma rng = (sigma, rng) := rfl

theorem decay_sigma_nonneg (m : Libm) (count : Nat) (sigma : ℚ) (rng : Rng) (h : 1 ≤ count) :
    0 ≤ (decay_sigma m count sigma rng).1 := by
  obtain ⟨n, rfl⟩ : ∃ n, count = n + 1 := ⟨count - 1, by omega⟩
  unfold decay_sigma
  rw [List.range_succ, List.foldl_append]
  simp only [List.foldl_cons, List.foldl_nil]
  exact le_max_left _ _

/-- Claim C16, counterexample: `GAM_sigma_adapting_per_mutation` on a gene whose prior
sigma is `1/1000`, with `sigma_lowest = 1/100`. The prior sigma is not below the
"first time" threshold `1e-11`, so it is used as it is: the step size that perturbs
the gene is `1/1000 < sigma_lowest`. -/
theorem sigma_below_lowest :
    (sigma_adapting_per_mutation_gene (mutChr (List.replicate 8 true) (1 / 1000) 1) rngFix 0).sigma
      = 1 / 1000 ∧
    (mutChr (List.replicate 8 true) (1 / 1000) 1).mutinfo._sigma_lowest = 1 / 100 ∧
    ¬ ((mutChr (List.replicate 8 true) (1 / 1000) 1).mutinfo._sigma_lowest ≤
      (sigma_adapting_per_mutation_gene (mutChr (List.replicate 8 true) (1 / 1000) 1)
        rngFix 0).sigma) := by
  have h1 : (sigma_adapting_per_mutation_gene (mutChr (List.replicate 8 true) (1 / 1000) 1)
      rngFix 0).sigma = 1 / 1000 := by
    norm_num [sigma_adapting_per_mutation_gene, Chromosome.get_sigma, mutChr]
  have h2 : (mutChr (List.replicate 8 true) (1 / 1000) 1).mutinfo._sigma_lowest = 1 / 100 := rfl
  refine ⟨h1, h2, ?_⟩
  rw [h1, h2]
  norm_num

/-- Claim C16, amended. Whenever a gene is mutated: in the one-step and N-step
variants (fixed and boundary) the step size that perturbs the gene and every value
handed to `sigma_update` is `≥ sigma_lowest`, for every prior sigma and every normal
draw. In `GAM_sigma_adapting_per_mutation` this holds when the prior sigma is below
`1e-11` (sigma is then seeded, floored and stored); otherwise the prior sigma is used
as it is and nothing is stored. In `GAM_sigma_adapting_per_generation` nothing is
stored; the step size is `≥ sigma_lowest` when the decay loop does not run and `≥ 0`
when it does. -/
theorem sigma_floor {T : Type} [Inhabited T] [LinearOrder T] [Add T] [Sub T] [Scalar T]
    (m : Libm) (tau tau1 tau2 : ℚ) (chr : Chromosome T) (rng : Rng) (i : Nat) :
    (chr.mutinfo._sigma_lowest ≤ (OneStepSize_gene m tau (seed_fixed chr) chr rng i).sigma ∧
      ∀ s ∈ (OneStepSize_gene m tau (seed_fixed chr) chr rng i).stored,
        chr.mutinfo._sigma_lowest ≤ s) ∧
    (chr.mutinfo._sigma_lowest ≤ (OneStepSize_gene m tau (seed_boundary chr i) chr rng i).sigma ∧
      ∀ s ∈ (OneStepSize_gene m tau (seed_boundary chr i) chr rng i).stored,
        chr.mutinfo._sigma_lowest ≤ s) ∧
    (chr.mutinfo._sigma_lowest ≤ (NStepSize_gene m tau1 tau2 (seed_fixed chr) chr rng i).sigma ∧
      ∀ s ∈ (NStepSize_gene m tau1 tau2 (seed_fixed chr) chr rng i).stored,
        chr.mutinfo._sigma_lowest ≤ s) ∧
    (chr.mutinfo._sigma_lowest
        ≤ (NStepSize_gene m tau1 tau2 (seed_boundary chr i) chr rng i).sigma ∧
      ∀ s ∈ (NStepSize_gene m tau1 tau2 (seed_boundary chr i) chr rng i).stored,
        chr.mutinfo._sigma_lowest ≤ s) ∧
    ((chr.get_sigma i < 1 / 10 ^ 11 →
        chr.mutinfo._sigma_lowest ≤ (sigma_adapting_per_mutation_gene chr rng i).sigma ∧
        (sigma_adapting_per_mutation_gene chr rng i).stored
          = [(sigma_adapting_per_mutation_gene chr rng i).sigma]) ∧
      (¬ chr.get_sigma i < 1 / 10 ^ 11 →
        (sigma_adapting_per_mutation_gene chr rng i).sigma = chr.get_sigma i ∧
        (sigma_adapting_per_mutation_gene chr rng i).stored = [])) ∧
    ((sigma_adapting_per_generation_gene m chr rng i).stored = [] ∧
      (decay_count chr.nogen = 0 →
        chr.mutinfo._sigma_lowest ≤ (sigma_adapting_per_generation_gene m chr rng i).sigma) ∧
      (1 ≤ decay_count chr.nogen →
        0 ≤ (sigma_adapting_per_generation_gene m chr rng i).sigma)) := by
  have one : ∀ seed : ℚ,
      chr.mutinfo._sigma_lowest ≤ (OneStepSize_gene m tau seed chr rng i).sigma ∧
      ∀ s ∈ (OneStepSize_gene m tau seed chr rng i).stored, chr.mutinfo._sigma_lowest ≤ s := by
    intro seed
    refine ⟨floor_sigma_ge _ _, ?_⟩
    intro s hs
    simp only [OneStepSize_gene, List.mem_append, List.mem_singleton] at hs
    rcases hs with hs | hs
    · by_cases hf : chr.get_sigma i < 1 / 10 ^ 11
      · simp only [hf, if_true, List.mem_singleton] at hs
        rw [hs]
        exact floor_sigma_ge _ _
      · simp only [hf, if_false, List.not_mem_nil] at hs
    · rw [hs]
      exact floor_sigma_ge _ _
  have nstep : ∀ seed : ℚ,
      chr.mutinfo._sigma_lowest ≤ (NStepSize_gene m tau1 tau2 seed chr rng i).sigma ∧
      ∀ s ∈ (NStepSize_gene m tau1 tau2 seed chr rng i).stored,
        chr.mutinfo._sigma_lowest ≤ s := by
    intro seed
    have hsig : chr.mutinfo._sigma_lowest ≤ (NStepSize_gene m tau1 tau2 seed chr rng i).sigma := by
      simp only [NStepSize_gene]
      by_cases hf : chr.get_sigma i < 1 / 10 ^ 11
      · simp only [hf, if_true]
        exact floor_sigma_ge _ _
      · simp only [hf, if_false]
        exact floor_sigma_ge _ _
    refine ⟨hsig, ?_⟩
    intro s hs
    have : (NStepSize_gene m tau1 tau2 seed chr rng i).stored
        = [(NStepSize_gene m tau1 tau2 seed chr rng i).sigma] := rfl
    rw [this, List.mem_singleton] at hs
    rw [hs]
    exact hsig
  refine ⟨one _, one _, nstep _, nstep _, ⟨?_, ?_⟩, rfl, ?_, ?_⟩
  · intro hf
    simp only [sigma_adapting_per_mutation_gene, hf, if_true]
    exact ⟨floor_sigma_ge _ _, trivial⟩
  · intro hf
    simp only [sigma_adapting_per_mutation_gene, hf, if_false]
    exact ⟨trivial, trivial⟩
  · intro hc
    simp only [sigma_adapting_per_generation_gene, hc, decay_sigma_zero]
    exact floor_sigma_ge _ _
  · intro hc
    simp only [sigma_adapting_per_generation_gene]
    exact decay_sigma_nonneg _ _ _ _ hc

/-- Claim C16, witness of the amended statement: a gene with prior sigma `1/1000` at
generation 6 (one decay step), `sigma_lowest = 1/100`. -/
theorem sigma_floor_witness :
    (mutChr (List.replicate 8 true) (1 / 1000) 6).mutinfo._sigma_lowest
      ≤ (OneStepSize_gene libmFix 1 (seed_fixed (mutChr (List.replicate 8 true) (1 / 1000) 6))
          (mutChr (List.replicate 8 true) (1 / 1000) 6) rngFix 0).sigma ∧
    (mutChr (List.replicate 8 true) (1 / 1000) 6).mutinfo._sigma_lowest
      ≤ (NStepSize_gene libmFix 1 1 (seed_fixed (mutChr (List.replicate 8 true) (1 / 1000) 6))
          (mutChr (List.replicate 8 true) (1 / 1000) 6) rngFix 0).sigma ∧
    (sigma_adapting_per_mutation_gene (mutChr (List.replicate 8 true) (1 / 1000) 6) rngFix 0).sigma
      = (mutChr (List.replicate 8 true) (1 / 1000) 6).get_sigma 0 ∧
    0 ≤ (sigma_adapting_per_generation_gene libmFix
      (mutChr (List.replicate 8 true) (1 / 1000) 6) rngFix 0).sigma :=
  ⟨(sigma_floor libmFix 1 1 1 (mutChr (List.replicate 8 true) (1 / 1000) 6) rngFix 0).1.1,
   (sigma_floor libmFix 1 1 1 (mutChr (List.replicate 8 true) (1 / 1000) 6) rngFix 0).2.2.1.1,
   ((sigma_floor libmFix 1 1 1 (mutChr (List.replicate 8 true) (1 / 1000) 6) rngFix 0).2.2.2.2.1.2
      (by norm_num [Chromosome.get_sigma, mutChr])).1,
   (sigma_floor libmFix 1 1 1 (mutChr (List.replicate 8 true) (1 / 1000) 6) rngFix 0).2.2.2.2.2.2.2
      (by decide)⟩

/-! ## The bits of one gene -/

theorem substr_replace_before (s t : List Bool) (pos len pos2 len2 : Nat)
    (h : pos2 + len2 ≤ pos) (hs : pos ≤ s.length) :
    substr (replace s pos len t) pos2 len2 = substr s pos2 len2 := by
  unfold substr replace
  have hl : (s.take pos).length = pos := by simp [hs]
  rw [List.append_assoc, List.drop_append_of_le_length (by omega),
    List.take_append_of_le_length (by simp; omega), List.drop_take, List.take_take]
  congr 1
  omega

theorem substr_replace_after (s t : List Bool) (pos pos2 len2 : Nat)
    (h : pos + t.length ≤ pos2) (hs : pos ≤ s.length) :
    substr (replace s pos t.length t) pos2 len2 = substr s pos2 len2 := by
  unfold substr replace
  have hl : (s.take pos ++ t).length = pos + t.length := by simp [hs]
  have e : pos2 = (s.take pos ++ t).length + (pos2 - (pos + t.length)) := by omega
  rw [e, List.drop_append, List.drop_drop, hl]

theorem idx_succ {T : Type} (c : Chromosome T) (i : Nat) (p : BaseParameter T)
    (hp : c.ptr.param[i]? = some p) : c.idx (i + 1) = c.idx i + p.size := by
  unfold Chromosome.idx
  have hi : i < c.ptr.param.length := by
    rcases List.getElem?_eq_some_iff.mp hp with ⟨h, _⟩; exact h
  have hget : c.ptr.param[i] = p := by
    rcases List.getElem?_eq_some_iff.mp hp with ⟨_, h⟩; exact h
  rw [List.take_succ, hp]
  simp

theorem idx_succ_none {T : Type} (c : Chromosome T) (i : Nat)
    (hp : c.ptr.param[i]? = none) : c.idx (i + 1) = c.idx i := by
  unfold Chromosome.idx
  rw [List.take_succ, hp]
  simp

theorem idx_mono {T : Type} (c : Chromosome T) (i j : Nat) (h : i ≤ j) : c.idx i ≤ c.idx j := by
  induction j with
  | zero =>
    have : i = 0 := by omega
    rw [this]
  | succ k ih =>
    rcases Nat.lt_or_ge i (k + 1) with hlt | hge
    · have h1 := ih (by omega)
      cases hp : c.ptr.param[k]? with
      | none => rw [idx_succ_none c k hp]; exact h1
      | some p => rw [idx_succ c k p hp]; omega
    · have : i = k + 1 := by omega
      rw [this]

theorem idx_le_size {T : Type} (c : Chromosome T) (i : Nat) : c.idx i ≤ c.size := by
  have h := idx_mono c i (max i c.ptr.param.length) (le_max_left _ _)
  have e : c.idx (max i c.ptr.param.length) = c.size := by
    unfold Chromosome.idx Chromosome.size
    rw [List.take_of_length_le (le_max_right _ _)]
  omega

theorem gene_of_param {T : Type} (c : Chromosome T) (i : Nat) (p : BaseParameter T)
    (hp : c.ptr.param[i]? = some p) : c.gene i = substr c.chr (c.idx i) p.size := by
  unfold Chromosome.gene
  rw [hp]

theorem gene_length {T : Type} (c : Chromosome T) (i : Nat) (p : BaseParameter T)
    (hp : c.ptr.param[i]? = some p) (hwf : c.chr.length = c.size) :
    (c.gene i).length = p.size := by
  rw [gene_of_param c i p hp]
  have h := idx_add_size_le c i p hp
  unfold substr
  simp
  omega

theorem get_value_eq_decode_gene {T : Type} [Inhabited T] (c : Chromosome T) (i : Nat)
    (p : BaseParameter T) (hp : c.ptr.param[i]? = some p) :
    c.get_value i = p.decode (c.gene i) := by
  unfold Chromosome.get_value Chromosome.gene
  rw [hp]

theorem gene_initGene_same {T : Type} (c : Chromosome T) (i : Nat) (x : T)
    (p : BaseParameter T) (hp : c.ptr.param[i]? = some p)
    (hlen : (p.encode x).length = p.size) (hidx : c.idx i ≤ c.chr.length) :
    (c.initGene i x).gene i = p.encode x := by
  have hp2 : (c.initGene i x).ptr.param[i]? = some p := by rw [initGene_ptr]; exact hp
  rw [gene_of_param _ i p hp2, initGene_idx]
  unfold Chromosome.initGene
  rw [hp]
  simp only
  rw [← hlen]
  exact substr_replace _ _ _ hidx

theorem gene_initGene_other {T : Type} (c : Chromosome T) (i j : Nat) (x : T)
    (hij : j ≠ i)
    (henc : ∀ p, c.ptr.param[i]? = some p → (p.encode x).length = p.size)
    (hidx : c.idx i ≤ c.chr.length) :
    (c.initGene i x).gene j = c.gene j := by
  cases hq : c.ptr.param[j]? with
  | none =>
    unfold Chromosome.gene
    rw [initGene_ptr, hq]
  | some q =>
    have hq2 : (c.initGene i x).ptr.param[j]? = some q := by rw [initGene_ptr]; exact hq
    rw [gene_of_param _ j q hq2, gene_of_param c j q hq, initGene_idx]
    cases hp : c.ptr.param[i]? with
    | none =>
      unfold Chromosome.initGene
      rw [hp]
    | some p =>
      have hl := henc p hp
      unfold Chromosome.initGene
      rw [hp]
      simp only
      rcases Nat.lt_or_gt_of_ne hij with hlt | hgt
      · apply substr_replace_before _ _ _ _ _ _ _ hidx
        have h1 := idx_succ c j q hq
        have h2 := idx_mono c (j + 1) i (by omega)
        omega
      · apply substr_replace_after _ _ _ _ _ _ hidx
        have h1 := idx_succ c i p hp
        have h2 := idx_mono c (i + 1) j (by omega)
        omega

theorem initGene_chr_length_ge {T : Type} (c : Chromosome T) (i : Nat) (x : T)
    (henc : ∀ p, c.ptr.param[i]? = some p → (p.encode x).length = p.size)
    (hidx : c.idx i ≤ c.chr.length) :
    c.idx (i + 1) ≤ (c.initGene i x).chr.length ∧ c.chr.length ≤ (c.initGene i x).chr.length := by
  cases hp : c.ptr.param[i]? with
  | none =>
    rw [idx_succ_none c i hp]
    unfold Chromosome.initGene
    rw [hp]
    exact ⟨hidx, le_refl _⟩
  | some p =>
    have hl := henc p hp
    rw [idx_succ c i p hp]
    unfold Chromosome.initGene
    rw [hp]
    simp only [replace, List.length_append, List.length_take, List.length_drop]
    omega

/-- A pass of `initGene` over the genes `s, s+1, ..., s+m-1`, in this order, on a bit
string that already reaches the first bit of gene `s`: the genes before `s` keep their
bits and the genes of the pass hold the encoded values. -/
theorem initGene_pass {T : Type} (v : Nat → T) (m : Nat) : ∀ (s : Nat) (c : Chromosome T),
    (∀ (i : Nat) (p : BaseParameter T) (x : T),
      c.ptr.param[i]? = some p → (p.encode x).length = p.size) →
    c.idx s ≤ c.chr.length →
    ((List.range' s m).foldl (fun c i => c.initGene i (v i)) c).ptr = c.ptr ∧
    c.idx (s + m) ≤ ((List.range' s m).foldl (fun c i => c.initGene i (v i)) c).chr.length ∧
    c.chr.length ≤ ((List.range' s m).foldl (fun c i => c.initGene i (v i)) c).chr.length ∧
    (∀ i, i < s →
      ((List.range' s m).foldl (fun c i => c.initGene i (v i)) c).gene i = c.gene i) ∧
    (∀ (i : Nat) (p : BaseParameter T), s ≤ i → i < s + m → c.ptr.param[i]? = some p →
      ((List.range' s m).foldl (fun c i => c.initGene i (v i)) c).gene i = p.encode (v i)) := by
  induction m with
  | zero =>
    intro s c _ hlen
    exact ⟨rfl, hlen, le_refl _, fun _ _ => rfl, fun i p h1 h2 _ => by omega⟩
  | succ k ih =>
    intro s c henc hlen
    rw [List.range'_succ, List.foldl_cons]
    have hptr := initGene_ptr c s (v s)
    have hg := initGene_chr_length_ge c s (v s) (fun p hp => henc s p (v s) hp) hlen
    have henc2 : ∀ (i : Nat) (p : BaseParameter T) (x : T),
        (c.initGene s (v s)).ptr.param[i]? = some p → (p.encode x).length = p.size := by
      intro i p x hp
      rw [hptr] at hp
      exact henc i p x hp
    have hidx2 : (c.initGene s (v s)).idx (s + 1) ≤ (c.initGene s (v s)).chr.length := by
      rw [initGene_idx]; exact hg.1
    obtain ⟨a1, a2, a3, a4, a5⟩ := ih (s + 1) (c.initGene s (v s)) henc2 hidx2
    refine ⟨a1.trans hptr, ?_, le_trans hg.2 a3, ?_, ?_⟩
    · rw [initGene_idx] at a2
      have : s + 1 + k = s + (k + 1) := by omega
      rw [this] at a2
      exact a2
    · intro i hi
      rw [a4 i (by omega)]
      exact gene_initGene_other c s i (v s) (by omega) (fun p hp => henc s p (v s) hp) hlen
    · intro i p h1 h2 hp
      rcases Nat.eq_or_lt_of_le h1 with heq | hlt
      · subst heq
        rw [a4 s (by omega)]
        exact gene_initGene_same c s (v s) p hp (henc s p (v s) hp) hlen
      · exact a5 i p (by omega) (by omega) (by rw [hptr]; exact hp)

theorem transmit_sigma_chr {T : Type} (c chrmat1 chrmat2 : Chromosome T) :
    (transmit_sigma c chrmat1 chrmat2).chr = c.chr ∧
    (transmit_sigma c chrmat1 chrmat2).ptr = c.ptr := by
  unfold transmit_sigma
  exact foldl_invariant (fun (d : Chromosome T) => d.chr = c.chr ∧ d.ptr = c.ptr)
    (fun d i => d.sigma_update i (0.5 * (chrmat1.get_sigma i + chrmat2.get_sigma i)))
    (List.range c.nbgene) c ⟨rfl, rfl⟩ (fun b a h => h)

theorem gene_congr {T : Type} (c d : Chromosome T) (hchr : c.chr = d.chr) (hptr : c.ptr = d.ptr)
    (i : Nat) : c.gene i = d.gene i := by
  unfold Chromosome.gene Chromosome.idx
  rw [hchr, hptr]

theorem transmit_sigma_gene {T : Type} (c chrmat1 chrmat2 : Chromosome T) (i : Nat) :
    (transmit_sigma c chrmat1 chrmat2).gene i = c.gene i :=
  gene_congr _ _ (transmit_sigma_chr c chrmat1 chrmat2).1 (transmit_sigma_chr c chrmat1 chrmat2).2 i

/-! ## Grid points are fixed points -/

theorem GetValue_inj : ∀ (s t : List Bool), s.length = t.length → GetValue s = GetValue t → s = t
  | [], [], _, _ => rfl
  | [], _ :: _, h, _ => by simp at h
  | _ :: _, [], h, _ => by simp at h
  | a :: s, b :: t, h, hv => by
    have hl : s.length = t.length := by simpa using h
    rw [GetValue_cons, GetValue_cons, hl] at hv
    have h1 := GetValue_lt s
    have h2 := GetValue_lt t
    rw [hl] at h1
    have hp : 0 < 2 ^ t.length := Nat.two_pow_pos _
    have hab : a = b := by
      cases a <;> cases b <;> simp at hv ⊢ <;> omega
    subst hab
    have hst : GetValue s = GetValue t := by omega
    rw [GetValue_inj s t hl hst]

/-! ## Arithmetic cross-over: the genes copied from the own parent -/

theorem idx_congr {T : Type} (c d : Chromosome T) (hptr : c.ptr = d.ptr) (i : Nat) :
    c.idx i = d.idx i := by
  unfold Chromosome.idx
  rw [hptr]

/-- The two loops of the simple arithmetic recombination on one offspring: the genes
before `pos` hold the encoded `own` values. -/
theorem copy_then_blend {T : Type} (chr : Chromosome T) (own bl : Nat → T) (pos n : Nat)
    (henc : ∀ (i : Nat) (p : BaseParameter T) (x : T),
      chr.ptr.param[i]? = some p → (p.encode x).length = p.size) :
    ((List.range' pos n).foldl (fun c i => c.initGene i (bl i))
      ((List.range pos).foldl (fun c i => c.initGene i (own i)) chr)).ptr = chr.ptr ∧
    ∀ (i : Nat) (p : BaseParameter T), i < pos → chr.ptr.param[i]? = some p →
      ((List.range' pos n).foldl (fun c i => c.initGene i (bl i))
        ((List.range pos).foldl (fun c i => c.initGene i (own i)) chr)).gene i
        = p.encode (own i) := by
  rw [List.range_eq_range']
  have h0 : chr.idx 0 ≤ chr.chr.length := by simp [Chromosome.idx]
  obtain ⟨a1, a2, _, _, a5⟩ := initGene_pass own pos 0 chr henc h0
  have henc2 : ∀ (i : Nat) (p : BaseParameter T) (x : T),
      ((List.range' 0 pos).foldl (fun c i => c.initGene i (own i)) chr).ptr.param[i]? = some p →
      (p.encode x).length = p.size := by
    intro i p x hp
    rw [a1] at hp
    exact henc i p x hp
  have hidx : ((List.range' 0 pos).foldl (fun c i => c.initGene i (own i)) chr).idx pos
      ≤ ((List.range' 0 pos).foldl (fun c i => c.initGene i (own i)) chr).chr.length := by
    rw [idx_congr _ chr a1]
    simpa using a2
  obtain ⟨b1, _, _, b4, _⟩ := initGene_pass bl n pos _ henc2 hidx
  refine ⟨b1.trans a1, ?_⟩
  intro i p hi hp
  rw [b4 i hi]
  exact a5 i p (Nat.zero_le _) (by omega) hp

/-- The loop of the single arithmetic recombination on one offspring, followed by the
`initGene` of gene `pos`: the other genes hold the encoded `own` values. -/
theorem copy_then_one {T : Type} (chr : Chromosome T) (own : Nat → T) (pos : Nat) (b : T)
    (henc : ∀ (i : Nat) (p : BaseParameter T) (x : T),
      chr.ptr.param[i]? = some p → (p.encode x).length = p.size) :
    (((List.range chr.nbgene).foldl (fun c i => c.initGene i (own i)) chr).initGene pos b).ptr
      = chr.ptr ∧
    ∀ (i : Nat) (p : BaseParameter T), i ≠ pos → chr.ptr.param[i]? = some p →
      (((List.range chr.nbgene).foldl (fun c i => c.initGene i (own i)) chr).initGene pos b).gene i
        = p.encode (own i) := by
  rw [List.range_eq_range']
  have h0 : chr.idx 0 ≤ chr.chr.length := by simp [Chromosome.idx]
  obtain ⟨a1, a2, _, _, a5⟩ := initGene_pass own chr.nbgene 0 chr henc h0
  refine ⟨(initGene_ptr _ _ _).trans a1, ?_⟩
  intro i p hi hp
  have hin : i < chr.nbgene := by
    rcases List.getElem?_eq_some_iff.mp hp with ⟨h, _⟩; exact h
  have hidx : ((List.range' 0 chr.nbgene).foldl (fun c i => c.initGene i (own i)) chr).idx pos
      ≤ ((List.range' 0 chr.nbgene).foldl (fun c i => c.initGene i (own i)) chr).chr.length := by
    rw [idx_congr _ chr a1]
    have e : chr.idx (0 + chr.nbgene) = chr.size := by
      unfold Chromosome.idx Chromosome.size Chromosome.nbgene
      rw [Nat.zero_add, List.take_of_length_le (le_refl _)]
    rw [e] at a2
    exact le_trans (idx_le_size chr pos) a2
  rw [gene_initGene_other _ pos i b hi
    (fun q hq => henc pos q b (by rw [a1] at hq; exact hq)) hidx]
  exact a5 i p (Nat.zero_le _) (by omega) hp

theorem toBase_encode_length (P : Parameter ℚ) (hN : P.N ≤ 64) (x : ℚ) :
    (P.toBase.encode x).length = P.toBase.size := by
  show (P.encode x).length = P.N
  rw [encode_eq_toBits P x hN, toBits_length]

/-! ## Bit cross-over -/

theorem replace_append (P R t : List Bool) (len : Nat) :
    replace (P ++ R) P.length len t = P ++ t ++ R.drop len := by
  unfold replace
  rw [List.take_left', List.drop_append]
  rfl

theorem replace_zero (C t : List Bool) (len : Nat) :
    replace C 0 len t = t ++ C.drop len := by
  have h := replace_append [] C t len
  simpa using h

theorem getD_append_take_drop (A B : List Bool) (n k : Nat) (hA : n ≤ A.length) :
    (A.take n ++ B.drop n).getD k false = if k < n then A.getD k false else B.getD k false := by
  have hl : (A.take n).length = n := by simp [hA]
  by_cases hk : k < n
  · rw [if_pos hk, List.getD_eq_getElem?_getD, List.getD_eq_getElem?_getD,
      List.getElem?_append_left (by omega), List.getElem?_take_of_lt hk]
  · rw [if_neg hk, List.getD_eq_getElem?_getD, List.getD_eq_getElem?_getD,
      List.getElem?_append_right (by omega), hl, List.getElem?_drop]
    congr 2
    omega

/-- The bit string of an offspring of `P1XO`. -/
theorem P1XO_chr (A B C : List Bool) (L pos : Nat) (hA : A.length = L) (hB : B.length = L)
    (hC : C.length ≤ L) (hpos : pos < L) :
    replace (replace C 0 (pos + 1 - 0) (substr A 0 (pos + 1 - 0))) (pos + 1) L
      (substr B (pos + 1) L) = A.take (pos + 1) ++ B.drop (pos + 1) := by
  have hl : (A.take (pos + 1)).length = pos + 1 := by simp; omega
  rw [replace_zero]
  unfold substr
  simp only [Nat.sub_zero, List.drop_zero]
  have h := replace_append (A.take (pos + 1)) (C.drop (pos + 1)) ((B.drop (pos + 1)).take L) L
  rw [hl] at h
  rw [h]
  have e1 : (C.drop (pos + 1)).drop L = [] := by
    apply List.drop_eq_nil_of_le
    simp
    omega
  have e2 : (B.drop (pos + 1)).take L = B.drop (pos + 1) := by
    apply List.take_of_length_le
    simp
    omega
  rw [e1, e2, List.append_nil]

/-- The bit string of an offspring of `P2XO`. -/
theorem P2XO_chr (A B C : List Bool) (L m M : Nat) (hA : A.length = L) (hB : B.length = L)
    (hC : C.length ≤ L) (hm : m ≤ M) (hM : M < L) :
    replace (replace (replace C 0 (m + 1 - 0) (substr A 0 (m + 1 - 0))) (m + 1)
        (M + 1 - (m + 1)) (substr B (m + 1) (M + 1 - (m + 1)))) (M + 1) L
      (substr A (M + 1) L)
      = A.take (m + 1) ++ (B.drop (m + 1)).take (M - m) ++ A.drop (M + 1) := by
  have hl : (A.take (m + 1)).length = m + 1 := by simp; omega
  rw [replace_zero]
  unfold substr
  simp only [Nat.sub_zero, List.drop_zero]
  have h := replace_append (A.take (m + 1)) (C.drop (m + 1))
    ((B.drop (m + 1)).take (M + 1 - (m + 1))) (M + 1 - (m + 1))
  rw [hl] at h
  rw [h]
  have e0 : M + 1 - (m + 1) = M - m := by omega
  rw [e0]
  have hl2 : (A.take (m + 1) ++ (B.drop (m + 1)).take (M - m)).length = M + 1 := by
    simp
    omega
  have h2 := replace_append (A.take (m + 1) ++ (B.drop (m + 1)).take (M - m))
    ((C.drop (m + 1)).drop (M - m)) ((A.drop (M + 1)).take L) L
  rw [hl2] at h2
  rw [h2]
  have e1 : ((C.drop (m + 1)).drop (M - m)).drop L = [] := by
    apply List.drop_eq_nil_of_le
    simp
    omega
  have e2 : (A.drop (M + 1)).take L = A.drop (M + 1) := by
    apply List.take_of_length_le
    simp
    omega
  rw [e1, e2, List.append_nil]

theorem getD_three_bands (A B : List Bool) (L m M k : Nat) (hA : A.length = L)
    (hB : B.length = L) (hm : m ≤ M) (hM : M < L) :
    (A.take (m + 1) ++ (B.drop (m + 1)).take (M - m) ++ A.drop (M + 1)).getD k false
      = if k ≤ m then A.getD k false else if k ≤ M then B.getD k false else A.getD k false := by
  have hl1 : (A.take (m + 1)).length = m + 1 := by simp; omega
  have hl2 : ((B.drop (m + 1)).take (M - m)).length = M - m := by simp; omega
  by_cases h1 : k ≤ m
  · rw [if_pos h1, List.getD_eq_getElem?_getD, List.getD_eq_getElem?_getD,
      List.append_assoc, List.getElem?_append_left (by omega),
      List.getElem?_take_of_lt (by omega)]
  · rw [if_neg h1]
    by_cases h2 : k ≤ M
    · rw [if_pos h2, List.getD_eq_getElem?_getD, List.getD_eq_getElem?_getD,
        List.append_assoc, List.getElem?_append_right (by omega), hl1,
        List.getElem?_append_left (by omega), List.getElem?_take_of_lt (by omega),
        List.getElem?_drop]
      congr 2
      omega
    · rw [if_neg h2, List.getD_eq_getElem?_getD, List.getD_eq_getElem?_getD,
        List.getElem?_append_right (by simp; omega), List.getElem?_drop]
      congr 2
      simp
      omega

theorem three_bands_length (A B : List Bool) (L m M : Nat) (hA : A.length = L)
    (hB : B.length = L) (hm : m ≤ M) (hM : M < L) :
    (A.take (m + 1) ++ (B.drop (m + 1)).take (M - m) ++ A.drop (M + 1)).length = L := by
  simp
  omega

theorem three_bands_same (A B : List Bool) (m : Nat) :
    A.take (m + 1) ++ (B.drop (m + 1)).take (m - m) ++ A.drop (m + 1) = A := by
  simp

/-- The bit strings of the two offspring after the loop of `UXO`. -/
theorem UXO_loop {T : Type} (chrmat1 chrmat2 : Chromosome T) (proba : Nat → ℚ) (l : List Nat) :
    ∀ (cs : Chromosome T × Chromosome T),
    ((l.foldl (fun (cs : Chromosome T × Chromosome T) j =>
      if proba j < 0.50 then
        (cs.1.addBit (chrmat1.getBit j), cs.2.addBit (chrmat2.getBit j))
      else
        (cs.1.addBit (chrmat2.getBit j), cs.2.addBit (chrmat1.getBit j))) cs).1.chr
      = cs.1.chr ++ l.map (fun j =>
          if proba j < 0.50 then chrmat1.getBit j else chrmat2.getBit j)) ∧
    ((l.foldl (fun (cs : Chromosome T × Chromosome T) j =>
      if proba j < 0.50 then
        (cs.1.addBit (chrmat1.getBit j), cs.2.addBit (chrmat2.getBit j))
      else
        (cs.1.addBit (chrmat2.getBit j), cs.2.addBit (chrmat1.getBit j))) cs).2.chr
      = cs.2.chr ++ l.map (fun j =>
          if proba j < 0.50 then chrmat2.getBit j else chrmat1.getBit j)) := by
  induction l with
  | nil => intro cs; simp
  | cons a t ih =>
    intro cs
    rw [List.foldl_cons]
    by_cases hp : proba a < 0.50
    · simp only [hp, if_true]
      obtain ⟨i1, i2⟩ := ih (cs.1.addBit (chrmat1.getBit a), cs.2.addBit (chrmat2.getBit a))
      rw [i1, i2]
      simp [Chromosome.addBit, hp]
    · simp only [hp, if_false]
      obtain ⟨i1, i2⟩ := ih (cs.1.addBit (chrmat2.getBit a), cs.2.addBit (chrmat1.getBit a))
      rw [i1, i2]
      simp [Chromosome.addBit, hp]

theorem getD_of_length_le (A : List Bool) (k : Nat) (h : A.length ≤ k) :
    A.getD k false = false := by
  rw [List.getD_eq_getElem?_getD, List.getElem?_eq_none h]
  rfl

theorem getD_map_range (f : Nat → Bool) (L k : Nat) :
    ((List.range L).map f).getD k false = if k < L then f k else false := by
  by_cases h : k < L
  · rw [if_pos h, List.getD_eq_getElem?_getD]
    simp [h]
  · rw [if_neg h]
    exact getD_of_length_le _ k (by simp; omega)

/-- Two pairs of bit strings of the same length whose bits at every position are the
same two bits, in the same or in the opposite order, carry the same number of `1`. -/
theorem count_of_swaps : ∀ (O1 O2 A B : List Bool),
    O1.length = A.length → O2.length = A.length → B.length = A.length →
    (∀ j, (O1.getD j false = A.getD j false ∧ O2.getD j false = B.getD j false) ∨
      (O1.getD j false = B.getD j false ∧ O2.getD j false = A.getD j false)) →
    O1.count true + O2.count true = A.count true + B.count true
  | [], [], [], [], _, _, _, _ => rfl
  | o1 :: O1, o2 :: O2, a :: A, b :: B, h1, h2, h3, h => by
    have ih := count_of_swaps O1 O2 A B (by simpa using h1) (by simpa using h2)
      (by simpa using h3) (fun j => by simpa using h (j + 1))
    have h0 := h 0
    simp only [List.getD_cons_zero] at h0
    simp only [List.count_cons]
    rcases h0 with ⟨e1, e2⟩ | ⟨e1, e2⟩ <;> subst e1 <;> subst e2 <;>
      cases o1 <;> cases o2 <;> simp <;> omega
  | [], _ :: _, [], _, _, h2, _, _ => by simp at h2
  | [], _, _ :: _, _, h1, _, _, _ => by simp at h1
  | _ :: _, _, [], _, h1, _, _, _ => by simp at h1
  | [], [], [], _ :: _, _, _, h3, _ => by simp at h3
  | _ :: _, [], _ :: _, _, _, h2, _, _ => by simp at h2
  | _ :: _, _ :: _, _ :: _, [], _, _, h3, _ => by simp at h3

theorem P1XO_bits {T : Type} (x : Population T) (chr1 chr2 chrmat1 chrmat2 : Chromosome T)
    (idx1 idx2 pos L : Nat)
    (h1 : x.mat idx1 = some chrmat1) (h2 : x.mat idx2 = some chrmat2)
    (hs1 : chr1.size = L) (hs2 : chr2.size = L)
    (hps1 : chrmat1.size = L) (hps2 : chrmat2.size = L)
    (hA : chrmat1.chr.length = L) (hB : chrmat2.chr.length = L)
    (hC1 : chr1.chr.length ≤ L) (hC2 : chr2.chr.length ≤ L) (hpos : pos < L) :
    ∃ o1 o2, P1XO x chr1 chr2 idx1 idx2 pos = some (o1, o2) ∧
      o1.chr = chrmat1.chr.take (pos + 1) ++ chrmat2.chr.drop (pos + 1) ∧
      o2.chr = chrmat2.chr.take (pos + 1) ++ chrmat1.chr.drop (pos + 1) := by
  simp only [P1XO, h1, h2]
  refine ⟨_, _, rfl, ?_, ?_⟩
  · rw [(transmit_sigma_chr _ _ _).1]
    show replace (replace chr1.chr 0 (pos + 1 - 0) (substr chrmat1.chr 0 (pos + 1 - 0)))
      (pos + 1) chr1.size (substr chrmat2.chr (pos + 1) chrmat2.size) = _
    rw [hs1, hps2]
    exact P1XO_chr _ _ _ L pos hA hB hC1 hpos
  · rw [(transmit_sigma_chr _ _ _).1]
    show replace (replace chr2.chr 0 (pos + 1 - 0) (substr chrmat2.chr 0 (pos + 1 - 0)))
      (pos + 1) chr2.size (substr chrmat1.chr (pos + 1) chrmat1.size) = _
    rw [hs2, hps1]
    exact P1XO_chr _ _ _ L pos hB hA hC2 hpos

theorem P2XO_bits {T : Type} (x : Population T) (chr1 chr2 chrmat1 chrmat2 : Chromosome T)
    (idx1 idx2 pos1 pos2 L : Nat)
    (h1 : x.mat idx1 = some chrmat1) (h2 : x.mat idx2 = some chrmat2)
    (hs1 : chr1.size = L) (hs2 : chr2.size = L)
    (hps1 : chrmat1.size = L) (hps2 : chrmat2.size = L)
    (hA : chrmat1.chr.length = L) (hB : chrmat2.chr.length = L)
    (hC1 : chr1.chr.length ≤ L) (hC2 : chr2.chr.length ≤ L)
    (hpos1 : pos1 < L) (hpos2 : pos2 < L) :
    ∃ o1 o2, P2XO x chr1 chr2 idx1 idx2 pos1 pos2 = some (o1, o2) ∧
      o1.chr = chrmat1.chr.take (min pos1 pos2 + 1)
        ++ (chrmat2.chr.drop (min pos1 pos2 + 1)).take (max pos1 pos2 - min pos1 pos2)
        ++ chrmat1.chr.drop (max pos1 pos2 + 1) ∧
      o2.chr = chrmat2.chr.take (min pos1 pos2 + 1)
        ++ (chrmat1.chr.drop (min pos1 pos2 + 1)).take (max pos1 pos2 - min pos1 pos2)
        ++ chrmat2.chr.drop (max pos1 pos2 + 1) := by
  have hm : min pos1 pos2 ≤ max pos1 pos2 := le_trans (min_le_left _ _) (le_max_left _ _)
  have hM : max pos1 pos2 < L := max_lt hpos1 hpos2
  simp only [P2XO, h1, h2]
  refine ⟨_, _, rfl, ?_, ?_⟩
  · rw [(transmit_sigma_chr _ _ _).1]
    show replace (replace (replace chr1.chr 0 (min pos1 pos2 + 1 - 0)
        (substr chrmat1.chr 0 (min pos1 pos2 + 1 - 0))) (min pos1 pos2 + 1)
        (max pos1 pos2 + 1 - (min pos1 pos2 + 1))
        (substr chrmat2.chr (min pos1 pos2 + 1) (max pos1 pos2 + 1 - (min pos1 pos2 + 1))))
      (max pos1 pos2 + 1) chr1.size (substr chrmat1.chr (max pos1 pos2 + 1) chrmat1.size) = _
    rw [hs1, hps1]
    exact P2XO_chr _ _ _ L _ _ hA hB hC1 hm hM
  · rw [(transmit_sigma_chr _ _ _).1]
    show replace (replace (replace chr2.chr 0 (min pos1 pos2 + 1 - 0)
        (substr chrmat2.chr 0 (min pos1 pos2 + 1 - 0))) (min pos1 pos2 + 1)
        (max pos1 pos2 + 1 - (min pos1 pos2 + 1))
        (substr chrmat1.chr (min pos1 pos2 + 1) (max pos1 pos2 + 1 - (min pos1 pos2 + 1))))
      (max pos1 pos2 + 1) chr2.size (substr chrmat2.chr (max pos1 pos2 + 1) chrmat2.size) = _
    rw [hs2, hps2]
    exact P2XO_chr _ _ _ L _ _ hB hA hC2 hm hM

theorem UXO_bits {T : Type} (x : Population T) (chr1 chr2 chrmat1 chrmat2 : Chromosome T)
    (idx1 idx2 : Nat) (proba : Nat → ℚ)
    (h1 : x.mat idx1 = some chrmat1) (h2 : x.mat idx2 = some chrmat2)
    (he1 : chr1.chr = []) (he2 : chr2.chr = []) :
    ∃ o1 o2, UXO x chr1 chr2 idx1 idx2 proba = some (o1, o2) ∧
      o1.chr = (List.range chr1.size).map (fun j =>
        if proba j < 0.50 then chrmat1.getBit j else chrmat2.getBit j) ∧
      o2.chr = (List.range chr1.size).map (fun j =>
        if proba j < 0.50 then chrmat2.getBit j else chrmat1.getBit j) := by
  simp only [UXO, h1, h2]
  refine ⟨_, _, rfl, ?_, ?_⟩
  · rw [(transmit_sigma_chr _ _ _).1,
      (UXO_loop chrmat1 chrmat2 proba (List.range chr1.size) (chr1, chr2)).1, he1,
      List.nil_append]
  · rw [(transmit_sigma_chr _ _ _).1,
      (UXO_loop chrmat1 chrmat2 proba (List.range chr1.size) (chr1, chr2)).2, he2,
      List.nil_append]

theorem size_congr {T : Type} (c d : Chromosome T) (h : c.ptr = d.ptr) : c.size = d.size := by
  unfold Chromosome.size
  rw [h]

theorem P1XO_law {T : Type} (x : Population T) (ga : GeneticAlgorithm T)
    (chr1 chr2 chrmat1 chrmat2 : Chromosome T) (idx1 idx2 pos : Nat)
    (h1 : x.mat idx1 = some chrmat1) (h2 : x.mat idx2 = some chrmat2)
    (hc1 : chr1.ptr = ga) (hc2 : chr2.ptr = ga)
    (hm1 : chrmat1.ptr = ga) (hm2 : chrmat2.ptr = ga)
    (hw1 : chrmat1.chr.length = chrmat1.size) (hw2 : chrmat2.chr.length = chrmat2.size)
    (hf1 : chr1.chr.length ≤ chr1.size) (hf2 : chr2.chr.length ≤ chr2.size)
    (hpos : pos < chr1.size) :
    ∃ o1 o2, P1XO x chr1 chr2 idx1 idx2 pos = some (o1, o2) ∧
      o1.chr.length = chr1.size ∧ o2.chr.length = chr1.size ∧
      (∀ k, k ≤ pos → o1.getBit k = chrmat1.getBit k ∧ o2.getBit k = chrmat2.getBit k) ∧
      (∀ k, pos < k → o1.getBit k = chrmat2.getBit k ∧ o2.getBit k = chrmat1.getBit k) ∧
      (pos = chr1.size - 1 → o1.chr = chrmat1.chr ∧ o2.chr = chrmat2.chr) := by
  have e2 : chr2.size = chr1.size := size_congr _ _ (hc2.trans hc1.symm)
  have e3 : chrmat1.size = chr1.size := size_congr _ _ (hm1.trans hc1.symm)
  have e4 : chrmat2.size = chr1.size := size_congr _ _ (hm2.trans hc1.symm)
  have hA : chrmat1.chr.length = chr1.size := hw1.trans e3
  have hB : chrmat2.chr.length = chr1.size := hw2.trans e4
  obtain ⟨o1, o2, hr, b1, b2⟩ := P1XO_bits x chr1 chr2 chrmat1 chrmat2 idx1 idx2 pos chr1.size
    h1 h2 rfl e2 e3 e4 hA hB hf1 (by rw [← e2]; exact hf2) hpos
  refine ⟨o1, o2, hr, ?_, ?_, ?_, ?_, ?_⟩
  · rw [b1]; simp; omega
  · rw [b2]; simp; omega
  · intro k hk
    unfold Chromosome.getBit
    rw [b1, b2, getD_append_take_drop _ _ _ _ (by omega),
      getD_append_take_drop _ _ _ _ (by omega), if_pos (by omega), if_pos (by omega)]
    exact ⟨rfl, rfl⟩
  · intro k hk
    unfold Chromosome.getBit
    rw [b1, b2, getD_append_take_drop _ _ _ _ (by omega),
      getD_append_take_drop _ _ _ _ (by omega), if_neg (by omega), if_neg (by omega)]
    exact ⟨rfl, rfl⟩
  · intro hp
    rw [b1, b2]
    have t1 : chrmat1.chr.take (pos + 1) = chrmat1.chr := List.take_of_length_le (by omega)
    have t2 : chrmat2.chr.take (pos + 1) = chrmat2.chr := List.take_of_length_le (by omega)
    have d1 : chrmat1.chr.drop (pos + 1) = [] := List.drop_eq_nil_of_le (by omega)
    have d2 : chrmat2.chr.drop (pos + 1) = [] := List.drop_eq_nil_of_le (by omega)
    rw [t1, t2, d1, d2, List.append_nil, List.append_nil]
    exact ⟨rfl, rfl⟩

theorem P2XO_law {T : Type} (x : Population T) (ga : GeneticAlgorithm T)
    (chr1 chr2 chrmat1 chrmat2 : Chromosome T) (idx1 idx2 pos1 pos2 : Nat)
    (h1 : x.mat idx1 = some chrmat1) (h2 : x.mat idx2 = some chrmat2)
    (hc1 : chr1.ptr = ga) (hc2 : chr2.ptr = ga)
    (hm1 : chrmat1.ptr = ga) (hm2 : chrmat2.ptr = ga)
    (hw1 : chrmat1.chr.length = chrmat1.size) (hw2 : chrmat2.chr.length = chrmat2.size)
    (hf1 : chr1.chr.length ≤ chr1.size) (hf2 : chr2.chr.length ≤ chr2.size)
    (hpos1 : pos1 < chr1.size) (hpos2 : pos2 < chr1.size) :
    ∃ o1 o2, P2XO x chr1 chr2 idx1 idx2 pos1 pos2 = some (o1, o2) ∧
      P2XO x chr1 chr2 idx1 idx2 pos2 pos1 = some (o1, o2) ∧
      o1.chr.length = chr1.size ∧ o2.chr.length = chr1.size ∧
      (∀ k, o1.getBit k = if k ≤ min pos1 pos2 then chrmat1.getBit k
        else if k ≤ max pos1 pos2 then chrmat2.getBit k else chrmat1.getBit k) ∧
      (∀ k, o2.getBit k = if k ≤ min pos1 pos2 then chrmat2.getBit k
        else if k ≤ max pos1 pos2 then chrmat1.getBit k else chrmat2.getBit k) ∧
      (min pos1 pos2 = max pos1 pos2 → o1.chr = chrmat1.chr ∧ o2.chr = chrmat2.chr) := by
  have e2 : chr2.size = chr1.size := size_congr _ _ (hc2.trans hc1.symm)
  have e3 : chrmat1.size = chr1.size := size_congr _ _ (hm1.trans hc1.symm)
  have e4 : chrmat2.size = chr1.size := size_congr _ _ (hm2.trans hc1.symm)
  have hA : chrmat1.chr.length = chr1.size := hw1.trans e3
  have hB : chrmat2.chr.length = chr1.size := hw2.trans e4
  have hm : min pos1 pos2 ≤ max pos1 pos2 := le_trans (min_le_left _ _) (le_max_left _ _)
  have hM : max pos1 pos2 < chr1.size := max_lt hpos1 hpos2
  obtain ⟨o1, o2, hr, b1, b2⟩ := P2XO_bits x chr1 chr2 chrmat1 chrmat2 idx1 idx2 pos1 pos2
    chr1.size h1 h2 rfl e2 e3 e4 hA hB hf1 (by rw [← e2]; exact hf2) hpos1 hpos2
  have hsym : P2XO x chr1 chr2 idx1 idx2 pos2 pos1 = P2XO x chr1 chr2 idx1 idx2 pos1 pos2 := by
    unfold P2XO
    rw [min_comm pos2 pos1, max_comm pos2 pos1]
  refine ⟨o1, o2, hr, hsym.trans hr, ?_, ?_, ?_, ?_, ?_⟩
  · rw [b1]; exact three_bands_length _ _ _ _ _ hA hB hm hM
  · rw [b2]; exact three_bands_length _ _ _ _ _ hB hA hm hM
  · intro k
    unfold Chromosome.getBit
    rw [b1]
    exact getD_three_bands _ _ _ _ _ k hA hB hm hM
  · intro k
    unfold Chromosome.getBit
    rw [b2]
    exact getD_three_bands _ _ _ _ _ k hB hA hm hM
  · intro he
    rw [b1, b2, ← he]
    exact ⟨three_bands_same _ _ _, three_bands_same _ _ _⟩

theorem UXO_law {T : Type} (x : Population T) (ga : GeneticAlgorithm T)
    (chr1 chr2 chrmat1 chrmat2 : Chromosome T) (idx1 idx2 : Nat) (proba : Nat → ℚ)
    (h1 : x.mat idx1 = some chrmat1) (h2 : x.mat idx2 = some chrmat2)
    (hc1 : chr1.ptr = ga) (hm1 : chrmat1.ptr = ga) (hm2 : chrmat2.ptr = ga)
    (hw1 : chrmat1.chr.length = chrmat1.size) (hw2 : chrmat2.chr.length = chrmat2.size)
    (he1 : chr1.chr = []) (he2 : chr2.chr = []) :
    ∃ o1 o2, UXO x chr1 chr2 idx1 idx2 proba = some (o1, o2) ∧
      o1.chr.length = chr1.size ∧ o2.chr.length = chr1.size ∧
      (∀ j, proba j < 0.50 → o1.getBit j = chrmat1.getBit j ∧ o2.getBit j = chrmat2.getBit j) ∧
      (∀ j, ¬ proba j < 0.50 →
        o1.getBit j = chrmat2.getBit j ∧ o2.getBit j = chrmat1.getBit j) := by
  have e3 : chrmat1.size = chr1.size := size_congr _ _ (hm1.trans hc1.symm)
  have e4 : chrmat2.size = chr1.size := size_congr _ _ (hm2.trans hc1.symm)
  have hA : chrmat1.chr.length = chr1.size := hw1.trans e3
  have hB : chrmat2.chr.length = chr1.size := hw2.trans e4
  obtain ⟨o1, o2, hr, b1, b2⟩ := UXO_bits x chr1 chr2 chrmat1 chrmat2 idx1 idx2 proba h1 h2
    he1 he2
  have out1 : ∀ j, ¬ j < chr1.size → chrmat1.getBit j = false :=
    fun j hj => getD_of_length_le _ j (by omega)
  have out2 : ∀ j, ¬ j < chr1.size → chrmat2.getBit j = false :=
    fun j hj => getD_of_length_le _ j (by omega)
  have g1 : ∀ j, o1.getBit j = if j < chr1.size then
      (if proba j < 0.50 then chrmat1.getBit j else chrmat2.getBit j) else false := by
    intro j; unfold Chromosome.getBit; rw [b1]; exact getD_map_range _ _ _
  have g2 : ∀ j, o2.getBit j = if j < chr1.size then
      (if proba j < 0.50 then chrmat2.getBit j else chrmat1.getBit j) else false := by
    intro j; unfold Chromosome.getBit; rw [b2]; exact getD_map_range _ _ _
  refine ⟨o1, o2, hr, by rw [b1]; simp, by rw [b2]; simp, ?_, ?_⟩
  · intro j hj
    rw [g1, g2]
    by_cases hl : j < chr1.size
    · simp [hl, hj]
    · simp [hl, out1 j hl, out2 j hl]
  · intro j hj
    rw [g1, g2]
    by_cases hl : j < chr1.size
    · simp [hl, hj]
    · simp [hl, out1 j hl, out2 j hl]

/-- C22: `P1XO`. For two parents of the mating pool with complete bit strings of length
`L`, offspring whose bit strings are not longer than `L`, and every cut `pos` in
`[0, L)`: offspring 1 has the bit `k` of parent `idx1` for every `k ≤ pos` and the one of
parent `idx2` for every `k > pos`, offspring 2 has the bit `k` of parent `idx2` for
`k ≤ pos` and the one of parent `idx1` for `k > pos`; both have length `L`; for
`pos = L - 1` each offspring is a copy of its own parent. -/
theorem P1XO_spec {T : Type} (x : Population T) (ga : GeneticAlgorithm T)
    (chr1 chr2 chrmat1 chrmat2 : Chromosome T) (idx1 idx2 pos : Nat)
    (h1 : x.mat idx1 = some chrmat1) (h2 : x.mat idx2 = some chrmat2)
    (hc1 : chr1.ptr = ga) (hc2 : chr2.ptr = ga)
    (hm1 : chrmat1.ptr = ga) (hm2 : chrmat2.ptr = ga)
    (hw1 : chrmat1.chr.length = chrmat1.size) (hw2 : chrmat2.chr.length = chrmat2.size)
    (hf1 : chr1.chr.length ≤ chr1.size) (hf2 : chr2.chr.length ≤ chr2.size)
    (hpos : pos < chr1.size) :
    ∃ o1 o2, P1XO x chr1 chr2 idx1 idx2 pos = some (o1, o2) ∧
      o1.chr.length = chr1.size ∧ o2.chr.length = chr1.size ∧
      (∀ k, k ≤ pos → o1.getBit k = chrmat1.getBit k ∧ o2.getBit k = chrmat2.getBit k) ∧
      (∀ k, pos < k → o1.getBit k = chrmat2.getBit k ∧ o2.getBit k = chrmat1.getBit k) ∧
      (pos = chr1.size - 1 → o1.chr = chrmat1.chr ∧ o2.chr = chrmat2.chr) :=
  P1XO_law x ga chr1 chr2 chrmat1 chrmat2 idx1 idx2 pos h1 h2 hc1 hc2 hm1 hm2 hw1 hw2 hf1 hf2
    hpos

/-- C22, witness: the parents `00000000` and `11111111`, fresh offspring and the cut
`pos = 3`. -/
theorem P1XO_spec_witness :
    ∃ o1 o2, P1XO scenarioPop (scenarioChr [] 0) (scenarioChr [] 0) 0 1 3 = some (o1, o2) ∧
      o1.chr.length = (scenarioChr [] 0).size ∧ o2.chr.length = (scenarioChr [] 0).size ∧
      (∀ k, k ≤ 3 → o1.getBit k = (scenarioChr (List.replicate 8 false) 2).getBit k ∧
        o2.getBit k = (scenarioChr (List.replicate 8 true) 4).getBit k) ∧
      (∀ k, 3 < k → o1.getBit k = (scenarioChr (List.replicate 8 true) 4).getBit k ∧
        o2.getBit k = (scenarioChr (List.replicate 8 false) 2).getBit k) ∧
      (3 = (scenarioChr [] 0).size - 1 →
        o1.chr = (scenarioChr (List.replicate 8 false) 2).chr ∧
        o2.chr = (scenarioChr (List.replicate 8 true) 4).chr) :=
  P1XO_spec scenarioPop scenarioGA (scenarioChr [] 0) (scenarioChr [] 0)
    (scenarioChr (List.replicate 8 false) 2) (scenarioChr (List.replicate 8 true) 4) 0 1 3
    rfl rfl rfl rfl rfl rfl (by decide) (by decide) (by decide) (by decide) (by decide)

/-- C23: `P2XO`. For two parents of the mating pool with complete bit strings of length
`L`, offspring whose bit strings are not longer than `L`, and two cut draws `pos1`,
`pos2` in `[0, L)` with `m = min(pos1, pos2)` and `M = max(pos1, pos2)`: offspring 1
takes the bits `[0, m]` from parent `idx1`, `[m+1, M]` from parent `idx2` and
`[M+1, L-1]` from parent `idx1`, offspring 2 the same bands from parents `idx2`, `idx1`,
`idx2`; exchanging the two draws gives the same offspring; when `m = M` each offspring
equals its own parent. -/
theorem P2XO_spec {T : Type} (x : Population T) (ga : GeneticAlgorithm T)
    (chr1 chr2 chrmat1 chrmat2 : Chromosome T) (idx1 idx2 pos1 pos2 : Nat)
    (h1 : x.mat idx1 = some chrmat1) (h2 : x.mat idx2 = some chrmat2)
    (hc1 : chr1.ptr = ga) (hc2 : chr2.ptr = ga)
    (hm1 : chrmat1.ptr = ga) (hm2 : chrmat2.ptr = ga)
    (hw1 : chrmat1.chr.length = chrmat1.size) (hw2 : chrmat2.chr.length = chrmat2.size)
    (hf1 : chr1.chr.length ≤ chr1.size) (hf2 : chr2.chr.length ≤ chr2.size)
    (hpos1 : pos1 < chr1.size) (hpos2 : pos2 < chr1.size) :
    ∃ o1 o2, P2XO x chr1 chr2 idx1 idx2 pos1 pos2 = some (o1, o2) ∧
      P2XO x chr1 chr2 idx1 idx2 pos2 pos1 = some (o1, o2) ∧
      o1.chr.length = chr1.size ∧ o2.chr.length = chr1.size ∧
      (∀ k, o1.getBit k = if k ≤ min pos1 pos2 then chrmat1.getBit k
        else if k ≤ max pos1 pos2 then chrmat2.getBit k else chrmat1.getBit k) ∧
      (∀ k, o2.getBit k = if k ≤ min pos1 pos2 then chrmat2.getBit k
        else if k ≤ max pos1 pos2 then chrmat1.getBit k else chrmat2.getBit k) ∧
      (min pos1 pos2 = max pos1 pos2 → o1.chr = chrmat1.chr ∧ o2.chr = chrmat2.chr) :=
  P2XO_law x ga chr1 chr2 chrmat1 chrmat2 idx1 idx2 pos1 pos2 h1 h2 hc1 hc2 hm1 hm2 hw1 hw2
    hf1 hf2 hpos1 hpos2

/-- C23, witness: the parents `00000000` and `11111111`, fresh offspring and the draws
`5` and `2`. -/
theorem P2XO_spec_witness :
    ∃ o1 o2, P2XO scenarioPop (scenarioChr [] 0) (scenarioChr [] 0) 0 1 5 2 = some (o1, o2) ∧
      P2XO scenarioPop (scenarioChr [] 0) (scenarioChr [] 0) 0 1 2 5 = some (o1, o2) ∧
      o1.chr.length = (scenarioChr [] 0).size ∧ o2.chr.length = (scenarioChr [] 0).size ∧
      (∀ k, o1.getBit k = if k ≤ min 5 2 then (scenarioChr (List.replicate 8 false) 2).getBit k
        else if k ≤ max 5 2 then (scenarioChr (List.replicate 8 true) 4).getBit k
        else (scenarioChr (List.replicate 8 false) 2).getBit k) ∧
      (∀ k, o2.getBit k = if k ≤ min 5 2 then (scenarioChr (List.replicate 8 true) 4).getBit k
        else if k ≤ max 5 2 then (scenarioChr (List.replicate 8 false) 2).getBit k
        else (scenarioChr (List.replicate 8 true) 4).getBit k) ∧
      (min 5 2 = max 5 2 →
        o1.chr = (scenarioChr (List.replicate 8 false) 2).chr ∧
        o2.chr = (scenarioChr (List.replicate 8 true) 4).chr) :=
  P2XO_spec scenarioPop scenarioGA (scenarioChr [] 0) (scenarioChr [] 0)
    (scenarioChr (List.replicate 8 false) 2) (scenarioChr (List.replicate 8 true) 4) 0 1 5 2
    rfl rfl rfl rfl rfl rfl (by decide) (by decide) (by decide) (by decide) (by decide)
    (by decide)

/-- The number of `1` over both offspring, from the law at every position. -/
theorem count_of_law {T : Type} (o1 o2 chrmat1 chrmat2 : Chromosome T) (L : Nat)
    (l1 : o1.chr.length = L) (l2 : o2.chr.length = L)
    (hA : chrmat1.chr.length = L) (hB : chrmat2.chr.length = L)
    (h : ∀ j, (o1.getBit j = chrmat1.getBit j ∧ o2.getBit j = chrmat2.getBit j) ∨
      (o1.getBit j = chrmat2.getBit j ∧ o2.getBit j = chrmat1.getBit j)) :
    o1.chr.count true + o2.chr.count true
      = chrmat1.chr.count true + chrmat2.chr.count true :=
  count_of_swaps o1.chr o2.chr chrmat1.chr chrmat2.chr (l1.trans hA.symm) (l2.trans hA.symm)
    (hB.trans hA.symm) h

/-- C24: the opposite-parent law of the bit cross-overs. For `UXO`, and likewise for
`P1XO` and `P2XO`, applied to two parents with complete bit strings and two offspring
with empty bit strings, for every sequence of coin flips and all cut positions: at
every position `j` the pair (bit of offspring 1, bit of offspring 2) is (bit of parent
`idx1`, bit of parent `idx2`) or (bit of parent `idx2`, bit of parent `idx1`), and the
number of `1` over both offspring equals that over both parents. -/
theorem opposite_parent_law {T : Type} (x : Population T) (ga : GeneticAlgorithm T)
    (chr1 chr2 chrmat1 chrmat2 : Chromosome T) (idx1 idx2 pos pos1 pos2 : Nat)
    (proba : Nat → ℚ)
    (h1 : x.mat idx1 = some chrmat1) (h2 : x.mat idx2 = some chrmat2)
    (hc1 : chr1.ptr = ga) (hc2 : chr2.ptr = ga)
    (hm1 : chrmat1.ptr = ga) (hm2 : chrmat2.ptr = ga)
    (hw1 : chrmat1.chr.length = chrmat1.size) (hw2 : chrmat2.chr.length = chrmat2.size)
    (he1 : chr1.chr = []) (he2 : chr2.chr = [])
    (hpos : pos < chr1.size) (hpos1 : pos1 < chr1.size) (hpos2 : pos2 < chr1.size)
    (res : Option (Chromosome T × Chromosome T))
    (hres : res = UXO x chr1 chr2 idx1 idx2 proba ∨ res = P1XO x chr1 chr2 idx1 idx2 pos ∨
      res = P2XO x chr1 chr2 idx1 idx2 pos1 pos2) :
    ∃ o1 o2, res = some (o1, o2) ∧
      (∀ j, (o1.getBit j = chrmat1.getBit j ∧ o2.getBit j = chrmat2.getBit j) ∨
        (o1.getBit j = chrmat2.getBit j ∧ o2.getBit j = chrmat1.getBit j)) ∧
      o1.chr.count true + o2.chr.count true
        = chrmat1.chr.count true + chrmat2.chr.count true := by
  have e3 : chrmat1.size = chr1.size := size_congr _ _ (hm1.trans hc1.symm)
  have e4 : chrmat2.size = chr1.size := size_congr _ _ (hm2.trans hc1.symm)
  have hA : chrmat1.chr.length = chr1.size := hw1.trans e3
  have hB : chrmat2.chr.length = chr1.size := hw2.trans e4
  have hf1 : chr1.chr.length ≤ chr1.size := by rw [he1]; exact Nat.zero_le _
  have hf2 : chr2.chr.length ≤ chr2.size := by rw [he2]; exact Nat.zero_le _
  rcases hres with hr | hr | hr
  · obtain ⟨o1, o2, ho, l1, l2, a, b⟩ := UXO_law x ga chr1 chr2 chrmat1 chrmat2 idx1 idx2
      proba h1 h2 hc1 hm1 hm2 hw1 hw2 he1 he2
    have law : ∀ j, (o1.getBit j = chrmat1.getBit j ∧ o2.getBit j = chrmat2.getBit j) ∨
        (o1.getBit j = chrmat2.getBit j ∧ o2.getBit j = chrmat1.getBit j) := by
      intro j
      by_cases hp : proba j < 0.50
      · exact Or.inl (a j hp)
      · exact Or.inr (b j hp)
    exact ⟨o1, o2, hr.trans ho, law, count_of_law o1 o2 chrmat1 chrmat2 _ l1 l2 hA hB law⟩
  · obtain ⟨o1, o2, ho, l1, l2, a, b, _⟩ := P1XO_law x ga chr1 chr2 chrmat1 chrmat2 idx1 idx2
      pos h1 h2 hc1 hc2 hm1 hm2 hw1 hw2 hf1 hf2 hpos
    have law : ∀ j, (o1.getBit j = chrmat1.getBit j ∧ o2.getBit j = chrmat2.getBit j) ∨
        (o1.getBit j = chrmat2.getBit j ∧ o2.getBit j = chrmat1.getBit j) := by
      intro j
      by_cases hp : j ≤ pos
      · exact Or.inl (a j hp)
      · exact Or.inr (b j (by omega))
    exact ⟨o1, o2, hr.trans ho, law, count_of_law o1 o2 chrmat1 chrmat2 _ l1 l2 hA hB law⟩
  · obtain ⟨o1, o2, ho, _, l1, l2, a, b, _⟩ := P2XO_law x ga chr1 chr2 chrmat1 chrmat2 idx1
      idx2 pos1 pos2 h1 h2 hc1 hc2 hm1 hm2 hw1 hw2 hf1 hf2 hpos1 hpos2
    have law : ∀ j, (o1.getBit j = chrmat1.getBit j ∧ o2.getBit j = chrmat2.getBit j) ∨
        (o1.getBit j = chrmat2.getBit j ∧ o2.getBit j = chrmat1.getBit j) := by
      intro j
      rw [a j, b j]
      by_cases hp : j ≤ min pos1 pos2
      · simp [hp]
      · by_cases hq : j ≤ max pos1 pos2
        · simp [hp, hq]
        · simp [hp, hq]
    exact ⟨o1, o2, hr.trans ho, law, count_of_law o1 o2 chrmat1 chrmat2 _ l1 l2 hA hB law⟩

/-- C24, witness: `UXO` on the parents `11111111 00000000` and `11111111 11111111` with
fresh offspring, the coin being `0` at the even positions and `1` at the odd ones. -/
theorem opposite_parent_law_witness :
    ∃ o1 o2, UXO (pairPop (List.replicate 8 true ++ List.replicate 8 false)
        (List.replicate 16 true)) (pairChr 0 []) (pairChr 0 []) 0 1
        (fun j => if j % 2 = 0 then 0 else 1) = some (o1, o2) ∧
      (∀ j, (o1.getBit j
            = (pairChr 0 (List.replicate 8 true ++ List.replicate 8 false)).getBit j ∧
          o2.getBit j = (pairChr 0 (List.replicate 16 true)).getBit j) ∨
        (o1.getBit j = (pairChr 0 (List.replicate 16 true)).getBit j ∧
          o2.getBit j
            = (pairChr 0 (List.replicate 8 true ++ List.replicate 8 false)).getBit j)) ∧
      o1.chr.count true + o2.chr.count true
        = (pairChr 0 (List.replicate 8 true ++ List.replicate 8 false)).chr.count true
          + (pairChr 0 (List.replicate 16 true)).chr.count true :=
  opposite_parent_law
    (pairPop (List.replicate 8 true ++ List.replicate 8 false) (List.replicate 16 true))
    (pairGA 0) (pairChr 0 []) (pairChr 0 [])
    (pairChr 0 (List.replicate 8 true ++ List.replicate 8 false))
    (pairChr 0 (List.replicate 16 true)) 0 1 3 9 4 (fun j => if j % 2 = 0 then 0 else 1)
    rfl rfl rfl rfl rfl rfl (by decide) (by decide) rfl rfl (by decide) (by decide) (by decide)
    _ (Or.inl rfl)

/-! ## Boundary mutation -/

theorem mutation_upto_succ {T : Type} (chr : Chromosome T) (rng : Rng) (mutrate : ℚ)
    (body : Chromosome T → Rng → Nat → Chromosome T × Rng) (k : Nat) :
    mutation_upto chr rng mutrate body (k + 1)
      = if (mutation_upto chr rng mutrate body k).2.nextProba.1 ≤ mutrate then
          body (mutation_upto chr rng mutrate body k).1
            (mutation_upto chr rng mutrate body k).2.nextProba.2 k
        else ((mutation_upto chr rng mutrate body k).1,
          (mutation_upto chr rng mutrate body k).2.nextProba.2) := by
  unfold mutation_upto
  rw [List.range_succ, List.foldl_append]
  rfl

/-- A loop of gene-wise mutation whose block for gene `i` keeps the parameters, the
length of the bit string and the bits of the other genes: gene `i` of the state after
`k` iterations is the one of the start for `k ≤ i` and the one left by iteration `i`
for `i < k`. -/
theorem mutation_upto_frame {T : Type} (chr : Chromosome T) (rng : Rng) (mutrate : ℚ)
    (body : Chromosome T → Rng → Nat → Chromosome T × Rng)
    (hwf : chr.chr.length = chr.size)
    (hbody : ∀ (c : Chromosome T) (r : Rng) (i : Nat), c.ptr = chr.ptr →
      c.chr.length = c.size →
      (body c r i).1.ptr = c.ptr ∧ (body c r i).1.chr.length = c.chr.length ∧
      ∀ j, j ≠ i → (body c r i).1.gene j = c.gene j) (k : Nat) :
    (mutation_upto chr rng mutrate body k).1.ptr = chr.ptr ∧
    (mutation_upto chr rng mutrate body k).1.chr.length
      = (mutation_upto chr rng mutrate body k).1.size ∧
    (∀ i, k ≤ i → (mutation_upto chr rng mutrate body k).1.gene i = chr.gene i) ∧
    (∀ i, i < k → (mutation_upto chr rng mutrate body k).1.gene i
      = (mutation_upto chr rng mutrate body (i + 1)).1.gene i) := by
  induction k with
  | zero =>
    exact ⟨rfl, hwf, fun i _ => rfl, fun i hi => by omega⟩
  | succ k ih =>
    obtain ⟨a1, a2, a3, a4⟩ := ih
    rw [mutation_upto_succ]
    by_cases hd : (mutation_upto chr rng mutrate body k).2.nextProba.1 ≤ mutrate
    · rw [if_pos hd]
      obtain ⟨b1, b2, b3⟩ := hbody (mutation_upto chr rng mutrate body k).1
        (mutation_upto chr rng mutrate body k).2.nextProba.2 k a1 a2
      have hstep : mutation_upto chr rng mutrate body (k + 1)
          = body (mutation_upto chr rng mutrate body k).1
            (mutation_upto chr rng mutrate body k).2.nextProba.2 k := by
        rw [mutation_upto_succ, if_pos hd]
      refine ⟨b1.trans a1, ?_, ?_, ?_⟩
      · rw [b2, a2]
        exact (size_congr _ _ b1).symm
      · intro i hi
        rw [b3 i (by omega)]
        exact a3 i (by omega)
      · intro i hi
        rcases Nat.lt_or_ge i k with hlt | hge
        · rw [b3 i (by omega)]
          exact a4 i hlt
        · have : i = k := by omega
          subst this
          rw [hstep]
    · rw [if_neg hd]
      have hstep : mutation_upto chr rng mutrate body (k + 1)
          = ((mutation_upto chr rng mutrate body k).1,
            (mutation_upto chr rng mutrate body k).2.nextProba.2) := by
        rw [mutation_upto_succ, if_neg hd]
      refine ⟨a1, a2, ?_, ?_⟩
      · intro i hi
        exact a3 i (by omega)
      · intro i hi
        rcases Nat.lt_or_ge i k with hlt | hge
        · exact a4 i hlt
        · have : i = k := by omega
          subst this
          rw [hstep]

theorem initGene_local {T : Type} (c : Chromosome T) (i : Nat) (x : T)
    (hwf : c.chr.length = c.size)
    (henc : ∀ (p : BaseParameter T), c.ptr.param[i]? = some p → (p.encode x).length = p.size) :
    (c.initGene i x).ptr = c.ptr ∧ (c.initGene i x).chr.length = c.chr.length ∧
    ∀ j, j ≠ i → (c.initGene i x).gene j = c.gene j := by
  refine ⟨initGene_ptr c i x, initGene_length c i x hwf henc, ?_⟩
  intro j hj
  exact gene_initGene_other c i j x hj henc (by rw [hwf]; exact idx_le_size c i)

theorem lowerBound_getD {T : Type} [Inhabited T] (c : Chromosome T) (i : Nat)
    (p : BaseParameter T) (hp : c.ptr.param[i]? = some p) :
    c.lowerBound.getD i default = p.getData.getD 0 default := by
  unfold Chromosome.lowerBound
  rw [List.getD_eq_getElem?_getD, List.getElem?_map, hp]
  rfl

theorem upperBound_getD {T : Type} [Inhabited T] (c : Chromosome T) (i : Nat)
    (p : BaseParameter T) (hp : c.ptr.param[i]? = some p) :
    c.upperBound.getD i default = p.getData.getD 1 default := by
  unfold Chromosome.upperBound
  rw [List.getD_eq_getElem?_getD, List.getElem?_map, hp]
  rfl

theorem BDM_eq_upto {T : Type} [Inhabited T] (chr : Chromosome T) (rng : Rng)
    (hrate : chr.mutrate ≠ 0) :
    BDM chr rng = mutation_upto chr rng chr.mutrate (BDM_body chr) chr.nbgene := by
  unfold BDM
  simp only [hrate, if_false]
  rfl

theorem BDM_body_lower {T : Type} [Inhabited T] (chr c : Chromosome T) (r : Rng) (i : Nat)
    (h : r.nextProba.1 < 0.5) :
    BDM_body chr c r i = (c.initGene i (chr.lowerBound.getD i default), r.nextProba.2) := by
  unfold BDM_body
  simp only [h, if_true]

theorem BDM_body_upper {T : Type} [Inhabited T] (chr c : Chromosome T) (r : Rng) (i : Nat)
    (h : ¬ r.nextProba.1 < 0.5) :
    BDM_body chr c r i = (c.initGene i (chr.upperBound.getD i default), r.nextProba.2) := by
  unfold BDM_body
  simp only [h, if_false]

/-- The genes of a chromosome after `BDM`, for parameters whose `encode` gives the
all-zero string at the lower bound and the all-one string at the upper bound. -/
theorem BDM_genes {T : Type} [Inhabited T] (chr : Chromosome T) (rng : Rng)
    (hrate : chr.mutrate ≠ 0) (hwf : chr.chr.length = chr.size)
    (henc : ∀ (i : Nat) (p : BaseParameter T) (x : T),
      chr.ptr.param[i]? = some p → (p.encode x).length = p.size)
    (i : Nat) (p : BaseParameter T) (hp : chr.ptr.param[i]? = some p) :
    ((mutation_upto chr rng chr.mutrate (BDM_body chr) i).2.proba
        (mutation_upto chr rng chr.mutrate (BDM_body chr) i).2.nproba ≤ chr.mutrate →
      (mutation_upto chr rng chr.mutrate (BDM_body chr) i).2.proba
        ((mutation_upto chr rng chr.mutrate (BDM_body chr) i).2.nproba + 1) < 1 / 2 →
      (BDM chr rng).1.gene i = p.encode (p.getData.getD 0 default)) ∧
    ((mutation_upto chr rng chr.mutrate (BDM_body chr) i).2.proba
        (mutation_upto chr rng chr.mutrate (BDM_body chr) i).2.nproba ≤ chr.mutrate →
      ¬ (mutation_upto chr rng chr.mutrate (BDM_body chr) i).2.proba
        ((mutation_upto chr rng chr.mutrate (BDM_body chr) i).2.nproba + 1) < 1 / 2 →
      (BDM chr rng).1.gene i = p.encode (p.getData.getD 1 default)) ∧
    (¬ (mutation_upto chr rng chr.mutrate (BDM_body chr) i).2.proba
        (mutation_upto chr rng chr.mutrate (BDM_body chr) i).2.nproba ≤ chr.mutrate →
      (BDM chr rng).1.gene i = chr.gene i) ∧
    (BDM chr rng).1.ptr = chr.ptr := by
  have hbody : ∀ (c : Chromosome T) (r : Rng) (i : Nat), c.ptr = chr.ptr →
      c.chr.length = c.size →
      (BDM_body chr c r i).1.ptr = c.ptr ∧ (BDM_body chr c r i).1.chr.length = c.chr.length ∧
      ∀ j, j ≠ i → (BDM_body chr c r i).1.gene j = c.gene j := by
    intro c r i hc hw
    have hl : ∀ (x : T) (p : BaseParameter T), c.ptr.param[i]? = some p →
        (p.encode x).length = p.size := by
      intro x p hp
      rw [hc] at hp
      exact henc i p x hp
    by_cases hd : r.nextProba.1 < 0.5
    · rw [BDM_body_lower _ _ _ _ hd]
      exact initGene_local c i _ hw (hl _)
    · rw [BDM_body_upper _ _ _ _ hd]
      exact initGene_local c i _ hw (hl _)
  have hin : i < chr.nbgene := by
    rcases List.getElem?_eq_some_iff.mp hp with ⟨h, _⟩; exact h
  obtain ⟨f1, _, _, f4⟩ := mutation_upto_frame chr rng chr.mutrate (BDM_body chr) hwf hbody
    chr.nbgene
  obtain ⟨g1, g2, g3, _⟩ := mutation_upto_frame chr rng chr.mutrate (BDM_body chr) hwf hbody i
  rw [BDM_eq_upto chr rng hrate, f4 i hin, mutation_upto_succ]
  have hp2 : (mutation_upto chr rng chr.mutrate (BDM_body chr) i).1.ptr.param[i]? = some p := by
    rw [g1]; exact hp
  have hidx : (mutation_upto chr rng chr.mutrate (BDM_body chr) i).1.idx i
      ≤ (mutation_upto chr rng chr.mutrate (BDM_body chr) i).1.chr.length := by
    rw [g2]; exact idx_le_size _ i
  have hhalf : (0.5 : ℚ) = 1 / 2 := by norm_num
  refine ⟨?_, ?_, ?_, f1⟩
  · intro h1 h2
    have h1' : (mutation_upto chr rng chr.mutrate (BDM_body chr) i).2.nextProba.1
        ≤ chr.mutrate := h1
    rw [if_pos h1']
    have h2' : (mutation_upto chr rng chr.mutrate (BDM_body chr) i).2.nextProba.2.nextProba.1
        < 0.5 := by rw [hhalf]; exact h2
    rw [BDM_body_lower _ _ _ _ h2']
    rw [gene_initGene_same _ i _ p hp2 (henc i p _ hp) hidx, lowerBound_getD chr i p hp]
  · intro h1 h2
    have h1' : (mutation_upto chr rng chr.mutrate (BDM_body chr) i).2.nextProba.1
        ≤ chr.mutrate := h1
    rw [if_pos h1']
    have h2' : ¬ (mutation_upto chr rng chr.mutrate (BDM_body chr) i).2.nextProba.2.nextProba.1
        < 0.5 := by rw [hhalf]; exact h2
    rw [BDM_body_upper _ _ _ _ h2']
    rw [gene_initGene_same _ i _ p hp2 (henc i p _ hp) hidx, upperBound_getD chr i p hp]
  · intro h1
    have h1' : ¬ (mutation_upto chr rng chr.mutrate (BDM_body chr) i).2.nextProba.1
        ≤ chr.mutrate := h1
    rw [if_neg h1']
    exact g3 i (le_refl _)

theorem toBits_zero (N : Nat) : toBits N 0 = List.replicate N false :=
  GetValue_inj _ _ (by rw [toBits_length, List.length_replicate])
    (by rw [GetValue_toBits, GetValue_replicate_false, Nat.zero_mod])

theorem toBits_MAXVAL (N : Nat) : toBits N (MAXVAL N) = List.replicate N true :=
  GetValue_inj _ _ (by rw [toBits_length, List.length_replicate])
    (by
      rw [GetValue_toBits, GetValue_replicate_true]
      unfold MAXVAL
      exact Nat.mod_eq_of_lt (Nat.sub_lt (Nat.two_pow_pos N) Nat.one_pos))

/-! ## The decay loop of `GAM_sigma_adapting_per_generation` -/

theorem decay_sigma_succ (m : Libm) (n : Nat) (sigma : ℚ) (rng : Rng) :
    decay_sigma m (n + 1) sigma rng
      = (max 0 ((decay_sigma m n sigma rng).1 * m.exp (decay_sigma m n sigma rng).2.nextNormal.1),
        (decay_sigma m n sigma rng).2.nextNormal.2) := by
  unfold decay_sigma
  rw [List.range_succ, List.foldl_append]
  rfl

/-- The decay loop with `n` iterations consumes `n` normal draws. -/
theorem decay_sigma_rng (m : Libm) (n : Nat) (sigma : ℚ) (rng : Rng) :
    (decay_sigma m n sigma rng).2.nnormal = rng.nnormal + n ∧
    (decay_sigma m n sigma rng).2.normal = rng.normal := by
  induction n with
  | zero => exact ⟨rfl, rfl⟩
  | succ k ih =>
    rw [decay_sigma_succ]
    simp only [Rng.nextNormal]
    exact ⟨by rw [ih.1]; omega, ih.2⟩

/-- When `exp` is nowhere negative and the base is not negative, the decay loop with `n`
iterations multiplies the base by `exp` of each of the `n` draws. -/
theorem decay_sigma_prod (m : Libm) (hexp : ∀ z, 0 ≤ m.exp z) (n : Nat) (sigma : ℚ)
    (rng : Rng) (hs : 0 ≤ sigma) :
    (decay_sigma m n sigma rng).1
      = sigma * ((List.range n).map (fun k => m.exp (rng.normal (rng.nnormal + k)))).prod ∧
    0 ≤ (decay_sigma m n sigma rng).1 := by
  induction n with
  | zero =>
    refine ⟨?_, hs⟩
    simp [decay_sigma]
  | succ k ih =>
    rw [decay_sigma_succ]
    have hr := decay_sigma_rng m k sigma rng
    have hd : (decay_sigma m k sigma rng).2.nextNormal.1 = rng.normal (rng.nnormal + k) := by
      simp only [Rng.nextNormal]
      rw [hr.1, hr.2]
    have hnn : 0 ≤ (decay_sigma m k sigma rng).1 * m.exp (rng.normal (rng.nnormal + k)) :=
      mul_nonneg ih.2 (hexp _)
    simp only [hd]
    rw [max_eq_right hnn]
    refine ⟨?_, hnn⟩
    rw [ih.1, List.range_succ, List.map_append, List.prod_append]
    simp only [List.map_cons, List.map_nil, List.prod_cons, List.prod_nil, mul_one]
    ring

theorem decay_count_nat (g : Nat) : decay_count (g : ℤ) = g / 2 - 1 := by
  unfold decay_count
  rw [Int.tdiv_eq_ediv (by positivity) (by norm_num)]
  omega

/-- C27, counterexample: at generation `g = 4` the decay loop of a mutated gene runs
once, not `floor(4/2) = 2` times: the block draws two normal values (one for the decay,
one for the resampling), and the base sigma `1` is multiplied by `exp` once. -/
theorem decay_count_not_half :
    decay_count 4 = 1 ∧
    (sigma_adapting_per_generation_gene libmFix (mutChr (List.replicate 8 true) 0 4)
      rngFix 0).rng.nnormal = 2 ∧
    floor_sigma (mutChr (List.replicate 8 true) 0 4).mutinfo._sigma_lowest
      (seed_boundary (mutChr (List.replicate 8 true) 0 4) 0) = 1 ∧
    (sigma_adapting_per_generation_gene libmFix (mutChr (List.replicate 8 true) 0 4)
      rngFix 0).sigma = 1 * libmFix.exp (rngFix.normal 0) ∧
    (sigma_adapting_per_generation_gene libmFix (mutChr (List.replicate 8 true) 0 4)
      rngFix 0).sigma ≠ 1 * libmFix.exp (rngFix.normal 0) * libmFix.exp (rngFix.normal 1) := by
  have hc : decay_count 4 = 1 := decay_count_nat 4
  have hb : floor_sigma (mutChr (List.replicate 8 true) 0 4).mutinfo._sigma_lowest
      (seed_boundary (mutChr (List.replicate 8 true) 0 4) 0) = 1 := by
    norm_num [floor_sigma, seed_boundary, Chromosome.mutinfo, Chromosome.upperBound,
      Chromosome.lowerBound, mutChr, mutGA, Parameter.toBase, scenarioParam, Scalar.toDouble]
  have hn : (mutChr (List.replicate 8 true) 0 4).nogen = 4 := rfl
  have hs : (sigma_adapting_per_generation_gene libmFix (mutChr (List.replicate 8 true) 0 4)
      rngFix 0).sigma = 1 * libmFix.exp (rngFix.normal 0) := by
    show (decay_sigma libmFix (decay_count (mutChr (List.replicate 8 true) 0 4).nogen)
      (floor_sigma (mutChr (List.replicate 8 true) 0 4).mutinfo._sigma_lowest
        (seed_boundary (mutChr (List.replicate 8 true) 0 4) 0)) rngFix).1 = _
    rw [hn, hc, hb, decay_sigma_succ, decay_sigma_zero]
    norm_num [Rng.nextNormal, rngFix, libmFix]
  refine ⟨hc, ?_, hb, hs, ?_⟩
  · show (decay_sigma libmFix (decay_count (mutChr (List.replicate 8 true) 0 4).nogen)
      (floor_sigma (mutChr (List.replicate 8 true) 0 4).mutinfo._sigma_lowest
        (seed_boundary (mutChr (List.replicate 8 true) 0 4) 0)) rngFix).2.nextNormal.2.nnormal = 2
    simp only [Rng.nextNormal]
    rw [(decay_sigma_rng _ _ _ _).1, hn, hc]
    rfl
  · rw [hs]
    norm_num [rngFix, libmFix]

/-- C27 (amended): the decay count of `GAM_sigma_adapting_per_generation`. For every
generation number `g ≥ 0` and every mutated gene, the loop `for (z = 1; z < g/2; z++)`
runs `floor(g/2) - 1` times (not at all for `g < 4`): the block consumes that many
normal draws for the decay and one more for the resampling, and the step size that
resamples the gene is the result of that many steps `sigma = max(0, sigma * exp(N(0,1)))`
from the base `max((upper - lower) * ratio_boundary, sigma_lowest)`; when `exp` is
nowhere negative and the base is not negative this is the base multiplied by `exp` of
each of the `floor(g/2) - 1` draws. -/
theorem decay_count_spec {T : Type} [Inhabited T] [LinearOrder T] [Sub T] [Scalar T]
    (m : Libm) (chr : Chromosome T) (rng : Rng) (i g : Nat) (hg : chr.nogen = (g : ℤ)) :
    decay_count chr.nogen = g / 2 - 1 ∧
    floor_sigma chr.mutinfo._sigma_lowest (seed_boundary chr i)
      = max (seed_boundary chr i) chr.mutinfo._sigma_lowest ∧
    (sigma_adapting_per_generation_gene m chr rng i).sigma
      = (decay_sigma m (g / 2 - 1)
          (max (seed_boundary chr i) chr.mutinfo._sigma_lowest) rng).1 ∧
    (sigma_adapting_per_generation_gene m chr rng i).rng.nnormal
      = rng.nnormal + (g / 2 - 1) + 1 ∧
    ((∀ z, 0 ≤ m.exp z) → 0 ≤ max (seed_boundary chr i) chr.mutinfo._sigma_lowest →
      (sigma_adapting_per_generation_gene m chr rng i).sigma
        = max (seed_boundary chr i) chr.mutinfo._sigma_lowest
          * ((List.range (g / 2 - 1)).map
              (fun k => m.exp (rng.normal (rng.nnormal + k)))).prod) := by
  have hc : decay_count chr.nogen = g / 2 - 1 := by rw [hg]; exact decay_count_nat g
  have hb : floor_sigma chr.mutinfo._sigma_lowest (seed_boundary chr i)
      = max (seed_boundary chr i) chr.mutinfo._sigma_lowest := by
    unfold floor_sigma
    by_cases h : seed_boundary chr i < chr.mutinfo._sigma_lowest
    · rw [if_pos h, max_eq_right (le_of_lt h)]
    · rw [if_neg h, max_eq_left (not_lt.mp h)]
  have hs : (sigma_adapting_per_generation_gene m chr rng i).sigma
      = (decay_sigma m (g / 2 - 1)
          (max (seed_boundary chr i) chr.mutinfo._sigma_lowest) rng).1 := by
    show (decay_sigma m (decay_count chr.nogen)
      (floor_sigma chr.mutinfo._sigma_lowest (seed_boundary chr i)) rng).1 = _
    rw [hc, hb]
  refine ⟨hc, hb, hs, ?_, ?_⟩
  · show (decay_sigma m (decay_count chr.nogen)
      (floor_sigma chr.mutinfo._sigma_lowest (seed_boundary chr i)) rng).2.nextNormal.2.nnormal
        = _
    simp only [Rng.nextNormal]
    rw [(decay_sigma_rng _ _ _ _).1, hc]
  · intro hexp hnn
    rw [hs]
    exact (decay_sigma_prod m hexp _ _ rng hnn).1

/-- C27 (amended), witness: a chromosome of generation `7`, whose decay loop runs
`7/2 - 1 = 2` times. -/
theorem decay_count_spec_witness :
    decay_count (mutChr (List.replicate 8 true) 0 7).nogen = 7 / 2 - 1 ∧
    floor_sigma (mutChr (List.replicate 8 true) 0 7).mutinfo._sigma_lowest
        (seed_boundary (mutChr (List.replicate 8 true) 0 7) 0)
      = max (seed_boundary (mutChr (List.replicate 8 true) 0 7) 0)
          (mutChr (List.replicate 8 true) 0 7).mutinfo._sigma_lowest ∧
    (sigma_adapting_per_generation_gene libmFix (mutChr (List.replicate 8 true) 0 7)
        rngFix 0).sigma
      = (decay_sigma libmFix (7 / 2 - 1)
          (max (seed_boundary (mutChr (List.replicate 8 true) 0 7) 0)
            (mutChr (List.replicate 8 true) 0 7).mutinfo._sigma_lowest) rngFix).1 ∧
    (sigma_adapting_per_generation_gene libmFix (mutChr (List.replicate 8 true) 0 7)
        rngFix 0).rng.nnormal = rngFix.nnormal + (7 / 2 - 1) + 1 ∧
    ((∀ z, 0 ≤ libmFix.exp z) →
      0 ≤ max (seed_boundary (mutChr (List.replicate 8 true) 0 7) 0)
          (mutChr (List.replicate 8 true) 0 7).mutinfo._sigma_lowest →
      (sigma_adapting_per_generation_gene libmFix (mutChr (List.replicate 8 true) 0 7)
          rngFix 0).sigma
        = max (seed_boundary (mutChr (List.replicate 8 true) 0 7) 0)
            (mutChr (List.replicate 8 true) 0 7).mutinfo._sigma_lowest
          * ((List.range (7 / 2 - 1)).map
              (fun k => libmFix.exp (rngFix.normal (rngFix.nnormal + k)))).prod) :=
  decay_count_spec libmFix (mutChr (List.replicate 8 true) 0 7) rngFix 0 7 rfl

/-! ## `DAC` and the worst fitness -/

/-- C28, counterexample: fitness `{1, 5}` with the constraint vectors `{}` and
`{2, -5}`. `worstTotal` is `1`; the second chromosome has the constraint value
`2 ≥ 0`, its constraint values sum to `-3`, and `DAC` assigns it `1 - (-3) = 4`, which
exceeds `worstTotal`. -/
theorem DAC_mixed_exceeds_worst :
    (cstPop [(1, []), (5, [2, -5])]).getWorstTotal = 1 ∧
    (∃ v ∈ (cstChr 5 [2, -5]).getConstraint, 0 ≤ v) ∧
    (DAC (cstPop [(1, []), (5, [2, -5])])).curpop[1]? = some (cstChr 4 [2, -5]) ∧
    ¬ ((cstChr 4 [2, -5]).fitness ≤ (cstPop [(1, []), (5, [2, -5])]).getWorstTotal) := by
  have hW : (cstPop [(1, []), (5, [2, -5])]).getWorstTotal = 1 := by
    norm_num [Population.getWorstTotal, Population.minFitness, Population.fitnesses, cstPop,
      cstChr]
  have hv : ∃ v ∈ (cstChr 5 [2, -5]).getConstraint, (0 : ℚ) ≤ v :=
    ⟨2, by simp [Chromosome.getConstraint, cstChr], by norm_num⟩
  obtain ⟨c1, h1, k1, _⟩ := DAC_getElem (cstPop [(1, []), (5, [2, -5])]) 1 (cstChr 5 [2, -5]) rfl
  have e1 := k1 hv
  rw [hW] at e1
  refine ⟨hW, hv, ?_, ?_⟩
  · rw [h1, e1]
    norm_num [cstChr, Chromosome.getConstraint]
  · rw [hW]
    norm_num [cstChr]

/-- C28 (amended): for every population and every chromosome with at least one
constraint value `≥ 0`, `DAC` assigns the fitness `worstTotal - sum(constraints)`; it
does not exceed `worstTotal` exactly when the constraint values sum to `≥ 0`, in
particular when no entry is negative; for a vector that mixes violated and satisfied
entries with a negative sum the assigned fitness exceeds `worstTotal`. -/
theorem DAC_below_worst {T : Type} (x : Population T) (k : Nat) (c : Chromosome T)
    (hk : x.curpop[k]? = some c) (hv : ∃ v ∈ c.getConstraint, 0 ≤ v) :
    ∃ c2, (DAC x).curpop[k]? = some c2 ∧
      c2.fitness = x.getWorstTotal - c.getConstraint.sum ∧
      (c2.fitness ≤ x.getWorstTotal ↔ 0 ≤ c.getConstraint.sum) ∧
      ((∀ v ∈ c.getConstraint, 0 ≤ v) → c2.fitness ≤ x.getWorstTotal) ∧
      (c.getConstraint.sum < 0 → x.getWorstTotal < c2.fitness) := by
  obtain ⟨c2, h2, k2, _⟩ := DAC_getElem x k c hk
  have e := k2 hv
  have hf : c2.fitness = x.getWorstTotal - c.getConstraint.sum := by rw [e]
  refine ⟨c2, h2, hf, ?_, ?_, ?_⟩
  · rw [hf]
    constructor <;> intro h <;> linarith
  · intro hall
    rw [hf]
    have := List.sum_nonneg hall
    linarith
  · intro hneg
    rw [hf]
    linarith

/-- C28 (amended), witness: the chromosome with the constraint values `{0, 3}` in a
population whose worst fitness is `1`. -/
theorem DAC_below_worst_witness :
    ∃ c2, (DAC (cstPop [(5, [-1]), (3, [2, -5]), (1, [0, 3]), (2, [])])).curpop[2]? = some c2 ∧
      c2.fitness = (cstPop [(5, [-1]), (3, [2, -5]), (1, [0, 3]), (2, [])]).getWorstTotal
        - (cstChr 1 [0, 3]).getConstraint.sum ∧
      (c2.fitness ≤ (cstPop [(5, [-1]), (3, [2, -5]), (1, [0, 3]), (2, [])]).getWorstTotal
        ↔ 0 ≤ (cstChr 1 [0, 3]).getConstraint.sum) ∧
      ((∀ v ∈ (cstChr 1 [0, 3]).getConstraint, 0 ≤ v) →
        c2.fitness ≤ (cstPop [(5, [-1]), (3, [2, -5]), (1, [0, 3]), (2, [])]).getWorstTotal) ∧
      ((cstChr 1 [0, 3]).getConstraint.sum < 0 →
        (cstPop [(5, [-1]), (3, [2, -5]), (1, [0, 3]), (2, [])]).getWorstTotal < c2.fitness) :=
  DAC_below_worst (cstPop [(5, [-1]), (3, [2, -5]), (1, [0, 3]), (2, [])]) 2 (cstChr 1 [0, 3])
    rfl ⟨0, by simp [Chromosome.getConstraint, cstChr], le_refl _⟩

/-! ## `FixedParameter` over the new generation -/

theorem FixedParameter_gene_fst {T : Type} [Inhabited T] [DecidableEq T]
    (ga : GeneticAlgorithm T) (s : Chromosome T × List (T × T)) (j : Nat) :
    (FixedParameter_gene ga s j).1
      = if ga.force_value_flag.getD j false then s.1.initGene j (ga.force_value.getD j default)
        else s.1 := by
  unfold FixedParameter_gene
  by_cases hf : ga.force_value_flag.getD j false = true
  · simp only [hf, if_true]
    split <;> rfl
  · simp only [hf, if_false]
    rfl

/-- The loop over the genes of `FixedParameter` on one chromosome with a complete bit
string, after `n` iterations: a flagged gene `j < n` holds the encoded forced value,
every other gene keeps its bits. -/
theorem FixedParameter_upto {T : Type} [Inhabited T] [DecidableEq T]
    (ga : GeneticAlgorithm T) (s : Chromosome T × List (T × T)) (hptr : s.1.ptr = ga)
    (hwf : s.1.chr.length = s.1.size)
    (henc : ∀ (j : Nat) (p : BaseParameter T) (x : T),
      ga.param[j]? = some p → (p.encode x).length = p.size) (n : Nat) :
    ((List.range n).foldl (FixedParameter_gene ga) s).1.ptr = ga ∧
    ((List.range n).foldl (FixedParameter_gene ga) s).1.chr.length = s.1.chr.length ∧
    (∀ j, n ≤ j → ((List.range n).foldl (FixedParameter_gene ga) s).1.gene j = s.1.gene j) ∧
    (∀ j, j < n → ga.force_value_flag.getD j false = true →
      ∀ p, ga.param[j]? = some p →
        ((List.range n).foldl (FixedParameter_gene ga) s).1.gene j
          = p.encode (ga.force_value.getD j default)) ∧
    (∀ j, ga.force_value_flag.getD j false = false →
      ((List.range n).foldl (FixedParameter_gene ga) s).1.gene j = s.1.gene j) := by
  induction n with
  | zero =>
    exact ⟨hptr, rfl, fun _ _ => rfl, fun j hj => by omega, fun _ _ => rfl⟩
  | succ k ih =>
    obtain ⟨a1, a2, a3, a4, a5⟩ := ih
    rw [List.range_succ, List.foldl_append]
    simp only [List.foldl_cons, List.foldl_nil]
    rw [FixedParameter_gene_fst]
    have hw2 : ((List.range k).foldl (FixedParameter_gene ga) s).1.chr.length
        = ((List.range k).foldl (FixedParameter_gene ga) s).1.size := by
      rw [a2, hwf]
      exact size_congr _ _ (hptr.trans a1.symm)
    have hl : ∀ (x : T) (p : BaseParameter T),
        ((List.range k).foldl (FixedParameter_gene ga) s).1.ptr.param[k]? = some p →
        (p.encode x).length = p.size := by
      intro x p hp
      rw [a1] at hp
      exact henc k p x hp
    by_cases hf : ga.force_value_flag.getD k false = true
    · simp only [hf, if_true]
      obtain ⟨b1, b2, b3⟩ := initGene_local ((List.range k).foldl (FixedParameter_gene ga) s).1 k
        (ga.force_value.getD k default) hw2 (hl _)
      refine ⟨b1.trans a1, b2.trans a2, ?_, ?_, ?_⟩
      · intro j hj
        rw [b3 j (by omega)]
        exact a3 j (by omega)
      · intro j hj hfj p hp
        rcases Nat.lt_or_ge j k with hlt | hge
        · rw [b3 j (by omega)]
          exact a4 j hlt hfj p hp
        · have : j = k := by omega
          subst this
          exact gene_initGene_same _ j _ p (by rw [a1]; exact hp) (henc j p _ hp)
            (by rw [hw2]; exact idx_le_size _ j)
      · intro j hfj
        have hne : j ≠ k := by
          intro h
          rw [h, hf] at hfj
          exact Bool.noConfusion hfj
        rw [b3 j hne]
        exact a5 j hfj
    · simp only [hf, if_false]
      have hf2 : ga.force_value_flag.getD k false = false := by
        cases h : ga.force_value_flag.getD k false
        · rfl
        · exact absurd h hf
      refine ⟨a1, a2, ?_, ?_, a5⟩
      · intro j hj
        exact a3 j (by omega)
      · intro j hj hfj p hp
        rcases Nat.lt_or_ge j k with hlt | hge
        · exact a4 j hlt hfj p hp
        · have : j = k := by omega
          subst this
          rw [hf2] at hfj
          exact Bool.noConfusion hfj

/-- The outer loop of `FixedParameter` after `n` iterations: the chromosomes at the
positions `i < n` of the new generation have gone through the loop over the genes,
the ones at the positions `i ≥ n` are as before. -/
theorem FixedParameter_outer {T : Type} [Inhabited T] [DecidableEq T] (x : Population T)
    (n : Nat) :
    ((List.range n).foldl (fun (s : Population T × List (T × T)) i =>
      match s.1.newpop[i]? with
      | some c =>
        let r := FixedParameter_chr x.ga_algo (c, s.2)
        ({ s.1 with newpop := s.1.newpop.set i r.1 }, r.2)
      | none => s) (x, [])).1.newpop.length = x.newpop.length ∧
    (∀ i, n ≤ i →
      ((List.range n).foldl (fun (s : Population T × List (T × T)) i =>
        match s.1.newpop[i]? with
        | some c =>
          let r := FixedParameter_chr x.ga_algo (c, s.2)
          ({ s.1 with newpop := s.1.newpop.set i r.1 }, r.2)
        | none => s) (x, [])).1.newpop[i]? = x.newpop[i]?) ∧
    (∀ i c, i < n → x.newpop[i]? = some c → ∃ l,
      ((List.range n).foldl (fun (s : Population T × List (T × T)) i =>
        match s.1.newpop[i]? with
        | some c =>
          let r := FixedParameter_chr x.ga_algo (c, s.2)
          ({ s.1 with newpop := s.1.newpop.set i r.1 }, r.2)
        | none => s) (x, [])).1.newpop[i]? = some (FixedParameter_chr x.ga_algo (c, l)).1) := by
  induction n with
  | zero =>
    exact ⟨rfl, fun _ _ => rfl, fun i c hi _ => by omega⟩
  | succ k ih =>
    obtain ⟨a1, a2, a3⟩ := ih
    rw [List.range_succ, List.foldl_append]
    simp only [List.foldl_cons, List.foldl_nil]
    generalize hS : ((List.range k).foldl (fun (s : Population T × List (T × T)) i =>
      match s.1.newpop[i]? with
      | some c =>
        let r := FixedParameter_chr x.ga_algo (c, s.2)
        ({ s.1 with newpop := s.1.newpop.set i r.1 }, r.2)
      | none => s) (x, [])) = S at a1 a2 a3 ⊢
    have hk := a2 k (le_refl _)
    cases hx : x.newpop[k]? with
    | none =>
      rw [hx] at hk
      rw [hk]
      refine ⟨a1, fun i hi => a2 i (by omega), ?_⟩
      intro i c hi hc
      rcases Nat.lt_or_ge i k with hlt | hge
      · exact a3 i c hlt hc
      · have : i = k := by omega
        subst this
        rw [hx] at hc
        exact Option.noConfusion hc
    | some c0 =>
      rw [hx] at hk
      rw [hk]
      simp only
      refine ⟨by rw [List.length_set]; exact a1, ?_, ?_⟩
      · intro i hi
        rw [List.getElem?_set_ne (by omega)]
        exact a2 i (by omega)
      · intro i c hi hc
        rcases Nat.lt_or_ge i k with hlt | hge
        · rw [List.getElem?_set_ne (by omega)]
          exact a3 i c hlt hc
        · have : i = k := by omega
          subst this
          have hlen : i < S.1.newpop.length := by
            rcases List.getElem?_eq_some_iff.mp hk with ⟨h, _⟩; exact h
          rw [hx] at hc
          have hcc : c0 = c := by simpa using hc
          subst hcc
          exact ⟨S.2, by rw [List.getElem?_set_self hlen]⟩

/-- `FixedParameter` leaves the chromosomes of the new generation at the positions
`i ≥ matsize` as they are. -/
theorem FixedParameter_beyond_matsize {T : Type} [Inhabited T] [DecidableEq T]
    (x : Population T) (i : Nat) (hi : x.matsize ≤ i) :
    (FixedParameter x).1.newpop[i]? = x.newpop[i]? :=
  (FixedParameter_outer x x.matsize).2.1 i hi

/-- `FixedParameter` on the chromosomes of the new generation at the positions
`i < matsize`, when they carry complete bit strings: a flagged gene holds the encoded
forced value, a gene that is not flagged keeps its bits. -/
theorem FixedParameter_within_matsize {T : Type} [Inhabited T] [DecidableEq T]
    (x : Population T) (i : Nat) (c : Chromosome T) (hi : i < x.matsize)
    (hc : x.newpop[i]? = some c) (hptr : c.ptr = x.ga_algo) (hwf : c.chr.length = c.size)
    (henc : ∀ (j : Nat) (p : BaseParameter T) (v : T),
      x.ga_algo.param[j]? = some p → (p.encode v).length = p.size) :
    ∃ c2, (FixedParameter x).1.newpop[i]? = some c2 ∧
      (∀ j p, j < x.ga_algo.force_value_flag.length →
        x.ga_algo.force_value_flag.getD j false = true → x.ga_algo.param[j]? = some p →
        c2.gene j = p.encode (x.ga_algo.force_value.getD j default)) ∧
      (∀ j, x.ga_algo.force_value_flag.getD j false = false → c2.gene j = c.gene j) := by
  obtain ⟨l, hl⟩ := (FixedParameter_outer x x.matsize).2.2 i c hi hc
  refine ⟨_, hl, ?_, ?_⟩
  · intro j p hj hf hp
    exact (FixedParameter_upto x.ga_algo (c, l) hptr hwf henc
      x.ga_algo.force_value_flag.length).2.2.2.1 j hj hf p hp
  · intro j hf
    exact (FixedParameter_upto x.ga_algo (c, l) hptr hwf henc
      x.ga_algo.force_value_flag.length).2.2.2.2 j hf

theorem scenario_encode_seven :
    scenarioParam.encode 7 = [true, false, true, true, false, false, true, false] := by
  rw [encode_eq_toBits _ _ (by decide)]
  have e : scenarioParam.encodeValue 7 = 178 := by
    norm_num [Parameter.encodeValue, double_to_uint64, truncate, scenarioParam, MAXVAL,
      Parameter.data0, Parameter.data1]
    rfl
  rw [e]
  decide

/-- C29, the failing input: a new generation of two chromosomes with the bits
`11111111`, gene 0 forced to `7`, and the mating-pool size `1`. `FixedParameter` loops
over `i < matsize`: chromosome 0 receives `encode(7) = 10110010`, chromosome 1 is left
with `11111111`. -/
theorem FixedParameter_misses_chromosome :
    (forcedPop 1).newpop.length = 2 ∧ (forcedPop 1).matsize = 1 ∧
    (forcedPop 1).ga_algo.force_value_flag = [true] ∧
    (forcedPop 1).ga_algo.force_value = [7] ∧
    scenarioParam.encode 7 = [true, false, true, true, false, false, true, false] ∧
    (∃ c0, (FixedParameter (forcedPop 1)).1.newpop[0]? = some c0 ∧
      c0.gene 0 = scenarioParam.encode 7) ∧
    (∃ c1, (FixedParameter (forcedPop 1)).1.newpop[1]? = some c1 ∧
      c1.gene 0 = List.replicate 8 true ∧ c1.gene 0 ≠ scenarioParam.encode 7) := by
  refine ⟨rfl, rfl, rfl, rfl, scenario_encode_seven, ?_, ?_⟩
  · obtain ⟨c2, h2, g, _⟩ := FixedParameter_within_matsize (forcedPop 1) 0
      (scenarioChr (List.replicate 8 true) 0) (by decide) rfl rfl (by decide)
      (by
        intro j p v hp
        have hm := List.getElem?_mem hp
        have hq : p = scenarioParam.toBase := by
          simp only [forcedPop, scenarioGA, List.mem_singleton] at hm
          exact hm
        subst hq
        exact toBase_encode_length scenarioParam (by decide) v)
    exact ⟨c2, h2, g 0 scenarioParam.toBase (by decide) rfl rfl⟩
  · refine ⟨scenarioChr (List.replicate 8 true) 0,
      FixedParameter_beyond_matsize (forcedPop 1) 1 (le_refl _), by decide, ?_⟩
    rw [scenario_encode_seven]
    decide

/-! ## Transform ranking selection -/

/-- The vector `r` of `TRS` is all zeros after the first `std::for_each`, whatever the
generator delivers. -/
theorem TRS_r_zero (popsize : Nat) (proba : Nat → ℚ) :
    TRS_r popsize proba = List.replicate popsize 0 := by
  unfold TRS_r TRS_lambda
  simp

theorem TRS_proba_irrelevant {T : Type} (m : Libm) (x : Population T) (c : ℚ)
    (proba proba2 draw : Nat → ℚ) : TRS m x c proba draw = TRS m x c proba2 draw := by
  simp only [TRS, TRS_r_zero]

theorem insertionSort_replicate (n : Nat) (z : ℚ) :
    (List.replicate n z).insertionSort (fun z1 z2 => z1 ≥ z2) = List.replicate n z := by
  induction n with
  | zero => rfl
  | succ k ih =>
    rw [List.replicate_succ, List.insertionSort_cons_eq_take_drop, ih]
    cases k with
    | zero => simp
    | succ j =>
      simp [List.replicate_succ]

/-- C21, the failing input: a population of two chromosomes at generation 1, when the
generator delivers `3/10` and `9/10` to the first `std::for_each`. The vector `r` is
`{0, 0}` after it (for every population size and all draws it is all zeros, and the
result of `TRS` does not depend on these draws), so both chromosomes receive the
fitness `ceil((2 - 2*exp(0))/(1 - exp(-0.2))) = 0`; with `r = {9/10, 3/10}` the formula
gives `2` and `1` (`exp z` evaluated as `1 + z + z^2/2`). -/
theorem TRS_discards_draws :
    (∀ (popsize : Nat) (proba : Nat → ℚ), TRS_r popsize proba = List.replicate popsize 0) ∧
    (∀ (m : Libm) (x : Population ℚ) (c : ℚ) (proba proba2 draw : Nat → ℚ),
      TRS m x c proba draw = TRS m x c proba2 draw) ∧
    (TRS_r 2 (fun k => if k = 0 then 3 / 10 else 9 / 10)).insertionSort
      (fun z1 z2 => z1 ≥ z2) = [0, 0] ∧
    (TRS_transform libmFix (fitPop [5, 3] 2) 0.2
      ((TRS_r 2 (fun k => if k = 0 then 3 / 10 else 9 / 10)).insertionSort
        (fun z1 z2 => z1 ≥ z2))).fitnesses = [0, 0] ∧
    [TRS_fitness libmFix 2 0.2 (9 / 10), TRS_fitness libmFix 2 0.2 (3 / 10)] = [2, 1] := by
  have hs : (TRS_r 2 (fun k => if k = 0 then 3 / 10 else 9 / 10)).insertionSort
      (fun z1 z2 => z1 ≥ z2) = [0, 0] := by
    rw [TRS_r_zero]
    exact insertionSort_replicate 2 0
  refine ⟨TRS_r_zero, fun m x c proba proba2 draw => TRS_proba_irrelevant m x c proba proba2 draw,
    hs, ?_, ?_⟩
  · rw [hs]
    norm_num [TRS_transform, Population.fitnesses, fitPop, fitChr, TRS_fitness, libmFix,
      Population.popsize]
  · have h1 : TRS_fitness libmFix 2 0.2 (9 / 10) = 2 := by
      unfold TRS_fitness
      have : (⌈(((2 : Nat) : ℚ) - ((2 : Nat) : ℚ) * libmFix.exp (-0.2 * (9 / 10)))
          / (1 - libmFix.exp (-0.2))⌉ : ℤ) = 2 := by
        rw [Int.ceil_eq_iff]
        norm_num [libmFix]
      rw [this]
      norm_num
    have h2 : TRS_fitness libmFix 2 0.2 (3 / 10) = 1 := by
      unfold TRS_fitness
      have : (⌈(((2 : Nat) : ℚ) - ((2 : Nat) : ℚ) * libmFix.exp (-0.2 * (3 / 10)))
          / (1 - libmFix.exp (-0.2))⌉ : ℤ) = 1 := by
        rw [Int.ceil_eq_iff]
        norm_num [libmFix]
      rw [this]
      norm_num
    rw [h1, h2]

/-! ## Stochastic universal sampling: how often an index is selected -/

theorem take_sum_succ (l : List ℚ) (i : Nat) (f : ℚ) (h : l[i]? = some f) :
    (l.take (i + 1)).sum = (l.take i).sum + f := by
  rw [List.take_succ, h]
  simp

theorem take_sum_mono (l : List ℚ) (hnn : ∀ f ∈ l, 0 ≤ f) (a b : Nat) (hab : a ≤ b) :
    (l.take a).sum ≤ (l.take b).sum := by
  induction b with
  | zero =>
    have : a = 0 := by omega
    rw [this]
  | succ k ih =>
    rcases Nat.lt_or_ge a (k + 1) with hlt | hge
    · have h1 := ih (by omega)
      cases hk : l[k]? with
      | none =>
        rw [List.take_succ, hk]
        simpa using h1
      | some f =>
        rw [take_sum_succ l k f hk]
        have := hnn f (List.getElem?_mem hk)
        linarith
    · have : a = k + 1 := by omega
      rw [this]

theorem take_sum_nonneg (l : List ℚ) (hnn : ∀ f ∈ l, 0 ≤ f) (a : Nat) : 0 ≤ (l.take a).sum := by
  have h := take_sum_mono l hnn 0 a (Nat.zero_le _)
  simpa using h

theorem take_sum_le_sum (l : List ℚ) (hnn : ∀ f ∈ l, 0 ≤ f) (a : Nat) :
    (l.take a).sum ≤ l.sum := by
  have h := take_sum_mono l hnn a (max a l.length) (le_max_left _ _)
  rw [List.take_of_length_le (le_max_right _ _)] at h
  exact h

/-- The number of `k < M` with `a ≤ k < b`. -/
theorem countP_interval (a b M : Nat) :
    (List.range M).countP (fun k => decide (a ≤ k ∧ k < b)) = min b M - min a M := by
  induction M with
  | zero => simp
  | succ n ih =>
    rw [List.range_succ, List.countP_append, ih]
    by_cases h : a ≤ n ∧ n < b
    · have e : (List.countP (fun k => decide (a ≤ k ∧ k < b)) [n]) = 1 := by
        simp [List.countP_cons, h]
      rw [e]
      omega
    · have e : (List.countP (fun k => decide (a ≤ k ∧ k < b)) [n]) = 0 := by
        simp only [List.countP_cons, List.countP_nil, h, decide_False]
        rfl
      rw [e]
      omega

/-- The number of integers in `[α, α + t)` lies between `floor(t)` and `ceil(t)`. -/
theorem ceil_diff_bounds (α t : ℚ) :
    ⌊t⌋ ≤ ⌈α + t⌉ - ⌈α⌉ ∧ ⌈α + t⌉ - ⌈α⌉ ≤ ⌈t⌉ := by
  constructor
  · have h1 : ⌈α + (⌊t⌋ : ℚ)⌉ ≤ ⌈α + t⌉ :=
      Int.ceil_le_ceil (by linarith [Int.floor_le t])
    rw [Int.ceil_add_int] at h1
    omega
  · have h2 := Int.ceil_add_le α t
    omega

/-- The number of slots `k < M` whose pointer `u + k*d` lies in `[S, S + f)`, for
`0 ≤ S`, `S + f ≤ M*d`, `0 ≤ f`, `0 ≤ u < d`. -/
theorem pointers_in_interval (M : Nat) (u d S f : ℚ) (hd : 0 < d) (h0 : 0 ≤ u) (h1 : u < d)
    (hS : 0 ≤ S) (hf : 0 ≤ f) (hT : S + f ≤ M * d) :
    ∃ n : Nat,
      (List.range M).countP (fun (k : Nat) => decide (S ≤ u + (k : ℚ) * d ∧ u + (k : ℚ) * d < S + f)) = n ∧
      ⌊f / d⌋ ≤ (n : ℤ) ∧ (n : ℤ) ≤ ⌈f / d⌉ := by
  have hA0 : 0 ≤ ⌈(S - u) / d⌉ := by
    have : ((-1 : ℤ) : ℚ) < (S - u) / d := by
      rw [lt_div_iff₀ hd]
      push_cast
      linarith
    have h := Int.lt_ceil.mpr this
    omega
  have hAB : ⌈(S - u) / d⌉ ≤ ⌈(S - u) / d + f / d⌉ :=
    Int.ceil_le_ceil (by linarith [div_nonneg hf (le_of_lt hd)])
  have hBM : ⌈(S - u) / d + f / d⌉ ≤ (M : ℤ) := by
    rw [Int.ceil_le]
    push_cast
    rw [← add_div, div_le_iff₀ hd]
    linarith
  have hcongr : (List.range M).countP (fun (k : Nat) => decide (S ≤ u + (k : ℚ) * d ∧ u + (k : ℚ) * d < S + f))
      = (List.range M).countP (fun (k : Nat) => decide (⌈(S - u) / d⌉.toNat ≤ k ∧
          k < ⌈(S - u) / d + f / d⌉.toNat)) := by
    apply List.countP_congr
    intro k _
    simp only [decide_eq_true_eq]
    have e1 : S ≤ u + k * d ↔ ⌈(S - u) / d⌉.toNat ≤ k := by
      have : S ≤ u + k * d ↔ ⌈(S - u) / d⌉ ≤ (k : ℤ) := by
        rw [Int.ceil_le, div_le_iff₀ hd]
        push_cast
        constructor <;> intro h <;> linarith
      rw [this]
      omega
    have e2 : u + k * d < S + f ↔ k < ⌈(S - u) / d + f / d⌉.toNat := by
      have : u + k * d < S + f ↔ (k : ℤ) < ⌈(S - u) / d + f / d⌉ := by
        rw [Int.lt_ceil, ← add_div, lt_div_iff₀ hd]
        push_cast
        constructor <;> intro h <;> linarith
      rw [this]
      omega
    rw [e1, e2]
  refine ⟨⌈(S - u) / d + f / d⌉.toNat - ⌈(S - u) / d⌉.toNat, ?_, ?_⟩
  · rw [hcongr, countP_interval]
    omega
  · have hb := ceil_diff_bounds ((S - u) / d) (f / d)
    omega

/-! ## The outcome of `TRS` -/

theorem TRS_fitness_zero (m : Libm) (popsize : Nat) (c : ℚ) (hexp : m.exp 0 = 1) :
    TRS_fitness m popsize c 0 = 0 := by
  unfold TRS_fitness
  rw [mul_zero, hexp, mul_one, sub_self, zero_div, Int.ceil_zero]
  rfl

theorem zipWith_replicate_fitness {T : Type} (l : List (Chromosome T)) (v : ℚ) (g : ℚ → ℚ) :
    List.zipWith (fun (ch : Chromosome T) (z : ℚ) => { ch with fitness := g z }) l
      (List.replicate l.length v) = l.map (fun ch => { ch with fitness := g v }) := by
  induction l with
  | nil => rfl
  | cons a t ih =>
    rw [List.length_cons, List.replicate_succ, List.zipWith_cons_cons, ih]
    rfl

/-- The selection loop of `TRS` on a population whose fitness sum is not positive: every
iteration takes the branch `j = 1` and selects index `0`. -/
theorem TRS_select_zero {T : Type} (x : Population T) (draw : Nat → ℚ)
    (hsum : ¬ x.getSumFitness > 0) :
    TRS_select x draw = .ok { x with matpop := x.matpop ++ List.replicate x.matsize 0 } := by
  unfold TRS_select
  simp only [hsum, if_false]
  have key : ∀ (n : Nat) (y : Population T),
      (List.range n).foldlM (fun (x : Population T) (_ : Nat) => do
        let j ← (pure 1 : Except String Nat)
        pure (x.select ((j : ℤ) - 1))) y
      = .ok { y with matpop := y.matpop ++ List.replicate n 0 } := by
    intro n
    induction n with
    | zero =>
      intro y
      simp [pure, Except.pure]
    | succ k ih =>
      intro y
      rw [List.range_succ, List.foldlM_append, ih y]
      simp only [List.foldlM_cons, List.foldlM_nil, bind, Except.bind, pure, Except.pure,
        Population.select]
      congr 2
      simp [List.replicate_succ']
  exact key x.matsize x

/-- C32: the degenerate outcome of `TRS`. For every population, every generation,
every value of the static `c` and every state of the random generator (`exp` being a
function with `exp(0) = 1` whose value at `-c` is not `1`, so that the denominator
`1 - exp(-c)` is not `0`, as for `std::exp` with `c > 0`): the vector `r` is all zeros
after the first `std::for_each` and after the sort, `TRS` returns, every chromosome has the
fitness `0` afterwards, the fitness sum is `0`, and the `M` entries appended to the
mating pool are all index `0`. -/
theorem TRS_degenerate {T : Type} (m : Libm) (x : Population T) (c : ℚ)
    (proba draw : Nat → ℚ) (hexp : m.exp 0 = 1)
    (_hden : m.exp (-(if x.nogen = 1 then 0.2 else c)) ≠ 1) :
    TRS_r x.popsize proba = List.replicate x.popsize 0 ∧
    (TRS_r x.popsize proba).insertionSort (fun z1 z2 => z1 ≥ z2)
      = List.replicate x.popsize 0 ∧
    ∃ y, TRS m x c proba draw = .ok (y, (if x.nogen = 1 then 0.2 else c) + 0.1) ∧
      y.curpop = x.curpop.map (fun ch => { ch with fitness := 0 }) ∧
      (∀ ch ∈ y.curpop, ch.fitness = 0) ∧
      y.getSumFitness = 0 ∧
      y.matpop = x.matpop ++ List.replicate x.matsize 0 := by
  have hr : (TRS_r x.popsize proba).insertionSort (fun z1 z2 => z1 ≥ z2)
      = List.replicate x.popsize 0 := by
    rw [TRS_r_zero]
    exact insertionSort_replicate _ 0
  refine ⟨TRS_r_zero _ _, hr, ?_⟩
  have hx1 : TRS_transform m x (if x.nogen = 1 then 0.2 else c)
      ((TRS_r x.popsize proba).insertionSort (fun z1 z2 => z1 ≥ z2))
      = { x with curpop := x.curpop.map (fun ch => { ch with fitness := 0 }) } := by
    rw [hr]
    unfold TRS_transform Population.popsize
    rw [zipWith_replicate_fitness x.curpop 0
      (fun z => TRS_fitness m x.curpop.length (if x.nogen = 1 then 0.2 else c) z),
      TRS_fitness_zero m _ _ hexp]
  have hfit : ({ x with curpop := x.curpop.map (fun ch => { ch with fitness := 0 }) } :
      Population T).fitnesses = List.replicate x.curpop.length 0 := by
    unfold Population.fitnesses
    simp only [List.map_map]
    rw [List.eq_replicate_iff]
    refine ⟨by simp, ?_⟩
    intro b hb
    simp only [List.mem_map, Function.comp] at hb
    obtain ⟨_, _, h⟩ := hb
    exact h.symm
  have hsum : ({ x with curpop := x.curpop.map (fun ch => { ch with fitness := 0 }) } :
      Population T).getSumFitness = 0 := by
    unfold Population.getSumFitness
    rw [hfit]
    simp
  have hsel := TRS_select_zero
    ({ x with curpop := x.curpop.map (fun ch => { ch with fitness := 0 }) } : Population T)
    draw (by rw [hsum]; exact lt_irrefl 0)
  refine ⟨{ x with
    curpop := (x.curpop.map (fun ch => { ch with fitness := 0 }))
    matpop := (x.matpop ++ List.replicate x.matsize 0) }, ?_, ?_, ?_, ?_, ?_⟩
  · show Except.map _ (TRS_select (TRS_transform m x (if x.nogen = 1 then 0.2 else c)
      ((TRS_r x.popsize proba).insertionSort (fun z1 z2 => z1 ≥ z2))) draw) = _
    rw [hx1, hsel]
    rfl
  · rfl
  · intro ch hch
    simp only [List.mem_map] at hch
    obtain ⟨a, _, h⟩ := hch
    rw [← h]
  · exact hsum
  · rfl

/-- C32, witness: fitness `{5, 3}` at generation 1, three mating-pool slots, with the
stand-in `exp z = 1 + z + z^2/2`. -/
theorem TRS_degenerate_witness :
    TRS_r (fitPop [5, 3] 3).popsize (fun k => if k = 0 then 3 / 10 else 9 / 10)
      = List.replicate (fitPop [5, 3] 3).popsize 0 ∧
    (TRS_r (fitPop [5, 3] 3).popsize (fun k => if k = 0 then 3 / 10 else 9 / 10)).insertionSort
      (fun z1 z2 => z1 ≥ z2) = List.replicate (fitPop [5, 3] 3).popsize 0 ∧
    ∃ y, TRS libmFix (fitPop [5, 3] 3) 0 (fun k => if k = 0 then 3 / 10 else 9 / 10)
        (fun _ => 1) = .ok (y, (if (fitPop [5, 3] 3).nogen = 1 then 0.2 else 0) + 0.1) ∧
      y.curpop = (fitPop [5, 3] 3).curpop.map (fun ch => { ch with fitness := 0 }) ∧
      (∀ ch ∈ y.curpop, ch.fitness = 0) ∧
      y.getSumFitness = 0 ∧
      y.matpop = (fitPop [5, 3] 3).matpop ++ List.replicate (fitPop [5, 3] 3).matsize 0 :=
  TRS_degenerate libmFix (fitPop [5, 3] 3) 0 (fun k => if k = 0 then 3 / 10 else 9 / 10)
    (fun _ => 1) (by norm_num [libmFix]) (by norm_num [libmFix, fitPop])

/-! ## Arithmetic cross-over: the values handed to `initGene` -/

theorem Simple_eq_calls {T : Type} [Scalar T] [Inhabited T] (x : Population T)
    (chr1 chr2 chrmat1 chrmat2 : Chromosome T) (idx1 idx2 pos : Nat) (r : ℚ)
    (h1 : x.mat idx1 = some chrmat1) (h2 : x.mat idx2 = some chrmat2) :
    RealValuedSimpleArithmeticRecombination x chr1 chr2 idx1 idx2 pos r
      = some (transmit_sigma
          (initGene_calls chr1 (Simple_calls chrmat1 chrmat2 pos chr1.nbgene r)) chrmat1 chrmat2,
        transmit_sigma
          (initGene_calls chr2 (Simple_calls chrmat2 chrmat1 pos chr1.nbgene r))
          chrmat1 chrmat2) := by
  simp only [RealValuedSimpleArithmeticRecombination, h1, h2, initGene_calls, Simple_calls,
    List.foldl_append, List.foldl_map]

theorem Single_eq_calls {T : Type} [Scalar T] [Inhabited T] (x : Population T)
    (chr1 chr2 chrmat1 chrmat2 : Chromosome T) (idx1 idx2 pos : Nat) (r : ℚ)
    (h1 : x.mat idx1 = some chrmat1) (h2 : x.mat idx2 = some chrmat2) :
    RealValuedSingleArithmeticRecombination x chr1 chr2 idx1 idx2 pos r
      = some (transmit_sigma
          (initGene_calls chr1 (Single_calls chrmat1 chrmat2 pos chr1.nbgene r)) chrmat1 chrmat2,
        transmit_sigma
          (initGene_calls chr2 (Single_calls chrmat2 chrmat1 pos chr2.nbgene r))
          chrmat1 chrmat2) := by
  simp only [RealValuedSingleArithmeticRecombination, h1, h2, initGene_calls, Single_calls,
    List.foldl_append, List.foldl_map, List.foldl_cons, List.foldl_nil]

theorem Whole_eq_calls {T : Type} [Scalar T] [Inhabited T] (x : Population T)
    (chr1 chr2 chrmat1 chrmat2 : Chromosome T) (idx1 idx2 : Nat) (r : ℚ)
    (h1 : x.mat idx1 = some chrmat1) (h2 : x.mat idx2 = some chrmat2) :
    RealValuedWholeArithmeticRecombination x chr1 chr2 idx1 idx2 r
      = some (transmit_sigma
          (initGene_calls chr1 (Whole_calls chrmat1 chrmat2 chr1.nbgene r)) chrmat1 chrmat2,
        transmit_sigma
          (initGene_calls chr2 (Whole_calls chrmat2 chrmat1 chr2.nbgene r))
          chrmat1 chrmat2) := by
  simp only [RealValuedWholeArithmeticRecombination, h1, h2, initGene_calls, Whole_calls,
    List.foldl_map]

/-- Every value in the calls of the three arithmetic recombinations is the own value of
the gene or the blend of the two parents' values of the gene. -/
theorem calls_values {T : Type} [Scalar T] [Inhabited T] (own other : Chromosome T)
    (pos n : Nat) (r : ℚ) (calls : List (Nat × T))
    (hc : calls = Simple_calls own other pos n r ∨ calls = Single_calls own other pos n r ∨
      calls = Whole_calls own other n r) (iv : Nat × T) (hiv : iv ∈ calls) :
    iv.2 = own.get_value iv.1 ∨
    iv.2 = blend r (other.get_value iv.1) (own.get_value iv.1) := by
  rcases hc with h | h | h <;> subst h
  · unfold Simple_calls at hiv
    rw [List.mem_append] at hiv
    rcases hiv with h | h
    · obtain ⟨i, _, rfl⟩ := List.mem_map.mp h
      exact Or.inl rfl
    · obtain ⟨i, _, rfl⟩ := List.mem_map.mp h
      exact Or.inr rfl
  · unfold Single_calls at hiv
    rw [List.mem_append] at hiv
    rcases hiv with h | h
    · obtain ⟨i, _, rfl⟩ := List.mem_map.mp h
      exact Or.inl rfl
    · rw [List.mem_singleton] at h
      subst h
      exact Or.inr rfl
  · unfold Whole_calls at hiv
    obtain ⟨i, _, rfl⟩ := List.mem_map.mp hiv
    exact Or.inr rfl

/-- The integer that the integer-typed `encode` computes for a value within the bounds
is at most `MAXVAL`, also when the unsigned product wraps. -/
theorem encodeValueInt_le_MAXVAL (P : Parameter ℤ) (v : ℤ) (hb : P.data0 < P.data1)
    (hW : P.data1 - P.data0 < 2 ^ 64) (hlo : P.data0 ≤ v) (hhi : v ≤ P.data1) :
    P.encodeValueInt v ≤ MAXVAL P.N := by
  unfold Parameter.encodeValueInt int_to_uint64
  have e1 : (v - P.data0) % 2 ^ 64 = v - P.data0 :=
    Int.emod_eq_of_lt (by linarith) (by linarith)
  have e2 : (P.data1 - P.data0) % 2 ^ 64 = P.data1 - P.data0 :=
    Int.emod_eq_of_lt (by linarith) hW
  rw [e1, e2]
  have hk : (v - P.data0).toNat ≤ (P.data1 - P.data0).toNat := by omega
  apply Nat.div_le_of_le_mul
  calc MAXVAL P.N * (v - P.data0).toNat % 2 ^ 64
      ≤ MAXVAL P.N * (v - P.data0).toNat := Nat.mod_le _ _
    _ ≤ MAXVAL P.N * (P.data1 - P.data0).toNat := Nat.mul_le_mul_left _ hk
    _ = (P.data1 - P.data0).toNat * MAXVAL P.N := Nat.mul_comm _ _

/-! ## Binary64 arithmetic: properties of the rounding -/

theorem roundEven_floor_le (y : ℚ) : ⌊y⌋ ≤ roundEven y ∧ roundEven y ≤ ⌊y⌋ + 1 := by
  unfold roundEven
  split_ifs <;> omega

theorem roundEven_bounds (y : ℚ) : y - 1 / 2 ≤ (roundEven y : ℚ) ∧ (roundEven y : ℚ) ≤ y + 1 / 2 := by
  have h1 := Int.floor_le y
  have h2 := Int.lt_floor_add_one y
  unfold roundEven
  split_ifs <;> push_cast <;> constructor <;> linarith

theorem roundEven_intCast (n : ℤ) : roundEven (n : ℚ) = n := by
  simp [roundEven]

theorem roundEven_eq (y : ℚ) (m : ℤ) (h1 : (m : ℚ) - 1 / 2 < y) (h2 : y < (m : ℚ) + 1 / 2) :
    roundEven y = m := by
  obtain ⟨b1, b2⟩ := roundEven_bounds y
  have a1 : ((roundEven y - m : ℤ) : ℚ) < 1 := by push_cast; linarith
  have a2 : (-1 : ℚ) < ((roundEven y - m : ℤ) : ℚ) := by push_cast; linarith
  have a3 : roundEven y - m < 1 := by exact_mod_cast a1
  have a4 : -1 < roundEven y - m := by exact_mod_cast a2
  omega

theorem roundEven_tie_up (y : ℚ) (m : ℤ) (h : y = (m : ℚ) - 1 / 2) (hm : m % 2 = 0) :
    roundEven y = m := by
  have hf : ⌊y⌋ = m - 1 := by
    rw [Int.floor_eq_iff]; push_cast; constructor <;> linarith
  unfold roundEven
  rw [hf]
  have e : y - ((m - 1 : ℤ) : ℚ) = 1 / 2 := by push_cast; linarith
  rw [e]
  simp only [lt_self_iff_false, if_false]
  rw [if_neg (by omega)]
  omega

theorem roundEven_tie_down (y : ℚ) (m : ℤ) (h : y = (m : ℚ) + 1 / 2) (hm : m % 2 = 0) :
    roundEven y = m := by
  have hf : ⌊y⌋ = m := by
    rw [Int.floor_eq_iff]; constructor <;> linarith
  unfold roundEven
  rw [hf]
  have e : y - (m : ℚ) = 1 / 2 := by linarith
  rw [e]
  simp only [lt_self_iff_false, if_false]
  rw [if_pos hm]

theorem roundEven_tie_even (y : ℚ) (h : |y - (roundEven y : ℚ)| = 1 / 2) : roundEven y % 2 = 0 := by
  have h1 := Int.floor_le y
  have h2 := Int.lt_floor_add_one y
  revert h
  unfold roundEven
  split_ifs with c1 c2 c3
  · intro h
    rw [abs_of_nonneg (by linarith)] at h
    linarith
  · intro h
    push_cast at h
    rw [abs_of_nonpos (by linarith)] at h
    linarith
  · intro _; exact c3
  · intro _; omega

theorem roundEven_neg (y : ℚ) : roundEven (-y) = - roundEven y := by
  obtain ⟨b1, b2⟩ := roundEven_bounds y
  rcases lt_or_eq_of_le b1 with c1 | c1
  · rcases lt_or_eq_of_le b2 with c2 | c2
    · apply roundEven_eq <;> push_cast <;> linarith
    · have ev : roundEven y % 2 = 0 := by
        apply roundEven_tie_even
        rw [abs_of_nonpos (by linarith)]; linarith
      apply roundEven_tie_down
      · push_cast; linarith
      · omega
  · have ev : roundEven y % 2 = 0 := by
      apply roundEven_tie_even
      rw [abs_of_nonneg (by linarith)]; linarith
    apply roundEven_tie_up
    · push_cast; linarith
    · omega

theorem roundEven_mono {y z : ℚ} (h : y ≤ z) : roundEven y ≤ roundEven z := by
  have hf : ⌊y⌋ ≤ ⌊z⌋ := Int.floor_mono h
  rcases lt_or_eq_of_le hf with c | c
  · have a := (roundEven_floor_le y).2
    have b := (roundEven_floor_le z).1
    omega
  · unfold roundEven
    rw [← c]
    split_ifs <;> first | omega | (exfalso; linarith)

theorem two_zpow_pos (e : ℤ) : (0 : ℚ) < 2 ^ e := by positivity

theorem ulpExp_ge (x : ℚ) : -1074 ≤ ulpExp x := le_max_right _ _

theorem ulpExp_neg (x : ℚ) : ulpExp (-x) = ulpExp x := by
  unfold ulpExp; rw [abs_neg]

theorem log2_le_abs {x : ℚ} (hx : x ≠ 0) : (2 : ℚ) ^ Int.log 2 |x| ≤ |x| := by
  have h := Int.zpow_log_le_self (b := 2) (r := |x|) (by norm_num) (abs_pos.mpr hx)
  simpa using h

theorem abs_lt_log2_succ (x : ℚ) : |x| < (2 : ℚ) ^ (Int.log 2 |x| + 1) := by
  have h := Int.lt_zpow_succ_log_self (b := 2) (by norm_num) |x|
  simpa using h

theorem log2_lt_of_abs_lt {x : ℚ} {E : ℤ} (hx : x ≠ 0) (h2 : |x| < (2 : ℚ) ^ E) :
    Int.log 2 |x| < E := by
  rw [← Int.lt_zpow_iff_log_lt (by norm_num) (abs_pos.mpr hx)]; simpa using h2

theorem le_log2_of_le_abs {x : ℚ} {E : ℤ} (hx : x ≠ 0) (h1 : (2 : ℚ) ^ E ≤ |x|) :
    E ≤ Int.log 2 |x| := by
  rw [← Int.zpow_le_iff_le_log (by norm_num) (abs_pos.mpr hx)]; simpa using h1

theorem fl_zero : fl 0 = 0 := by
  simp [fl, roundEven]

theorem fl_neg (x : ℚ) : fl (-x) = - fl x := by
  unfold fl
  rw [ulpExp_neg, neg_div, roundEven_neg]
  push_cast; ring

theorem fl_nonneg {x : ℚ} (hx : 0 ≤ x) : 0 ≤ fl x := by
  unfold fl
  have h0 : (0 : ℚ) ≤ x / 2 ^ ulpExp x := div_nonneg hx (two_zpow_pos _).le
  have h1 : roundEven ((0 : ℤ) : ℚ) ≤ roundEven (x / 2 ^ ulpExp x) := roundEven_mono (by simpa using h0)
  rw [roundEven_intCast] at h1
  have h2 : (0 : ℚ) ≤ (roundEven (x / 2 ^ ulpExp x) : ℚ) := by exact_mod_cast h1
  exact mul_nonneg h2 (two_zpow_pos _).le

theorem fl_nonpos {x : ℚ} (hx : x ≤ 0) : fl x ≤ 0 := by
  have h := fl_nonneg (x := -x) (by linarith)
  rw [fl_neg] at h; linarith

/-- The rounding error is at most half a unit in the last place. -/
theorem fl_err_ulp (x : ℚ) : |fl x - x| ≤ 2 ^ ulpExp x / 2 := by
  obtain ⟨b1, b2⟩ := roundEven_bounds (x / 2 ^ ulpExp x)
  have hp := two_zpow_pos (ulpExp x)
  have e : fl x - x = ((roundEven (x / 2 ^ ulpExp x) : ℚ) - x / 2 ^ ulpExp x) * 2 ^ ulpExp x := by
    unfold fl; field_simp
  rw [e, abs_mul, abs_of_pos hp]
  have : |(roundEven (x / 2 ^ ulpExp x) : ℚ) - x / 2 ^ ulpExp x| ≤ 1 / 2 := by
    rw [abs_le]; constructor <;> linarith
  calc |(roundEven (x / 2 ^ ulpExp x) : ℚ) - x / 2 ^ ulpExp x| * 2 ^ ulpExp x
      ≤ 1 / 2 * 2 ^ ulpExp x := mul_le_mul_of_nonneg_right this hp.le
    _ = 2 ^ ulpExp x / 2 := by ring

theorem two_zpow_ulpExp_le (x : ℚ) (hx : x ≠ 0) :
    (2 : ℚ) ^ ulpExp x ≤ |x| / 2 ^ 52 + 1 / 2 ^ 1074 := by
  have hp : (0 : ℚ) ≤ |x| / 2 ^ 52 := by positivity
  unfold ulpExp
  rcases le_total (Int.log 2 |x| - 52) (-1074) with c | c
  · rw [max_eq_right c]
    have : (2 : ℚ) ^ (-1074 : ℤ) = 1 / 2 ^ 1074 := by
      rw [zpow_neg, one_div]; norm_cast
    rw [this]; linarith
  · rw [max_eq_left c]
    have h := log2_le_abs hx
    have e : (2 : ℚ) ^ (Int.log 2 |x| - 52) = 2 ^ Int.log 2 |x| / 2 ^ 52 := by
      rw [zpow_sub₀ (by norm_num)]; norm_cast
    rw [e]
    have : (2 : ℚ) ^ Int.log 2 |x| / 2 ^ 52 ≤ |x| / 2 ^ 52 :=
      div_le_div_of_nonneg_right h (by positivity)
    have : (0 : ℚ) ≤ 1 / 2 ^ 1074 := by positivity
    linarith

/-- The rounding error of one operation: relative error `2^-53`, plus `2^-1075` in the
subnormal range. -/
theorem fl_err (x : ℚ) : |fl x - x| ≤ |x| / 2 ^ 53 + 1 / 2 ^ 1075 := by
  by_cases hx : x = 0
  · subst hx; rw [fl_zero]; simp
  have h1 := fl_err_ulp x
  have h2 := two_zpow_ulpExp_le x hx
  have e1 : |x| / 2 ^ 53 = |x| / 2 ^ 52 / 2 := by rw [div_div]; norm_num
  have e2 : (1 : ℚ) / 2 ^ 1075 = 1 / 2 ^ 1074 / 2 := by rw [div_div]; norm_num
  rw [e1, e2]; linarith

theorem fl_err_normal (x : ℚ) (hx : (1 : ℚ) / 2 ^ 1022 ≤ |x|) : |fl x - x| ≤ |x| / 2 ^ 53 := by
  have h1 := fl_err_ulp x
  have hx0 : x ≠ 0 := by
    intro h; subst h; simp at hx
    have : (0 : ℚ) < (2 ^ 1022)⁻¹ := by positivity
    linarith
  have hE : (-1022 : ℤ) ≤ Int.log 2 |x| := by
    apply le_log2_of_le_abs hx0
    have : (2 : ℚ) ^ (-1022 : ℤ) = 1 / 2 ^ 1022 := by
      rw [zpow_neg, one_div]; norm_cast
    rw [this]; exact hx
  have hu : ulpExp x = Int.log 2 |x| - 52 := by
    unfold ulpExp; apply max_eq_left; omega
  have h := log2_le_abs hx0
  have e : (2 : ℚ) ^ (Int.log 2 |x| - 52) = 2 ^ Int.log 2 |x| / 2 ^ 52 := by
    rw [zpow_sub₀ (by norm_num)]; norm_cast
  rw [hu, e] at h1
  have : (2 : ℚ) ^ Int.log 2 |x| / 2 ^ 52 ≤ |x| / 2 ^ 52 :=
    div_le_div_of_nonneg_right h (by positivity)
  have e1 : |x| / 2 ^ 53 = |x| / 2 ^ 52 / 2 := by rw [div_div]; norm_num
  rw [e1]; linarith

theorem ulpExp_eq_of {x : ℚ} {e : ℤ} (he : -1074 ≤ e)
    (h1 : e = -1074 ∨ (2 : ℚ) ^ (e + 52) ≤ |x|) (h2 : |x| < (2 : ℚ) ^ (e + 53)) (hx : x ≠ 0) :
    ulpExp x = e := by
  have a := log2_lt_of_abs_lt hx h2
  unfold ulpExp
  rcases h1 with h1 | h1
  · subst h1; apply max_eq_right; omega
  · have b := le_log2_of_le_abs hx h1
    have : Int.log 2 |x| - 52 = e := by omega
    rw [this]; exact max_eq_left he

theorem ulpExp_le_of {x : ℚ} {k : ℤ} (hk : -1074 ≤ k) (hx : x ≠ 0)
    (h2 : |x| < (2 : ℚ) ^ (k + 53)) : ulpExp x ≤ k := by
  have a := log2_lt_of_abs_lt hx h2
  unfold ulpExp
  apply max_le <;> omega

theorem fl_of_int_mul (x : ℚ) (n : ℤ) (h : x / 2 ^ ulpExp x = (n : ℚ)) : fl x = x := by
  unfold fl
  rw [h, roundEven_intCast, ← h]
  have := two_zpow_pos (ulpExp x)
  field_simp

/-- A number `m * 2^k` with `|m| < 2^53` and `k ≥ -1074` is a `double`. -/
theorem fl_exact (m k : ℤ) (hm : |m| < 2 ^ 53) (hk : -1074 ≤ k) :
    fl ((m : ℚ) * 2 ^ k) = (m : ℚ) * 2 ^ k := by
  by_cases hm0 : m = 0
  · subst hm0; simp [fl_zero]
  have hx : (m : ℚ) * 2 ^ k ≠ 0 := by
    have := two_zpow_pos k
    have : (m : ℚ) ≠ 0 := by exact_mod_cast hm0
    positivity
  have hlt : |(m : ℚ) * 2 ^ k| < (2 : ℚ) ^ (k + 53) := by
    rw [abs_mul, abs_of_pos (two_zpow_pos k), zpow_add₀ (by norm_num), mul_comm]
    apply mul_lt_mul_of_pos_left _ (two_zpow_pos k)
    have : ((|m| : ℤ) : ℚ) < ((2 ^ 53 : ℤ) : ℚ) := by exact_mod_cast hm
    push_cast at this
    exact_mod_cast this
  have hle := ulpExp_le_of hk hx hlt
  obtain ⟨d, hd⟩ : ∃ d : ℕ, k = ulpExp ((m : ℚ) * 2 ^ k) + d :=
    ⟨(k - ulpExp ((m : ℚ) * 2 ^ k)).toNat, by omega⟩
  apply fl_of_int_mul _ (m * 2 ^ d)
  have hp := two_zpow_pos (ulpExp ((m : ℚ) * 2 ^ k))
  rw [div_eq_iff hp.ne']
  push_cast
  nth_rewrite 1 [hd]
  rw [zpow_add₀ (by norm_num), zpow_natCast]
  ring

theorem fl_two_zpow (k : ℤ) (hk : -1074 ≤ k) : fl ((2 : ℚ) ^ k) = 2 ^ k := by
  have h := fl_exact 1 k (by norm_num) hk
  simpa using h

theorem fl_exact_le (m k : ℤ) (hm : |m| ≤ 2 ^ 53) (hk : -1074 ≤ k) :
    fl ((m : ℚ) * 2 ^ k) = (m : ℚ) * 2 ^ k := by
  rcases lt_or_eq_of_le hm with c | c
  · exact fl_exact m k c hk
  · have e2 : (2 : ℚ) ^ (53 + k) = 9007199254740992 * 2 ^ k := by
      rw [zpow_add₀ (by norm_num)]; norm_num
    rcases abs_eq (by positivity : (0 : ℤ) ≤ 2 ^ 53) |>.mp c with d | d
    · subst d
      have h := fl_two_zpow (53 + k) (by omega)
      push_cast
      rw [← e2]; exact h
    · subst d
      have h := fl_two_zpow (53 + k) (by omega)
      push_cast
      rw [neg_mul, fl_neg, ← e2, h]

theorem fl_intCast (n : ℤ) (hn : |n| ≤ 2 ^ 53) : fl (n : ℚ) = n := by
  have h := fl_exact_le n 0 hn (by norm_num)
  simpa using h

theorem fl_natCast (n : ℕ) (hn : n ≤ 2 ^ 53) : fl (n : ℚ) = n := by
  have h := fl_intCast (n : ℤ) (by rw [abs_of_nonneg (by positivity)]; exact_mod_cast hn)
  simpa using h

theorem fl_one : fl 1 = 1 := by
  have h := fl_natCast 1 (by norm_num)
  simpa using h

theorem roundEven_abs_le (x : ℚ) : |roundEven (x / 2 ^ ulpExp x)| ≤ 2 ^ 53 := by
  by_cases hx : x = 0
  · subst hx; simp [roundEven]
  have hp := two_zpow_pos (ulpExp x)
  have h2 := abs_lt_log2_succ x
  have hu : Int.log 2 |x| + 1 ≤ ulpExp x + 53 := by
    have : Int.log 2 |x| - 52 ≤ ulpExp x := le_max_left _ _
    omega
  have h3 : |x| < 2 ^ (ulpExp x + 53) :=
    lt_of_lt_of_le h2 (zpow_le_zpow_right₀ (by norm_num) hu)
  have h4 : |x / 2 ^ ulpExp x| < 2 ^ 53 := by
    rw [abs_div, abs_of_pos hp, div_lt_iff₀ hp]
    rw [zpow_add₀ (by norm_num)] at h3
    have : (2 : ℚ) ^ (53 : ℤ) = 2 ^ 53 := by norm_cast
    rw [this] at h3; linarith
  rw [abs_lt] at h4
  have a1 : roundEven (((-(2 ^ 53) : ℤ)) : ℚ) ≤ roundEven (x / 2 ^ ulpExp x) :=
    roundEven_mono (by push_cast; linarith)
  have a2 : roundEven (x / 2 ^ ulpExp x) ≤ roundEven (((2 ^ 53 : ℤ)) : ℚ) :=
    roundEven_mono (by push_cast; linarith)
  rw [roundEven_intCast] at a1 a2
  rw [abs_le]; constructor <;> omega

/-- Rounding is idempotent: the result of a rounding is a `double`. -/
theorem fl_idem (x : ℚ) : fl (fl x) = fl x := by
  unfold fl
  exact fl_exact_le _ _ (roundEven_abs_le x) (ulpExp_ge x)

theorem ulpExp_mono {x y : ℚ} (hx : 0 < x) (h : x ≤ y) : ulpExp x ≤ ulpExp y := by
  unfold ulpExp
  have : Int.log 2 |x| ≤ Int.log 2 |y| := by
    rw [abs_of_pos hx, abs_of_pos (lt_of_lt_of_le hx h)]
    exact Int.log_mono_right hx h
  apply max_le_max _ le_rfl
  omega

theorem fl_mono_pos {x y : ℚ} (hx : 0 < x) (h : x ≤ y) : fl x ≤ fl y := by
  have hy : 0 < y := lt_of_lt_of_le hx h
  have hm := ulpExp_mono hx h
  rcases eq_or_lt_of_le hm with c | c
  · unfold fl
    rw [← c]
    have hp := two_zpow_pos (ulpExp x)
    have : roundEven (x / 2 ^ ulpExp x) ≤ roundEven (y / 2 ^ ulpExp x) :=
      roundEven_mono (div_le_div_of_nonneg_right h hp.le)
    have : (roundEven (x / 2 ^ ulpExp x) : ℚ) ≤ (roundEven (y / 2 ^ ulpExp x) : ℚ) := by
      exact_mod_cast this
    exact mul_le_mul_of_nonneg_right this hp.le
  · -- different binades: the power of two between them separates the roundings
    have hy1 : ulpExp y = Int.log 2 |y| - 52 := by
      have h1 := ulpExp_ge x
      unfold ulpExp at c ⊢
      apply max_eq_left
      by_contra hc
      rw [max_eq_right (by omega)] at c
      unfold ulpExp at h1
      omega
    have hx1 : Int.log 2 |x| - 52 ≤ ulpExp x := le_max_left _ _
    have hE : Int.log 2 |x| + 1 ≤ Int.log 2 |y| := by omega
    have hxlt : x < 2 ^ Int.log 2 |y| := by
      have h2 := lt_of_le_of_lt (le_abs_self x) (abs_lt_log2_succ x)
      exact lt_of_lt_of_le h2 (zpow_le_zpow_right₀ (by norm_num) hE)
    have hyge : (2 : ℚ) ^ Int.log 2 |y| ≤ y := by
      exact le_trans (log2_le_abs hy.ne') (le_of_eq (abs_of_pos hy))
    have a : fl x ≤ 2 ^ Int.log 2 |y| := by
      obtain ⟨d, hd⟩ : ∃ d : ℕ, Int.log 2 |y| = ulpExp x + d :=
        ⟨(Int.log 2 |y| - ulpExp x).toNat, by omega⟩
      have hp := two_zpow_pos (ulpExp x)
      have e : (2 : ℚ) ^ Int.log 2 |y| = ((2 ^ d : ℤ) : ℚ) * 2 ^ ulpExp x := by
        rw [hd, zpow_add₀ (by norm_num), zpow_natCast]; push_cast; ring
      have : x / 2 ^ ulpExp x ≤ ((2 ^ d : ℤ) : ℚ) := by
        rw [div_le_iff₀ hp, ← e]; exact hxlt.le
      have r := roundEven_mono this
      rw [roundEven_intCast] at r
      have r2 : (roundEven (x / 2 ^ ulpExp x) : ℚ) ≤ ((2 ^ d : ℤ) : ℚ) := by exact_mod_cast r
      unfold fl
      rw [e]
      exact mul_le_mul_of_nonneg_right r2 hp.le
    have b : (2 : ℚ) ^ Int.log 2 |y| ≤ fl y := by
      have hp := two_zpow_pos (ulpExp y)
      have e : (2 : ℚ) ^ Int.log 2 |y| = ((2 ^ 52 : ℤ) : ℚ) * 2 ^ ulpExp y := by
        rw [hy1]
        have : Int.log 2 |y| = (Int.log 2 |y| - 52) + 52 := by ring
        nth_rewrite 1 [this]
        rw [zpow_add₀ (by norm_num)]; push_cast
        have : (2 : ℚ) ^ (52 : ℤ) = 2 ^ 52 := by norm_cast
        rw [this]; ring
      have : ((2 ^ 52 : ℤ) : ℚ) ≤ y / 2 ^ ulpExp y := by
        rw [le_div_iff₀ hp, ← e]; exact hyge
      have r := roundEven_mono this
      rw [roundEven_intCast] at r
      have r2 : ((2 ^ 52 : ℤ) : ℚ) ≤ (roundEven (y / 2 ^ ulpExp y) : ℚ) := by exact_mod_cast r
      unfold fl
      rw [e]
      exact mul_le_mul_of_nonneg_right r2 hp.le
    linarith

/-- Rounding is monotone. -/
theorem fl_mono {x y : ℚ} (h : x ≤ y) : fl x ≤ fl y := by
  rcases lt_trichotomy 0 x with hx | hx | hx
  · exact fl_mono_pos hx h
  · subst hx; rw [fl_zero]; exact fl_nonneg h
  · rcases le_or_lt 0 y with hy | hy
    · exact le_trans (fl_nonpos hx.le) (fl_nonneg hy)
    · have := fl_mono_pos (x := -y) (y := -x) (by linarith) (by linarith)
      rw [fl_neg, fl_neg] at this
      linarith

/-- Evaluation of a rounding from a certificate: the exponent `e` of the unit in the
last place and the integer `m` nearest to `x / 2^e`. -/
theorem fl_eval (x v : ℚ) (e m : ℤ) (he : -1074 ≤ e)
    (h1 : e = -1074 ∨ (2 : ℚ) ^ (e + 52) ≤ |x|) (h2 : |x| < (2 : ℚ) ^ (e + 53))
    (hr : (m : ℚ) - 1 / 2 < x / 2 ^ e ∧ x / 2 ^ e < (m : ℚ) + 1 / 2)
    (hv : (m : ℚ) * 2 ^ e = v) : fl x = v := by
  by_cases hx : x = 0
  · subst hx
    rw [fl_zero, ← hv]
    simp only [zero_div] at hr
    have : m = 0 := by
      have a1 : ((m : ℤ) : ℚ) < 1 := by linarith [hr.1]
      have a2 : (-1 : ℚ) < ((m : ℤ) : ℚ) := by linarith [hr.2]
      have a3 : m < 1 := by exact_mod_cast a1
      have a4 : -1 < m := by exact_mod_cast a2
      omega
    subst this; simp
  · unfold fl
    rw [ulpExp_eq_of he h1 h2 hx, roundEven_eq _ m hr.1 hr.2, hv]

/-- Evaluation of a rounding at a tie: `x / 2^e` lies half-way between two integers and
`m` is the even one. -/
theorem fl_eval_tie (x v : ℚ) (e m : ℤ) (he : -1074 ≤ e)
    (h1 : e = -1074 ∨ (2 : ℚ) ^ (e + 52) ≤ |x|) (h2 : |x| < (2 : ℚ) ^ (e + 53))
    (hr : x / 2 ^ e = (m : ℚ) - 1 / 2 ∨ x / 2 ^ e = (m : ℚ) + 1 / 2) (hm : m % 2 = 0)
    (hv : (m : ℚ) * 2 ^ e = v) : fl x = v := by
  have hx : x ≠ 0 := by
    intro h; subst h
    simp only [zero_div] at hr
    have key : (2 * m + 1 : ℤ) = 0 ∨ (2 * m - 1 : ℤ) = 0 := by
      rcases hr with hr | hr
      · right
        have : ((2 * m - 1 : ℤ) : ℚ) = 0 := by push_cast; linarith
        exact_mod_cast this
      · left
        have : ((2 * m + 1 : ℤ) : ℚ) = 0 := by push_cast; linarith
        exact_mod_cast this
    omega
  unfold fl
  rw [ulpExp_eq_of he h1 h2 hx]
  rcases hr with hr | hr
  · rw [roundEven_tie_up _ m hr hm, hv]
  · rw [roundEven_tie_down _ m hr hm, hv]

/-! ## Binary64: `encode` and `decode` within the bounds -/

/-! ## Binary64 `encode` and `decode` -/

theorem f64_encode_eq_toBits (p : Parameter ℚ) (z : ℚ) (hN : p.N ≤ 64) :
    f64.encode p z = toBits p.N (f64.encodeValue p z) := by
  unfold f64.encode
  exact substr_GetBinary _ _ hN

theorem GetValue_le_MAXVAL (b : List Bool) (N : Nat) (hlen : b.length = N) :
    GetValue b ≤ MAXVAL N := by
  have := GetValue_lt b
  rw [hlen] at this
  unfold MAXVAL; omega

theorem fl_ge_one {x : ℚ} (h : 1 ≤ x) : 1 ≤ fl x := by
  have := fl_mono h
  rwa [fl_one] at this

theorem fl_le_one {x : ℚ} (h : x ≤ 1) : fl x ≤ 1 := by
  have := fl_mono h
  rwa [fl_one] at this

/-- The quotient `GetValue(str) / static_cast<double>(MAXVAL)` of `decode` lies in
`[0, 1]`; it is `0` for the all-zero string and `1` for the all-one string. -/
theorem decode_ratio (N : Nat) (b : List Bool) (hN1 : 1 ≤ N) (hlen : b.length = N) :
    0 ≤ f64.div (f64.ofNat (GetValue b)) (f64.ofNat (MAXVAL N)) ∧
    f64.div (f64.ofNat (GetValue b)) (f64.ofNat (MAXVAL N)) ≤ 1 ∧
    f64.div (f64.ofNat (GetValue (List.replicate N false))) (f64.ofNat (MAXVAL N)) = 0 ∧
    f64.div (f64.ofNat (GetValue (List.replicate N true))) (f64.ofNat (MAXVAL N)) = 1 := by
  have hM : 1 ≤ MAXVAL N := MAXVAL_pos N hN1
  have hMq : (1 : ℚ) ≤ (MAXVAL N : ℚ) := by exact_mod_cast hM
  have hMM : 1 ≤ fl (MAXVAL N : ℚ) := fl_ge_one hMq
  have hk : GetValue b ≤ MAXVAL N := GetValue_le_MAXVAL b N hlen
  have hkq : (GetValue b : ℚ) ≤ (MAXVAL N : ℚ) := by exact_mod_cast hk
  have hkk : fl (GetValue b : ℚ) ≤ fl (MAXVAL N : ℚ) := fl_mono hkq
  have hk0 : 0 ≤ fl (GetValue b : ℚ) := fl_nonneg (by positivity)
  unfold f64.div f64.ofNat
  refine ⟨fl_nonneg (div_nonneg hk0 (by linarith)), fl_le_one ?_, ?_, ?_⟩
  · rw [div_le_one (by linarith)]; exact hkk
  · rw [GetValue_replicate_false]; simp [fl_zero]
  · rw [GetValue_replicate_true]
    have : (2 ^ N - 1 : ℕ) = MAXVAL N := rfl
    rw [this, div_self (by linarith), fl_one]

/-- Bounds of the binary64 `decode` of a real-typed parameter. -/
theorem f64_decode_bounds (p : Parameter ℚ) (b : List Bool) (hb : p.data0 < p.data1)
    (hlo : fl p.data0 = p.data0) (hN1 : 1 ≤ p.N) (hlen : b.length = p.N) :
    p.data0 ≤ f64.decode p b ∧
    f64.decode p b ≤ f64.add p.data0 (f64.sub p.data1 p.data0) ∧
    f64.decode p (List.replicate p.N false) = p.data0 ∧
    f64.decode p (List.replicate p.N true) = f64.add p.data0 (f64.sub p.data1 p.data0) := by
  obtain ⟨r0, r1, rz, ro⟩ := decode_ratio p.N b hN1 hlen
  have hw : 0 ≤ f64.sub p.data1 p.data0 := fl_nonneg (by linarith)
  have hwi : fl (f64.sub p.data1 p.data0) = f64.sub p.data1 p.data0 := fl_idem _
  have s0 : 0 ≤ f64.mul (f64.div (f64.ofNat (GetValue b)) (f64.ofNat (MAXVAL p.N)))
      (f64.sub p.data1 p.data0) := fl_nonneg (mul_nonneg r0 hw)
  have s1 : f64.mul (f64.div (f64.ofNat (GetValue b)) (f64.ofNat (MAXVAL p.N)))
      (f64.sub p.data1 p.data0) ≤ f64.sub p.data1 p.data0 := by
    have : f64.div (f64.ofNat (GetValue b)) (f64.ofNat (MAXVAL p.N)) * f64.sub p.data1 p.data0
        ≤ f64.sub p.data1 p.data0 := by nlinarith
    have := fl_mono this
    rwa [hwi] at this
  refine ⟨?_, ?_, ?_, ?_⟩
  · have : p.data0 ≤ p.data0 + f64.mul (f64.div (f64.ofNat (GetValue b)) (f64.ofNat (MAXVAL p.N)))
        (f64.sub p.data1 p.data0) := by linarith
    have := fl_mono this
    rwa [hlo] at this
  · exact fl_mono (by linarith)
  · unfold f64.decode
    rw [rz]
    simp [f64.mul, f64.add, fl_zero, hlo]
  · unfold f64.decode
    rw [ro]
    simp only [f64.mul, one_mul]
    rw [hwi]

/-- Bounds of the binary64 `decode` of an integer-typed parameter whose bounds and
their difference fit in an `int`. -/
theorem f64_decodeInt_bounds (p : Parameter ℤ) (b : List Bool) (hb : p.data0 < p.data1)
    (h0 : -2 ^ 31 ≤ p.data0) (h1 : p.data1 < 2 ^ 31) (hN1 : 1 ≤ p.N) (hlen : b.length = p.N) :
    p.data0 ≤ f64.decodeInt p b ∧ f64.decodeInt p b ≤ p.data1 ∧
    f64.decodeInt p (List.replicate p.N false) = p.data0 ∧
    f64.decodeInt p (List.replicate p.N true) = p.data1 := by
  obtain ⟨r0, r1, rz, ro⟩ := decode_ratio p.N b hN1 hlen
  have e0 : f64.ofInt p.data0 = (p.data0 : ℚ) := fl_intCast _ (by rw [abs_le]; constructor <;> omega)
  have e1 : fl (p.data1 : ℚ) = (p.data1 : ℚ) := fl_intCast _ (by rw [abs_le]; constructor <;> omega)
  have ew : f64.ofInt (p.data1 - p.data0) = ((p.data1 - p.data0 : ℤ) : ℚ) :=
    fl_intCast _ (by rw [abs_le]; constructor <;> omega)
  have hw : (0 : ℚ) ≤ ((p.data1 - p.data0 : ℤ) : ℚ) := by
    have : 0 ≤ p.data1 - p.data0 := by omega
    exact_mod_cast this
  have hwi : fl ((p.data1 - p.data0 : ℤ) : ℚ) = ((p.data1 - p.data0 : ℤ) : ℚ) := ew
  have s0 : 0 ≤ f64.mul (f64.div (f64.ofNat (GetValue b)) (f64.ofNat (MAXVAL p.N)))
      ((p.data1 - p.data0 : ℤ) : ℚ) := fl_nonneg (mul_nonneg r0 hw)
  have s1 : f64.mul (f64.div (f64.ofNat (GetValue b)) (f64.ofNat (MAXVAL p.N)))
      ((p.data1 - p.data0 : ℤ) : ℚ) ≤ ((p.data1 - p.data0 : ℤ) : ℚ) := by
    have : f64.div (f64.ofNat (GetValue b)) (f64.ofNat (MAXVAL p.N)) * ((p.data1 - p.data0 : ℤ) : ℚ)
        ≤ ((p.data1 - p.data0 : ℤ) : ℚ) := by nlinarith
    have := fl_mono this
    rwa [hwi] at this
  have hsum : (p.data0 : ℚ) + ((p.data1 - p.data0 : ℤ) : ℚ) = (p.data1 : ℚ) := by push_cast; ring
  have hd := truncate_mono_bounds
    (f64.add (p.data0 : ℚ) (f64.mul (f64.div (f64.ofNat (GetValue b)) (f64.ofNat (MAXVAL p.N)))
      ((p.data1 - p.data0 : ℤ) : ℚ))) p.data0 p.data1
    (by
      have : (p.data0 : ℚ) ≤ (p.data0 : ℚ) + f64.mul (f64.div (f64.ofNat (GetValue b))
          (f64.ofNat (MAXVAL p.N))) ((p.data1 - p.data0 : ℤ) : ℚ) := by linarith
      have := fl_mono this
      rw [show fl (p.data0 : ℚ) = (p.data0 : ℚ) from e0] at this
      exact this)
    (by
      have : (p.data0 : ℚ) + f64.mul (f64.div (f64.ofNat (GetValue b))
          (f64.ofNat (MAXVAL p.N))) ((p.data1 - p.data0 : ℤ) : ℚ) ≤ (p.data1 : ℚ) := by linarith
      have := fl_mono this
      rw [e1] at this
      exact this)
  refine ⟨?_, ?_, ?_⟩
  · unfold f64.decodeInt
    rw [e0, ew]
    exact hd.1
  · unfold f64.decodeInt
    rw [e0, ew]
    exact hd.2
  · constructor
    · unfold f64.decodeInt
      rw [rz, e0]
      simp only [f64.mul, zero_mul, fl_zero, f64.add, add_zero]
      rw [show fl (p.data0 : ℚ) = (p.data0 : ℚ) from e0, truncate_intCast]
    · unfold f64.decodeInt
      rw [ro, e0, ew]
      simp only [f64.mul, one_mul, f64.add]
      rw [hwi, hsum, e1, truncate_intCast]

/-- Every `double` is an integer multiple of `2^-1074`. -/
theorem double_grid (x : ℚ) (hx : fl x = x) : ∃ n : ℤ, x = (n : ℚ) * 2 ^ (-1074 : ℤ) := by
  obtain ⟨d, hd⟩ : ∃ d : ℕ, ulpExp x = -1074 + d :=
    ⟨(ulpExp x + 1074).toNat, by have := ulpExp_ge x; omega⟩
  refine ⟨roundEven (x / 2 ^ ulpExp x) * 2 ^ d, ?_⟩
  nth_rewrite 1 [← hx]
  unfold fl
  rw [hd, zpow_add₀ (by norm_num), zpow_natCast]
  push_cast
  ring

/-- A multiple of `2^-1074` is rounded with a relative error of at most `2^-53`: in the
subnormal range it is a `double`. -/
theorem fl_err_grid (x : ℚ) (n : ℤ) (hx : x = (n : ℚ) * 2 ^ (-1074 : ℤ)) :
    |fl x - x| ≤ |x| / 2 ^ 53 := by
  rcases le_or_lt ((1 : ℚ) / 2 ^ 1022) |x| with h | h
  · exact fl_err_normal x h
  · have hn : |n| < 2 ^ 53 := by
      have e : |x| = ((|n| : ℤ) : ℚ) * 2 ^ (-1074 : ℤ) := by
        rw [hx, abs_mul, abs_of_pos (two_zpow_pos _)]; push_cast; rfl
      rw [e] at h
      have h2 : ((|n| : ℤ) : ℚ) < 2 ^ 52 := by
        have hp := two_zpow_pos (-1074)
        have e2 : (1 : ℚ) / 2 ^ 1022 = 2 ^ 52 * 2 ^ (-1074 : ℤ) := by
          have a : (2 : ℚ) ^ (-1022 : ℤ) = 1 / 2 ^ 1022 := by
            rw [zpow_neg, one_div]; norm_cast
          have b : (2 : ℚ) ^ (52 : ℤ) = 2 ^ 52 := by norm_cast
          rw [← a, ← b, ← zpow_add₀ (by norm_num)]
          norm_num
        rw [e2] at h
        exact lt_of_mul_lt_mul_right h hp.le
      have h3 : |n| < 2 ^ 52 := by exact_mod_cast h2
      omega
    have := fl_exact n (-1074) hn (by norm_num)
    rw [← hx] at this
    rw [this]
    simp
    positivity

theorem fl_err_add (a b : ℚ) (ha : fl a = a) (hb : fl b = b) :
    |fl (a + b) - (a + b)| ≤ |a + b| / 2 ^ 53 := by
  obtain ⟨n, hn⟩ := double_grid a ha
  obtain ⟨m, hm⟩ := double_grid b hb
  exact fl_err_grid _ (n + m) (by rw [hn, hm]; push_cast; ring)

theorem fl_err_sub (a b : ℚ) (ha : fl a = a) (hb : fl b = b) :
    |fl (a - b) - (a - b)| ≤ |a - b| / 2 ^ 53 := by
  obtain ⟨n, hn⟩ := double_grid a ha
  obtain ⟨m, hm⟩ := double_grid b hb
  exact fl_err_grid _ (n - m) (by rw [hn, hm]; push_cast; ring)

theorem fl_err_natmul (k : ℕ) (a : ℚ) (ha : fl a = a) :
    |fl ((k : ℚ) * a) - (k : ℚ) * a| ≤ |(k : ℚ) * a| / 2 ^ 53 := by
  obtain ⟨n, hn⟩ := double_grid a ha
  exact fl_err_grid _ (k * n) (by rw [hn]; push_cast; ring)

/-- The difference of two distinct `double` does not underflow to zero. -/
theorem fl_sub_pos (a b : ℚ) (ha : fl a = a) (hb : fl b = b) (h : a < b) : 0 < fl (b - a) := by
  have e := fl_err_sub b a hb ha
  have hp : 0 < b - a := by linarith
  rw [abs_of_pos hp] at e
  have := (abs_le.mp e).1
  have h2 : (b - a) / 2 ^ 53 < b - a := by
    rw [div_lt_iff₀ (by positivity)]
    nlinarith
  linarith

theorem f64_encodeValue_lower (p : Parameter ℚ) :
    f64.encodeValue p p.data0 = 0 := by
  unfold f64.encodeValue f64.div f64.mul f64.sub
  simp [fl_zero, double_to_uint64, truncate]

/-- The binary64 `encode` maps the lower bound to the all-zero string. -/
theorem f64_encode_lower (p : Parameter ℚ) (hN : p.N ≤ 64) :
    f64.encode p p.data0 = List.replicate p.N false := by
  rw [f64_encode_eq_toBits p _ hN, f64_encodeValue_lower, toBits_zero]

/-- How far the binary64 `decode` of the all-one string can lie above the upper
bound. -/
theorem f64_decode_overshoot (lo hi : ℚ) (hlo : fl lo = lo) (hhi : fl hi = hi) (h : lo < hi) :
    |f64.add lo (f64.sub hi lo) - hi| ≤ (|lo| + |hi|) / 2 ^ 51 := by
  have e1 := fl_err_sub hi lo hhi hlo
  have e2 := fl_err_add lo (fl (hi - lo)) hlo (fl_idem _)
  have hw : 0 < hi - lo := by linarith
  rw [abs_of_pos hw] at e1
  have hwle : hi - lo ≤ |lo| + |hi| := by
    have := neg_abs_le lo
    have := le_abs_self hi
    linarith
  have hK : 0 ≤ |lo| + |hi| := by positivity
  unfold f64.add f64.sub
  set w := fl (hi - lo) with hwdef
  have a1 := abs_le.mp e1
  have hsum : |lo + w| ≤ 2 * (|lo| + |hi|) := by
    rw [abs_le]
    have := neg_abs_le lo
    have := le_abs_self lo
    have := neg_abs_le hi
    have := le_abs_self hi
    have : (hi - lo) / 2 ^ 53 ≤ hi - lo := by
      rw [div_le_iff₀ (by positivity)]; nlinarith
    constructor <;> linarith [a1.1, a1.2]
  have a2 := abs_le.mp e2
  have b1 : (hi - lo) / 2 ^ 53 ≤ (|lo| + |hi|) / 2 ^ 53 :=
    div_le_div_of_nonneg_right hwle (by positivity)
  have b2 : |lo + w| / 2 ^ 53 ≤ 2 * (|lo| + |hi|) / 2 ^ 53 :=
    div_le_div_of_nonneg_right hsum (by positivity)
  have b3 : (|lo| + |hi|) / 2 ^ 53 + 2 * (|lo| + |hi|) / 2 ^ 53 ≤ (|lo| + |hi|) / 2 ^ 51 := by
    rw [div_add_div_same, div_le_div_iff₀ (by positivity) (by positivity)]
    nlinarith
  rw [abs_le]
  constructor <;> linarith [a1.1, a1.2, a2.1, a2.2]

/-- The integer-typed parameter with bounds `[0, 51]` and width 8, at the string of `155`:
`155/255 * 51` is exactly `31`, but the rounded quotient `0.6078431372549019` times `51`
is `30.999999999999996`, which is converted to the `int` `30`. -/
theorem f64_decodeInt_sample :
    f64.decodeInt (Parameter.mk 8 [0, 51] 1 0 : Parameter ℤ) (toBits 8 155) = 30 ∧
    (0 : ℚ) + (155 : ℚ) / 255 * (51 - 0) = 31 := by
  have i1 : fl 155 = 155 :=
    fl_eval _ _ (-45) 5453577673768960 (by norm_num) (by norm_num [abs_of_pos]) (by norm_num [abs_of_pos])
      (by norm_num) (by norm_num)
  have i2 : fl 255 = 255 :=
    fl_eval _ _ (-45) 8972014882652160 (by norm_num) (by norm_num [abs_of_pos]) (by norm_num [abs_of_pos])
      (by norm_num) (by norm_num)
  have i3 : fl (31 / 51) = (5474964252881779 / 9007199254740992) :=
    fl_eval _ _ (-53) 5474964252881779 (by norm_num) (by norm_num [abs_of_pos]) (by norm_num [abs_of_pos])
      (by norm_num) (by norm_num)
  have i4 : fl 51 = 51 :=
    fl_eval _ _ (-47) 7177611906121728 (by norm_num) (by norm_num [abs_of_pos]) (by norm_num [abs_of_pos])
      (by norm_num) (by norm_num)
  have i5 : fl (279223176896970729 / 9007199254740992) = (8725724278030335 / 281474976710656) :=
    fl_eval _ _ (-48) 8725724278030335 (by norm_num) (by norm_num [abs_of_pos]) (by norm_num [abs_of_pos])
      (by norm_num) (by norm_num)
  have i6 : fl (8725724278030335 / 281474976710656) = (8725724278030335 / 281474976710656) :=
    fl_eval _ _ (-48) 8725724278030335 (by norm_num) (by norm_num [abs_of_pos]) (by norm_num [abs_of_pos])
      (by norm_num) (by norm_num)
  have hM : ((MAXVAL 8 : ℕ) : ℚ) = 255 := by norm_num [MAXVAL]
  have hG : GetValue (toBits 8 155) = 155 := by decide
  refine ⟨?_, by norm_num⟩
  have e : f64.decodeInt (Parameter.mk 8 [0, 51] 1 0 : Parameter ℤ) (toBits 8 155) = truncate ((8725724278030335 / 281474976710656) : ℚ) := by
    simp only [f64.decodeInt, f64.add, f64.mul, f64.div, f64.ofNat, f64.ofInt, hG, hM,
      Parameter.data0, Parameter.data1]
    norm_num [fl_zero, i1, i2, i3, i4, i5, i6]
  rw [e]
  unfold truncate
  rw [if_pos (by norm_num), Int.floor_eq_iff]
  constructor <;> norm_num

/-- C3, counterexample. (a) The real-typed parameter with bounds `[-0.1, 0.2]` and width
8: the all-one string decodes to `0.20000000000000004`, above the upper bound. (b) The
integer-typed parameter with bounds `[0, 51]` and width 8: the string of `155` decodes to
`30`, although `lo + uint(b)/(2^N - 1) * (hi - lo)` is exactly `31`. -/
theorem decode_exceeds_upper :
    (f64.decode tenthParam (List.replicate 8 true) = (7205759403792795 / 36028797018963968) ∧
      tenthParam.data1 < f64.decode tenthParam (List.replicate 8 true)) ∧
    (f64.decodeInt (Parameter.mk 8 [0, 51] 1 0 : Parameter ℤ) (toBits 8 155) = 30 ∧
      (0 : ℚ) + (155 : ℚ) / 255 * (51 - 0) = 31) := by
  refine ⟨?_, f64_decodeInt_sample⟩
  have h1 : fl 255 = 255 :=
    fl_eval _ _ (-45) 8972014882652160 (by norm_num) (by norm_num [abs_of_pos]) (by norm_num [abs_of_pos])
      (by norm_num) (by norm_num)
  have h2 : fl 1 = 1 :=
    fl_eval _ _ (-52) 4503599627370496 (by norm_num) (by norm_num [abs_of_pos]) (by norm_num [abs_of_pos])
      (by norm_num) (by norm_num)
  have h3 : fl (10808639105689191 / 36028797018963968) = (1351079888211149 / 4503599627370496) :=
    fl_eval_tie _ _ (-54) 5404319552844596 (by norm_num) (by norm_num [abs_of_pos]) (by norm_num [abs_of_pos])
      (by norm_num) (by norm_num) (by norm_num)
  have h4 : fl (1351079888211149 / 4503599627370496) = (1351079888211149 / 4503599627370496) :=
    fl_eval _ _ (-54) 5404319552844596 (by norm_num) (by norm_num [abs_of_pos]) (by norm_num [abs_of_pos])
      (by norm_num) (by norm_num)
  have h5 : fl (7205759403792795 / 36028797018963968) = (7205759403792795 / 36028797018963968) :=
    fl_eval _ _ (-55) 7205759403792795 (by norm_num) (by norm_num [abs_of_pos]) (by norm_num [abs_of_pos])
      (by norm_num) (by norm_num)
  have hG : GetValue (List.replicate 8 true) = 255 := by decide
  have e : f64.decode tenthParam (List.replicate 8 true) = (7205759403792795 / 36028797018963968) := by
    norm_num [f64.decode, f64.add, f64.mul, f64.div, f64.sub, f64.ofNat, hG, MAXVAL,
      tenthParam, Parameter.data0, Parameter.data1, h1, h2, h3, h4, h5]
  rw [e]
  refine ⟨rfl, ?_⟩
  norm_num [tenthParam, Parameter.data1]

/-! ## Binary64: the walks of `RWS` and `SUS` -/

/-! ## Binary64 selection: the walks -/

theorem f64_adjustFitness_of_nonneg {T : Type} (x : Population T)
    (hfit : ∀ f ∈ x.fitnesses, 0 ≤ f) : f64.adjustFitness x = x := by
  unfold f64.adjustFitness
  rw [if_neg]
  simp only [List.any_eq_true, decide_eq_true_eq, not_exists, not_and, not_lt]
  exact hfit

/-- The outcome of a walk of `RWS` in binary64, in terms of the running difference
`(fs.take n).foldl f64.sub u` after `n` subtractions: the walk raises when no running
difference is negative, and otherwise stops after the first `m` subtractions that make
it negative. -/
theorem f64_RWS_walk_cases (fs : List ℚ) (j : Nat) (u : ℚ) :
    (f64.RWS_walk fs j u = .error
        "Error: in RWS(galgo::Population<T>&) index j cannot be equal to population size." ∧
      ∀ n, n ≤ fs.length → 0 ≤ (fs.take n).foldl f64.sub u) ∨
    (∃ m, m ≤ fs.length ∧ f64.RWS_walk fs j u = .ok (j + m) ∧
      (fs.take m).foldl f64.sub u < 0 ∧ ∀ n, n < m → 0 ≤ (fs.take n).foldl f64.sub u) := by
  induction fs generalizing j u with
  | nil =>
    by_cases h : 0 ≤ u
    · left
      refine ⟨by simp [f64.RWS_walk, h], ?_⟩
      intro n _
      simpa using h
    · right
      refine ⟨0, le_refl _, by simp [f64.RWS_walk, h], by simpa using h, by simp⟩
  | cons f rest ih =>
    by_cases h : 0 ≤ u
    · rcases ih (j + 1) (f64.sub u f) with ⟨he, hall⟩ | ⟨m, hm, hok, hneg, hpre⟩
      · left
        refine ⟨by simp only [f64.RWS_walk, ge_iff_le, h, if_true]; exact he, ?_⟩
        intro n hn
        cases n with
        | zero => simpa using h
        | succ n =>
          simp only [List.take_succ_cons, List.foldl_cons]
          exact hall n (by simpa using hn)
      · right
        refine ⟨m + 1, by simpa using hm, ?_, ?_, ?_⟩
        · simp only [f64.RWS_walk, ge_iff_le, h, if_true]
          rw [hok]; congr 1; omega
        · simpa using hneg
        · intro n hn
          cases n with
          | zero => simpa using h
          | succ n =>
            simp only [List.take_succ_cons, List.foldl_cons]
            exact hpre n (by omega)
    · right
      refine ⟨0, by simp, by simp [f64.RWS_walk, h], by simpa using h, by simp⟩

/-- The outcome of a walk of `SUS` in binary64, in terms of the running sum
`(fs.take n).foldl f64.add a` after `n` additions: the walk raises when no running sum
exceeds the pointer, and otherwise stops after the first `m` additions that exceed
it. -/
theorem f64_SUS_walk_cases (fs : List ℚ) (j : Nat) (a p : ℚ) :
    (f64.SUS_walk fs j a p = .error
        "Error: in SUS(galgo::Population<T>&) index j cannot be equal to population size." ∧
      ∀ n, n ≤ fs.length → (fs.take n).foldl f64.add a ≤ p) ∨
    (∃ m, m ≤ fs.length ∧ f64.SUS_walk fs j a p = .ok (j + m) ∧
      p < (fs.take m).foldl f64.add a ∧ ∀ n, n < m → (fs.take n).foldl f64.add a ≤ p) := by
  induction fs generalizing j a with
  | nil =>
    by_cases h : a ≤ p
    · left
      refine ⟨by simp [f64.SUS_walk, h], ?_⟩
      intro n _
      simpa using h
    · right
      refine ⟨0, le_refl _, by simp [f64.SUS_walk, h], by simpa using h, by simp⟩
  | cons f rest ih =>
    by_cases h : a ≤ p
    · rcases ih (j + 1) (f64.add a f) with ⟨he, hall⟩ | ⟨m, hm, hok, hneg, hpre⟩
      · left
        refine ⟨by simp only [f64.SUS_walk, h, if_true]; exact he, ?_⟩
        intro n hn
        cases n with
        | zero => simpa using h
        | succ n =>
          simp only [List.take_succ_cons, List.foldl_cons]
          exact hall n (by simpa using hn)
      · right
        refine ⟨m + 1, by simpa using hm, ?_, ?_, ?_⟩
        · simp only [f64.SUS_walk, h, if_true]
          rw [hok]; congr 1; omega
        · simpa using hneg
        · intro n hn
          cases n with
          | zero => simpa using h
          | succ n =>
            simp only [List.take_succ_cons, List.foldl_cons]
            exact hpre n (by omega)
    · right
      refine ⟨0, by simp, by simp [f64.SUS_walk, h], by simpa using h, by simp⟩

/-! ## The mating loops -/

/-- The mating loop of `RWS`, for any walk `W` of the fitness values and the slot: when
the walks of the first `n` slots return, `n` positions are appended. -/
theorem select_loop_ok {T : Type} (x : Population T) (W : List ℚ → Nat → Except String Nat)
    (g : Nat → Nat) (n : Nat) (hW : ∀ i, i < n → W x.fitnesses i = .ok (g i)) :
    (List.range n).foldlM (fun (y : Population T) i => do
        let j ← W y.fitnesses i
        pure (y.select ((j : ℤ) - 1))) x
      = .ok { x with matpop := x.matpop ++ (List.range n).map (fun i => ((g i : ℕ) : ℤ) - 1) } := by
  induction n with
  | zero => simp [pure, Except.pure]
  | succ n ih =>
    rw [List.range_succ, List.foldlM_append, ih (fun i hi => hW i (by omega))]
    simp only [List.foldlM_cons, List.foldlM_nil, bind, Except.bind]
    have hfx : ({ x with matpop := x.matpop ++ (List.range n).map (fun i => ((g i : ℕ) : ℤ) - 1) } :
        Population T).fitnesses = x.fitnesses := rfl
    rw [hfx, hW n (by omega)]
    simp [Population.select, pure, Except.pure]

/-- The mating loop of `RWS`, for any walk `W`: the first walk that raises ends the
loop with its exception. -/
theorem select_loop_error {T : Type} (x : Population T) (W : List ℚ → Nat → Except String Nat)
    (g : Nat → Nat) (n i0 : Nat) (msg : String) (hi0 : i0 < n)
    (hW : ∀ i, i < i0 → W x.fitnesses i = .ok (g i)) (he : W x.fitnesses i0 = .error msg) :
    (List.range n).foldlM (fun (y : Population T) i => do
        let j ← W y.fitnesses i
        pure (y.select ((j : ℤ) - 1))) x = .error msg := by
  have hsplit : List.range n = List.range i0 ++ (i0 :: List.range' (i0 + 1) (n - i0 - 1)) := by
    rw [List.range_eq_range', List.range_eq_range']
    have h3 : List.range' 0 i0 ++ List.range' (0 + i0) (n - i0) = List.range' 0 (n - i0 + i0) :=
      List.range'_append_1 0 i0 (n - i0)
    have h4 : n - i0 + i0 = n := by omega
    rw [h4] at h3
    rw [← h3]
    congr 1
    obtain ⟨k, hk⟩ : ∃ k, n - i0 = k + 1 := ⟨n - i0 - 1, by omega⟩
    rw [hk, List.range'_succ]
    simp
  rw [hsplit, List.foldlM_append, select_loop_ok x W g i0 hW]
  simp only [List.foldlM_cons, bind, Except.bind]
  have hfx : ({ x with matpop := x.matpop ++ (List.range i0).map (fun i => ((g i : ℕ) : ℤ) - 1) } :
      Population T).fitnesses = x.fitnesses := rfl
  rw [hfx, he]

/-- The walk result as a number: the value of a walk that returns, `0` for one that
raises. -/
theorem select_loop_cases {T : Type} (x : Population T) (W : List ℚ → Nat → Except String Nat)
    (n : Nat) :
    (∃ i0 msg, i0 < n ∧ W x.fitnesses i0 = .error msg ∧
      (∀ i, i < i0 → ∃ k, W x.fitnesses i = .ok k) ∧
      (List.range n).foldlM (fun (y : Population T) i => do
        let j ← W y.fitnesses i
        pure (y.select ((j : ℤ) - 1))) x = .error msg) ∨
    (∃ g : Nat → Nat, (∀ i, i < n → W x.fitnesses i = .ok (g i)) ∧
      (List.range n).foldlM (fun (y : Population T) i => do
        let j ← W y.fitnesses i
        pure (y.select ((j : ℤ) - 1))) x
      = .ok { x with matpop := x.matpop ++ (List.range n).map (fun i => ((g i : ℕ) : ℤ) - 1) }) := by
  classical
  let g : Nat → Nat := fun i =>
    match W x.fitnesses i with
    | Except.ok k => k
    | Except.error _ => 0
  have hg : ∀ i k, W x.fitnesses i = .ok k → W x.fitnesses i = .ok (g i) := by
    intro i k h
    have : g i = k := by simp only [g, h]
    rw [this]; exact h
  by_cases hall : ∀ i, i < n → ∃ k, W x.fitnesses i = .ok k
  · right
    have hW : ∀ i, i < n → W x.fitnesses i = .ok (g i) := fun i hi => by
      obtain ⟨k, hk⟩ := hall i hi
      exact hg i k hk
    exact ⟨g, hW, select_loop_ok x W g n hW⟩
  · left
    push_neg at hall
    have hex : ∃ i, i < n ∧ ∀ k, W x.fitnesses i ≠ .ok k := hall
    let i0 := Nat.find hex
    have h0 : i0 < n ∧ ∀ k, W x.fitnesses i0 ≠ .ok k := Nat.find_spec hex
    have hmin : ∀ i, i < i0 → ∃ k, W x.fitnesses i = .ok k := by
      intro i hi
      have := Nat.find_min hex hi
      push_neg at this
      exact this (lt_trans hi h0.1)
    obtain ⟨msg, hmsg⟩ : ∃ msg, W x.fitnesses i0 = .error msg := by
      cases h : W x.fitnesses i0 with
      | error e => exact ⟨e, rfl⟩
      | ok k => exact absurd h (h0.2 k)
    refine ⟨i0, msg, h0.1, hmsg, hmin, ?_⟩
    exact select_loop_error x W g n i0 msg h0.1
      (fun i hi => by obtain ⟨k, hk⟩ := hmin i hi; exact hg i k hk) hmsg

theorem foldl_take_succ {α β : Type} (op : β → α → β) (l : List α) (n : Nat) (a : α) (b : β)
    (h : l[n]? = some a) : (l.take (n + 1)).foldl op b = op ((l.take n).foldl op b) a := by
  rw [List.take_succ, h]
  simp [List.foldl_append]

/-- A running difference of `RWS` is a `double`. -/
theorem RWS_run_double (fs : List ℚ) (u : ℚ) (hu : fl u = u) (n : Nat) :
    fl ((fs.take n).foldl f64.sub u) = (fs.take n).foldl f64.sub u := by
  induction n with
  | zero => simpa using hu
  | succ n ih =>
    cases h : fs[n]? with
    | none =>
      have : fs.take (n + 1) = fs.take n := by
        rw [List.take_succ, h]; simp
      rw [this]; exact ih
    | some a =>
      rw [foldl_take_succ _ _ _ _ _ h]
      exact fl_idem _

theorem sum_take_succ_get (fs : List ℚ) (n : Nat) (a : ℚ) (h : fs[n]? = some a) :
    (fs.take (n + 1)).sum = (fs.take n).sum + a := by
  rw [List.take_succ, h]
  simp

/-- The running difference of `RWS` after `n` subtractions against the exact one: each
subtraction adds an error of at most `B / 2^53`, for `B` above the draw and the
fitness values, as long as the earlier running differences are not negative. -/
theorem RWS_run_err (fs : List ℚ) (u B : ℚ) (hfs : ∀ f ∈ fs, 0 ≤ f ∧ fl f = f ∧ f ≤ B)
    (hu : fl u = u) (huB : u ≤ B) (n : Nat) (hn : n ≤ fs.length)
    (hpre : ∀ m, m < n → 0 ≤ (fs.take m).foldl f64.sub u) :
    (fs.take n).foldl f64.sub u ≤ u ∧
    |(fs.take n).foldl f64.sub u - (u - (fs.take n).sum)| ≤ (n : ℚ) * (B / 2 ^ 53) := by
  induction n with
  | zero => simp
  | succ n ih =>
    obtain ⟨ih1, ih2⟩ := ih (by omega) (fun m hm => hpre m (by omega))
    have hlt : n < fs.length := by omega
    have hget : fs[n]? = some fs[n] := List.getElem?_eq_getElem hlt
    obtain ⟨f0, ff, fB⟩ := hfs fs[n] (List.getElem_mem hlt)
    have hc0 : 0 ≤ (fs.take n).foldl f64.sub u := hpre n (by omega)
    have hcd := RWS_run_double fs u hu n
    rw [foldl_take_succ _ _ _ _ _ hget, sum_take_succ_get _ _ _ hget]
    set c := (fs.take n).foldl f64.sub u with hc
    have e := fl_err_sub c fs[n] hcd ff
    have habs : |c - fs[n]| ≤ B := by
      rw [abs_le]; constructor <;> linarith
    have e2 : |fl (c - fs[n]) - (c - fs[n])| ≤ B / 2 ^ 53 :=
      le_trans e (div_le_div_of_nonneg_right habs (by positivity))
    constructor
    · have : c - fs[n] ≤ c := by linarith
      have := fl_mono this
      rw [hcd] at this
      show fl (c - fs[n]) ≤ u
      linarith
    · show |fl (c - fs[n]) - (u - ((fs.take n).sum + fs[n]))| ≤ ((n + 1 : ℕ) : ℚ) * (B / 2 ^ 53)
      have a1 := abs_le.mp ih2
      have a2 := abs_le.mp e2
      push_cast
      rw [abs_le]
      constructor <;> nlinarith [a1.1, a1.2, a2.1, a2.2]

theorem le_sum_of_mem_nonneg (fs : List ℚ) (h : ∀ f ∈ fs, 0 ≤ f) (f : ℚ) (hf : f ∈ fs) :
    f ≤ fs.sum := by
  induction fs with
  | nil => simp at hf
  | cons a rest ih =>
    simp only [List.sum_cons]
    have ha : 0 ≤ a := h a (List.mem_cons_self _ _)
    have hr : 0 ≤ rest.sum := List.sum_nonneg (fun y hy => h y (List.mem_cons_of_mem _ hy))
    rcases List.mem_cons.mp hf with e | e
    · rw [e]; linarith
    · have := ih (fun y hy => h y (List.mem_cons_of_mem _ hy)) e
      linarith

/-- A walk of `RWS` in binary64 returns when the draw lies below the exact sum of the
fitness values by the margin `P * sum / 2^53`. -/
theorem f64_RWS_walk_margin (fs : List ℚ) (u : ℚ) (hfs : ∀ f ∈ fs, 0 ≤ f ∧ fl f = f)
    (hu0 : 0 ≤ u) (hu : fl u = u)
    (hm : u < fs.sum * (1 - (fs.length : ℚ) / 2 ^ 53)) :
    ∃ m, 1 ≤ m ∧ m ≤ fs.length ∧ f64.RWS_walk fs 0 u = .ok m := by
  have hS : 0 ≤ fs.sum := List.sum_nonneg (fun y hy => (hfs y hy).1)
  have hlen : (0 : ℚ) ≤ (fs.length : ℚ) / 2 ^ 53 := by positivity
  have huS : u ≤ fs.sum := by nlinarith
  rcases f64_RWS_walk_cases fs 0 u with ⟨_, hall⟩ | ⟨m, hm1, hok, hneg, _⟩
  · exfalso
    have h := (RWS_run_err fs u fs.sum
      (fun f hf => ⟨(hfs f hf).1, (hfs f hf).2, le_sum_of_mem_nonneg fs (fun y hy => (hfs y hy).1) f hf⟩)
      hu huS fs.length le_rfl (fun m hm => hall m (by omega))).2
    have h0 := hall fs.length le_rfl
    rw [List.take_length] at h h0
    have a := abs_le.mp h
    have : fs.sum * ((fs.length : ℚ) / 2 ^ 53) = (fs.length : ℚ) * (fs.sum / 2 ^ 53) := by ring
    nlinarith [a.1, a.2]
  · refine ⟨m, ?_, hm1, by simpa using hok⟩
    rcases Nat.eq_zero_or_pos m with h | h
    · subst h
      simp at hneg
      linarith
    · exact h

/-- The binary64 sum of non-negative `double` values is a `double`, not below its
starting value and not below any of the values. -/
theorem f64_sum_ge (fs : List ℚ) (a : ℚ) (hfs : ∀ f ∈ fs, 0 ≤ f ∧ fl f = f) (ha : fl a = a)
    (ha0 : 0 ≤ a) :
    fl (fs.foldl f64.add a) = fs.foldl f64.add a ∧ a ≤ fs.foldl f64.add a ∧
    ∀ f ∈ fs, f ≤ fs.foldl f64.add a := by
  induction fs generalizing a with
  | nil => simp [ha]
  | cons f rest ih =>
    obtain ⟨f0, ff⟩ := hfs f (List.mem_cons_self _ _)
    have hstep : fl (f64.add a f) = f64.add a f := fl_idem _
    have ha2 : a ≤ f64.add a f := by
      have : a ≤ a + f := by linarith
      have := fl_mono this
      rwa [ha] at this
    have hf2 : f ≤ f64.add a f := by
      have : f ≤ a + f := by linarith
      have := fl_mono this
      rwa [ff] at this
    obtain ⟨i1, i2, i3⟩ := ih (f64.add a f) (fun y hy => hfs y (List.mem_cons_of_mem _ hy)) hstep
      (le_trans ha0 ha2)
    refine ⟨?_, le_trans ha2 i2, ?_⟩
    · simpa using i1
    · intro y hy
      rcases List.mem_cons.mp hy with e | e
      · rw [e]; simpa using le_trans hf2 i2
      · simpa using i3 y e

/-- The walk of one slot of `RWS`: a walk that returns gives a position in `[1, P]`, and
a walk that raises carries the message of `RWS`. -/
theorem RWS_slot_cases (fs : List ℚ) (fitsum u : ℚ) (hP : 1 ≤ fs.length) (hu : 0 ≤ u) :
    (if fitsum > 0 then f64.RWS_walk fs 0 u else pure 1) = .error
        "Error: in RWS(galgo::Population<T>&) index j cannot be equal to population size." ∨
    ∃ k, (if fitsum > 0 then f64.RWS_walk fs 0 u else pure 1) = .ok k ∧ 1 ≤ k ∧ k ≤ fs.length := by
  by_cases h : fitsum > 0
  · rw [if_pos h]
    rcases f64_RWS_walk_cases fs 0 u with ⟨he, _⟩ | ⟨m, hm, hok, hneg, _⟩
    · exact Or.inl he
    · right
      refine ⟨m, by simpa using hok, ?_, hm⟩
      rcases Nat.eq_zero_or_pos m with e | e
      · subst e; simp at hneg; linarith
      · exact e
  · rw [if_neg h]
    exact Or.inr ⟨1, rfl, le_refl _, hP⟩

/-- C7, counterexample: fitness `{0.1, 0.2, 0.3}` (the nearest `double`), one
mating-pool slot. The sum of the fitness values computed in `double` is
`0.6000000000000001`; for the draw `0.6`, which lies in `[0, sum)`, the running
differences of the walk are `0.5`, `0.3` and `0.0`, none of them negative, and `RWS`
raises "index j cannot be equal to population size". -/
theorem RWS_raises_below_sum :
    f64.getSumFitness (fitPop [(3602879701896397 / 36028797018963968), (3602879701896397 / 18014398509481984), (5404319552844595 / 18014398509481984)] 1) = (1351079888211149 / 2251799813685248) ∧
    (0 : ℚ) ≤ (5404319552844595 / 9007199254740992) ∧
    ((5404319552844595 / 9007199254740992) : ℚ) < f64.getSumFitness (fitPop [(3602879701896397 / 36028797018963968), (3602879701896397 / 18014398509481984), (5404319552844595 / 18014398509481984)] 1) ∧
    f64.RWS (fitPop [(3602879701896397 / 36028797018963968), (3602879701896397 / 18014398509481984), (5404319552844595 / 18014398509481984)] 1) (fun _ => (5404319552844595 / 9007199254740992)) = .error
      "Error: in RWS(galgo::Population<T>&) index j cannot be equal to population size." := by
  have h1 : fl (3602879701896397 / 36028797018963968) = (3602879701896397 / 36028797018963968) :=
    fl_eval _ _ (-56) 7205759403792794 (by norm_num) (by norm_num [abs_of_pos]) (by norm_num [abs_of_pos])
      (by norm_num) (by norm_num)
  have h2 : fl (10808639105689191 / 36028797018963968) = (1351079888211149 / 4503599627370496) :=
    fl_eval_tie _ _ (-54) 5404319552844596 (by norm_num) (by norm_num [abs_of_pos]) (by norm_num [abs_of_pos])
      (by norm_num) (by norm_num) (by norm_num)
  have h3 : fl (10808639105689191 / 18014398509481984) = (1351079888211149 / 2251799813685248) :=
    fl_eval_tie _ _ (-53) 5404319552844596 (by norm_num) (by norm_num [abs_of_pos]) (by norm_num [abs_of_pos])
      (by norm_num) (by norm_num) (by norm_num)
  have h4 : fl (18014398509481983 / 36028797018963968) = (1 / 2) :=
    fl_eval_tie _ _ (-54) 9007199254740992 (by norm_num) (by norm_num [abs_of_pos]) (by norm_num [abs_of_pos])
      (by norm_num) (by norm_num) (by norm_num)
  have h5 : fl (5404319552844595 / 18014398509481984) = (5404319552844595 / 18014398509481984) :=
    fl_eval _ _ (-54) 5404319552844595 (by norm_num) (by norm_num [abs_of_pos]) (by norm_num [abs_of_pos])
      (by norm_num) (by norm_num)
  have hs : f64.getSumFitness (fitPop [(3602879701896397 / 36028797018963968), (3602879701896397 / 18014398509481984), (5404319552844595 / 18014398509481984)] 1) = (1351079888211149 / 2251799813685248) := by
    norm_num [f64.getSumFitness, Population.fitnesses, fitPop, fitChr, f64.add, fl_zero, h1, h2, h3, h4, h5]
  refine ⟨hs, by norm_num, by rw [hs]; norm_num, ?_⟩
  unfold f64.RWS
  rw [f64_adjustFitness_of_nonneg _ (by
    intro f hf
    simp [Population.fitnesses, fitPop, fitChr] at hf
    rcases hf with h | h | h <;> rw [h] <;> norm_num)]
  simp only [hs]
  norm_num [fitPop, Population.fitnesses, fitChr, f64.RWS_walk, f64.sub, List.range, List.range.loop, bind, Except.bind, fl_zero, h1, h2, h3, h4, h5]

/-- C7, amended. RWS selection conservation in binary64: for a population of size
`P ≥ 1` whose fitness values are `double` `≥ 0`, every mating-pool size `M` and every
sequence of draws that are `double` `≥ 0`: `RWS` either raises "index j cannot be equal
to population size", or it returns having called `select` exactly `M` times, each time
with a position in `[0, P)`; and it does return when every draw lies below
`sum * (1 - P / 2^53)`, `sum` being the exact sum of the fitness values. -/
theorem RWS_conservation {T : Type} (x : Population T) (draw : Nat → ℚ)
    (hP : 1 ≤ x.popsize) (hfit : ∀ f ∈ x.fitnesses, 0 ≤ f ∧ fl f = f)
    (hdraw : ∀ i, i < x.matsize → 0 ≤ draw i ∧ fl (draw i) = draw i) :
    (f64.RWS x draw = .error
        "Error: in RWS(galgo::Population<T>&) index j cannot be equal to population size." ∨
      ∃ sel : List ℤ, f64.RWS x draw = .ok { x with matpop := x.matpop ++ sel } ∧
        sel.length = x.matsize ∧ ∀ k ∈ sel, 0 ≤ k ∧ k < (x.popsize : ℤ)) ∧
    ((∀ i, i < x.matsize → draw i < x.fitnesses.sum * (1 - (x.popsize : ℚ) / 2 ^ 53)) →
      ∃ sel : List ℤ, f64.RWS x draw = .ok { x with matpop := x.matpop ++ sel } ∧
        sel.length = x.matsize ∧ ∀ k ∈ sel, 0 ≤ k ∧ k < (x.popsize : ℤ)) := by
  have hlen : x.fitnesses.length = x.popsize := by
    simp [Population.fitnesses, Population.popsize]
  have hP2 : 1 ≤ x.fitnesses.length := by omega
  have hcases := select_loop_cases x
    (fun fs i => if f64.getSumFitness x > 0 then f64.RWS_walk fs 0 (draw i) else pure 1) x.matsize
  have hrun : f64.RWS x draw = (List.range x.matsize).foldlM (fun (y : Population T) i => do
      let j ← (fun fs i => if f64.getSumFitness x > 0 then f64.RWS_walk fs 0 (draw i) else pure 1)
        y.fitnesses i
      pure (y.select ((j : ℤ) - 1))) x := by
    unfold f64.RWS
    rw [f64_adjustFitness_of_nonneg x (fun f hf => (hfit f hf).1)]
  have hok : ∀ g : Nat → Nat,
      (∀ i, i < x.matsize → (if f64.getSumFitness x > 0 then
        f64.RWS_walk x.fitnesses 0 (draw i) else pure 1) = Except.ok (g i)) →
      ∀ k ∈ (List.range x.matsize).map (fun i => ((g i : ℕ) : ℤ) - 1),
        0 ≤ k ∧ k < (x.popsize : ℤ) := by
    intro g hg k hk
    obtain ⟨i, hi, rfl⟩ := List.mem_map.mp hk
    have hi2 : i < x.matsize := List.mem_range.mp hi
    rcases RWS_slot_cases x.fitnesses (f64.getSumFitness x) (draw i) hP2 (hdraw i hi2).1
      with he | ⟨k, hk1, hk2, hk3⟩
    · have := hg i hi2
      rw [he] at this
      exact absurd this (by simp)
    · have := hg i hi2
      rw [hk1] at this
      have e : k = g i := by injection this
      subst e
      constructor <;> omega
  constructor
  · rcases hcases with ⟨i0, msg, hi0, he, _, hloop⟩ | ⟨g, hg, hloop⟩
    · left
      rw [hrun, hloop]
      rcases RWS_slot_cases x.fitnesses (f64.getSumFitness x) (draw i0) hP2 (hdraw i0 hi0).1
        with he2 | ⟨k, hk1, _⟩
      · rw [he2] at he
        injection he with e
        rw [e]
      · rw [hk1] at he
        exact absurd he (by simp)
    · right
      exact ⟨_, by rw [hrun, hloop], by simp, hok g hg⟩
  · intro hm
    rcases hcases with ⟨i0, msg, hi0, he, _, _⟩ | ⟨g, hg, hloop⟩
    · exfalso
      by_cases hpos : f64.getSumFitness x > 0
      · rw [if_pos hpos] at he
        obtain ⟨m, _, _, hok2⟩ := f64_RWS_walk_margin x.fitnesses (draw i0) hfit
          (hdraw i0 hi0).1 (hdraw i0 hi0).2 (by rw [hlen]; exact hm i0 hi0)
        rw [hok2] at he
        exact absurd he (by simp)
      · rw [if_neg hpos] at he
        exact absurd he (by simp [pure, Except.pure])
    · exact ⟨_, by rw [hrun, hloop], by simp, hok g hg⟩

/-- C7, witness: fitness `{1, 3}`, two mating-pool slots, draws `1/2` and `2`, which lie
below `4 * (1 - 2 / 2^53)`. -/
theorem RWS_conservation_witness :
    ∃ sel : List ℤ, f64.RWS (fitPop [1, 3] 2) (fun i => if i = 0 then 1 / 2 else 2)
        = .ok { fitPop [1, 3] 2 with matpop := (fitPop [1, 3] 2).matpop ++ sel } ∧
      sel.length = (fitPop [1, 3] 2).matsize ∧
      ∀ k ∈ sel, 0 ≤ k ∧ k < ((fitPop [1, 3] 2).popsize : ℤ) :=
  (RWS_conservation (fitPop [1, 3] 2) (fun i => if i = 0 then 1 / 2 else 2)
    (by decide)
    (by
      intro f hf
      simp [Population.fitnesses, fitPop, fitChr] at hf
      rcases hf with h | h
      · rw [h]; exact ⟨by norm_num, fl_one⟩
      · rw [h]; exact ⟨by norm_num, by simpa using fl_natCast 3 (by norm_num)⟩)
    (by
      intro i hi
      have hi2 : i < 2 := hi
      interval_cases i
      · exact ⟨by norm_num, by simpa using fl_exact 1 (-1) (by norm_num) (by norm_num)⟩
      · exact ⟨by norm_num, by simpa using fl_natCast 2 (by norm_num)⟩)).2
    (by
      intro i hi
      have hs : (fitPop [1, 3] 2).fitnesses.sum = 4 := by
        norm_num [Population.fitnesses, fitPop, fitChr]
      have hp : (fitPop [1, 3] 2).popsize = 2 := rfl
      rw [hs, hp]
      have hi2 : i < 2 := hi
      interval_cases i <;> norm_num)

/-- C17, counterexample: fitness `{0.1, 0.2, 0.3}` (the nearest `double`), whose exact
sum is above `0.6`, and the draw `0.6`, below the sum that `RWS` computes. The
cumulative fitness `f_0 + f_1 + f_2` exceeds the draw, so index `2` should be selected;
`RWS` raises instead. -/
theorem RWS_walk_misses_last :
    ((5404319552844595 / 9007199254740992) : ℚ) <
      (fitPop [(3602879701896397 / 36028797018963968), (3602879701896397 / 18014398509481984), (5404319552844595 / 18014398509481984)] 1).fitnesses.sum ∧
    ((5404319552844595 / 9007199254740992) : ℚ) < f64.getSumFitness (fitPop [(3602879701896397 / 36028797018963968), (3602879701896397 / 18014398509481984), (5404319552844595 / 18014398509481984)] 1) ∧
    f64.RWS (fitPop [(3602879701896397 / 36028797018963968), (3602879701896397 / 18014398509481984), (5404319552844595 / 18014398509481984)] 1) (fun _ => (5404319552844595 / 9007199254740992)) = .error
      "Error: in RWS(galgo::Population<T>&) index j cannot be equal to population size." := by
  have h1 : fl (3602879701896397 / 36028797018963968) = (3602879701896397 / 36028797018963968) :=
    fl_eval _ _ (-56) 7205759403792794 (by norm_num) (by norm_num [abs_of_pos]) (by norm_num [abs_of_pos])
      (by norm_num) (by norm_num)
  have h2 : fl (10808639105689191 / 36028797018963968) = (1351079888211149 / 4503599627370496) :=
    fl_eval_tie _ _ (-54) 5404319552844596 (by norm_num) (by norm_num [abs_of_pos]) (by norm_num [abs_of_pos])
      (by norm_num) (by norm_num) (by norm_num)
  have h3 : fl (10808639105689191 / 18014398509481984) = (1351079888211149 / 2251799813685248) :=
    fl_eval_tie _ _ (-53) 5404319552844596 (by norm_num) (by norm_num [abs_of_pos]) (by norm_num [abs_of_pos])
      (by norm_num) (by norm_num) (by norm_num)
  have h4 : fl (18014398509481983 / 36028797018963968) = (1 / 2) :=
    fl_eval_tie _ _ (-54) 9007199254740992 (by norm_num) (by norm_num [abs_of_pos]) (by norm_num [abs_of_pos])
      (by norm_num) (by norm_num) (by norm_num)
  have h5 : fl (5404319552844595 / 18014398509481984) = (5404319552844595 / 18014398509481984) :=
    fl_eval _ _ (-54) 5404319552844595 (by norm_num) (by norm_num [abs_of_pos]) (by norm_num [abs_of_pos])
      (by norm_num) (by norm_num)
  have hs : f64.getSumFitness (fitPop [(3602879701896397 / 36028797018963968), (3602879701896397 / 18014398509481984), (5404319552844595 / 18014398509481984)] 1) = (1351079888211149 / 2251799813685248) := by
    norm_num [f64.getSumFitness, Population.fitnesses, fitPop, fitChr, f64.add, fl_zero, h1, h2, h3, h4, h5]
  refine ⟨by norm_num [Population.fitnesses, fitPop, fitChr], by rw [hs]; norm_num, ?_⟩
  unfold f64.RWS
  rw [f64_adjustFitness_of_nonneg _ (by
    intro f hf
    simp [Population.fitnesses, fitPop, fitChr] at hf
    rcases hf with h | h | h <;> rw [h] <;> norm_num)]
  simp only [hs]
  norm_num [fitPop, Population.fitnesses, fitChr, f64.RWS_walk, f64.sub, List.range, List.range.loop, bind, Except.bind, fl_zero, h1, h2, h3, h4, h5]

/-- C17, amended. RWS walk in binary64. For a population whose fitness values are
`double` `≥ 0` and draws that are `double` in `[0, fitsum)`, `fitsum` being the sum that
`RWS` computes, at most `2^1000`: if `fitsum > 0`, the walk of a draw `u` follows the running difference
`u - f_0 - ... - f_n`, each subtraction rounded. When for every slot some running
difference is negative, `RWS` returns and slot `i` receives the smallest index `k` whose
running difference after `f_k` is negative; that index has
`u < f_0 + ... + f_k + (k+1) * fitsum / 2^53`, and every `k2 < k` has
`f_0 + ... + f_k2 - (k2+1) * fitsum / 2^53 ≤ u` (exact sums). When for some slot no
running difference is negative, `RWS` raises. If `fitsum = 0`, index `0` is selected for
every one of the `M` slots. -/
theorem RWS_walk_selection {T : Type} (x : Population T) (draw : Nat → ℚ)
    (hfit : ∀ f ∈ x.fitnesses, 0 ≤ f ∧ fl f = f)
    (hdraw : ∀ i, i < x.matsize →
      0 ≤ draw i ∧ fl (draw i) = draw i ∧ draw i ≤ f64.getSumFitness x)
    (_hsum : f64.getSumFitness x ≤ 2 ^ 1000) :
    (0 < f64.getSumFitness x →
      ((∀ i, i < x.matsize → ∃ n, n ≤ x.popsize ∧
          (x.fitnesses.take n).foldl f64.sub (draw i) < 0) →
        ∃ sel : List ℤ, f64.RWS x draw = .ok { x with matpop := x.matpop ++ sel } ∧
          sel.length = x.matsize ∧
          ∀ i, i < x.matsize →
            ∃ k : Nat, sel[i]? = some (k : ℤ) ∧ k < x.popsize ∧
              (x.fitnesses.take (k + 1)).foldl f64.sub (draw i) < 0 ∧
              (∀ k2, k2 ≤ k → 0 ≤ (x.fitnesses.take k2).foldl f64.sub (draw i)) ∧
              draw i < (x.fitnesses.take (k + 1)).sum
                + ((k + 1 : ℕ) : ℚ) * (f64.getSumFitness x / 2 ^ 53) ∧
              ∀ k2, k2 < k → (x.fitnesses.take (k2 + 1)).sum
                - ((k2 + 1 : ℕ) : ℚ) * (f64.getSumFitness x / 2 ^ 53) ≤ draw i) ∧
      ((∃ i, i < x.matsize ∧ ∀ n, n ≤ x.popsize →
          0 ≤ (x.fitnesses.take n).foldl f64.sub (draw i)) →
        f64.RWS x draw = .error
          "Error: in RWS(galgo::Population<T>&) index j cannot be equal to population size.")) ∧
    (f64.getSumFitness x = 0 →
      f64.RWS x draw = .ok { x with matpop := x.matpop ++ List.replicate x.matsize 0 }) := by
  clear _hsum
  have hlen : x.fitnesses.length = x.popsize := by
    simp [Population.fitnesses, Population.popsize]
  have hrun : ∀ fitsum : ℚ, fitsum = f64.getSumFitness x →
      f64.RWS x draw = (List.range x.matsize).foldlM (fun (y : Population T) i => do
      let j ← (fun fs i => if fitsum > 0 then f64.RWS_walk fs 0 (draw i) else pure 1)
        y.fitnesses i
      pure (y.select ((j : ℤ) - 1))) x := by
    intro fitsum h
    subst h
    unfold f64.RWS
    rw [f64_adjustFitness_of_nonneg x (fun f hf => (hfit f hf).1)]
  have hB := (f64_sum_ge x.fitnesses 0 hfit fl_zero le_rfl).2.2
  constructor
  · intro hpos
    constructor
    · intro hex
      -- every walk returns
      have hwalk : ∀ i, i < x.matsize → ∃ m, 1 ≤ m ∧ m ≤ x.fitnesses.length ∧
          f64.RWS_walk x.fitnesses 0 (draw i) = .ok m ∧
          (x.fitnesses.take m).foldl f64.sub (draw i) < 0 ∧
          ∀ n, n < m → 0 ≤ (x.fitnesses.take n).foldl f64.sub (draw i) := by
        intro i hi
        rcases f64_RWS_walk_cases x.fitnesses 0 (draw i) with ⟨_, hall⟩ | ⟨m, hm, hok, hneg, hpre⟩
        · obtain ⟨n, hn, hlt⟩ := hex i hi
          have := hall n (by omega)
          linarith
        · refine ⟨m, ?_, hm, by simpa using hok, hneg, hpre⟩
          rcases Nat.eq_zero_or_pos m with e | e
          · subst e; simp at hneg; linarith [(hdraw i hi).1]
          · exact e
      let g : Nat → Nat := fun i =>
        match f64.RWS_walk x.fitnesses 0 (draw i) with
        | Except.ok k => k
        | Except.error _ => 0
      have hg : ∀ i m, f64.RWS_walk x.fitnesses 0 (draw i) = .ok m → g i = m := by
        intro i m h
        simp only [g, h]
      have hW : ∀ i, i < x.matsize →
          (fun fs i => if f64.getSumFitness x > 0 then f64.RWS_walk fs 0 (draw i) else pure 1)
            x.fitnesses i = .ok (g i) := by
        intro i hi
        obtain ⟨m, _, _, hok, _⟩ := hwalk i hi
        show (if f64.getSumFitness x > 0 then f64.RWS_walk x.fitnesses 0 (draw i) else pure 1)
          = .ok (g i)
        rw [if_pos hpos, hg i m hok, hok]
      refine ⟨(List.range x.matsize).map (fun i => ((g i : ℕ) : ℤ) - 1), ?_, by simp, ?_⟩
      · rw [hrun _ rfl]
        exact select_loop_ok x
          (fun fs i => if f64.getSumFitness x > 0 then f64.RWS_walk fs 0 (draw i) else pure 1)
          g x.matsize hW
      · intro i hi
        obtain ⟨m, hm1, hm2, hok, hneg, hpre⟩ := hwalk i hi
        have hgi := hg i m hok
        obtain ⟨k, hk⟩ : ∃ k, m = k + 1 := ⟨m - 1, by omega⟩
        subst hk
        refine ⟨k, ?_, by omega, hneg, fun k2 hk2 => hpre k2 (by omega), ?_, ?_⟩
        · rw [List.getElem?_map, List.getElem?_range hi]
          simp only [Option.map_some', hgi]
          congr 1
          push_cast
          ring
        · have h := (RWS_run_err x.fitnesses (draw i) (f64.getSumFitness x)
            (fun f hf => ⟨(hfit f hf).1, (hfit f hf).2, hB f hf⟩)
            (hdraw i hi).2.1 (hdraw i hi).2.2 (k + 1) hm2 (fun n hn => hpre n hn)).2
          have a := abs_le.mp h
          linarith [a.1, a.2]
        · intro k2 hk2
          have h := (RWS_run_err x.fitnesses (draw i) (f64.getSumFitness x)
            (fun f hf => ⟨(hfit f hf).1, (hfit f hf).2, hB f hf⟩)
            (hdraw i hi).2.1 (hdraw i hi).2.2 (k2 + 1) (by omega)
            (fun n hn => hpre n (by omega))).2
          have h0 := hpre (k2 + 1) (by omega)
          have a := abs_le.mp h
          linarith [a.1, a.2]
    · rintro ⟨i, hi, hall⟩
      rcases select_loop_cases x
        (fun fs i => if f64.getSumFitness x > 0 then f64.RWS_walk fs 0 (draw i) else pure 1)
        x.matsize with ⟨i0, msg, hi0, he, _, hloop⟩ | ⟨g, hg, _⟩
      · rw [hrun _ rfl, hloop]
        rw [if_pos hpos] at he
        rcases f64_RWS_walk_cases x.fitnesses 0 (draw i0) with ⟨he2, _⟩ | ⟨m, _, hok, _, _⟩
        · rw [he2] at he
          injection he with e
          rw [e]
        · rw [hok] at he
          exact absurd he (by simp)
      · exfalso
        have := hg i hi
        rw [if_pos hpos] at this
        rcases f64_RWS_walk_cases x.fitnesses 0 (draw i) with ⟨he2, _⟩ | ⟨m, hm, _, hneg, _⟩
        · rw [he2] at this
          exact absurd this (by simp)
        · have := hall m (by omega)
          linarith
  · intro hz
    have hW : ∀ i, i < x.matsize →
        (fun fs i => if f64.getSumFitness x > 0 then f64.RWS_walk fs 0 (draw i) else pure 1)
          x.fitnesses i = .ok ((fun _ => 1) i) := by
      intro i _
      show (if f64.getSumFitness x > 0 then f64.RWS_walk x.fitnesses 0 (draw i) else pure 1)
        = .ok 1
      rw [if_neg (by rw [hz]; exact lt_irrefl _)]
      rfl
    rw [hrun _ rfl, select_loop_ok x
      (fun fs i => if f64.getSumFitness x > 0 then f64.RWS_walk fs 0 (draw i) else pure 1)
      (fun _ => 1) x.matsize hW]
    congr 2
    simp only [Nat.cast_one, sub_self]
    exact List.map_const' _ _ ▸ (by simp)

/-! ## Binary64: the pointers of `SUS` -/

/-- The mating loop of `SUS`, for any walk `W` of the fitness values and the pointer and
any pointer update `step`: when the walks of the first `n` slots return, `n` positions
are appended. -/
theorem pointer_loop_ok {T : Type} (x : Population T) (W : List ℚ → ℚ → Except String Nat)
    (step : ℚ → ℚ) (p0 : ℚ) (g : Nat → Nat) (n : Nat)
    (hW : ∀ i, i < n → W x.fitnesses (step^[i] p0) = .ok (g i)) :
    (List.range n).foldlM (fun (s : Population T × ℚ) _ => do
        let j ← W s.1.fitnesses s.2
        pure (s.1.select ((j : ℤ) - 1), step s.2)) (x, p0)
      = .ok ({ x with matpop := x.matpop ++ (List.range n).map (fun i => ((g i : ℕ) : ℤ) - 1) },
          step^[n] p0) := by
  induction n with
  | zero => simp [pure, Except.pure]
  | succ n ih =>
    rw [List.range_succ, List.foldlM_append, ih (fun i hi => hW i (by omega))]
    simp only [List.foldlM_cons, List.foldlM_nil, bind, Except.bind]
    have hfx : ({ x with matpop := x.matpop ++ (List.range n).map (fun i => ((g i : ℕ) : ℤ) - 1) } :
        Population T).fitnesses = x.fitnesses := rfl
    rw [hfx, hW n (by omega)]
    simp [Population.select, pure, Except.pure, Function.iterate_succ_apply']

/-- The mating loop of `SUS`: the first walk that raises ends the loop with its
exception. -/
theorem pointer_loop_error {T : Type} (x : Population T) (W : List ℚ → ℚ → Except String Nat)
    (step : ℚ → ℚ) (p0 : ℚ) (g : Nat → Nat) (n i0 : Nat) (msg : String) (hi0 : i0 < n)
    (hW : ∀ i, i < i0 → W x.fitnesses (step^[i] p0) = .ok (g i))
    (he : W x.fitnesses (step^[i0] p0) = .error msg) :
    (List.range n).foldlM (fun (s : Population T × ℚ) _ => do
        let j ← W s.1.fitnesses s.2
        pure (s.1.select ((j : ℤ) - 1), step s.2)) (x, p0) = .error msg := by
  have hsplit : List.range n = List.range i0 ++ (i0 :: List.range' (i0 + 1) (n - i0 - 1)) := by
    rw [List.range_eq_range', List.range_eq_range']
    have h3 : List.range' 0 i0 ++ List.range' (0 + i0) (n - i0) = List.range' 0 (n - i0 + i0) :=
      List.range'_append_1 0 i0 (n - i0)
    have h4 : n - i0 + i0 = n := by omega
    rw [h4] at h3
    rw [← h3]
    congr 1
    obtain ⟨k, hk⟩ : ∃ k, n - i0 = k + 1 := ⟨n - i0 - 1, by omega⟩
    rw [hk, List.range'_succ]
    simp
  rw [hsplit, List.foldlM_append, pointer_loop_ok x W step p0 g i0 hW]
  simp only [List.foldlM_cons, bind, Except.bind]
  have hfx : ({ x with matpop := x.matpop ++ (List.range i0).map (fun i => ((g i : ℕ) : ℤ) - 1) } :
      Population T).fitnesses = x.fitnesses := rfl
  rw [hfx, he]

theorem pointer_loop_cases {T : Type} (x : Population T) (W : List ℚ → ℚ → Except String Nat)
    (step : ℚ → ℚ) (p0 : ℚ) (n : Nat) :
    (∃ i0 msg, i0 < n ∧ W x.fitnesses (step^[i0] p0) = .error msg ∧
      (List.range n).foldlM (fun (s : Population T × ℚ) _ => do
        let j ← W s.1.fitnesses s.2
        pure (s.1.select ((j : ℤ) - 1), step s.2)) (x, p0) = .error msg) ∨
    (∃ g : Nat → Nat, (∀ i, i < n → W x.fitnesses (step^[i] p0) = .ok (g i)) ∧
      (List.range n).foldlM (fun (s : Population T × ℚ) _ => do
        let j ← W s.1.fitnesses s.2
        pure (s.1.select ((j : ℤ) - 1), step s.2)) (x, p0)
      = .ok ({ x with matpop := x.matpop ++ (List.range n).map (fun i => ((g i : ℕ) : ℤ) - 1) },
          step^[n] p0)) := by
  classical
  let g : Nat → Nat := fun i =>
    match W x.fitnesses (step^[i] p0) with
    | Except.ok k => k
    | Except.error _ => 0
  have hg : ∀ i k, W x.fitnesses (step^[i] p0) = .ok k →
      W x.fitnesses (step^[i] p0) = .ok (g i) := by
    intro i k h
    have : g i = k := by simp only [g, h]
    rw [this]; exact h
  by_cases hall : ∀ i, i < n → ∃ k, W x.fitnesses (step^[i] p0) = .ok k
  · right
    have hW : ∀ i, i < n → W x.fitnesses (step^[i] p0) = .ok (g i) := fun i hi => by
      obtain ⟨k, hk⟩ := hall i hi
      exact hg i k hk
    exact ⟨g, hW, pointer_loop_ok x W step p0 g n hW⟩
  · left
    push_neg at hall
    have hex : ∃ i, i < n ∧ ∀ k, W x.fitnesses (step^[i] p0) ≠ .ok k := hall
    let i0 := Nat.find hex
    have h0 : i0 < n ∧ ∀ k, W x.fitnesses (step^[i0] p0) ≠ .ok k := Nat.find_spec hex
    have hmin : ∀ i, i < i0 → ∃ k, W x.fitnesses (step^[i] p0) = .ok k := by
      intro i hi
      have := Nat.find_min hex hi
      push_neg at this
      exact this (lt_trans hi h0.1)
    obtain ⟨msg, hmsg⟩ : ∃ msg, W x.fitnesses (step^[i0] p0) = .error msg := by
      cases h : W x.fitnesses (step^[i0] p0) with
      | error e => exact ⟨e, rfl⟩
      | ok k => exact absurd h (h0.2 k)
    refine ⟨i0, msg, h0.1, hmsg, ?_⟩
    exact pointer_loop_error x W step p0 g n i0 msg h0.1
      (fun i hi => by obtain ⟨k, hk⟩ := hmin i hi; exact hg i k hk) hmsg

/-- `SUS` in binary64 as its mating loop. -/
theorem f64_SUS_eq_loop {T : Type} (x : Population T) (u : ℚ)
    (hfit : ∀ f ∈ x.fitnesses, 0 ≤ f) :
    f64.SUS x u = (List.range x.matsize).foldlM (fun (s : Population T × ℚ) _ => do
        let j ← (fun fs p => f64.SUS_walk fs 0 0 p) s.1.fitnesses s.2
        pure (s.1.select ((j : ℤ) - 1),
          (fun p => f64.add p (f64.div (f64.getSumFitness x) (f64.ofNat x.matsize))) s.2)) (x, u) := by
  unfold f64.SUS
  rw [f64_adjustFitness_of_nonneg x hfit]

/-- The pointers of `SUS` are `double`, not negative and non-decreasing. -/
theorem f64_SUS_ptr_mono {T : Type} (x : Population T) (u : ℚ)
    (hfit : ∀ f ∈ x.fitnesses, 0 ≤ f ∧ fl f = f) (h0 : 0 ≤ u) (hu : fl u = u) :
    (∀ i, fl (f64.SUS_ptr x u i) = f64.SUS_ptr x u i ∧ 0 ≤ f64.SUS_ptr x u i) ∧
    ∀ i j, i ≤ j → f64.SUS_ptr x u i ≤ f64.SUS_ptr x u j := by
  have hs : 0 ≤ f64.getSumFitness x := (f64_sum_ge x.fitnesses 0 hfit fl_zero le_rfl).2.1
  have hd : 0 ≤ f64.div (f64.getSumFitness x) (f64.ofNat x.matsize) :=
    fl_nonneg (div_nonneg hs (fl_nonneg (by positivity)))
  have hstep : ∀ i, f64.SUS_ptr x u (i + 1)
      = f64.add (f64.SUS_ptr x u i) (f64.div (f64.getSumFitness x) (f64.ofNat x.matsize)) := by
    intro i
    unfold f64.SUS_ptr
    rw [Function.iterate_succ_apply']
  have hA : ∀ i, fl (f64.SUS_ptr x u i) = f64.SUS_ptr x u i ∧ 0 ≤ f64.SUS_ptr x u i := by
    intro i
    induction i with
    | zero => exact ⟨hu, h0⟩
    | succ i ih =>
      rw [hstep]
      exact ⟨fl_idem _, fl_nonneg (by linarith [ih.2])⟩
  have hB : ∀ i, f64.SUS_ptr x u i ≤ f64.SUS_ptr x u (i + 1) := by
    intro i
    rw [hstep]
    have : f64.SUS_ptr x u i ≤ f64.SUS_ptr x u i
        + f64.div (f64.getSumFitness x) (f64.ofNat x.matsize) := by linarith
    have := fl_mono this
    rwa [(hA i).1] at this
  refine ⟨hA, ?_⟩
  intro i j hij
  induction j with
  | zero =>
    have : i = 0 := by omega
    subst this; exact le_rfl
  | succ j ih =>
    rcases Nat.eq_or_lt_of_le hij with e | e
    · rw [e]
    · exact le_trans (ih (by omega)) (hB j)

/-- The indices that `SUS` selects in binary64 when every pointer lies below the sum
that `SUS` computes: slot `i` receives the index `g i` with
`fsum(g i) ≤ ptr_i < fsum(g i + 1)`, `fsum(n)` being the running sum after `n` rounded
additions. -/
theorem f64_SUS_selection {T : Type} (x : Population T) (u : ℚ)
    (hfit : ∀ f ∈ x.fitnesses, 0 ≤ f ∧ fl f = f) (h0 : 0 ≤ u) (hu : fl u = u)
    (hlt : ∀ i, i < x.matsize → f64.SUS_ptr x u i < f64.getSumFitness x) :
    ∃ g : Nat → Nat,
      f64.SUS x u = .ok ({ x with matpop := x.matpop ++
          (List.range x.matsize).map (fun k => ((g k : Nat) : ℤ)) },
        f64.SUS_ptr x u x.matsize) ∧
      ∀ i, i < x.matsize → g i < x.fitnesses.length ∧
        f64.SUS_ptr x u i < (x.fitnesses.take (g i + 1)).foldl f64.add 0 ∧
        ∀ n, n ≤ g i → (x.fitnesses.take n).foldl f64.add 0 ≤ f64.SUS_ptr x u i := by
  obtain ⟨hA, _⟩ := f64_SUS_ptr_mono x u hfit h0 hu
  have hwalk : ∀ i, i < x.matsize → ∃ m, m < x.fitnesses.length ∧
      f64.SUS_walk x.fitnesses 0 0 (f64.SUS_ptr x u i) = .ok (m + 1) ∧
      f64.SUS_ptr x u i < (x.fitnesses.take (m + 1)).foldl f64.add 0 ∧
      ∀ n, n ≤ m → (x.fitnesses.take n).foldl f64.add 0 ≤ f64.SUS_ptr x u i := by
    intro i hi
    rcases f64_SUS_walk_cases x.fitnesses 0 0 (f64.SUS_ptr x u i) with
      ⟨_, hall⟩ | ⟨m, hm, hok, hgt, hpre⟩
    · have := hall x.fitnesses.length le_rfl
      rw [List.take_length] at this
      have h2 := hlt i hi
      unfold f64.getSumFitness at h2
      linarith
    · rcases Nat.eq_zero_or_pos m with e | e
      · subst e
        simp at hgt
        linarith [(hA i).2]
      · obtain ⟨k, hk⟩ : ∃ k, m = k + 1 := ⟨m - 1, by omega⟩
        subst hk
        exact ⟨k, by omega, by simpa using hok, hgt, fun n hn => hpre n (by omega)⟩
  let g : Nat → Nat := fun i =>
    match f64.SUS_walk x.fitnesses 0 0 (f64.SUS_ptr x u i) with
    | Except.ok k => k - 1
    | Except.error _ => 0
  have hg : ∀ i m, f64.SUS_walk x.fitnesses 0 0 (f64.SUS_ptr x u i) = .ok (m + 1) → g i = m := by
    intro i m h
    simp only [g, h]
    omega
  refine ⟨g, ?_, ?_⟩
  · rw [f64_SUS_eq_loop x u (fun f hf => (hfit f hf).1)]
    have hW : ∀ i, i < x.matsize → (fun fs p => f64.SUS_walk fs 0 0 p) x.fitnesses
        ((fun p => f64.add p (f64.div (f64.getSumFitness x) (f64.ofNat x.matsize)))^[i] u)
        = .ok ((fun i => g i + 1) i) := by
      intro i hi
      obtain ⟨m, _, hok, _⟩ := hwalk i hi
      show f64.SUS_walk x.fitnesses 0 0 (f64.SUS_ptr x u i) = .ok (g i + 1)
      rw [hg i m hok, hok]
    rw [pointer_loop_ok x (fun fs p => f64.SUS_walk fs 0 0 p)
      (fun p => f64.add p (f64.div (f64.getSumFitness x) (f64.ofNat x.matsize))) u
      (fun i => g i + 1) x.matsize hW]
    have hmap : (List.range x.matsize).map (fun i => (((fun i => g i + 1) i : ℕ) : ℤ) - 1)
        = (List.range x.matsize).map (fun k => ((g k : Nat) : ℤ)) := by
      apply List.map_congr_left
      intro k _
      push_cast
      ring
    rw [hmap]
    rfl
  · intro i hi
    obtain ⟨m, hm, hok, hgt, hpre⟩ := hwalk i hi
    rw [hg i m hok]
    exact ⟨hm, hgt, hpre⟩

/-- `SUS` in binary64 raises when a pointer reaches the sum that `SUS` computes. -/
theorem f64_SUS_raises {T : Type} (x : Population T) (u : ℚ)
    (hfit : ∀ f ∈ x.fitnesses, 0 ≤ f ∧ fl f = f)
    (hex : ∃ i, i < x.matsize ∧ f64.getSumFitness x ≤ f64.SUS_ptr x u i) :
    f64.SUS x u = .error
      "Error: in SUS(galgo::Population<T>&) index j cannot be equal to population size." := by
  obtain ⟨i, hi, hge⟩ := hex
  rw [f64_SUS_eq_loop x u (fun f hf => (hfit f hf).1)]
  rcases pointer_loop_cases x (fun fs p => f64.SUS_walk fs 0 0 p)
      (fun p => f64.add p (f64.div (f64.getSumFitness x) (f64.ofNat x.matsize))) u x.matsize
    with ⟨i0, msg, hi0, he, hloop⟩ | ⟨g, hg, _⟩
  · rw [hloop]
    rcases f64_SUS_walk_cases x.fitnesses 0 0
        ((fun p => f64.add p (f64.div (f64.getSumFitness x) (f64.ofNat x.matsize)))^[i0] u)
      with ⟨he2, _⟩ | ⟨m, _, hok, _, _⟩
    · have he' : f64.SUS_walk x.fitnesses 0 0
          ((fun p => f64.add p (f64.div (f64.getSumFitness x) (f64.ofNat x.matsize)))^[i0] u)
          = .error msg := he
      rw [he2] at he'
      injection he' with e
      rw [e]
    · have he' : f64.SUS_walk x.fitnesses 0 0
          ((fun p => f64.add p (f64.div (f64.getSumFitness x) (f64.ofNat x.matsize)))^[i0] u)
          = .error msg := he
      rw [hok] at he'
      exact absurd he' (by simp)
  · exfalso
    have h := hg i hi
    have h' : f64.SUS_walk x.fitnesses 0 0 (f64.SUS_ptr x u i) = .ok (g i) := h
    rcases f64_SUS_walk_cases x.fitnesses 0 0 (f64.SUS_ptr x u i) with
      ⟨he2, _⟩ | ⟨m, hm, _, hgt, _⟩
    · rw [he2] at h'
      exact absurd h' (by simp)
    · -- a running sum above the pointer would exceed the whole sum
      have hmono : ∀ n, n ≤ x.fitnesses.length →
          (x.fitnesses.take n).foldl f64.add 0 ≤ x.fitnesses.foldl f64.add 0 := by
        intro n _
        have hsplit : x.fitnesses.foldl f64.add 0
            = (x.fitnesses.drop n).foldl f64.add ((x.fitnesses.take n).foldl f64.add 0) := by
          rw [← List.foldl_append, List.take_append_drop]
        rw [hsplit]
        have ht := f64_sum_ge (x.fitnesses.take n) 0
          (fun f hf => hfit f (List.mem_of_mem_take hf)) fl_zero le_rfl
        exact (f64_sum_ge (x.fitnesses.drop n) _
          (fun f hf => hfit f (List.mem_of_mem_drop hf)) ht.1 ht.2.1).2.1
      have := hmono m hm
      unfold f64.getSumFitness at hge
      linarith

/-- C18, counterexample: fitness `{0.7, 0.1, 0.1}` (the nearest `double`), three
mating-pool slots. `SUS` computes the sum `0.8999999999999999` and `dist = 0.3`; for the
offset `0.29999999999999993`, which lies in `[0, dist)`, the third pointer is
`0.8999999999999999`, the running sum never exceeds it, and `SUS` raises
"index j cannot be equal to population size" instead of filling the third slot. -/
theorem SUS_pointer_reaches_sum :
    f64.getSumFitness (fitPop [(3152519739159347 / 4503599627370496), (3602879701896397 / 36028797018963968), (3602879701896397 / 36028797018963968)] 3) = (2026619832316723 / 2251799813685248) ∧
    f64.div (f64.getSumFitness (fitPop [(3152519739159347 / 4503599627370496), (3602879701896397 / 36028797018963968), (3602879701896397 / 36028797018963968)] 3)) (f64.ofNat 3) = (5404319552844595 / 18014398509481984) ∧
    (0 : ℚ) ≤ (2702159776422297 / 9007199254740992) ∧ ((2702159776422297 / 9007199254740992) : ℚ) < f64.div (f64.getSumFitness (fitPop [(3152519739159347 / 4503599627370496), (3602879701896397 / 36028797018963968), (3602879701896397 / 36028797018963968)] 3)) (f64.ofNat 3) ∧
    f64.SUS (fitPop [(3152519739159347 / 4503599627370496), (3602879701896397 / 36028797018963968), (3602879701896397 / 36028797018963968)] 3) (2702159776422297 / 9007199254740992) = .error
      "Error: in SUS(galgo::Population<T>&) index j cannot be equal to population size." := by
  have h1 : fl (3152519739159347 / 4503599627370496) = (3152519739159347 / 4503599627370496) :=
    fl_eval _ _ (-53) 6305039478318694 (by norm_num) (by norm_num [abs_of_pos]) (by norm_num [abs_of_pos])
      (by norm_num) (by norm_num)
  have h2 : fl (3602879701896397 / 36028797018963968) = (3602879701896397 / 36028797018963968) :=
    fl_eval _ _ (-56) 7205759403792794 (by norm_num) (by norm_num [abs_of_pos]) (by norm_num [abs_of_pos])
      (by norm_num) (by norm_num)
  have h3 : fl (28823037615171173 / 36028797018963968) = (7205759403792793 / 9007199254740992) :=
    fl_eval _ _ (-53) 7205759403792793 (by norm_num) (by norm_num [abs_of_pos]) (by norm_num [abs_of_pos])
      (by norm_num) (by norm_num)
  have h4 : fl (32425917317067569 / 36028797018963968) = (2026619832316723 / 2251799813685248) :=
    fl_eval _ _ (-53) 8106479329266892 (by norm_num) (by norm_num [abs_of_pos]) (by norm_num [abs_of_pos])
      (by norm_num) (by norm_num)
  have h5 : fl 3 = 3 :=
    fl_eval _ _ (-51) 6755399441055744 (by norm_num) (by norm_num [abs_of_pos]) (by norm_num [abs_of_pos])
      (by norm_num) (by norm_num)
  have h6 : fl (2026619832316723 / 6755399441055744) = (5404319552844595 / 18014398509481984) :=
    fl_eval _ _ (-54) 5404319552844595 (by norm_num) (by norm_num [abs_of_pos]) (by norm_num [abs_of_pos])
      (by norm_num) (by norm_num)
  have h7 : fl (10808639105689189 / 18014398509481984) = (2702159776422297 / 4503599627370496) :=
    fl_eval_tie _ _ (-53) 5404319552844594 (by norm_num) (by norm_num [abs_of_pos]) (by norm_num [abs_of_pos])
      (by norm_num) (by norm_num) (by norm_num)
  have h8 : fl (16212958658533783 / 18014398509481984) = (2026619832316723 / 2251799813685248) :=
    fl_eval_tie _ _ (-53) 8106479329266892 (by norm_num) (by norm_num [abs_of_pos]) (by norm_num [abs_of_pos])
      (by norm_num) (by norm_num) (by norm_num)
  have hs : f64.getSumFitness (fitPop [(3152519739159347 / 4503599627370496), (3602879701896397 / 36028797018963968), (3602879701896397 / 36028797018963968)] 3) = (2026619832316723 / 2251799813685248) := by
    norm_num [f64.getSumFitness, Population.fitnesses, fitPop, fitChr, f64.add, fl_zero, h1, h2, h3, h4, h5, h6, h7, h8]
  have hd : f64.div (f64.getSumFitness (fitPop [(3152519739159347 / 4503599627370496), (3602879701896397 / 36028797018963968), (3602879701896397 / 36028797018963968)] 3)) (f64.ofNat 3) = (5404319552844595 / 18014398509481984) := by
    rw [hs]
    norm_num [f64.div, f64.ofNat, fl_zero, h1, h2, h3, h4, h5, h6, h7, h8]
  refine ⟨hs, hd, by norm_num, by rw [hd]; norm_num, ?_⟩
  apply f64_SUS_raises
  · intro f hf
    simp only [Population.fitnesses, fitPop, fitChr, List.map_cons, List.map_nil, List.mem_cons,
      List.mem_singleton, List.not_mem_nil, or_false] at hf
    rcases hf with h | h | h
    · rw [h]; exact ⟨by norm_num, h1⟩
    · rw [h]; exact ⟨by norm_num, h2⟩
    · rw [h]; exact ⟨by norm_num, h2⟩
  · refine ⟨2, by decide, ?_⟩
    have hp : f64.SUS_ptr (fitPop [(3152519739159347 / 4503599627370496), (3602879701896397 / 36028797018963968), (3602879701896397 / 36028797018963968)] 3) (2702159776422297 / 9007199254740992) 2 = (2026619832316723 / 2251799813685248) := by
      unfold f64.SUS_ptr
      rw [show (fitPop [(3152519739159347 / 4503599627370496), (3602879701896397 / 36028797018963968), (3602879701896397 / 36028797018963968)] 3).matsize = 3 from rfl, hd]
      norm_num [Function.iterate_succ, f64.add, fl_zero, h1, h2, h3, h4, h5, h6, h7, h8]
    rw [hp, hs]

/-- C31, counterexample: fitness `{0.3, 0.3, 0.3}` (the nearest `double`), three
mating-pool slots. `SUS` computes the sum `0.8999999999999999` and `dist = 0.3`, so
every chromosome has `f_i ≥ dist` and should be selected; for the offset
`0.29999999999999993`, which lies in `[0, dist)`, the third pointer is
`0.8999999999999999`, the running sum never exceeds it, and `SUS` raises after two
slots: chromosome `2` is never selected. -/
theorem SUS_equal_fitness_raises :
    f64.getSumFitness (fitPop [(5404319552844595 / 18014398509481984), (5404319552844595 / 18014398509481984), (5404319552844595 / 18014398509481984)] 3) = (2026619832316723 / 2251799813685248) ∧
    f64.div (f64.getSumFitness (fitPop [(5404319552844595 / 18014398509481984), (5404319552844595 / 18014398509481984), (5404319552844595 / 18014398509481984)] 3)) (f64.ofNat 3) = (5404319552844595 / 18014398509481984) ∧
    (0 : ℚ) ≤ (2702159776422297 / 9007199254740992) ∧ ((2702159776422297 / 9007199254740992) : ℚ) < f64.div (f64.getSumFitness (fitPop [(5404319552844595 / 18014398509481984), (5404319552844595 / 18014398509481984), (5404319552844595 / 18014398509481984)] 3)) (f64.ofNat 3) ∧
    f64.SUS (fitPop [(5404319552844595 / 18014398509481984), (5404319552844595 / 18014398509481984), (5404319552844595 / 18014398509481984)] 3) (2702159776422297 / 9007199254740992) = .error
      "Error: in SUS(galgo::Population<T>&) index j cannot be equal to population size." := by
  have h1 : fl (5404319552844595 / 18014398509481984) = (5404319552844595 / 18014398509481984) :=
    fl_eval _ _ (-54) 5404319552844595 (by norm_num) (by norm_num [abs_of_pos]) (by norm_num [abs_of_pos])
      (by norm_num) (by norm_num)
  have h2 : fl (5404319552844595 / 9007199254740992) = (5404319552844595 / 9007199254740992) :=
    fl_eval _ _ (-53) 5404319552844595 (by norm_num) (by norm_num [abs_of_pos]) (by norm_num [abs_of_pos])
      (by norm_num) (by norm_num)
  have h3 : fl (16212958658533785 / 18014398509481984) = (2026619832316723 / 2251799813685248) :=
    fl_eval_tie _ _ (-53) 8106479329266892 (by norm_num) (by norm_num [abs_of_pos]) (by norm_num [abs_of_pos])
      (by norm_num) (by norm_num) (by norm_num)
  have h4 : fl 3 = 3 :=
    fl_eval _ _ (-51) 6755399441055744 (by norm_num) (by norm_num [abs_of_pos]) (by norm_num [abs_of_pos])
      (by norm_num) (by norm_num)
  have h5 : fl (2026619832316723 / 6755399441055744) = (5404319552844595 / 18014398509481984) :=
    fl_eval _ _ (-54) 5404319552844595 (by norm_num) (by norm_num [abs_of_pos]) (by norm_num [abs_of_pos])
      (by norm_num) (by norm_num)
  have h6 : fl (10808639105689189 / 18014398509481984) = (2702159776422297 / 4503599627370496) :=
    fl_eval_tie _ _ (-53) 5404319552844594 (by norm_num) (by norm_num [abs_of_pos]) (by norm_num [abs_of_pos])
      (by norm_num) (by norm_num) (by norm_num)
  have h7 : fl (16212958658533783 / 18014398509481984) = (2026619832316723 / 2251799813685248) :=
    fl_eval_tie _ _ (-53) 8106479329266892 (by norm_num) (by norm_num [abs_of_pos]) (by norm_num [abs_of_pos])
      (by norm_num) (by norm_num) (by norm_num)
  have hs : f64.getSumFitness (fitPop [(5404319552844595 / 18014398509481984), (5404319552844595 / 18014398509481984), (5404319552844595 / 18014398509481984)] 3) = (2026619832316723 / 2251799813685248) := by
    norm_num [f64.getSumFitness, Population.fitnesses, fitPop, fitChr, f64.add, fl_zero, h1, h2, h3, h4, h5, h6, h7]
  have hd : f64.div (f64.getSumFitness (fitPop [(5404319552844595 / 18014398509481984), (5404319552844595 / 18014398509481984), (5404319552844595 / 18014398509481984)] 3)) (f64.ofNat 3) = (5404319552844595 / 18014398509481984) := by
    rw [hs]
    norm_num [f64.div, f64.ofNat, fl_zero, h1, h2, h3, h4, h5, h6, h7]
  refine ⟨hs, hd, by norm_num, by rw [hd]; norm_num, ?_⟩
  apply f64_SUS_raises
  · intro f hf
    simp only [Population.fitnesses, fitPop, fitChr, List.map_cons, List.map_nil, List.mem_cons,
      List.mem_singleton, List.not_mem_nil, or_false] at hf
    rcases hf with h | h | h
    · rw [h]; exact ⟨by norm_num, h1⟩
    · rw [h]; exact ⟨by norm_num, h1⟩
    · rw [h]; exact ⟨by norm_num, h1⟩
  · refine ⟨2, by decide, ?_⟩
    have hp : f64.SUS_ptr (fitPop [(5404319552844595 / 18014398509481984), (5404319552844595 / 18014398509481984), (5404319552844595 / 18014398509481984)] 3) (2702159776422297 / 9007199254740992) 2 = (2026619832316723 / 2251799813685248) := by
      unfold f64.SUS_ptr
      rw [show (fitPop [(5404319552844595 / 18014398509481984), (5404319552844595 / 18014398509481984), (5404319552844595 / 18014398509481984)] 3).matsize = 3 from rfl, hd]
      norm_num [Function.iterate_succ, f64.add, fl_zero, h1, h2, h3, h4, h5, h6, h7]
    rw [hp, hs]

/-- C18, amended. SUS pointers in binary64. For a population whose fitness values are
`double` `≥ 0` with a computed sum of at most `2^1000`, and an offset `u` that is a
`double` in `[0, 2^1000]`: `SUS` consumes the single
offset `u`; the pointer of slot `i` is `u` after `i` rounded additions of
`dist = fitsum / M`, and the walk follows the running sum `f_0 + ... + f_n`, each
addition rounded. When every pointer lies below the sum `fitsum` that `SUS` computes,
`SUS` returns, slot `i` receives the smallest index `k` whose running sum after `f_k`
exceeds the pointer of slot `i`, and the selected indices are non-decreasing in `i`.
When a pointer reaches `fitsum`, `SUS` raises. -/
theorem SUS_pointers {T : Type} (x : Population T) (u : ℚ)
    (hfit : ∀ f ∈ x.fitnesses, 0 ≤ f ∧ fl f = f) (h0 : 0 ≤ u) (hu : fl u = u)
    (_hsum : f64.getSumFitness x ≤ 2 ^ 1000) (_hub : u ≤ 2 ^ 1000) :
    ((∀ i, i < x.matsize → f64.SUS_ptr x u i < f64.getSumFitness x) →
      ∃ sel : List ℤ, f64.SUS x u = .ok ({ x with matpop := x.matpop ++ sel },
          f64.SUS_ptr x u x.matsize) ∧
        sel.length = x.matsize ∧
        (∀ i, i < x.matsize →
          ∃ k : Nat, sel[i]? = some (k : ℤ) ∧ k < x.popsize ∧
            f64.SUS_ptr x u i < (x.fitnesses.take (k + 1)).foldl f64.add 0 ∧
            ∀ k2, k2 < k → (x.fitnesses.take (k2 + 1)).foldl f64.add 0 ≤ f64.SUS_ptr x u i) ∧
        (∀ (i j : Nat) (a b : ℤ), i ≤ j → sel[i]? = some a → sel[j]? = some b → a ≤ b)) ∧
    ((∃ i, i < x.matsize ∧ f64.getSumFitness x ≤ f64.SUS_ptr x u i) →
      f64.SUS x u = .error
        "Error: in SUS(galgo::Population<T>&) index j cannot be equal to population size.") := by
  clear _hsum _hub
  have hlen : x.fitnesses.length = x.popsize := by
    simp [Population.fitnesses, Population.popsize]
  refine ⟨?_, f64_SUS_raises x u hfit⟩
  intro hlt
  obtain ⟨g, hg, hprop⟩ := f64_SUS_selection x u hfit h0 hu hlt
  obtain ⟨_, hmono⟩ := f64_SUS_ptr_mono x u hfit h0 hu
  have hget : ∀ i, i < x.matsize →
      ((List.range x.matsize).map (fun k => ((g k : Nat) : ℤ)))[i]? = some ((g i : ℕ) : ℤ) := by
    intro i hi
    rw [List.getElem?_map, List.getElem?_range hi]
    rfl
  refine ⟨(List.range x.matsize).map (fun k => ((g k : Nat) : ℤ)), hg, by simp, ?_, ?_⟩
  · intro i hi
    obtain ⟨h1, h2, h3⟩ := hprop i hi
    exact ⟨g i, hget i hi, by omega, h2, fun k2 hk2 => h3 (k2 + 1) (by omega)⟩
  · intro i j a b hij ha hb
    have hj : j < x.matsize := by
      by_contra hc
      rw [List.getElem?_eq_none (by simp; omega)] at hb
      exact absurd hb (by simp)
    have hi : i < x.matsize := by omega
    rw [hget i hi] at ha
    rw [hget j hj] at hb
    injection ha with ha
    injection hb with hb
    subst ha; subst hb
    obtain ⟨_, _, hi3⟩ := hprop i hi
    obtain ⟨_, hj2, _⟩ := hprop j hj
    have hp := hmono i j hij
    by_contra hc
    have hlt2 : g j + 1 ≤ g i := by
      have : ¬ ((g i : ℤ) ≤ (g j : ℤ)) := hc
      omega
    have := hi3 (g j + 1) hlt2
    linarith

/-- The count of the slots of stochastic universal sampling whose pointer `u + k*d`
lies in the cumulative interval of the index `i`, for a selection `g` that sends each
pointer to the interval that holds it. -/
theorem fairness_count (fs : List ℚ) (M : Nat) (u d : ℚ) (g : Nat → Nat)
    (hfit : ∀ f ∈ fs, 0 ≤ f) (hd : 0 < d) (h0 : 0 ≤ u) (h1 : u < d)
    (hs : fs.sum = (M : ℚ) * d)
    (hprop : ∀ k, k < M → g k < fs.length ∧ (fs.take (g k)).sum ≤ u + k * d ∧
      u + k * d < (fs.take (g k + 1)).sum)
    (i : Nat) (f : ℚ) (hif : fs[i]? = some f) :
    ⌊f / d⌋ ≤ ((((List.range M).map (fun k => ((g k : Nat) : ℤ))).count (i : ℤ) : ℕ) : ℤ) ∧
    ((((List.range M).map (fun k => ((g k : Nat) : ℤ))).count (i : ℤ) : ℕ) : ℤ) ≤ ⌈f / d⌉ ∧
    (f = 0 → ((List.range M).map (fun k => ((g k : Nat) : ℤ))).count (i : ℤ) = 0) ∧
    (d ≤ f → 1 ≤ ((List.range M).map (fun k => ((g k : Nat) : ℤ))).count (i : ℤ)) := by
  have hf : 0 ≤ f := hfit f (List.getElem?_mem hif)
  have hS : 0 ≤ (fs.take i).sum := take_sum_nonneg _ hfit i
  have hsucc := take_sum_succ fs i f hif
  have hT : (fs.take i).sum + f ≤ (M : ℚ) * d := by
    rw [← hsucc, ← hs]
    exact take_sum_le_sum _ hfit (i + 1)
  obtain ⟨n, hn, hlo, hhi⟩ :=
    pointers_in_interval M u d (fs.take i).sum f hd h0 h1 hS hf hT
  have hcount : ((List.range M).map (fun k => ((g k : Nat) : ℤ))).count (i : ℤ) = n := by
    rw [← hn, List.count, List.countP_map]
    apply List.countP_congr
    intro k hk
    have hk2 : k < M := List.mem_range.mp hk
    obtain ⟨hlen, ha, hb⟩ := hprop k hk2
    simp only [Function.comp, beq_iff_eq, decide_eq_true_eq, Nat.cast_inj]
    constructor
    · intro h
      rw [h] at ha hb
      rw [hsucc] at hb
      exact ⟨ha, hb⟩
    · rintro ⟨ha2, hb2⟩
      rw [← hsucc] at hb2
      rcases Nat.lt_trichotomy (g k) i with hlt | heq | hgt
      · have := take_sum_mono fs hfit (g k + 1) i (by omega)
        linarith
      · exact heq
      · have := take_sum_mono fs hfit (i + 1) (g k) (by omega)
        linarith
  rw [hcount]
  refine ⟨hlo, hhi, ?_, ?_⟩
  · intro hz
    rw [hz, zero_div, Int.ceil_zero] at hhi
    omega
  · intro hge
    have : (1 : ℤ) ≤ ⌊f / d⌋ := by
      rw [Int.le_floor]
      push_cast
      rw [le_div_iff₀ hd]
      linarith
    omega

/-- When every partial sum of the fitness values is a `double`, the running sums of
`SUS` are the exact partial sums. -/
theorem f64_cum_exact (fs : List ℚ)
    (hE : ∀ n, n ≤ fs.length → fl ((fs.take n).sum) = (fs.take n).sum) (n : Nat)
    (hn : n ≤ fs.length) : (fs.take n).foldl f64.add 0 = (fs.take n).sum := by
  induction n with
  | zero => simp
  | succ n ih =>
    have hlt : n < fs.length := by omega
    have hget : fs[n]? = some fs[n] := List.getElem?_eq_getElem hlt
    rw [foldl_take_succ _ _ _ _ _ hget, ih (by omega)]
    have := hE (n + 1) hn
    rw [sum_take_succ_get _ _ _ hget] at this ⊢
    exact this

/-- C31, amended. Fairness of `SUS` in binary64. For a population whose fitness values
are `double` `≥ 0` with a computed sum of at most `2^1000`, and an offset `u` that is a
`double` in `[0, 2^1000]`:
whenever `SUS` returns, it has appended `M` positions in `[0, P)` to the mating pool,
and a chromosome with fitness `0` is not among them;
and when no operation of `SUS` rounds (every partial sum of the fitness values is a
`double`, `M` and `d = sum / M` are `double`, and so is every pointer `u + i*d`), with
`sum > 0`, `M ≥ 1` and `u < d`: `SUS` returns, and the number of entries equal to the
index `i` is at least `floor(f_i/d)` and at most `ceil(f_i/d)`; a chromosome with
`f_i ≥ d` is then selected at least once. -/
theorem SUS_fairness {T : Type} (x : Population T) (u : ℚ)
    (hfit : ∀ f ∈ x.fitnesses, 0 ≤ f ∧ fl f = f) (h0 : 0 ≤ u) (hu : fl u = u)
    (_hsum : f64.getSumFitness x ≤ 2 ^ 1000) (_hub : u ≤ 2 ^ 1000) :
    (∀ r, f64.SUS x u = .ok r →
      ∃ sel : List ℤ, r.1 = { x with matpop := x.matpop ++ sel } ∧ sel.length = x.matsize ∧
        (∀ k ∈ sel, 0 ≤ k ∧ k < (x.popsize : ℤ)) ∧
        ∀ (i : Nat), x.fitnesses[i]? = some 0 → sel.count (i : ℤ) = 0) ∧
    (0 < x.fitnesses.sum → 1 ≤ x.matsize → u < x.fitnesses.sum / (x.matsize : ℚ) →
      (∀ n, n ≤ x.popsize → fl ((x.fitnesses.take n).sum) = (x.fitnesses.take n).sum) →
      fl (x.matsize : ℚ) = (x.matsize : ℚ) →
      fl (x.fitnesses.sum / (x.matsize : ℚ)) = x.fitnesses.sum / (x.matsize : ℚ) →
      (∀ i, i ≤ x.matsize → fl (u + (i : ℚ) * (x.fitnesses.sum / (x.matsize : ℚ)))
        = u + (i : ℚ) * (x.fitnesses.sum / (x.matsize : ℚ))) →
      ∃ sel : List ℤ,
        f64.SUS x u = .ok ({ x with matpop := x.matpop ++ sel },
          u + (x.matsize : ℚ) * (x.fitnesses.sum / (x.matsize : ℚ))) ∧
        sel.length = x.matsize ∧
        ∀ (i : Nat) (f : ℚ), x.fitnesses[i]? = some f →
          ⌊f / (x.fitnesses.sum / (x.matsize : ℚ))⌋ ≤ (sel.count (i : ℤ) : ℤ) ∧
          (sel.count (i : ℤ) : ℤ) ≤ ⌈f / (x.fitnesses.sum / (x.matsize : ℚ))⌉ ∧
          (f = 0 → sel.count (i : ℤ) = 0) ∧
          (x.fitnesses.sum / (x.matsize : ℚ) ≤ f → 1 ≤ sel.count (i : ℤ))) := by
  clear _hsum _hub
  have hlen : x.fitnesses.length = x.popsize := by
    simp [Population.fitnesses, Population.popsize]
  obtain ⟨hA, _⟩ := f64_SUS_ptr_mono x u hfit h0 hu
  constructor
  · intro r hr
    rw [f64_SUS_eq_loop x u (fun f hf => (hfit f hf).1)] at hr
    rcases pointer_loop_cases x (fun fs p => f64.SUS_walk fs 0 0 p)
        (fun p => f64.add p (f64.div (f64.getSumFitness x) (f64.ofNat x.matsize))) u x.matsize
      with ⟨i0, msg, _, _, hloop⟩ | ⟨g, hg, hloop⟩
    · rw [hloop] at hr
      exact absurd hr (by simp)
    · rw [hloop] at hr
      injection hr with hr
      have hwalk : ∀ i, i < x.matsize → 1 ≤ g i ∧ g i ≤ x.fitnesses.length ∧
          f64.SUS_ptr x u i < (x.fitnesses.take (g i)).foldl f64.add 0 ∧
          ∀ n, n < g i → (x.fitnesses.take n).foldl f64.add 0 ≤ f64.SUS_ptr x u i := by
        intro i hi
        have h := hg i hi
        have h' : f64.SUS_walk x.fitnesses 0 0 (f64.SUS_ptr x u i) = .ok (g i) := h
        rcases f64_SUS_walk_cases x.fitnesses 0 0 (f64.SUS_ptr x u i) with
          ⟨he2, _⟩ | ⟨m, hm, hok, hgt, hpre⟩
        · rw [he2] at h'
          exact absurd h' (by simp)
        · rw [hok] at h'
          have e : 0 + m = g i := by injection h'
          have e2 : m = g i := by omega
          subst e2
          refine ⟨?_, hm, hgt, hpre⟩
          rcases Nat.eq_zero_or_pos (g i) with z | z
          · rw [z] at hgt
            simp at hgt
            linarith [(hA i).2]
          · exact z
      refine ⟨(List.range x.matsize).map (fun i => ((g i : ℕ) : ℤ) - 1), ?_, by simp, ?_, ?_⟩
      · rw [← hr]
      · intro k hk
        obtain ⟨i, hi, rfl⟩ := List.mem_map.mp hk
        obtain ⟨a, b, _, _⟩ := hwalk i (List.mem_range.mp hi)
        constructor <;> omega
      · intro i hi0
        rw [List.count_eq_zero]
        intro hmem
        obtain ⟨s, hs, hsi⟩ := List.mem_map.mp hmem
        obtain ⟨a, b, hgt, hpre⟩ := hwalk s (List.mem_range.mp hs)
        have e : g s = i + 1 := by omega
        rw [e] at hgt hpre
        rw [foldl_take_succ _ _ _ _ _ hi0] at hgt
        have hci := (f64_sum_ge (x.fitnesses.take i) 0
          (fun f hf => hfit f (List.mem_of_mem_take hf)) fl_zero le_rfl).1
        have hle := hpre i (by omega)
        have : f64.add ((x.fitnesses.take i).foldl f64.add 0) 0
            = (x.fitnesses.take i).foldl f64.add 0 := by
          show fl ((x.fitnesses.take i).foldl f64.add 0 + 0) = (x.fitnesses.take i).foldl f64.add 0
          rw [add_zero, hci]
        rw [this] at hgt
        linarith
  · intro hsum hM h1 hE hMd hd hP
    have hMq : (0 : ℚ) < (x.matsize : ℚ) := by exact_mod_cast hM
    have hdpos : 0 < x.fitnesses.sum / (x.matsize : ℚ) := div_pos hsum hMq
    have hs : x.fitnesses.sum = (x.matsize : ℚ) * (x.fitnesses.sum / (x.matsize : ℚ)) := by
      field_simp
    have hcum : ∀ n, n ≤ x.fitnesses.length →
        (x.fitnesses.take n).foldl f64.add 0 = (x.fitnesses.take n).sum :=
      fun n hn => f64_cum_exact x.fitnesses (fun m hm => hE m (by omega)) n hn
    have hfs : f64.getSumFitness x = x.fitnesses.sum := by
      have := hcum x.fitnesses.length le_rfl
      rw [List.take_length] at this
      exact this
    have hdist : f64.div (f64.getSumFitness x) (f64.ofNat x.matsize)
        = x.fitnesses.sum / (x.matsize : ℚ) := by
      unfold f64.div f64.ofNat
      rw [hfs, hMd, hd]
    have hptr : ∀ i, i ≤ x.matsize →
        f64.SUS_ptr x u i = u + (i : ℚ) * (x.fitnesses.sum / (x.matsize : ℚ)) := by
      intro i hi
      induction i with
      | zero => simp [f64.SUS_ptr]
      | succ i ih =>
        have hstep : f64.SUS_ptr x u (i + 1) = f64.add (f64.SUS_ptr x u i)
            (f64.div (f64.getSumFitness x) (f64.ofNat x.matsize)) := by
          unfold f64.SUS_ptr
          rw [Function.iterate_succ_apply']
        rw [hstep, ih (by omega), hdist]
        have := hP (i + 1) hi
        unfold f64.add
        have e : u + (i : ℚ) * (x.fitnesses.sum / (x.matsize : ℚ))
              + x.fitnesses.sum / (x.matsize : ℚ)
            = u + ((i + 1 : ℕ) : ℚ) * (x.fitnesses.sum / (x.matsize : ℚ)) := by
          push_cast; ring
        rw [e]
        exact this
    have hlt : ∀ i, i < x.matsize → f64.SUS_ptr x u i < f64.getSumFitness x := by
      intro i hi
      rw [hptr i (by omega), hfs]
      have hiq : (i : ℚ) + 1 ≤ (x.matsize : ℚ) := by exact_mod_cast hi
      nth_rewrite 2 [hs]
      nlinarith
    obtain ⟨g, hg, hprop⟩ := f64_SUS_selection x u hfit h0 hu hlt
    refine ⟨(List.range x.matsize).map (fun k => ((g k : Nat) : ℤ)), ?_, by simp, ?_⟩
    · rw [hg, hptr x.matsize le_rfl]
    · intro i f hif
      exact fairness_count x.fitnesses x.matsize u (x.fitnesses.sum / (x.matsize : ℚ)) g
        (fun f hf => (hfit f hf).1) hdpos h0 h1 hs
        (fun k hk => by
          obtain ⟨a, b, c⟩ := hprop k hk
          refine ⟨a, ?_, ?_⟩
          · rw [← hcum (g k) (by omega), ← hptr k (by omega)]
            exact c (g k) le_rfl
          · rw [← hcum (g k + 1) (by omega), ← hptr k (by omega)]
            exact b) i f hif

theorem fl_small_values :
    fl 1 = 1 ∧ fl 3 = 3 ∧ fl 4 = 4 ∧ fl 2 = 2 ∧ fl (1 / 2) = 1 / 2 ∧ fl (-(1 / 2)) = -(1 / 2) ∧
    fl (-2) = -2 := by
  have h1 : fl 1 = 1 :=
    fl_eval _ _ (-52) 4503599627370496 (by norm_num) (by norm_num [abs_of_pos]) (by norm_num [abs_of_pos])
      (by norm_num) (by norm_num)
  have h2 : fl 3 = 3 :=
    fl_eval _ _ (-51) 6755399441055744 (by norm_num) (by norm_num [abs_of_pos]) (by norm_num [abs_of_pos])
      (by norm_num) (by norm_num)
  have h3 : fl 4 = 4 :=
    fl_eval _ _ (-50) 4503599627370496 (by norm_num) (by norm_num [abs_of_pos]) (by norm_num [abs_of_pos])
      (by norm_num) (by norm_num)
  have h4 : fl 2 = 2 :=
    fl_eval _ _ (-51) 4503599627370496 (by norm_num) (by norm_num [abs_of_pos]) (by norm_num [abs_of_pos])
      (by norm_num) (by norm_num)
  have h5 : fl (1 / 2) = (1 / 2) :=
    fl_eval _ _ (-53) 4503599627370496 (by norm_num) (by norm_num [abs_of_pos]) (by norm_num [abs_of_pos])
      (by norm_num) (by norm_num)
  have h6 : fl (-(1 / 2)) = (-(1 / 2)) :=
    fl_eval _ _ (-53) (-4503599627370496) (by norm_num) (by norm_num [abs_of_neg]) (by norm_num [abs_of_neg])
      (by norm_num) (by norm_num)
  have h7 : fl (-2) = (-2) :=
    fl_eval _ _ (-51) (-4503599627370496) (by norm_num) (by norm_num [abs_of_neg]) (by norm_num [abs_of_neg])
      (by norm_num) (by norm_num)
  exact ⟨h1, h2, h3, h4, h5, h6, h7⟩

theorem fitPop_one_three_double : ∀ f ∈ (fitPop [1, 3] 2).fitnesses, 0 ≤ f ∧ fl f = f := by
  intro f hf
  simp only [Population.fitnesses, fitPop, fitChr, List.map_cons, List.map_nil, List.mem_cons,
    List.mem_singleton, List.not_mem_nil, or_false] at hf
  rcases hf with h | h
  · rw [h]; exact ⟨by norm_num, fl_small_values.1⟩
  · rw [h]; exact ⟨by norm_num, fl_small_values.2.1⟩

theorem fitPop_one_three_sum : f64.getSumFitness (fitPop [1, 3] 2) = 4 := by
  obtain ⟨h1, h2, h3, h4, h5, h6, h7⟩ := fl_small_values
  norm_num [f64.getSumFitness, Population.fitnesses, fitPop, fitChr, f64.add, fl_zero, h1, h2, h3, h4]

/-- C17, witness: fitness `{1, 3}`, two mating-pool slots, draws `1/2` and `2`. -/
theorem RWS_walk_selection_witness :
    ∃ sel : List ℤ, f64.RWS (fitPop [1, 3] 2) (fun i => if i = 0 then 1 / 2 else 2)
        = .ok { fitPop [1, 3] 2 with matpop := (fitPop [1, 3] 2).matpop ++ sel } ∧
      sel.length = (fitPop [1, 3] 2).matsize :=
  let ⟨sel, h1, h2, _⟩ := ((RWS_walk_selection (fitPop [1, 3] 2) (fun i => if i = 0 then 1 / 2 else 2)
    fitPop_one_three_double
    (by
      intro i hi
      rw [fitPop_one_three_sum]
      have hi2 : i < 2 := hi
      interval_cases i
      · exact ⟨by norm_num, by simpa using fl_small_values.2.2.2.2.1, by norm_num⟩
      · exact ⟨by norm_num, by simpa using fl_small_values.2.2.2.1, by norm_num⟩)
    (by rw [fitPop_one_three_sum]; norm_num)).1
    (by rw [fitPop_one_three_sum]; norm_num)).1
    (by
      obtain ⟨h1, h2, h3, h4, h5, h6, h7⟩ := fl_small_values
      intro i hi
      have hi2 : i < 2 := hi
      interval_cases i
      · exact ⟨1, by decide, by
          norm_num [Population.fitnesses, fitPop, fitChr, f64.sub, h6]⟩
      · exact ⟨2, by decide, by
          norm_num [Population.fitnesses, fitPop, fitChr, f64.sub, h1, h7]⟩)
  ⟨sel, h1, h2⟩

theorem fitPop_one_three_ptr :
    f64.SUS_ptr (fitPop [1, 3] 2) 1 0 = 1 ∧ f64.SUS_ptr (fitPop [1, 3] 2) 1 1 = 3 := by
  obtain ⟨h1, h2, h3, h4, h5, h6, h7⟩ := fl_small_values
  have hd : f64.div (f64.getSumFitness (fitPop [1, 3] 2)) (f64.ofNat 2) = 2 := by
    rw [fitPop_one_three_sum]
    norm_num [f64.div, f64.ofNat, h4]
  constructor
  · rfl
  · unfold f64.SUS_ptr
    rw [show (fitPop [1, 3] 2).matsize = 2 from rfl, hd]
    norm_num [Function.iterate_succ, f64.add, h2]

/-- C18, witness: fitness `{1, 3}`, two mating-pool slots (`dist = 2`) and the offset
`1`: the pointers `1` and `3` lie below the sum `4`. -/
theorem SUS_pointers_witness :
    ∃ sel : List ℤ, f64.SUS (fitPop [1, 3] 2) 1 = .ok ({ fitPop [1, 3] 2 with
        matpop := (fitPop [1, 3] 2).matpop ++ sel }, f64.SUS_ptr (fitPop [1, 3] 2) 1 2) ∧
      sel.length = (fitPop [1, 3] 2).matsize :=
  let ⟨sel, h1, h2, _⟩ := (SUS_pointers (fitPop [1, 3] 2) 1 fitPop_one_three_double
    (by norm_num) fl_small_values.1 (by rw [fitPop_one_three_sum]; norm_num) (by norm_num)).1
    (by
      intro i hi
      rw [fitPop_one_three_sum]
      have hi2 : i < 2 := hi
      interval_cases i
      · rw [fitPop_one_three_ptr.1]; norm_num
      · rw [fitPop_one_three_ptr.2]; norm_num)
  ⟨sel, h1, h2⟩

/-- C31, witness: fitness `{1, 3}`, two mating-pool slots (`d = 2`) and the offset `1`:
no operation rounds. -/
theorem SUS_fairness_witness :
    ∃ sel : List ℤ,
      f64.SUS (fitPop [1, 3] 2) 1 = .ok ({ fitPop [1, 3] 2 with
        matpop := (fitPop [1, 3] 2).matpop ++ sel },
        1 + ((fitPop [1, 3] 2).matsize : ℚ)
          * ((fitPop [1, 3] 2).fitnesses.sum / ((fitPop [1, 3] 2).matsize : ℚ))) ∧
      sel.length = (fitPop [1, 3] 2).matsize ∧
      ∀ (i : Nat) (f : ℚ), (fitPop [1, 3] 2).fitnesses[i]? = some f →
        ⌊f / ((fitPop [1, 3] 2).fitnesses.sum / ((fitPop [1, 3] 2).matsize : ℚ))⌋
          ≤ (sel.count (i : ℤ) : ℤ) ∧
        (sel.count (i : ℤ) : ℤ)
          ≤ ⌈f / ((fitPop [1, 3] 2).fitnesses.sum / ((fitPop [1, 3] 2).matsize : ℚ))⌉ ∧
        (f = 0 → sel.count (i : ℤ) = 0) ∧
        ((fitPop [1, 3] 2).fitnesses.sum / ((fitPop [1, 3] 2).matsize : ℚ) ≤ f →
          1 ≤ sel.count (i : ℤ)) :=
  (SUS_fairness (fitPop [1, 3] 2) 1 fitPop_one_three_double (by norm_num) fl_small_values.1
    (by rw [fitPop_one_three_sum]; norm_num) (by norm_num)).2
    (by norm_num [Population.fitnesses, fitPop, fitChr])
    (by decide)
    (by norm_num [Population.fitnesses, fitPop, fitChr])
    (by
      obtain ⟨h1, h2, h3, h4, h5, h6, h7⟩ := fl_small_values
      intro n hn
      have hn2 : n ≤ 2 := hn
      interval_cases n <;>
        norm_num [Population.fitnesses, fitPop, fitChr, fl_zero, h1, h3])
    (by
      obtain ⟨h1, h2, h3, h4, h5, h6, h7⟩ := fl_small_values
      norm_num [fitPop, h4])
    (by
      obtain ⟨h1, h2, h3, h4, h5, h6, h7⟩ := fl_small_values
      norm_num [Population.fitnesses, fitPop, fitChr, h4])
    (by
      obtain ⟨h1, h2, h3, h4, h5, h6, h7⟩ := fl_small_values
      have h5' : fl 5 = 5 := by simpa using fl_natCast 5 (by norm_num)
      intro i hi
      have hi2 : i ≤ 2 := hi
      interval_cases i <;>
        norm_num [Population.fitnesses, fitPop, fitChr, h1, h2, h5'])

/-! ## Binary64: the decoded value -/

/-- C3, amended. Decoded values in binary64. For a real-typed parameter whose bounds
`lo < hi` are `double` of magnitude at most `2^1022`, with a width `1 ≤ N ≤ 64`, and
every `N`-bit string `b`: `decode(b)` lies in `[lo, top]`, where
`top = lo + (hi - lo)` evaluated in `double` is the value of the all-one string; the
all-zero string decodes to exactly `lo`; `top` exceeds `hi` by at most
`(|lo| + |hi|) / 2^51`, and `top = hi` when the difference `hi - lo` is a `double`.
For an integer-typed parameter whose bounds and their difference fit in an `int`,
`decode(b)` lies in `[lo, hi]`, the all-zero string decodes to exactly `lo` and the
all-one string to exactly `hi`. -/
theorem decode_in_bounds :
    (∀ (p : Parameter ℚ) (b : List Bool), p.data0 < p.data1 →
      fl p.data0 = p.data0 → fl p.data1 = p.data1 →
      |p.data0| ≤ 2 ^ 1022 → |p.data1| ≤ 2 ^ 1022 →
      1 ≤ p.N → p.N ≤ 64 → b.length = p.N →
      p.data0 ≤ f64.decode p b ∧
      f64.decode p b ≤ f64.add p.data0 (f64.sub p.data1 p.data0) ∧
      f64.add p.data0 (f64.sub p.data1 p.data0) ≤ p.data1 + (|p.data0| + |p.data1|) / 2 ^ 51 ∧
      f64.decode p (List.replicate p.N false) = p.data0 ∧
      f64.decode p (List.replicate p.N true) = f64.add p.data0 (f64.sub p.data1 p.data0) ∧
      (f64.sub p.data1 p.data0 = p.data1 - p.data0 →
        f64.decode p b ≤ p.data1 ∧ f64.decode p (List.replicate p.N true) = p.data1)) ∧
    (∀ (p : Parameter ℤ) (b : List Bool), p.data0 < p.data1 →
      -2 ^ 31 ≤ p.data0 → p.data1 < 2 ^ 31 → p.data1 - p.data0 < 2 ^ 31 →
      1 ≤ p.N → p.N ≤ 64 → b.length = p.N →
      p.data0 ≤ f64.decodeInt p b ∧ f64.decodeInt p b ≤ p.data1 ∧
      f64.decodeInt p (List.replicate p.N false) = p.data0 ∧
      f64.decodeInt p (List.replicate p.N true) = p.data1) := by
  constructor
  · intro p b hb hlo hhi _ _ hN1 _ hlen
    obtain ⟨a1, a2, a3, a4⟩ := f64_decode_bounds p b hb hlo hN1 hlen
    have ho := abs_le.mp (f64_decode_overshoot p.data0 p.data1 hlo hhi hb)
    refine ⟨a1, a2, by linarith [ho.2], a3, a4, ?_⟩
    intro hex
    have htop : f64.add p.data0 (f64.sub p.data1 p.data0) = p.data1 := by
      rw [hex]
      show fl (p.data0 + (p.data1 - p.data0)) = p.data1
      rw [show p.data0 + (p.data1 - p.data0) = p.data1 by ring, hhi]
    exact ⟨by rw [← htop]; exact a2, by rw [a4, htop]⟩
  · intro p b hb h0 h1 _ hN1 _ hlen
    exact f64_decodeInt_bounds p b hb h0 h1 hN1 hlen

/-- C3, witness: the parameter of the scenarios, bounds `[0, 10]` and 8 bits, declared
with the type `double` and with the type `int`, and the string `10110010`. -/
theorem decode_in_bounds_witness :
    (scenarioParam.data0 ≤ f64.decode scenarioParam
        [true, false, true, true, false, false, true, false] ∧
      f64.decode scenarioParam [true, false, true, true, false, false, true, false]
        ≤ scenarioParam.data1 ∧
      f64.decode scenarioParam (List.replicate 8 true) = scenarioParam.data1) ∧
    (scenarioParamInt.data0 ≤ f64.decodeInt scenarioParamInt
        [true, false, true, true, false, false, true, false] ∧
      f64.decodeInt scenarioParamInt [true, false, true, true, false, false, true, false]
        ≤ scenarioParamInt.data1) :=
  have hten : fl 10 = 10 := by simpa using fl_natCast 10 (by norm_num)
  have h := decode_in_bounds.1 scenarioParam [true, false, true, true, false, false, true, false]
    (by norm_num [scenarioParam, Parameter.data0, Parameter.data1])
    (by simpa [scenarioParam, Parameter.data0] using fl_zero)
    (by simpa [scenarioParam, Parameter.data1] using hten)
    (by norm_num [scenarioParam, Parameter.data0])
    (by norm_num [scenarioParam, Parameter.data1])
    (by decide) (by decide) rfl
  have h2 := decode_in_bounds.2 scenarioParamInt
    [true, false, true, true, false, false, true, false]
    (by decide) (by decide) (by decide) (by decide) (by decide) (by decide) rfl
  have hex : f64.sub scenarioParam.data1 scenarioParam.data0
      = scenarioParam.data1 - scenarioParam.data0 := by
    norm_num [f64.sub, scenarioParam, Parameter.data0, Parameter.data1, hten]
  ⟨⟨h.1, (h.2.2.2.2.2 hex).1, (h.2.2.2.2.2 hex).2⟩, ⟨h2.1, h2.2.1⟩⟩

/-! ## Binary64: the quotient of `encode` and the round trip -/

/-! ## Rounding errors of `encode` and `decode` -/

theorem rel_bounds_of_err {x y : ℚ} (hx : 0 ≤ x) (h : |y - x| ≤ |x| / 2 ^ 53) :
    x * (1 - 1 / 2 ^ 53) ≤ y ∧ y ≤ x * (1 + 1 / 2 ^ 53) := by
  rw [abs_of_nonneg hx] at h
  have a := abs_le.mp h
  constructor <;> linarith [a.1, a.2]

theorem double_to_uint64_floor (q : ℚ) (h0 : 0 ≤ q) (h1 : q < 2 ^ 64) :
    ((double_to_uint64 q : ℕ) : ℤ) = ⌊q⌋ := by
  unfold double_to_uint64 truncate
  rw [if_pos h0]
  have hf0 : 0 ≤ ⌊q⌋ := Int.floor_nonneg.mpr h0
  have hf1 : ⌊q⌋ < 2 ^ 64 := by
    have : (⌊q⌋ : ℚ) ≤ q := Int.floor_le q
    have h2 : (⌊q⌋ : ℚ) < ((2 ^ 64 : ℤ) : ℚ) := by push_cast; linarith
    exact_mod_cast h2
  have : ⌊q⌋.toNat < 2 ^ 64 := by omega
  rw [Nat.mod_eq_of_lt this]
  omega

theorem MAXVAL_le_pow (N K : Nat) (hN : N ≤ K) : MAXVAL N ≤ 2 ^ K - 1 := by
  unfold MAXVAL
  have : 2 ^ N ≤ 2 ^ K := Nat.pow_le_pow_right (by norm_num) hN
  omega

theorem fl_MAXVAL (N : Nat) (hN : N ≤ 53) : fl (MAXVAL N : ℚ) = (MAXVAL N : ℚ) := by
  apply fl_natCast
  have := MAXVAL_le_pow N 53 hN
  have : 1 ≤ 2 ^ 53 := Nat.one_le_two_pow
  omega

/-- The quotient that the binary64 `encode` converts to an integer. -/
theorem f64_encodeValue_eq (p : Parameter ℚ) (z : ℚ) :
    f64.encodeValue p z = double_to_uint64
      (fl (fl (fl (MAXVAL p.N : ℚ) * fl (z - p.data0)) / fl (p.data1 - p.data0))) := rfl

/-- The rounded quotient `MAXVAL * (s - t) / (hi - lo)` of two differences of `double`
values against the exact one: three rounded operations before the division and the
rounding of the quotient. -/
theorem f64_quotient (lo hi s t : ℚ) (N : Nat) (hlo : fl lo = lo) (hhi : fl hi = hi)
    (hs : fl s = s) (ht' : fl t = t) (hb : lo < hi) (hlv : t ≤ s) :
    0 ≤ fl (fl ((MAXVAL N : ℚ) * fl (s - t)) / fl (hi - lo)) ∧
    |fl (fl ((MAXVAL N : ℚ) * fl (s - t)) / fl (hi - lo))
        - (MAXVAL N : ℚ) * (s - t) / (hi - lo)|
      ≤ (MAXVAL N : ℚ) * (s - t) / (hi - lo) / 2 ^ 50 + 1 / 2 ^ 1075 := by
  have ht : 0 ≤ s - t := by linarith
  have hw : 0 < hi - lo := by linarith
  have hM : (0 : ℚ) ≤ (MAXVAL N : ℚ) := Nat.cast_nonneg _
  obtain ⟨a1, a2⟩ := rel_bounds_of_err ht (fl_err_sub s t hs ht')
  have ha0 : 0 ≤ fl (s - t) := fl_nonneg ht
  obtain ⟨w1, w2⟩ := rel_bounds_of_err hw.le (fl_err_sub hi lo hhi hlo)
  have hw'pos : 0 < fl (hi - lo) := fl_sub_pos lo hi hlo hhi hb
  have hMa : 0 ≤ (MAXVAL N : ℚ) * fl (s - t) := mul_nonneg hM ha0
  obtain ⟨p1, p2⟩ := rel_bounds_of_err hMa (fl_err_natmul (MAXVAL N) (fl (s - t)) (fl_idem _))
  have hP0 : 0 ≤ fl ((MAXVAL N : ℚ) * fl (s - t)) := fl_nonneg hMa
  set a := fl (s - t) with hadef
  set w' := fl (hi - lo) with hwdef
  set P := fl ((MAXVAL N : ℚ) * a) with hPdef
  set x := (MAXVAL N : ℚ) * (s - t) / (hi - lo) with hxdef
  have hx0 : 0 ≤ x := div_nonneg (mul_nonneg hM ht) hw.le
  have hxw : x * (hi - lo) = (MAXVAL N : ℚ) * (s - t) := by
    rw [hxdef]; field_simp
  have hQ0 : 0 ≤ P / w' := div_nonneg hP0 hw'pos.le
  -- the quotient before its rounding
  have hPu : P ≤ x * (hi - lo) * ((1 + 1 / 2 ^ 53) * (1 + 1 / 2 ^ 53)) := by
    rw [hxw]
    calc P ≤ (MAXVAL N : ℚ) * a * (1 + 1 / 2 ^ 53) := p2
      _ ≤ (MAXVAL N : ℚ) * ((s - t) * (1 + 1 / 2 ^ 53)) * (1 + 1 / 2 ^ 53) := by
        apply mul_le_mul_of_nonneg_right _ (by norm_num)
        exact mul_le_mul_of_nonneg_left a2 hM
      _ = (MAXVAL N : ℚ) * (s - t) * ((1 + 1 / 2 ^ 53) * (1 + 1 / 2 ^ 53)) := by ring
  have hPl : x * (hi - lo) * ((1 - 1 / 2 ^ 53) * (1 - 1 / 2 ^ 53)) ≤ P := by
    rw [hxw]
    calc (MAXVAL N : ℚ) * (s - t) * ((1 - 1 / 2 ^ 53) * (1 - 1 / 2 ^ 53))
        = (MAXVAL N : ℚ) * ((s - t) * (1 - 1 / 2 ^ 53)) * (1 - 1 / 2 ^ 53) := by ring
      _ ≤ (MAXVAL N : ℚ) * a * (1 - 1 / 2 ^ 53) := by
        apply mul_le_mul_of_nonneg_right _ (by norm_num)
        exact mul_le_mul_of_nonneg_left a1 hM
      _ ≤ P := p1
  have hQu : P / w' ≤ x * ((1 + 1 / 2 ^ 53) * (1 + 1 / 2 ^ 53) / (1 - 1 / 2 ^ 53)) := by
    rw [div_le_iff₀ hw'pos]
    have h1 : x * ((1 + 1 / 2 ^ 53) * (1 + 1 / 2 ^ 53) / (1 - 1 / 2 ^ 53))
        * ((hi - lo) * (1 - 1 / 2 ^ 53)) ≤
        x * ((1 + 1 / 2 ^ 53) * (1 + 1 / 2 ^ 53) / (1 - 1 / 2 ^ 53)) * w' :=
      mul_le_mul_of_nonneg_left w1 (mul_nonneg hx0 (by norm_num))
    have h2 : x * ((1 + 1 / 2 ^ 53) * (1 + 1 / 2 ^ 53) / (1 - 1 / 2 ^ 53))
        * ((hi - lo) * (1 - 1 / 2 ^ 53))
        = x * (hi - lo) * ((1 + 1 / 2 ^ 53) * (1 + 1 / 2 ^ 53)) := by
      field_simp
      ring
    linarith
  have hQl : x * ((1 - 1 / 2 ^ 53) * (1 - 1 / 2 ^ 53) / (1 + 1 / 2 ^ 53)) ≤ P / w' := by
    rw [le_div_iff₀ hw'pos]
    have h1 : x * ((1 - 1 / 2 ^ 53) * (1 - 1 / 2 ^ 53) / (1 + 1 / 2 ^ 53)) * w' ≤
        x * ((1 - 1 / 2 ^ 53) * (1 - 1 / 2 ^ 53) / (1 + 1 / 2 ^ 53))
        * ((hi - lo) * (1 + 1 / 2 ^ 53)) :=
      mul_le_mul_of_nonneg_left w2 (mul_nonneg hx0 (by norm_num))
    have h2 : x * ((1 - 1 / 2 ^ 53) * (1 - 1 / 2 ^ 53) / (1 + 1 / 2 ^ 53))
        * ((hi - lo) * (1 + 1 / 2 ^ 53))
        = x * (hi - lo) * ((1 - 1 / 2 ^ 53) * (1 - 1 / 2 ^ 53)) := by
      field_simp
      ring
    linarith
  -- the rounding of the quotient
  have hq := fl_err (P / w')
  rw [abs_of_nonneg hQ0] at hq
  have q1 := abs_le.mp hq
  have hu : x * ((1 + 1 / 2 ^ 53) * (1 + 1 / 2 ^ 53) / (1 - 1 / 2 ^ 53)) * (1 + 1 / 2 ^ 53)
      ≤ x * (1 + 1 / 2 ^ 50) := by
    rw [mul_assoc]
    exact mul_le_mul_of_nonneg_left (by norm_num) hx0
  have hl : x * (1 - 1 / 2 ^ 50)
      ≤ x * ((1 - 1 / 2 ^ 53) * (1 - 1 / 2 ^ 53) / (1 + 1 / 2 ^ 53)) * (1 - 1 / 2 ^ 53) := by
    rw [mul_assoc]
    exact mul_le_mul_of_nonneg_left (by norm_num) hx0
  have hQu2 : P / w' * (1 + 1 / 2 ^ 53)
      ≤ x * ((1 + 1 / 2 ^ 53) * (1 + 1 / 2 ^ 53) / (1 - 1 / 2 ^ 53)) * (1 + 1 / 2 ^ 53) :=
    mul_le_mul_of_nonneg_right hQu (by norm_num)
  have hQl2 : x * ((1 - 1 / 2 ^ 53) * (1 - 1 / 2 ^ 53) / (1 + 1 / 2 ^ 53)) * (1 - 1 / 2 ^ 53)
      ≤ P / w' * (1 - 1 / 2 ^ 53) :=
    mul_le_mul_of_nonneg_right hQl (by norm_num)
  refine ⟨fl_nonneg hQ0, ?_⟩
  rw [abs_le]
  constructor <;> linarith [q1.1, q1.2]

/-- The rounded quotient of `encode` against the exact one,
`x = MAXVAL * (v - lo) / (hi - lo)`. -/
theorem f64_encode_quotient (lo hi v : ℚ) (N : Nat) (hlo : fl lo = lo) (hhi : fl hi = hi)
    (hv : fl v = v) (hb : lo < hi) (hlv : lo ≤ v) :
    0 ≤ fl (fl ((MAXVAL N : ℚ) * fl (v - lo)) / fl (hi - lo)) ∧
    |fl (fl ((MAXVAL N : ℚ) * fl (v - lo)) / fl (hi - lo))
        - (MAXVAL N : ℚ) * (v - lo) / (hi - lo)|
      ≤ (MAXVAL N : ℚ) * (v - lo) / (hi - lo) / 2 ^ 50 + 1 / 2 ^ 1075 :=
  f64_quotient lo hi v lo N hlo hhi hv hlo hb hlv

/-- The arithmetic of the rounding errors of `decode`: `r`, `w'`, `s` and `d` are the
rounded ratio, difference, product and sum; `η` bounds the error of a subnormal
product. -/
theorem decode_err_arith (lo hi ρ r w' s d η : ℚ) (hb : lo < hi) (hρ0 : 0 ≤ ρ) (hρ1 : ρ ≤ 1)
    (hη0 : 0 ≤ η)
    (ρ1 : ρ * (1 - 1 / 2 ^ 53) ≤ r) (ρ2 : r ≤ ρ * (1 + 1 / 2 ^ 53))
    (w1 : (hi - lo) * (1 - 1 / 2 ^ 53) ≤ w') (w2 : w' ≤ (hi - lo) * (1 + 1 / 2 ^ 53))
    (hs : |s - r * w'| ≤ r * w' / 2 ^ 53 + η) (hs0 : 0 ≤ s)
    (hd : |d - (lo + s)| ≤ |lo + s| / 2 ^ 53) :
    |d - (lo + ρ * (hi - lo))| ≤ (|lo| + |hi|) / 2 ^ 50 + 2 * η := by
  have hw : 0 < hi - lo := by linarith
  have hw'0 : 0 ≤ w' := le_trans (mul_nonneg hw.le (by norm_num)) w1
  have hr0 : 0 ≤ r := le_trans (mul_nonneg hρ0 (by norm_num)) ρ1
  have s1 := abs_le.mp hs
  have d1 := abs_le.mp hd
  have hwK : hi - lo ≤ |lo| + |hi| := by
    have := neg_abs_le lo
    have := le_abs_self hi
    linarith
  have hl0 : 0 ≤ |lo| := abs_nonneg _
  have hh0 : 0 ≤ |hi| := abs_nonneg _
  have hρw0 : 0 ≤ ρ * (hi - lo) := mul_nonneg hρ0 hw.le
  have hρw1 : ρ * (hi - lo) ≤ hi - lo := by nlinarith
  have hrw'u : r * w' ≤ ρ * (hi - lo) * ((1 + 1 / 2 ^ 53) * (1 + 1 / 2 ^ 53)) := by
    calc r * w' ≤ (ρ * (1 + 1 / 2 ^ 53)) * w' := mul_le_mul_of_nonneg_right ρ2 hw'0
      _ ≤ (ρ * (1 + 1 / 2 ^ 53)) * ((hi - lo) * (1 + 1 / 2 ^ 53)) :=
        mul_le_mul_of_nonneg_left w2 (mul_nonneg hρ0 (by norm_num))
      _ = ρ * (hi - lo) * ((1 + 1 / 2 ^ 53) * (1 + 1 / 2 ^ 53)) := by ring
  have hrw'l : ρ * (hi - lo) * ((1 - 1 / 2 ^ 53) * (1 - 1 / 2 ^ 53)) ≤ r * w' := by
    calc ρ * (hi - lo) * ((1 - 1 / 2 ^ 53) * (1 - 1 / 2 ^ 53))
        = (ρ * (1 - 1 / 2 ^ 53)) * ((hi - lo) * (1 - 1 / 2 ^ 53)) := by ring
      _ ≤ (ρ * (1 - 1 / 2 ^ 53)) * w' :=
        mul_le_mul_of_nonneg_left w1 (mul_nonneg hρ0 (by norm_num))
      _ ≤ r * w' := mul_le_mul_of_nonneg_right ρ1 hw'0
  have cU : ((1 + 1 / 2 ^ 53) * (1 + 1 / 2 ^ 53)) * (1 + 1 / 2 ^ 53) ≤ (1 + 1 / 2 ^ 51 : ℚ) := by
    norm_num
  have cL : (1 - 1 / 2 ^ 51 : ℚ) ≤ ((1 - 1 / 2 ^ 53) * (1 - 1 / 2 ^ 53)) * (1 - 1 / 2 ^ 53) := by
    norm_num
  have hsU : s ≤ ρ * (hi - lo) + (hi - lo) / 2 ^ 51 + η := by
    have e2 : r * w' * (1 + 1 / 2 ^ 53)
        ≤ ρ * (hi - lo) * ((1 + 1 / 2 ^ 53) * (1 + 1 / 2 ^ 53)) * (1 + 1 / 2 ^ 53) :=
      mul_le_mul_of_nonneg_right hrw'u (by norm_num)
    have e3 := mul_le_mul_of_nonneg_left cU hρw0
    have e4 : ρ * (hi - lo) / 2 ^ 51 ≤ (hi - lo) / 2 ^ 51 :=
      div_le_div_of_nonneg_right hρw1 (by positivity)
    nlinarith [s1.2]
  have hsL : ρ * (hi - lo) - (hi - lo) / 2 ^ 51 - η ≤ s := by
    have e2 : ρ * (hi - lo) * ((1 - 1 / 2 ^ 53) * (1 - 1 / 2 ^ 53)) * (1 - 1 / 2 ^ 53)
        ≤ r * w' * (1 - 1 / 2 ^ 53) :=
      mul_le_mul_of_nonneg_right hrw'l (by norm_num)
    have e3 := mul_le_mul_of_nonneg_left cL hρw0
    have e4 : ρ * (hi - lo) / 2 ^ 51 ≤ (hi - lo) / 2 ^ 51 :=
      div_le_div_of_nonneg_right hρw1 (by positivity)
    nlinarith [s1.1]
  have hsum : |lo + s| ≤ |lo| + ((hi - lo) + (hi - lo) / 2 ^ 51 + η) := by
    have h1 := abs_add lo s
    rw [abs_of_nonneg hs0] at h1
    linarith
  have hsum2 : |lo + s| / 2 ^ 53
      ≤ (|lo| + ((hi - lo) + (hi - lo) / 2 ^ 51 + η)) / 2 ^ 53 :=
    div_le_div_of_nonneg_right hsum (by positivity)
  have e53 : (|lo| + ((hi - lo) + (hi - lo) / 2 ^ 51 + η)) / 2 ^ 53
      = |lo| / 2 ^ 53 + (hi - lo) / 2 ^ 53 + (hi - lo) / 2 ^ 51 / 2 ^ 53 + η / 2 ^ 53 := by ring
  have hη53 : η / 2 ^ 53 ≤ η := div_le_self hη0 (by norm_num)
  have hw51 : (hi - lo) / 2 ^ 51 / 2 ^ 53 ≤ (hi - lo) / 2 ^ 53 := by
    apply div_le_div_of_nonneg_right _ (by positivity)
    exact div_le_self hw.le (by norm_num)
  have hKs : (|lo| + |hi|) / 2 ^ 50 = 8 * ((|lo| + |hi|) / 2 ^ 53) := by ring
  have hw53 : (hi - lo) / 2 ^ 53 ≤ (|lo| + |hi|) / 2 ^ 53 :=
    div_le_div_of_nonneg_right hwK (by positivity)
  have hl53 : |lo| / 2 ^ 53 ≤ (|lo| + |hi|) / 2 ^ 53 :=
    div_le_div_of_nonneg_right (by linarith) (by positivity)
  have hw51b : (hi - lo) / 2 ^ 51 = 4 * ((hi - lo) / 2 ^ 53) := by ring
  rw [abs_le]
  constructor <;> linarith [d1.1, d1.2]

/-- The binary64 `decode` against the exact grid point `lo + k * (hi - lo) / MAXVAL`. -/
theorem f64_decode_err (p : Parameter ℚ) (b : List Bool) (hb : p.data0 < p.data1)
    (hlo : fl p.data0 = p.data0) (hhi : fl p.data1 = p.data1)
    (hN1 : 1 ≤ p.N) (hN : p.N ≤ 53) (hlen : b.length = p.N) :
    |f64.decode p b - (p.data0 + (GetValue b : ℚ) / (MAXVAL p.N : ℚ) * (p.data1 - p.data0))|
      ≤ (|p.data0| + |p.data1|) / 2 ^ 50 + 2 * (1 / 2 ^ 1075) := by
  have hM1 : 1 ≤ MAXVAL p.N := MAXVAL_pos p.N hN1
  have hMq : (1 : ℚ) ≤ (MAXVAL p.N : ℚ) := by exact_mod_cast hM1
  have hk : GetValue b ≤ MAXVAL p.N := GetValue_le_MAXVAL b p.N hlen
  have hkq : (GetValue b : ℚ) ≤ (MAXVAL p.N : ℚ) := by exact_mod_cast hk
  have hk0 : (0 : ℚ) ≤ (GetValue b : ℚ) := Nat.cast_nonneg _
  have hMle : MAXVAL p.N ≤ 2 ^ 53 := by
    have := MAXVAL_le_pow p.N 53 hN
    have : 1 ≤ 2 ^ 53 := Nat.one_le_two_pow
    omega
  have eM : f64.ofNat (MAXVAL p.N) = (MAXVAL p.N : ℚ) := fl_natCast _ hMle
  have ek : f64.ofNat (GetValue b) = (GetValue b : ℚ) := fl_natCast _ (le_trans hk hMle)
  have hw : 0 < p.data1 - p.data0 := by linarith
  obtain ⟨w1, w2⟩ := rel_bounds_of_err hw.le (fl_err_sub p.data1 p.data0 hhi hlo)
  have hw'0 : 0 ≤ fl (p.data1 - p.data0) := fl_nonneg hw.le
  have hρ0 : 0 ≤ (GetValue b : ℚ) / (MAXVAL p.N : ℚ) := div_nonneg hk0 (by linarith)
  have hρ1 : (GetValue b : ℚ) / (MAXVAL p.N : ℚ) ≤ 1 := by
    rw [div_le_one (by linarith)]; exact hkq
  have hr : |fl ((GetValue b : ℚ) / (MAXVAL p.N : ℚ))
      - (GetValue b : ℚ) / (MAXVAL p.N : ℚ)| ≤ |(GetValue b : ℚ) / (MAXVAL p.N : ℚ)| / 2 ^ 53 := by
    rcases Nat.eq_zero_or_pos (GetValue b) with z | z
    · rw [z]; simp [fl_zero]
    · apply fl_err_normal
      rw [abs_of_nonneg hρ0, le_div_iff₀ (by linarith)]
      have h1 : (1 : ℚ) ≤ (GetValue b : ℚ) := by exact_mod_cast z
      have h2 : (MAXVAL p.N : ℚ) ≤ 2 ^ 53 := by exact_mod_cast hMle
      have h3 : (1 : ℚ) / 2 ^ 1022 * (MAXVAL p.N : ℚ) ≤ 1 / 2 ^ 1022 * 2 ^ 53 :=
        mul_le_mul_of_nonneg_left h2 (by positivity)
      have h4 : (1 : ℚ) / 2 ^ 1022 * 2 ^ 53 ≤ 1 := by
        rw [div_mul_eq_mul_div, one_mul, div_le_one (by positivity)]
        exact pow_le_pow_right₀ (by norm_num) (by norm_num)
      linarith
  obtain ⟨ρ1, ρ2⟩ := rel_bounds_of_err hρ0 hr
  have hr0 : 0 ≤ fl ((GetValue b : ℚ) / (MAXVAL p.N : ℚ)) := fl_nonneg hρ0
  have hs := fl_err (fl ((GetValue b : ℚ) / (MAXVAL p.N : ℚ)) * fl (p.data1 - p.data0))
  rw [abs_of_nonneg (mul_nonneg hr0 hw'0)] at hs
  have hd := fl_err_add p.data0
    (fl (fl ((GetValue b : ℚ) / (MAXVAL p.N : ℚ)) * fl (p.data1 - p.data0))) hlo (fl_idem _)
  have key := decode_err_arith p.data0 p.data1 ((GetValue b : ℚ) / (MAXVAL p.N : ℚ))
    (fl ((GetValue b : ℚ) / (MAXVAL p.N : ℚ))) (fl (p.data1 - p.data0))
    (fl (fl ((GetValue b : ℚ) / (MAXVAL p.N : ℚ)) * fl (p.data1 - p.data0)))
    (fl (p.data0 + fl (fl ((GetValue b : ℚ) / (MAXVAL p.N : ℚ)) * fl (p.data1 - p.data0))))
    (1 / 2 ^ 1075) hb hρ0 hρ1 (by positivity) ρ1 ρ2 w1 w2 hs
    (fl_nonneg (mul_nonneg hr0 hw'0)) hd
  unfold f64.decode
  rw [eM, ek]
  exact key

theorem fl_nat_add_half (M : Nat) (hM : M < 2 ^ 52) : fl ((M : ℚ) + 1 / 2) = (M : ℚ) + 1 / 2 := by
  have h := fl_exact (2 * (M : ℤ) + 1) (-1) (by rw [abs_of_nonneg (by positivity)]; omega)
    (by norm_num)
  have e : ((2 * (M : ℤ) + 1 : ℤ) : ℚ) * 2 ^ (-1 : ℤ) = (M : ℚ) + 1 / 2 := by
    push_cast
    rw [zpow_neg, zpow_one]
    ring
  rwa [e] at h

theorem fl_nat_sub_half (M : Nat) (hM1 : 1 ≤ M) (hM : M < 2 ^ 52) :
    fl ((M : ℚ) - 1 / 2) = (M : ℚ) - 1 / 2 := by
  have h := fl_exact (2 * (M : ℤ) - 1) (-1) (by rw [abs_of_nonneg (by omega)]; omega)
    (by norm_num)
  have e : ((2 * (M : ℤ) - 1 : ℤ) : ℚ) * 2 ^ (-1 : ℤ) = (M : ℚ) - 1 / 2 := by
    push_cast
    rw [zpow_neg, zpow_one]
    ring
  rwa [e] at h

/-- For a width of at most 52 bits, the integer that the binary64 `encode` computes for
a value within the bounds is at most `MAXVAL`; for the upper bound it is `MAXVAL` or
`MAXVAL - 1`. -/
theorem f64_encodeValue_le (p : Parameter ℚ) (v : ℚ) (hb : p.data0 < p.data1)
    (hlo : fl p.data0 = p.data0) (hhi : fl p.data1 = p.data1)
    (hN1 : 1 ≤ p.N) (hN : p.N ≤ 52) (hlv : p.data0 ≤ v) (hvh : v ≤ p.data1) :
    f64.encodeValue p v ≤ MAXVAL p.N ∧
    ((f64.encodeValue p v : ℕ) : ℤ)
      = ⌊fl (fl ((MAXVAL p.N : ℚ) * fl (v - p.data0)) / fl (p.data1 - p.data0))⌋ ∧
    MAXVAL p.N - 1 ≤ f64.encodeValue p p.data1 := by
  have hM1 : 1 ≤ MAXVAL p.N := MAXVAL_pos p.N hN1
  have hMlt : MAXVAL p.N < 2 ^ 52 := by
    have := MAXVAL_le_pow p.N 52 hN
    have : 1 ≤ 2 ^ 52 := Nat.one_le_two_pow
    omega
  have hMq : (MAXVAL p.N : ℚ) ≤ 2 ^ 52 := by
    have : MAXVAL p.N ≤ 2 ^ 52 := by omega
    exact_mod_cast this
  have hM0 : (0 : ℚ) ≤ (MAXVAL p.N : ℚ) := Nat.cast_nonneg _
  have eM : fl (MAXVAL p.N : ℚ) = (MAXVAL p.N : ℚ) := fl_MAXVAL p.N (by omega)
  have hw : 0 < p.data1 - p.data0 := by linarith
  have hw'pos : 0 < fl (p.data1 - p.data0) := fl_sub_pos _ _ hlo hhi hb
  -- the quotient at the upper bound
  have hMw : 0 ≤ (MAXVAL p.N : ℚ) * fl (p.data1 - p.data0) := mul_nonneg hM0 hw'pos.le
  obtain ⟨ph1, ph2⟩ := rel_bounds_of_err hMw
    (fl_err_natmul (MAXVAL p.N) (fl (p.data1 - p.data0)) (fl_idem _))
  have hQh : fl ((MAXVAL p.N : ℚ) * fl (p.data1 - p.data0)) / fl (p.data1 - p.data0)
      ≤ (MAXVAL p.N : ℚ) + 1 / 2 := by
    rw [div_le_iff₀ hw'pos]
    have : (MAXVAL p.N : ℚ) * (1 / 2 ^ 53) ≤ 1 / 2 := by
      have := mul_le_mul_of_nonneg_right hMq (by positivity : (0 : ℚ) ≤ 1 / 2 ^ 53)
      have e : (2 : ℚ) ^ 52 * (1 / 2 ^ 53) = 1 / 2 := by norm_num
      linarith
    nlinarith
  have hQl : (MAXVAL p.N : ℚ) - 1 / 2
      ≤ fl ((MAXVAL p.N : ℚ) * fl (p.data1 - p.data0)) / fl (p.data1 - p.data0) := by
    rw [le_div_iff₀ hw'pos]
    have : (MAXVAL p.N : ℚ) * (1 / 2 ^ 53) ≤ 1 / 2 := by
      have := mul_le_mul_of_nonneg_right hMq (by positivity : (0 : ℚ) ≤ 1 / 2 ^ 53)
      have e : (2 : ℚ) ^ 52 * (1 / 2 ^ 53) = 1 / 2 := by norm_num
      linarith
    nlinarith
  -- any value within the bounds
  have hq : ∀ z, p.data0 ≤ z → z ≤ p.data1 →
      0 ≤ fl (fl ((MAXVAL p.N : ℚ) * fl (z - p.data0)) / fl (p.data1 - p.data0)) ∧
      fl (fl ((MAXVAL p.N : ℚ) * fl (z - p.data0)) / fl (p.data1 - p.data0))
        ≤ (MAXVAL p.N : ℚ) + 1 / 2 := by
    intro z hz0 hz1
    have ha0 : 0 ≤ fl (z - p.data0) := fl_nonneg (by linarith)
    have ha : fl (z - p.data0) ≤ fl (p.data1 - p.data0) := fl_mono (by linarith)
    have hP : fl ((MAXVAL p.N : ℚ) * fl (z - p.data0))
        ≤ fl ((MAXVAL p.N : ℚ) * fl (p.data1 - p.data0)) :=
      fl_mono (mul_le_mul_of_nonneg_left ha hM0)
    have hP0 : 0 ≤ fl ((MAXVAL p.N : ℚ) * fl (z - p.data0)) := fl_nonneg (mul_nonneg hM0 ha0)
    have hQ : fl ((MAXVAL p.N : ℚ) * fl (z - p.data0)) / fl (p.data1 - p.data0)
        ≤ (MAXVAL p.N : ℚ) + 1 / 2 :=
      le_trans (div_le_div_of_nonneg_right hP hw'pos.le) hQh
    refine ⟨fl_nonneg (div_nonneg hP0 hw'pos.le), ?_⟩
    have := fl_mono hQ
    rwa [fl_nat_add_half _ hMlt] at this
  have hfloor : ∀ z, p.data0 ≤ z → z ≤ p.data1 →
      ((f64.encodeValue p z : ℕ) : ℤ)
        = ⌊fl (fl ((MAXVAL p.N : ℚ) * fl (z - p.data0)) / fl (p.data1 - p.data0))⌋ ∧
      f64.encodeValue p z ≤ MAXVAL p.N := by
    intro z hz0 hz1
    obtain ⟨q0, q1⟩ := hq z hz0 hz1
    have hlt : fl (fl ((MAXVAL p.N : ℚ) * fl (z - p.data0)) / fl (p.data1 - p.data0))
        < 2 ^ 64 := by
      have : (2 : ℚ) ^ 52 + 1 / 2 < 2 ^ 64 := by norm_num
      linarith
    have e := double_to_uint64_floor _ q0 hlt
    rw [f64_encodeValue_eq, eM]
    refine ⟨e, ?_⟩
    have hfl : ⌊fl (fl ((MAXVAL p.N : ℚ) * fl (z - p.data0)) / fl (p.data1 - p.data0))⌋
        ≤ (MAXVAL p.N : ℤ) := by
      rw [← Int.lt_add_one_iff, Int.floor_lt]
      push_cast
      linarith
    rw [← e] at hfl
    exact_mod_cast hfl
  refine ⟨(hfloor v hlv hvh).2, (hfloor v hlv hvh).1, ?_⟩
  obtain ⟨e, _⟩ := hfloor p.data1 hb.le le_rfl
  have hge : (MAXVAL p.N : ℚ) - 1 / 2
      ≤ fl (fl ((MAXVAL p.N : ℚ) * fl (p.data1 - p.data0)) / fl (p.data1 - p.data0)) := by
    have := fl_mono hQl
    rwa [fl_nat_sub_half _ hM1 hMlt] at this
  have hfl : (MAXVAL p.N : ℤ) - 1
      ≤ ⌊fl (fl ((MAXVAL p.N : ℚ) * fl (p.data1 - p.data0)) / fl (p.data1 - p.data0))⌋ := by
    rw [Int.le_floor]
    push_cast
    linarith
  rw [← e] at hfl
  omega

theorem f64_encode_GetValue (p : Parameter ℚ) (v : ℚ) (hN : p.N ≤ 64)
    (hK : f64.encodeValue p v ≤ MAXVAL p.N) :
    (f64.encode p v).length = p.N ∧ GetValue (f64.encode p v) = f64.encodeValue p v := by
  rw [f64_encode_eq_toBits p v hN, toBits_length, GetValue_toBits]
  refine ⟨rfl, Nat.mod_eq_of_lt ?_⟩
  have : 0 < 2 ^ p.N := Nat.two_pow_pos _
  unfold MAXVAL at hK
  omega

/-- The integer of the binary64 `encode` against the exact scaled position
`x = (v - lo) / (hi - lo) * (2^N - 1)`. -/
theorem f64_encodeValue_near (p : Parameter ℚ) (v : ℚ) (hb : p.data0 < p.data1)
    (hlo : fl p.data0 = p.data0) (hhi : fl p.data1 = p.data1) (hv : fl v = v)
    (hN1 : 1 ≤ p.N) (hN : p.N ≤ 52) (hlv : p.data0 ≤ v) (hvh : v ≤ p.data1) :
    ∃ q : ℚ, ((f64.encodeValue p v : ℕ) : ℤ) = ⌊q⌋ ∧ 0 ≤ q ∧
      |q - (v - p.data0) / (p.data1 - p.data0) * ((2 : ℚ) ^ p.N - 1)|
        ≤ (v - p.data0) / (p.data1 - p.data0) * ((2 : ℚ) ^ p.N - 1) / 2 ^ 50 + 1 / 2 ^ 1075 := by
  obtain ⟨_, hfl, _⟩ := f64_encodeValue_le p v hb hlo hhi hN1 hN hlv hvh
  obtain ⟨q0, qe⟩ := f64_encode_quotient p.data0 p.data1 v p.N hlo hhi hv hb hlv
  refine ⟨_, hfl, q0, ?_⟩
  have e : (v - p.data0) / (p.data1 - p.data0) * ((2 : ℚ) ^ p.N - 1)
      = (MAXVAL p.N : ℚ) * (v - p.data0) / (p.data1 - p.data0) := by
    rw [MAXVAL_cast]; ring
  rw [e]
  exact qe

/-- The parameter of width 54 on `[0, 10]`: `MAXVAL = 2^54 - 1` is converted to the
`double` `2^54`, so that `encode(10)` computes the integer `2^54`, whose 54 low bits are
all `0`. -/
theorem f64_encode_wide :
    f64.encodeValue wideParam 10 = 18014398509481984 ∧
    f64.encode wideParam 10 = List.replicate 54 false ∧
    f64.decode wideParam (List.replicate 54 false) = 0 := by
  have b1 : fl 18014398509481983 = 18014398509481984 :=
    fl_eval_tie _ _ 1 9007199254740992 (by norm_num) (by norm_num [abs_of_pos]) (by norm_num [abs_of_pos])
      (by norm_num) (by norm_num) (by norm_num)
  have b2 : fl 10 = 10 :=
    fl_eval _ _ (-49) 5629499534213120 (by norm_num) (by norm_num [abs_of_pos]) (by norm_num [abs_of_pos])
      (by norm_num) (by norm_num)
  have b3 : fl 180143985094819840 = 180143985094819840 :=
    fl_eval _ _ 5 5629499534213120 (by norm_num) (by norm_num [abs_of_pos]) (by norm_num [abs_of_pos])
      (by norm_num) (by norm_num)
  have b4 : fl 18014398509481984 = 18014398509481984 :=
    fl_eval _ _ 2 4503599627370496 (by norm_num) (by norm_num [abs_of_pos]) (by norm_num [abs_of_pos])
      (by norm_num) (by norm_num)
  have hM : ((MAXVAL 54 : ℕ) : ℚ) = 18014398509481983 := by norm_num [MAXVAL]
  have hT : Int.toNat 18014398509481984 = 18014398509481984 := by simp
  have hq : f64.encodeValue wideParam 10
      = double_to_uint64 (18014398509481984 : ℚ) := by
    simp only [f64.encodeValue, f64.div, f64.mul, f64.sub, f64.ofNat, wideParam, hM,
      Parameter.data0, Parameter.data1]
    norm_num [fl_zero, b1, b2, b3, b4]
  have hv : f64.encodeValue wideParam 10
      = 18014398509481984 := by
    rw [hq]
    norm_num [double_to_uint64, truncate, hT]
  have he : f64.encode wideParam 10
      = List.replicate 54 false := by
    rw [f64_encode_eq_toBits _ _ (by decide), hv]
    show toBits 54 18014398509481984 = List.replicate 54 false
    apply GetValue_inj _ _ (by rw [toBits_length, List.length_replicate])
    rw [GetValue_toBits, GetValue_replicate_false]
    norm_num
  have hd : f64.decode wideParam (List.replicate 54 false) = 0 := by
    have := (f64_decode_bounds wideParam
      (List.replicate 54 false) (by norm_num [wideParam, Parameter.data0, Parameter.data1])
      (by simpa [wideParam, Parameter.data0] using fl_zero) (by decide) (by simp [wideParam])).2.2.1
    simpa [wideParam, Parameter.data0] using this
  exact ⟨hv, he, hd⟩

/-- C2, counterexample. (a) With bounds `[0, 1]` and width 1 the value `0.75` has the
scaled position `0.75`, which rounds to `1` (bit string `1`), but `encode` gives the bit
string `0`. (b) With bounds `[0, 10]` and width 54, `encode(10)` computes the integer
`2^54`, above `2^54 - 1`, and writes its 54 low bits, all `0`. -/
theorem encode_not_round :
    (f64.encode (Parameter.mk 1 [0, 1] 1 0 : Parameter ℚ) (3 / 4) = [false] ∧
      toBits 1 (roundNearest (((3 / 4 : ℚ) - 0) / (1 - 0) * ((2 : ℚ) ^ 1 - 1))).toNat = [true] ∧
      f64.encode (Parameter.mk 1 [0, 1] 1 0 : Parameter ℚ) (3 / 4) ≠
        toBits 1 (roundNearest (((3 / 4 : ℚ) - 0) / (1 - 0) * ((2 : ℚ) ^ 1 - 1))).toNat) ∧
    (f64.encodeValue wideParam 10 = 18014398509481984 ∧
      2 ^ wideParam.N - 1 < f64.encodeValue wideParam 10 ∧
      f64.encode wideParam 10 = List.replicate 54 false) := by
  refine ⟨?_, f64_encode_wide.1, ?_, f64_encode_wide.2.1⟩
  swap
  · rw [f64_encode_wide.1]
    decide
  have f1 : fl 1 = 1 := fl_one
  have f2 : fl (3 / 4) = 3 / 4 := by
    have h := fl_exact 3 (-2) (by norm_num) (by norm_num)
    have e : ((3 : ℤ) : ℚ) * 2 ^ (-2 : ℤ) = 3 / 4 := by norm_num
    rwa [e] at h
  have h1 : f64.encode (Parameter.mk 1 [0, 1] 1 0 : Parameter ℚ) (3 / 4) = [false] := by
    rw [f64_encode_eq_toBits _ _ (by norm_num)]
    have : f64.encodeValue (Parameter.mk 1 [0, 1] 1 0 : Parameter ℚ) (3 / 4) = 0 := by
      norm_num [f64.encodeValue, f64.div, f64.mul, f64.sub, f64.ofNat, double_to_uint64,
        truncate, MAXVAL, Parameter.data0, Parameter.data1, f1, f2]
    rw [this]
    decide
  have h2 : toBits 1 (roundNearest (((3 / 4 : ℚ) - 0) / (1 - 0) * ((2 : ℚ) ^ 1 - 1))).toNat
      = [true] := by
    have : roundNearest (((3 / 4 : ℚ) - 0) / (1 - 0) * ((2 : ℚ) ^ 1 - 1)) = 1 := by
      norm_num [roundNearest]
    rw [this]
    decide
  refine ⟨h1, h2, ?_⟩
  rw [h1, h2]
  decide

/-- C2, amended. `encode` in binary64. For a real-typed parameter whose bounds `lo < hi`
are `double` of magnitude at most `2^960`, a width `1 ≤ N ≤ 52` and a `double` `v` in
`[lo, hi]`: `encode(v)` is the `N`-bit, most-significant-bit-first representation of an
integer `K` in `[0, 2^N - 1]`, obtained by discarding the fraction of the rounded
quotient (not by rounding to the nearest integer); with
`x = (v - lo)/(hi - lo) * (2^N - 1)`, `K` lies between `floor(x - x/2^50 - 2^-1075)` and
`floor(x + x/2^50 + 2^-1075)`. For an integer-typed parameter whose bounds and their
difference fit in an `int` and whose product `(2^N - 1) * (hi - lo)` does not wrap in
`uint64_t`, `K = floor(x)` exactly. -/
theorem encode_floor :
    (∀ (p : Parameter ℚ) (v : ℚ), p.data0 < p.data1 →
      fl p.data0 = p.data0 → fl p.data1 = p.data1 → fl v = v →
      |p.data0| ≤ 2 ^ 960 → |p.data1| ≤ 2 ^ 960 →
      1 ≤ p.N → p.N ≤ 52 → p.data0 ≤ v → v ≤ p.data1 →
      (f64.encode p v).length = p.N ∧
      GetValue (f64.encode p v) = f64.encodeValue p v ∧
      f64.encodeValue p v ≤ 2 ^ p.N - 1 ∧
      ⌊(v - p.data0) / (p.data1 - p.data0) * ((2 : ℚ) ^ p.N - 1)
          - (v - p.data0) / (p.data1 - p.data0) * ((2 : ℚ) ^ p.N - 1) / 2 ^ 50 - 1 / 2 ^ 1075⌋
        ≤ ((f64.encodeValue p v : ℕ) : ℤ) ∧
      ((f64.encodeValue p v : ℕ) : ℤ)
        ≤ ⌊(v - p.data0) / (p.data1 - p.data0) * ((2 : ℚ) ^ p.N - 1)
          + (v - p.data0) / (p.data1 - p.data0) * ((2 : ℚ) ^ p.N - 1) / 2 ^ 50 + 1 / 2 ^ 1075⌋) ∧
    (∀ (p : Parameter ℤ) (v : ℤ), p.data0 < p.data1 →
      -2 ^ 31 ≤ p.data0 → p.data1 < 2 ^ 31 → p.data1 - p.data0 < 2 ^ 31 →
      1 ≤ p.N → p.N ≤ 64 →
      p.data0 ≤ v → v ≤ p.data1 → (MAXVAL p.N : ℤ) * (p.data1 - p.data0) < 2 ^ 64 →
      (p.encodeInt v).length = p.N ∧
      ((GetValue (p.encodeInt v) : Nat) : ℤ)
        = ⌊((v : ℚ) - (p.data0 : ℚ)) / ((p.data1 : ℚ) - (p.data0 : ℚ))
            * ((2 : ℚ) ^ p.N - 1)⌋ ∧
      0 ≤ ⌊((v : ℚ) - (p.data0 : ℚ)) / ((p.data1 : ℚ) - (p.data0 : ℚ))
            * ((2 : ℚ) ^ p.N - 1)⌋ ∧
      ⌊((v : ℚ) - (p.data0 : ℚ)) / ((p.data1 : ℚ) - (p.data0 : ℚ)) * ((2 : ℚ) ^ p.N - 1)⌋
        ≤ 2 ^ p.N - 1) := by
  constructor
  · intro p v hb hlo hhi hv _ _ hN1 hN hlv hvh
    obtain ⟨hK, _, _⟩ := f64_encodeValue_le p v hb hlo hhi hN1 hN hlv hvh
    obtain ⟨e1, e2⟩ := f64_encode_GetValue p v (by omega) hK
    obtain ⟨q, hq, _, hqe⟩ := f64_encodeValue_near p v hb hlo hhi hv hN1 hN hlv hvh
    have a := abs_le.mp hqe
    refine ⟨e1, e2, hK, ?_, ?_⟩
    · rw [hq]
      exact Int.floor_mono (by linarith [a.1])
    · rw [hq]
      exact Int.floor_mono (by linarith [a.2])
  · intro p v hb _ _ _ hN1 hN hlo hhi hov
    exact encode_int_floor p v hb hN1 hN hlo hhi hov

/-- C2, witness: bounds `[0, 10]`, width 8, `v = 7`, for the real-typed and for the
integer-typed parameter. -/
theorem encode_floor_witness :
    (GetValue (f64.encode scenarioParam 7) = f64.encodeValue scenarioParam 7 ∧
      f64.encodeValue scenarioParam 7 ≤ 2 ^ scenarioParam.N - 1) ∧
    ((GetValue (scenarioParamInt.encodeInt 7) : Nat) : ℤ)
      = ⌊(((7 : ℤ) : ℚ) - (scenarioParamInt.data0 : ℚ))
          / ((scenarioParamInt.data1 : ℚ) - (scenarioParamInt.data0 : ℚ))
          * ((2 : ℚ) ^ scenarioParamInt.N - 1)⌋ :=
  have hten : fl 10 = 10 := by simpa using fl_natCast 10 (by norm_num)
  have hseven : fl 7 = 7 := by simpa using fl_natCast 7 (by norm_num)
  have h := encode_floor.1 scenarioParam 7
    (by norm_num [scenarioParam, Parameter.data0, Parameter.data1])
    (by simpa [scenarioParam, Parameter.data0] using fl_zero)
    (by simpa [scenarioParam, Parameter.data1] using hten)
    hseven
    (by norm_num [scenarioParam, Parameter.data0])
    (by norm_num [scenarioParam, Parameter.data1])
    (by decide) (by decide)
    (by norm_num [scenarioParam, Parameter.data0])
    (by norm_num [scenarioParam, Parameter.data1])
  have h2 := encode_floor.2 scenarioParamInt 7 (by decide) (by decide) (by decide) (by decide)
    (by decide) (by decide) (by decide) (by decide) (by decide)
  ⟨⟨h.2.1, h.2.2.1⟩, h2.2.1⟩

/-- The arithmetic of the round trip: `q` is the rounded quotient of `encode`, `K` its
integer part and `d` the value that `decode` returns for `K`. -/
theorem roundtrip_arith (lo hi v M K q d η : ℚ) (hb : lo < hi) (hlv : lo ≤ v) (hvh : v ≤ hi)
    (hM : 1 ≤ M) (hη1 : η ≤ 1 / 2 ^ 53)
    (hq : |q - M * (v - lo) / (hi - lo)| ≤ M * (v - lo) / (hi - lo) / 2 ^ 50 + η)
    (hK1 : K ≤ q) (hK2 : q < K + 1)
    (hd : |d - (lo + K / M * (hi - lo))| ≤ (|lo| + |hi|) / 2 ^ 50 + 2 * η) :
    |d - v| ≤ (hi - lo) / M + (|lo| + |hi|) / 2 ^ 48 + 2 * η := by
  have hw : 0 < hi - lo := by linarith
  have hM0 : 0 < M := by linarith
  have hΔ0 : 0 ≤ (hi - lo) / M := div_nonneg hw.le hM0.le
  have hΔw : (hi - lo) / M ≤ hi - lo := div_le_self hw.le hM
  have hwK : hi - lo ≤ |lo| + |hi| := by
    have := neg_abs_le lo
    have := le_abs_self hi
    linarith
  obtain ⟨x, hx⟩ : ∃ x : ℚ, x = M * (v - lo) / (hi - lo) := ⟨_, rfl⟩
  rw [← hx] at hq
  have hx0 : 0 ≤ x := by
    rw [hx]; exact div_nonneg (mul_nonneg hM0.le (by linarith)) hw.le
  have hxΔ : x * ((hi - lo) / M) = v - lo := by
    rw [hx]; field_simp
  have hKΔ : K / M * (hi - lo) = K * ((hi - lo) / M) := by ring
  have q1 := abs_le.mp hq
  have d1 := abs_le.mp hd
  -- |K - x| ≤ 1 + x / 2^50 + η
  have k1 : K - x ≤ 1 + x / 2 ^ 50 + η := by
    have : 0 ≤ x / 2 ^ 50 := by positivity
    linarith [q1.2]
  have k2 : -(1 + x / 2 ^ 50 + η) ≤ K - x := by linarith [q1.1]
  have hprod1 : (K - x) * ((hi - lo) / M) ≤ (1 + x / 2 ^ 50 + η) * ((hi - lo) / M) :=
    mul_le_mul_of_nonneg_right k1 hΔ0
  have hprod2 : -(1 + x / 2 ^ 50 + η) * ((hi - lo) / M) ≤ (K - x) * ((hi - lo) / M) := by
    have := mul_le_mul_of_nonneg_right k2 hΔ0
    linarith
  have hexp : (1 + x / 2 ^ 50 + η) * ((hi - lo) / M)
      = (hi - lo) / M + (v - lo) / 2 ^ 50 + η * ((hi - lo) / M) := by
    rw [← hxΔ]; ring
  have hηΔ : η * ((hi - lo) / M) ≤ (|lo| + |hi|) / 2 ^ 53 := by
    calc η * ((hi - lo) / M) ≤ 1 / 2 ^ 53 * ((hi - lo) / M) :=
          mul_le_mul_of_nonneg_right hη1 hΔ0
      _ ≤ 1 / 2 ^ 53 * (|lo| + |hi|) :=
          mul_le_mul_of_nonneg_left (le_trans hΔw hwK) (by positivity)
      _ = (|lo| + |hi|) / 2 ^ 53 := by ring
  have hv50 : (v - lo) / 2 ^ 50 ≤ (|lo| + |hi|) / 2 ^ 50 :=
    div_le_div_of_nonneg_right (by linarith) (by positivity)
  have hK0 : 0 ≤ |lo| + |hi| := by positivity
  have h48 : (|lo| + |hi|) / 2 ^ 48 = 4 * ((|lo| + |hi|) / 2 ^ 50) := by ring
  have h53 : (|lo| + |hi|) / 2 ^ 53 ≤ (|lo| + |hi|) / 2 ^ 50 :=
    div_le_div_of_nonneg_left hK0 (by positivity) (by norm_num)
  have hsplit : d - v = (d - (lo + K / M * (hi - lo))) + (K - x) * ((hi - lo) / M) := by
    rw [hKΔ]
    have : v = lo + x * ((hi - lo) / M) := by rw [hxΔ]; ring
    nth_rewrite 1 [this]
    ring
  have hK50 : 0 ≤ (|lo| + |hi|) / 2 ^ 50 := by positivity
  rw [abs_le, hsplit]
  constructor <;> linarith [d1.1, d1.2]

/-- C1, amended. Round trip in binary64. For a real-typed parameter whose bounds
`lo < hi` are `double` of magnitude at most `2^960`, a width `1 ≤ N ≤ 52` and a
`double` `v` in `[lo, hi]`:
`|decode(encode(v)) - v| ≤ (hi - lo)/(2^N - 1) + (|lo| + |hi|)/2^48 + 2^-1074`. -/
theorem roundtrip_bound (p : Parameter ℚ) (v : ℚ) (hb : p.data0 < p.data1)
    (hlo : fl p.data0 = p.data0) (hhi : fl p.data1 = p.data1) (hv : fl v = v)
    (_hlo2 : |p.data0| ≤ 2 ^ 960) (_hhi2 : |p.data1| ≤ 2 ^ 960)
    (hN1 : 1 ≤ p.N) (hN : p.N ≤ 52) (hlv : p.data0 ≤ v) (hvh : v ≤ p.data1) :
    |f64.decode p (f64.encode p v) - v|
      ≤ (p.data1 - p.data0) / ((2 : ℚ) ^ p.N - 1) + (|p.data0| + |p.data1|) / 2 ^ 48
        + 1 / 2 ^ 1074 := by
  clear _hlo2 _hhi2
  obtain ⟨hK, hfl, _⟩ := f64_encodeValue_le p v hb hlo hhi hN1 hN hlv hvh
  obtain ⟨e1, e2⟩ := f64_encode_GetValue p v (by omega) hK
  obtain ⟨q0, qe⟩ := f64_encode_quotient p.data0 p.data1 v p.N hlo hhi hv hb hlv
  have hd := f64_decode_err p (f64.encode p v) hb hlo hhi hN1 (by omega) e1
  rw [e2] at hd
  have hM1 : (1 : ℚ) ≤ (MAXVAL p.N : ℚ) := by exact_mod_cast MAXVAL_pos p.N hN1
  have hKq : ((f64.encodeValue p v : ℕ) : ℚ)
      = ((⌊fl (fl ((MAXVAL p.N : ℚ) * fl (v - p.data0)) / fl (p.data1 - p.data0))⌋ : ℤ) : ℚ) := by
    rw [← hfl]; simp
  have key := roundtrip_arith p.data0 p.data1 v (MAXVAL p.N : ℚ) (f64.encodeValue p v : ℚ)
    (fl (fl ((MAXVAL p.N : ℚ) * fl (v - p.data0)) / fl (p.data1 - p.data0)))
    (f64.decode p (f64.encode p v)) (1 / 2 ^ 1075) hb hlv hvh hM1
    (by
      apply div_le_div_of_nonneg_left (by norm_num) (by positivity)
      exact pow_le_pow_right₀ (by norm_num) (by norm_num))
    qe (by rw [hKq]; exact Int.floor_le _) (by rw [hKq]; exact Int.lt_floor_add_one _) hd
  rw [← MAXVAL_cast]
  have e : (2 : ℚ) * (1 / 2 ^ 1075) = 1 / 2 ^ 1074 := by
    rw [pow_succ]; ring
  rw [e] at key
  exact key

/-- C1, counterexample. (a) The integer-typed parameter with bounds `[0, 10]` and width
8: `encode(5)` is `127` and `decode` converts `4.98...` to the `int` `4`, so the round
trip misses `5` by `1`, more than `10/255`. (b) The real-typed parameter with bounds
`[0, 10]` and width 54: `MAXVAL = 2^54 - 1` is converted to the `double` `2^54`,
`encode(10)` computes the integer `2^54`, whose 54 low bits are all `0`, and the round
trip returns `0`. (c) The real-typed parameter with bounds `[0, 100]` and width 10, and
`v = 56.01173020527859`: `encode(v)` is `572`, `decode` returns `55.91397849462365`, and
the error exceeds `100/1023`. -/
theorem roundtrip_exceeds :
    (scenarioParamInt.encodeInt 5 = toBits 8 127 ∧
      f64.decodeInt scenarioParamInt (scenarioParamInt.encodeInt 5) = 4 ∧
      ¬ (|((f64.decodeInt scenarioParamInt (scenarioParamInt.encodeInt 5) : ℤ) : ℚ) - 5|
          ≤ (10 - 0) / ((2 : ℚ) ^ 8 - 1))) ∧
    (f64.encodeValue wideParam 10 = 18014398509481984 ∧
      f64.encode wideParam 10 = List.replicate 54 false ∧
      f64.decode wideParam
        (f64.encode wideParam 10) = 0 ∧
      ¬ (|f64.decode wideParam
          (f64.encode wideParam 10) - 10|
          ≤ (10 - 0) / ((2 : ℚ) ^ 54 - 1))) ∧
    (fl (7882950227527169 / 140737488355328) = (7882950227527169 / 140737488355328) ∧
      f64.encode (Parameter.mk 10 [0, 100] 1 0 : Parameter ℚ) (7882950227527169 / 140737488355328) = toBits 10 572 ∧
      f64.decode (Parameter.mk 10 [0, 100] 1 0 : Parameter ℚ) (toBits 10 572) = (1967298224321789 / 35184372088832) ∧
      ¬ (|f64.decode (Parameter.mk 10 [0, 100] 1 0 : Parameter ℚ)
          (f64.encode (Parameter.mk 10 [0, 100] 1 0 : Parameter ℚ) (7882950227527169 / 140737488355328)) - (7882950227527169 / 140737488355328)|
          ≤ (100 - 0) / ((2 : ℚ) ^ 10 - 1))) := by
  refine ⟨?_, ?_, ?_⟩
  · have he : scenarioParamInt.encodeInt 5 = toBits 8 127 := by
      rw [encodeInt_eq_toBits _ _ (by decide)]
      have e : scenarioParamInt.encodeValueInt 5 = 127 := by decide
      rw [e]
      rfl
    have hG : GetValue (toBits 8 127) = 127 := by decide
    have a1 : fl 127 = 127 :=
      fl_eval _ _ (-46) 8936830510563328 (by norm_num) (by norm_num [abs_of_pos]) (by norm_num [abs_of_pos])
        (by norm_num) (by norm_num)
    have a2 : fl 255 = 255 :=
      fl_eval _ _ (-45) 8972014882652160 (by norm_num) (by norm_num [abs_of_pos]) (by norm_num [abs_of_pos])
        (by norm_num) (by norm_num)
    have a3 : fl (127 / 255) = (280371153272575 / 562949953421312) :=
      fl_eval _ _ (-54) 8971876904722400 (by norm_num) (by norm_num [abs_of_pos]) (by norm_num [abs_of_pos])
        (by norm_num) (by norm_num)
    have a4 : fl 10 = 10 :=
      fl_eval _ _ (-49) 5629499534213120 (by norm_num) (by norm_num [abs_of_pos]) (by norm_num [abs_of_pos])
        (by norm_num) (by norm_num)
    have a5 : fl (1401855766362875 / 281474976710656) = (1401855766362875 / 281474976710656) :=
      fl_eval _ _ (-50) 5607423065451500 (by norm_num) (by norm_num [abs_of_pos]) (by norm_num [abs_of_pos])
        (by norm_num) (by norm_num)
    have hd : f64.decodeInt scenarioParamInt (scenarioParamInt.encodeInt 5) = 4 := by
      rw [he]
      norm_num [f64.decodeInt, f64.add, f64.mul, f64.div, f64.ofNat, f64.ofInt, hG,
        scenarioParamInt, Parameter.data0, Parameter.data1, MAXVAL, truncate, fl_zero, a1, a2, a3, a4, a5]
    refine ⟨he, hd, ?_⟩
    rw [hd]
    norm_num [abs_le]
  · obtain ⟨hv, he, hd0⟩ := f64_encode_wide
    have hd : f64.decode wideParam (f64.encode wideParam 10) = 0 := by rw [he]; exact hd0
    refine ⟨hv, he, hd, ?_⟩
    rw [hd]
    norm_num [abs_le]
  · have c1 : fl 1023 = 1023 :=
      fl_eval _ _ (-43) 8998403161718784 (by norm_num) (by norm_num [abs_of_pos]) (by norm_num [abs_of_pos])
        (by norm_num) (by norm_num)
    have c2 : fl (7882950227527169 / 140737488355328) = (7882950227527169 / 140737488355328) :=
      fl_eval _ _ (-47) 7882950227527169 (by norm_num) (by norm_num [abs_of_pos]) (by norm_num [abs_of_pos])
        (by norm_num) (by norm_num)
    have c3 : fl (8064258082760293887 / 140737488355328) = (7875252033945599 / 137438953472) :=
      fl_eval _ _ (-37) 7875252033945599 (by norm_num) (by norm_num [abs_of_pos]) (by norm_num [abs_of_pos])
        (by norm_num) (by norm_num)
    have c4 : fl 100 = 100 :=
      fl_eval _ _ (-46) 7036874417766400 (by norm_num) (by norm_num [abs_of_pos]) (by norm_num [abs_of_pos])
        (by norm_num) (by norm_num)
    have c5 : fl (7875252033945599 / 13743895347200) = (5040161301725183 / 8796093022208) :=
      fl_eval _ _ (-43) 5040161301725183 (by norm_num) (by norm_num [abs_of_pos]) (by norm_num [abs_of_pos])
        (by norm_num) (by norm_num)
    have c6 : fl 572 = 572 :=
      fl_eval _ _ (-43) 5031365208702976 (by norm_num) (by norm_num [abs_of_pos]) (by norm_num [abs_of_pos])
        (by norm_num) (by norm_num)
    have c7 : fl (52 / 93) = (1259070863565945 / 2251799813685248) :=
      fl_eval _ _ (-53) 5036283454263780 (by norm_num) (by norm_num [abs_of_pos]) (by norm_num [abs_of_pos])
        (by norm_num) (by norm_num)
    have c8 : fl (31476771589148625 / 562949953421312) = (1967298224321789 / 35184372088832) :=
      fl_eval _ _ (-47) 7869192897287156 (by norm_num) (by norm_num [abs_of_pos]) (by norm_num [abs_of_pos])
        (by norm_num) (by norm_num)
    have c9 : fl (1967298224321789 / 35184372088832) = (1967298224321789 / 35184372088832) :=
      fl_eval _ _ (-47) 7869192897287156 (by norm_num) (by norm_num [abs_of_pos]) (by norm_num [abs_of_pos])
        (by norm_num) (by norm_num)
    have hM : ((MAXVAL 10 : ℕ) : ℚ) = 1023 := by norm_num [MAXVAL]
    have hq : f64.encodeValue (Parameter.mk 10 [0, 100] 1 0 : Parameter ℚ)
        (7882950227527169 / 140737488355328)
        = double_to_uint64 (5040161301725183 / 8796093022208 : ℚ) := by
      simp only [f64.encodeValue, f64.div, f64.mul, f64.sub, f64.ofNat, hM,
        Parameter.data0, Parameter.data1]
      norm_num [fl_zero, c1, c2, c3, c4, c5]
    have hv : f64.encodeValue (Parameter.mk 10 [0, 100] 1 0 : Parameter ℚ)
        (7882950227527169 / 140737488355328) = 572 := by
      rw [hq]
      have h := double_to_uint64_floor (5040161301725183 / 8796093022208 : ℚ)
        (by norm_num) (by norm_num)
      have hf : ⌊(5040161301725183 / 8796093022208 : ℚ)⌋ = 572 := by
        rw [Int.floor_eq_iff]
        constructor <;> norm_num
      rw [hf] at h
      exact_mod_cast h
    have he : f64.encode (Parameter.mk 10 [0, 100] 1 0 : Parameter ℚ) (7882950227527169 / 140737488355328)
        = toBits 10 572 := by
      rw [f64_encode_eq_toBits _ _ (by norm_num), hv]
    have hG : GetValue (toBits 10 572) = 572 := by decide
    have hd : f64.decode (Parameter.mk 10 [0, 100] 1 0 : Parameter ℚ) (toBits 10 572)
        = (1967298224321789 / 35184372088832) := by
      simp only [f64.decode, f64.add, f64.mul, f64.div, f64.sub, f64.ofNat, hG, hM,
        Parameter.data0, Parameter.data1]
      norm_num [fl_zero, c1, c4, c6, c7, c8, c9]
    refine ⟨c2, he, hd, ?_⟩
    rw [he, hd]
    norm_num [abs_le]

/-- C1, witness: bounds `[0, 10]`, width 8, `v = 5`. -/
theorem roundtrip_bound_witness :
    |f64.decode (Parameter.mk 8 [0, 10] 1 0 : Parameter ℚ)
        (f64.encode (Parameter.mk 8 [0, 10] 1 0 : Parameter ℚ) 5) - 5|
      ≤ (10 - 0) / ((2 : ℚ) ^ 8 - 1) + (|(0 : ℚ)| + |(10 : ℚ)|) / 2 ^ 48 + 1 / 2 ^ 1074 :=
  roundtrip_bound (Parameter.mk 8 [0, 10] 1 0) 5
    (by norm_num [Parameter.data0, Parameter.data1])
    (by simpa [Parameter.data0] using fl_zero)
    (by simpa [Parameter.data1] using fl_natCast 10 (by norm_num))
    (by simpa using fl_natCast 5 (by norm_num))
    (by norm_num [Parameter.data0]) (by norm_num [Parameter.data1])
    (by norm_num) (by norm_num)
    (by norm_num [Parameter.data0]) (by norm_num [Parameter.data1])

/-! ## Binary64: re-encoding a decoded string -/

/-- The arithmetic of `encode(decode(b))`: `k` is the integer of `b`, `d` the decoded
value and `q` the rounded quotient of `encode` at `d`. -/
theorem grid_arith (lo hi d M k q η : ℚ) (hb : lo < hi) (hM : 1 ≤ M)
    (hkM : k ≤ M) (hη1 : η ≤ 1 / 2 ^ 53)
    (hH : M * (|lo| + |hi|) ≤ 2 ^ 47 * (hi - lo))
    (hηM : η * M ≤ (hi - lo) / 2 ^ 20)
    (hd : |d - (lo + k / M * (hi - lo))| ≤ (|lo| + |hi|) / 2 ^ 50 + 2 * η)
    (hq : |q - M * (d - lo) / (hi - lo)| ≤ M * (d - lo) / (hi - lo) / 2 ^ 50 + η) :
    k - 1 < q ∧ q < k + 1 := by
  have hw : 0 < hi - lo := by linarith
  have hM0 : 0 < M := by linarith
  have hwK : hi - lo ≤ |lo| + |hi| := by
    have := neg_abs_le lo
    have := le_abs_self hi
    linarith
  have hM47 : M ≤ 2 ^ 47 := by
    have h1 : M * (hi - lo) ≤ 2 ^ 47 * (hi - lo) :=
      le_trans (mul_le_mul_of_nonneg_left hwK hM0.le) hH
    exact le_of_mul_le_mul_right h1 hw
  obtain ⟨x, hx⟩ : ∃ x : ℚ, x = M * (d - lo) / (hi - lo) := ⟨_, rfl⟩
  rw [← hx] at hq
  obtain ⟨e, he⟩ : ∃ e : ℚ, e = d - (lo + k / M * (hi - lo)) := ⟨_, rfl⟩
  rw [← he] at hd
  have hxk : x - k = M * e / (hi - lo) := by
    rw [hx, he]; field_simp; ring
  -- M * |e| / w ≤ 1/8 + 1/2^19
  have hMe : M * |e| ≤ (1 / 8 + 1 / 2 ^ 19) * (hi - lo) := by
    have h1 : M * |e| ≤ M * ((|lo| + |hi|) / 2 ^ 50 + 2 * η) :=
      mul_le_mul_of_nonneg_left hd hM0.le
    have h2 : M * ((|lo| + |hi|) / 2 ^ 50 + 2 * η)
        = M * (|lo| + |hi|) / 2 ^ 50 + 2 * (η * M) := by ring
    have h3 : M * (|lo| + |hi|) / 2 ^ 50 ≤ 2 ^ 47 * (hi - lo) / 2 ^ 50 :=
      div_le_div_of_nonneg_right hH (by positivity)
    have h4 : (2 : ℚ) ^ 47 * (hi - lo) / 2 ^ 50 = 1 / 8 * (hi - lo) := by ring
    have h5 : 2 * (η * M) ≤ 1 / 2 ^ 19 * (hi - lo) := by
      have : 2 * ((hi - lo) / 2 ^ 20) = 1 / 2 ^ 19 * (hi - lo) := by ring
      linarith
    linarith
  have hxk1 : |x - k| ≤ 1 / 8 + 1 / 2 ^ 19 := by
    rw [hxk, abs_div, abs_mul, abs_of_pos hM0, abs_of_pos hw, div_le_iff₀ hw]
    exact hMe
  have x1 := abs_le.mp hxk1
  have q1 := abs_le.mp hq
  have hx50 : x / 2 ^ 50 ≤ 1 / 4 := by
    have : x ≤ 2 ^ 47 + 1 := by
      have : (1 : ℚ) / 8 + 1 / 2 ^ 19 ≤ 1 := by norm_num
      linarith [x1.2]
    have h2 : x / 2 ^ 50 ≤ (2 ^ 47 + 1) / 2 ^ 50 :=
      div_le_div_of_nonneg_right this (by positivity)
    have h3 : ((2 : ℚ) ^ 47 + 1) / 2 ^ 50 ≤ 1 / 4 := by norm_num
    linarith
  have hη53 : (1 : ℚ) / 2 ^ 53 ≤ 1 / 8 := by norm_num
  have c19 : (1 : ℚ) / 2 ^ 19 ≤ 1 / 8 := by norm_num
  constructor <;> linarith [x1.1, x1.2, q1.1, q1.2]

theorem f64_decode_double (p : Parameter ℚ) (b : List Bool) :
    fl (f64.decode p b) = f64.decode p b := by
  unfold f64.decode f64.add
  exact fl_idem _

/-- The integer that `encode` computes at the decoded value of the string `b`: the
integer of `b`, or that integer less one. -/
theorem f64_encodeValue_decode (p : Parameter ℚ) (b : List Bool) (hb : p.data0 < p.data1)
    (hlo : fl p.data0 = p.data0) (hhi : fl p.data1 = p.data1)
    (hN1 : 1 ≤ p.N) (hN : p.N ≤ 52) (hlen : b.length = p.N)
    (hH : (MAXVAL p.N : ℚ) * (|p.data0| + |p.data1|) ≤ 2 ^ 47 * (p.data1 - p.data0))
    (hw : 1 / 2 ^ 1000 ≤ p.data1 - p.data0) :
    f64.encodeValue p (f64.decode p b) = GetValue b ∨
    f64.encodeValue p (f64.decode p b) + 1 = GetValue b := by
  have hfd := f64_decode_double p b
  have hld := (f64_decode_bounds p b hb hlo hN1 hlen).1
  have hd := f64_decode_err p b hb hlo hhi hN1 (by omega) hlen
  obtain ⟨q0, qe⟩ := f64_encode_quotient p.data0 p.data1 (f64.decode p b) p.N hlo hhi hfd hb hld
  have hM1 : (1 : ℚ) ≤ (MAXVAL p.N : ℚ) := by exact_mod_cast MAXVAL_pos p.N hN1
  have hkM : ((GetValue b : ℕ) : ℚ) ≤ (MAXVAL p.N : ℚ) := by
    exact_mod_cast GetValue_le_MAXVAL b p.N hlen
  have hη1 : (1 : ℚ) / 2 ^ 1075 ≤ 1 / 2 ^ 53 :=
    div_le_div_of_nonneg_left (by norm_num) (by positivity)
      (pow_le_pow_right₀ (by norm_num) (by norm_num))
  have hM47 : (MAXVAL p.N : ℚ) ≤ 2 ^ 47 := by
    have hw0 : 0 < p.data1 - p.data0 := by linarith
    have hwK : p.data1 - p.data0 ≤ |p.data0| + |p.data1| := by
      have := neg_abs_le p.data0
      have := le_abs_self p.data1
      linarith
    have h1 : (MAXVAL p.N : ℚ) * (p.data1 - p.data0) ≤ 2 ^ 47 * (p.data1 - p.data0) :=
      le_trans (mul_le_mul_of_nonneg_left hwK (by linarith)) hH
    exact le_of_mul_le_mul_right h1 hw0
  have hηM : (1 : ℚ) / 2 ^ 1075 * (MAXVAL p.N : ℚ) ≤ (p.data1 - p.data0) / 2 ^ 20 := by
    have e1 : (1 : ℚ) / 2 ^ 1075 * 2 ^ 47 = 1 / 2 ^ 1000 / 2 ^ 20 / 2 ^ 8 := by
      rw [show (1075 : ℕ) = 1000 + 20 + 8 + 47 from rfl, pow_add, pow_add, pow_add]
      field_simp
      ring
    have e2 : (1 : ℚ) / 2 ^ 1000 / 2 ^ 20 / 2 ^ 8 ≤ 1 / 2 ^ 1000 / 2 ^ 20 :=
      div_le_self (by positivity) (by norm_num)
    have e3 : (1 : ℚ) / 2 ^ 1000 / 2 ^ 20 ≤ (p.data1 - p.data0) / 2 ^ 20 :=
      div_le_div_of_nonneg_right hw (by positivity)
    have e4 : (1 : ℚ) / 2 ^ 1075 * (MAXVAL p.N : ℚ) ≤ 1 / 2 ^ 1075 * 2 ^ 47 :=
      mul_le_mul_of_nonneg_left hM47 (by positivity)
    linarith
  have key := grid_arith p.data0 p.data1 (f64.decode p b) (MAXVAL p.N : ℚ) (GetValue b : ℚ)
    (fl (fl ((MAXVAL p.N : ℚ) * fl (f64.decode p b - p.data0)) / fl (p.data1 - p.data0)))
    (1 / 2 ^ 1075) hb hM1 hkM hη1 hH hηM hd qe
  have hq64 : fl (fl ((MAXVAL p.N : ℚ) * fl (f64.decode p b - p.data0))
      / fl (p.data1 - p.data0)) < 2 ^ 64 := by
    have : (2 : ℚ) ^ 47 + 1 < 2 ^ 64 := by norm_num
    linarith [key.2]
  have hfl := double_to_uint64_floor _ q0 hq64
  have hev : f64.encodeValue p (f64.decode p b) = double_to_uint64
      (fl (fl ((MAXVAL p.N : ℚ) * fl (f64.decode p b - p.data0)) / fl (p.data1 - p.data0))) := by
    rw [f64_encodeValue_eq, fl_MAXVAL p.N (by omega)]
  rw [← hev] at hfl
  have f1 : ((GetValue b : ℕ) : ℤ) - 1 ≤ ⌊fl (fl ((MAXVAL p.N : ℚ)
      * fl (f64.decode p b - p.data0)) / fl (p.data1 - p.data0))⌋ := by
    rw [Int.le_floor]
    push_cast
    linarith [key.1]
  have f2 : ⌊fl (fl ((MAXVAL p.N : ℚ)
      * fl (f64.decode p b - p.data0)) / fl (p.data1 - p.data0))⌋ < ((GetValue b : ℕ) : ℤ) + 1 := by
    rw [Int.floor_lt]
    push_cast
    linarith [key.2]
  rw [← hfl] at f1 f2
  omega

/-- C30, amended. Re-encoding a decoded string in binary64. For a real-typed parameter
whose bounds `lo < hi` are `double` of magnitude at most `2^960` with
`hi - lo ≥ 2^-1000`, a width `1 ≤ N ≤ 52` with
`(2^N - 1) * (|lo| + |hi|) ≤ 2^47 * (hi - lo)`, and every string `b` of `N` bits:
`encode(decode(b))` is `b`, or `uint(b) ≥ 1` and it is the string of `uint(b) - 1`; hence
`decode(encode(decode(b)))` is `decode(b)` or the value decoded from `uint(b) - 1`. The
all-zero string is a fixed point. -/
theorem grid_fixed_point (p : Parameter ℚ) (b : List Bool) (hb : p.data0 < p.data1)
    (hlo : fl p.data0 = p.data0) (hhi : fl p.data1 = p.data1)
    (_hlo2 : |p.data0| ≤ 2 ^ 960) (_hhi2 : |p.data1| ≤ 2 ^ 960)
    (hN1 : 1 ≤ p.N) (hN : p.N ≤ 52) (hlen : b.length = p.N)
    (hH : (MAXVAL p.N : ℚ) * (|p.data0| + |p.data1|) ≤ 2 ^ 47 * (p.data1 - p.data0))
    (hw : 1 / 2 ^ 1000 ≤ p.data1 - p.data0) :
    ((f64.encode p (f64.decode p b) = b ∧
        f64.decode p (f64.encode p (f64.decode p b)) = f64.decode p b) ∨
      (1 ≤ GetValue b ∧ f64.encode p (f64.decode p b) = toBits p.N (GetValue b - 1) ∧
        f64.decode p (f64.encode p (f64.decode p b))
          = f64.decode p (toBits p.N (GetValue b - 1)))) ∧
    f64.encode p (f64.decode p (List.replicate p.N false)) = List.replicate p.N false := by
  clear _hlo2 _hhi2
  constructor
  · rw [f64_encode_eq_toBits p _ (by omega)]
    rcases f64_encodeValue_decode p b hb hlo hhi hN1 hN hlen hH hw with h | h
    · left
      have e : toBits p.N (f64.encodeValue p (f64.decode p b)) = b := by
        rw [h]
        apply GetValue_inj _ _ (by rw [toBits_length, hlen])
        rw [GetValue_toBits]
        have := GetValue_lt b
        rw [hlen] at this
        exact Nat.mod_eq_of_lt this
      rw [e]
      exact ⟨rfl, rfl⟩
    · right
      have e : f64.encodeValue p (f64.decode p b) = GetValue b - 1 := by omega
      rw [e]
      exact ⟨by omega, rfl, rfl⟩
  · rw [(f64_decode_bounds p (List.replicate p.N false) hb hlo hN1 (by simp)).2.2.1]
    exact f64_encode_lower p (by omega)

/-- Bounds `[0, 10]`, width 8, `b = 00001001`: `decode(b)` is the `double`
`0.3529411764705882`, at which `encode` computes the quotient `8.999999999999998` and
writes `00001000`, which decodes to `0.3137254901960784`. -/
theorem f64_recode_nine :
    f64.decode scenarioParam (toBits 8 9) = (3179011501673291 / 9007199254740992) ∧
    f64.encode scenarioParam (f64.decode scenarioParam (toBits 8 9)) = toBits 8 8 ∧
    f64.decode scenarioParam (toBits 8 8) = (1412894000743685 / 4503599627370496) := by
  have g1 : fl 9 = 9 :=
    fl_eval _ _ (-49) 5066549580791808 (by norm_num) (by norm_num [abs_of_pos]) (by norm_num [abs_of_pos])
      (by norm_num) (by norm_num)
  have g2 : fl 255 = 255 :=
    fl_eval _ _ (-45) 8972014882652160 (by norm_num) (by norm_num [abs_of_pos]) (by norm_num [abs_of_pos])
      (by norm_num) (by norm_num)
  have g3 : fl (3 / 85) = (2543209201338633 / 72057594037927936) :=
    fl_eval _ _ (-57) 5086418402677266 (by norm_num) (by norm_num [abs_of_pos]) (by norm_num [abs_of_pos])
      (by norm_num) (by norm_num)
  have g4 : fl 10 = 10 :=
    fl_eval _ _ (-49) 5629499534213120 (by norm_num) (by norm_num [abs_of_pos]) (by norm_num [abs_of_pos])
      (by norm_num) (by norm_num)
  have g5 : fl (12716046006693165 / 36028797018963968) = (3179011501673291 / 9007199254740992) :=
    fl_eval_tie _ _ (-54) 6358023003346582 (by norm_num) (by norm_num [abs_of_pos]) (by norm_num [abs_of_pos])
      (by norm_num) (by norm_num) (by norm_num)
  have g6 : fl (3179011501673291 / 9007199254740992) = (3179011501673291 / 9007199254740992) :=
    fl_eval _ _ (-54) 6358023003346582 (by norm_num) (by norm_num [abs_of_pos]) (by norm_num [abs_of_pos])
      (by norm_num) (by norm_num)
  have g7 : fl (810647932926689205 / 9007199254740992) = (6333186975989759 / 70368744177664) :=
    fl_eval _ _ (-46) 6333186975989759 (by norm_num) (by norm_num [abs_of_pos]) (by norm_num [abs_of_pos])
      (by norm_num) (by norm_num)
  have g8 : fl (6333186975989759 / 703687441776640) = (5066549580791807 / 562949953421312) :=
    fl_eval _ _ (-49) 5066549580791807 (by norm_num) (by norm_num [abs_of_pos]) (by norm_num [abs_of_pos])
      (by norm_num) (by norm_num)
  have g9 : fl 8 = 8 :=
    fl_eval _ _ (-49) 4503599627370496 (by norm_num) (by norm_num [abs_of_pos]) (by norm_num [abs_of_pos])
      (by norm_num) (by norm_num)
  have g10 : fl (8 / 255) = (282578800148737 / 9007199254740992) :=
    fl_eval _ _ (-57) 4521260802379792 (by norm_num) (by norm_num [abs_of_pos]) (by norm_num [abs_of_pos])
      (by norm_num) (by norm_num)
  have g11 : fl (1412894000743685 / 4503599627370496) = (1412894000743685 / 4503599627370496) :=
    fl_eval _ _ (-54) 5651576002974740 (by norm_num) (by norm_num [abs_of_pos]) (by norm_num [abs_of_pos])
      (by norm_num) (by norm_num)
  have hM : ((MAXVAL 8 : ℕ) : ℚ) = 255 := by norm_num [MAXVAL]
  have hG9 : GetValue (toBits 8 9) = 9 := by decide
  have hG8 : GetValue (toBits 8 8) = 8 := by decide
  have hd : f64.decode scenarioParam (toBits 8 9) = (3179011501673291 / 9007199254740992) := by
    simp only [f64.decode, f64.add, f64.mul, f64.div, f64.sub, f64.ofNat, hG9,
      scenarioParam, hM, Parameter.data0, Parameter.data1]
    norm_num [fl_zero, g1, g2, g3, g4, g5, g6, g7, g8, g9, g10, g11]
  have hq : f64.encodeValue scenarioParam (3179011501673291 / 9007199254740992)
      = double_to_uint64 ((5066549580791807 / 562949953421312) : ℚ) := by
    simp only [f64.encodeValue, f64.div, f64.mul, f64.sub, f64.ofNat, scenarioParam, hM,
      Parameter.data0, Parameter.data1]
    norm_num [fl_zero, g1, g2, g3, g4, g5, g6, g7, g8, g9, g10, g11]
  have hv : f64.encodeValue scenarioParam (3179011501673291 / 9007199254740992) = 8 := by
    rw [hq]
    have h := double_to_uint64_floor ((5066549580791807 / 562949953421312) : ℚ) (by norm_num) (by norm_num)
    have hf : ⌊((5066549580791807 / 562949953421312) : ℚ)⌋ = 8 := by
      rw [Int.floor_eq_iff]
      constructor <;> norm_num
    rw [hf] at h
    exact_mod_cast h
  have he : f64.encode scenarioParam (f64.decode scenarioParam (toBits 8 9)) = toBits 8 8 := by
    rw [hd, f64_encode_eq_toBits _ _ (by decide), hv]
    rfl
  have hd8 : f64.decode scenarioParam (toBits 8 8) = (1412894000743685 / 4503599627370496) := by
    simp only [f64.decode, f64.add, f64.mul, f64.div, f64.sub, f64.ofNat, hG8,
      scenarioParam, hM, Parameter.data0, Parameter.data1]
    norm_num [fl_zero, g1, g2, g3, g4, g5, g6, g7, g8, g9, g10, g11]
  exact ⟨hd, he, hd8⟩

/-- C30, counterexample. Bounds `[0, 10]`, width 8, `b = 00001001` (`uint(b) = 9`):
`decode(b)` is the `double` `0.3529411764705882`, at which `encode` computes the
quotient `8.999999999999998` and writes `00001000`; decoding that gives
`0.3137254901960784`, not `decode(b)`. -/
theorem grid_not_fixed :
    f64.decode scenarioParam (toBits 8 9) = (3179011501673291 / 9007199254740992) ∧
    f64.encode scenarioParam (f64.decode scenarioParam (toBits 8 9)) = toBits 8 8 ∧
    f64.encode scenarioParam (f64.decode scenarioParam (toBits 8 9)) ≠ toBits 8 9 ∧
    f64.decode scenarioParam (f64.encode scenarioParam (f64.decode scenarioParam (toBits 8 9)))
      ≠ f64.decode scenarioParam (toBits 8 9) := by
  obtain ⟨hd, he, hd8⟩ := f64_recode_nine
  refine ⟨hd, he, ?_, ?_⟩
  · rw [he]; decide
  · rw [he, hd8, hd]; norm_num

/-- C30, witness: bounds `[0, 10]`, width 8, `b = 11111111`. -/
theorem grid_fixed_point_witness :
    ((f64.encode scenarioParam (f64.decode scenarioParam (List.replicate 8 true))
          = List.replicate 8 true ∧
        f64.decode scenarioParam
            (f64.encode scenarioParam (f64.decode scenarioParam (List.replicate 8 true)))
          = f64.decode scenarioParam (List.replicate 8 true)) ∨
      (1 ≤ GetValue (List.replicate 8 true) ∧
        f64.encode scenarioParam (f64.decode scenarioParam (List.replicate 8 true))
          = toBits scenarioParam.N (GetValue (List.replicate 8 true) - 1) ∧
        f64.decode scenarioParam
            (f64.encode scenarioParam (f64.decode scenarioParam (List.replicate 8 true)))
          = f64.decode scenarioParam
              (toBits scenarioParam.N (GetValue (List.replicate 8 true) - 1)))) ∧
    f64.encode scenarioParam (f64.decode scenarioParam (List.replicate scenarioParam.N false))
      = List.replicate scenarioParam.N false :=
  grid_fixed_point scenarioParam (List.replicate 8 true)
    (by norm_num [scenarioParam, Parameter.data0, Parameter.data1])
    (by simpa [scenarioParam, Parameter.data0] using fl_zero)
    (by simpa [scenarioParam, Parameter.data1] using fl_natCast 10 (by norm_num))
    (by norm_num [scenarioParam, Parameter.data0])
    (by norm_num [scenarioParam, Parameter.data1])
    (by decide) (by decide) (by decide)
    (by norm_num [scenarioParam, Parameter.data0, Parameter.data1, MAXVAL])
    (by norm_num [scenarioParam, Parameter.data0, Parameter.data1])

/-! ## Binary64: boundary mutation -/

theorem f64_toBase_encode_length (P : Parameter ℚ) (hN : P.N ≤ 64) (x : ℚ) :
    ((f64.toBase P).encode x).length = (f64.toBase P).size := by
  show (f64.encode P x).length = P.N
  rw [f64_encode_eq_toBits P x hN, toBits_length]

/-- Re-encoding the decoded value of a string of `N` bits gives the string back, or the
string of its integer less one. -/
theorem f64_recode (p : Parameter ℚ) (b : List Bool) (hb : p.data0 < p.data1)
    (hlo : fl p.data0 = p.data0) (hhi : fl p.data1 = p.data1)
    (hN1 : 1 ≤ p.N) (hN : p.N ≤ 52) (hlen : b.length = p.N)
    (hH : (MAXVAL p.N : ℚ) * (|p.data0| + |p.data1|) ≤ 2 ^ 47 * (p.data1 - p.data0))
    (hw : 1 / 2 ^ 1000 ≤ p.data1 - p.data0) :
    f64.encode p (f64.decode p b) = b ∨
    (1 ≤ GetValue b ∧ f64.encode p (f64.decode p b) = toBits p.N (GetValue b - 1)) := by
  rw [f64_encode_eq_toBits p _ (by omega)]
  rcases f64_encodeValue_decode p b hb hlo hhi hN1 hN hlen hH hw with h | h
  · left
    rw [h]
    apply GetValue_inj _ _ (by rw [toBits_length, hlen])
    rw [GetValue_toBits]
    have := GetValue_lt b
    rw [hlen] at this
    exact Nat.mod_eq_of_lt this
  · right
    have e : f64.encodeValue p (f64.decode p b) = GetValue b - 1 := by omega
    rw [e]
    exact ⟨by omega, rfl⟩

/-- The integer that `encode` computes at the upper bound when the product
`MAXVAL * (hi - lo)` is computed without rounding. -/
theorem f64_encodeValue_upper (p : Parameter ℚ) (hb : p.data0 < p.data1)
    (hlo : fl p.data0 = p.data0) (hhi : fl p.data1 = p.data1) (hN : p.N ≤ 53)
    (hx : fl ((MAXVAL p.N : ℚ) * fl (p.data1 - p.data0))
      = (MAXVAL p.N : ℚ) * fl (p.data1 - p.data0)) :
    f64.encodeValue p p.data1 = MAXVAL p.N := by
  have hw : 0 < fl (p.data1 - p.data0) := fl_sub_pos _ _ hlo hhi hb
  rw [f64_encodeValue_eq, fl_MAXVAL p.N hN, hx, mul_div_assoc, div_self (ne_of_gt hw),
    mul_one, fl_MAXVAL p.N hN]
  have h := double_to_uint64_floor ((MAXVAL p.N : ℕ) : ℚ) (by positivity)
    (by
      have : MAXVAL p.N ≤ 2 ^ 53 - 1 := MAXVAL_le_pow p.N 53 hN
      have h2 : ((MAXVAL p.N : ℕ) : ℚ) ≤ ((2 ^ 53 - 1 : ℕ) : ℚ) := by exact_mod_cast this
      have h3 : (((2 ^ 53 - 1 : ℕ) : ℕ) : ℚ) < 2 ^ 64 := by norm_num
      linarith)
  rw [Int.floor_natCast] at h
  exact_mod_cast h

/-- C26, amended. `BDM` in binary64. For a chromosome with a complete bit string whose
parameters are real-typed with `double` bounds `lo < hi` of magnitude at most `2^960` and a width
`1 ≤ N ≤ 52`, a
mutation rate `> 0` and every sequence of draws: the result of `BDM` is the state of its
loop after `nbgene` iterations; when the loop reaches gene `i`, the first draw decides
whether the gene is mutated (`draw ≤ mutrate`) and the second one which bound it
receives. For a second draw `< 0.5` the bits of the gene are all `0` afterwards and it
decodes to exactly `lowerBound[i]`. Otherwise the gene holds `encode(upperBound[i])`,
whose integer is `2^N - 1` or `2^N - 2`; when the product `MAXVAL * (hi - lo)` is
computed without rounding the bits are all `1` and the gene decodes to the rounded sum
`lo + (hi - lo)`, which is exactly `upperBound[i]` when the difference `hi - lo` is
computed without rounding too. A gene that is not mutated keeps its bits. -/
theorem BDM_spec (chr : Chromosome ℚ) (rng : Rng)
    (hrate : 0 < chr.mutrate) (hwf : chr.chr.length = chr.size)
    (hreal : ∀ q ∈ chr.ptr.param, ∃ P : Parameter ℚ,
      q = f64.toBase P ∧ P.data0 < P.data1 ∧ fl P.data0 = P.data0 ∧ fl P.data1 = P.data1 ∧
      |P.data0| ≤ 2 ^ 960 ∧ |P.data1| ≤ 2 ^ 960 ∧ 1 ≤ P.N ∧ P.N ≤ 52)
    (i : Nat) (p : BaseParameter ℚ) (hp : chr.ptr.param[i]? = some p) :
    BDM chr rng = mutation_upto chr rng chr.mutrate (BDM_body chr) chr.nbgene ∧
    ((mutation_upto chr rng chr.mutrate (BDM_body chr) i).2.proba
        (mutation_upto chr rng chr.mutrate (BDM_body chr) i).2.nproba ≤ chr.mutrate →
      (mutation_upto chr rng chr.mutrate (BDM_body chr) i).2.proba
        ((mutation_upto chr rng chr.mutrate (BDM_body chr) i).2.nproba + 1) < 1 / 2 →
      (BDM chr rng).1.gene i = List.replicate p.size false ∧
      (BDM chr rng).1.get_value i = chr.lowerBound.getD i 0) ∧
    ((mutation_upto chr rng chr.mutrate (BDM_body chr) i).2.proba
        (mutation_upto chr rng chr.mutrate (BDM_body chr) i).2.nproba ≤ chr.mutrate →
      ¬ (mutation_upto chr rng chr.mutrate (BDM_body chr) i).2.proba
        ((mutation_upto chr rng chr.mutrate (BDM_body chr) i).2.nproba + 1) < 1 / 2 →
      (BDM chr rng).1.gene i = p.encode (chr.upperBound.getD i 0) ∧
      (BDM chr rng).1.get_value i = p.decode (p.encode (chr.upperBound.getD i 0)) ∧
      (GetValue ((BDM chr rng).1.gene i) = 2 ^ p.size - 1 ∨
        GetValue ((BDM chr rng).1.gene i) = 2 ^ p.size - 2) ∧
      (fl ((MAXVAL p.size : ℚ) * fl (chr.upperBound.getD i 0 - chr.lowerBound.getD i 0))
          = (MAXVAL p.size : ℚ) * fl (chr.upperBound.getD i 0 - chr.lowerBound.getD i 0) →
        (BDM chr rng).1.gene i = List.replicate p.size true ∧
        (BDM chr rng).1.get_value i = f64.add (chr.lowerBound.getD i 0)
          (f64.sub (chr.upperBound.getD i 0) (chr.lowerBound.getD i 0)) ∧
        (fl (chr.upperBound.getD i 0 - chr.lowerBound.getD i 0)
            = chr.upperBound.getD i 0 - chr.lowerBound.getD i 0 →
          (BDM chr rng).1.get_value i = chr.upperBound.getD i 0))) ∧
    (¬ (mutation_upto chr rng chr.mutrate (BDM_body chr) i).2.proba
        (mutation_upto chr rng chr.mutrate (BDM_body chr) i).2.nproba ≤ chr.mutrate →
      (BDM chr rng).1.gene i = chr.gene i) := by
  have hne : chr.mutrate ≠ 0 := ne_of_gt hrate
  have henc : ∀ (i : Nat) (p : BaseParameter ℚ) (x : ℚ),
      chr.ptr.param[i]? = some p → (p.encode x).length = p.size := by
    intro i p x hp
    obtain ⟨P, hP, _, _, _, _, _, _, hN⟩ := hreal p (List.getElem?_mem hp)
    subst hP
    exact f64_toBase_encode_length P (by omega) x
  obtain ⟨a, b, c, d⟩ := BDM_genes chr rng hne hwf henc i p hp
  obtain ⟨P, hP, hb, hlo, hhi, -, -, hN1, hN⟩ := hreal p (List.getElem?_mem hp)
  have hp2 : (BDM chr rng).1.ptr.param[i]? = some p := by rw [d]; exact hp
  have elo : p.getData.getD 0 default = P.data0 := by subst hP; rfl
  have ehi : p.getData.getD 1 default = P.data1 := by subst hP; rfl
  have hl : chr.lowerBound.getD i 0 = P.data0 := (lowerBound_getD chr i p hp).trans elo
  have hu : chr.upperBound.getD i 0 = P.data1 := (upperBound_getD chr i p hp).trans ehi
  have hsz : p.size = P.N := by subst hP; rfl
  have henc1 : p.encode = f64.encode P := by subst hP; rfl
  have hdec1 : p.decode = f64.decode P := by subst hP; rfl
  refine ⟨BDM_eq_upto chr rng hne, ?_, ?_, c⟩
  · intro h1 h2
    have g : (BDM chr rng).1.gene i = List.replicate p.size false := by
      rw [a h1 h2, elo, henc1, hsz]
      exact f64_encode_lower P (by omega)
    refine ⟨g, ?_⟩
    rw [get_value_eq_decode_gene _ i p hp2, g, hl, hdec1, hsz]
    exact (f64_decode_bounds P (List.replicate P.N false) hb hlo hN1 (by simp)).2.2.1
  · intro h1 h2
    have g : (BDM chr rng).1.gene i = p.encode (chr.upperBound.getD i 0) := by
      rw [b h1 h2, ehi, hu]
    have gv : (BDM chr rng).1.get_value i = p.decode (p.encode (chr.upperBound.getD i 0)) := by
      rw [get_value_eq_decode_gene _ i p hp2, g]
    obtain ⟨k1, _, k3⟩ := f64_encodeValue_le P P.data1 hb hlo hhi hN1 hN (le_of_lt hb) (le_refl _)
    obtain ⟨_, e2⟩ := f64_encode_GetValue P P.data1 (by omega) k1
    refine ⟨g, gv, ?_, ?_⟩
    · rw [g, hu, henc1, e2, hsz]
      have : MAXVAL P.N = 2 ^ P.N - 1 := rfl
      omega
    · intro hx
      rw [hsz, hu, hl] at hx
      have ev := f64_encodeValue_upper P hb hlo hhi (by omega) hx
      have g1 : (BDM chr rng).1.gene i = List.replicate p.size true := by
        rw [g, hu, henc1, hsz, f64_encode_eq_toBits P _ (by omega), ev, toBits_MAXVAL]
      have gv1 : (BDM chr rng).1.get_value i = f64.add P.data0 (f64.sub P.data1 P.data0) := by
        rw [get_value_eq_decode_gene _ i p hp2, g1, hdec1, hsz]
        exact (f64_decode_bounds P (List.replicate P.N true) hb hlo hN1 (by simp)).2.2.2
      refine ⟨g1, ?_, ?_⟩
      · rw [hl, hu]; exact gv1
      · intro hw
        rw [hu, hl] at hw
        rw [gv1, hu]
        unfold f64.add f64.sub
        rw [hw]
        have : P.data0 + (P.data1 - P.data0) = P.data1 := by ring
        rw [this, hhi]

/-- The parameter of width 2 on `[0, 0.7]`: the product `3 * 0.7` is rounded down, the
quotient of `encode(0.7)` is `2.9999999999999996`, and `encode` writes `10`, which decodes
to `0.4666666666666666`. -/
theorem f64_encode_narrow :
    f64.encode narrowParam (3152519739159347 / 4503599627370496) = [true, false] ∧
    f64.decode narrowParam [true, false] = (8406719304424925 / 18014398509481984) := by
  have n1 : fl 3 = 3 :=
    fl_eval _ _ (-51) 6755399441055744 (by norm_num) (by norm_num [abs_of_pos]) (by norm_num [abs_of_pos])
      (by norm_num) (by norm_num)
  have n2 : fl (3152519739159347 / 4503599627370496) = (3152519739159347 / 4503599627370496) :=
    fl_eval _ _ (-53) 6305039478318694 (by norm_num) (by norm_num [abs_of_pos]) (by norm_num [abs_of_pos])
      (by norm_num) (by norm_num)
  have n3 : fl (9457559217478041 / 4503599627370496) = (1182194902184755 / 562949953421312) :=
    fl_eval_tie _ _ (-51) 4728779608739020 (by norm_num) (by norm_num [abs_of_pos]) (by norm_num [abs_of_pos])
      (by norm_num) (by norm_num) (by norm_num)
  have n4 : fl (9457559217478040 / 3152519739159347) = (6755399441055743 / 2251799813685248) :=
    fl_eval _ _ (-51) 6755399441055743 (by norm_num) (by norm_num [abs_of_pos]) (by norm_num [abs_of_pos])
      (by norm_num) (by norm_num)
  have n5 : fl 2 = 2 :=
    fl_eval _ _ (-51) 4503599627370496 (by norm_num) (by norm_num [abs_of_pos]) (by norm_num [abs_of_pos])
      (by norm_num) (by norm_num)
  have n6 : fl (2 / 3) = (6004799503160661 / 9007199254740992) :=
    fl_eval _ _ (-53) 6004799503160661 (by norm_num) (by norm_num [abs_of_pos]) (by norm_num [abs_of_pos])
      (by norm_num) (by norm_num)
  have n7 : fl (18930248963408223477217620848367 / 40564819207303340847894502572032) = (8406719304424925 / 18014398509481984) :=
    fl_eval _ _ (-54) 8406719304424925 (by norm_num) (by norm_num [abs_of_pos]) (by norm_num [abs_of_pos])
      (by norm_num) (by norm_num)
  have n8 : fl (8406719304424925 / 18014398509481984) = (8406719304424925 / 18014398509481984) :=
    fl_eval _ _ (-54) 8406719304424925 (by norm_num) (by norm_num [abs_of_pos]) (by norm_num [abs_of_pos])
      (by norm_num) (by norm_num)
  have hM : ((MAXVAL 2 : ℕ) : ℚ) = 3 := by norm_num [MAXVAL]
  have hG : GetValue [true, false] = 2 := by decide
  have hq : f64.encodeValue narrowParam (3152519739159347 / 4503599627370496)
      = double_to_uint64 ((6755399441055743 / 2251799813685248) : ℚ) := by
    simp only [f64.encodeValue, f64.div, f64.mul, f64.sub, f64.ofNat, narrowParam, hM,
      Parameter.data0, Parameter.data1]
    norm_num [fl_zero, n1, n2, n3, n4, n5, n6, n7, n8]
  have hv : f64.encodeValue narrowParam (3152519739159347 / 4503599627370496) = 2 := by
    rw [hq]
    have h := double_to_uint64_floor ((6755399441055743 / 2251799813685248) : ℚ) (by norm_num) (by norm_num)
    have hf : ⌊((6755399441055743 / 2251799813685248) : ℚ)⌋ = 2 := by
      rw [Int.floor_eq_iff]
      constructor <;> norm_num
    rw [hf] at h
    exact_mod_cast h
  have he : f64.encode narrowParam (3152519739159347 / 4503599627370496) = [true, false] := by
    rw [f64_encode_eq_toBits _ _ (by decide), hv]
    rfl
  have hd : f64.decode narrowParam [true, false] = (8406719304424925 / 18014398509481984) := by
    simp only [f64.decode, f64.add, f64.mul, f64.div, f64.sub, f64.ofNat, hG,
      narrowParam, hM, Parameter.data0, Parameter.data1]
    norm_num [fl_zero, n1, n2, n3, n4, n5, n6, n7, n8]
  exact ⟨he, hd⟩

theorem plainChr_encode_length (P : Parameter ℚ) (hN : P.N ≤ 64) (mutrate : ℚ)
    (chr : List Bool) (i : Nat) (p : BaseParameter ℚ) (x : ℚ)
    (hp : (plainChr [f64.toBase P] mutrate chr).ptr.param[i]? = some p) :
    (p.encode x).length = p.size := by
  have hm := List.getElem?_mem hp
  have hq : p = f64.toBase P := by
    simp only [plainChr, plainGA, List.mem_singleton] at hm
    exact hm
  subst hq
  exact f64_toBase_encode_length P hN x

/-- The gene of a chromosome with one real parameter `P` after `BDM` with the mutation
rate `1` and the draws `0, 0.9, 0, ...`: the gene is selected and receives the upper
bound. -/
theorem BDM_upper_gene (P : Parameter ℚ) (hN : P.N ≤ 64) (chr : List Bool)
    (hlen : chr.length = P.N) :
    (BDM (plainChr [f64.toBase P] 1 chr) rngUpper).1.gene 0 = f64.encode P P.data1 ∧
    (BDM (plainChr [f64.toBase P] 1 chr) rngUpper).1.get_value 0
      = f64.decode P (f64.encode P P.data1) := by
  have hwf : (plainChr [f64.toBase P] 1 chr).chr.length = (plainChr [f64.toBase P] 1 chr).size := by
    show chr.length = _
    rw [hlen]
    simp [Chromosome.size, plainChr, plainGA, f64.toBase]
  obtain ⟨_, b, _, d⟩ := BDM_genes (plainChr [f64.toBase P] 1 chr) rngUpper
    (by norm_num [Chromosome.mutrate, plainChr, plainGA]) hwf
    (fun i p x hp => plainChr_encode_length P hN 1 chr i p x hp) 0 (f64.toBase P) rfl
  have g := b (by norm_num [mutation_upto, rngUpper, Chromosome.mutrate, plainChr, plainGA])
    (by norm_num [mutation_upto, rngUpper, Chromosome.mutrate, plainChr, plainGA])
  have g2 : (BDM (plainChr [f64.toBase P] 1 chr) rngUpper).1.gene 0 = f64.encode P P.data1 := g
  refine ⟨g2, ?_⟩
  rw [get_value_eq_decode_gene _ 0 (f64.toBase P) (by rw [d]; rfl), g2]
  rfl

/-- C26, counterexample. One real gene, mutation rate `1`, draws `0, 0.9`: the gene is
selected and receives the upper bound. (a) Bounds `[0, 10]` and width 54: the bits
afterwards are all `0` and the gene decodes to `0`, the lower bound. (b) Bounds
`[0, 0.7]` and width 2: the bits afterwards are `10` and the gene decodes to
`0.4666666666666666`. -/
theorem BDM_upper_differs :
    ((BDM (plainChr [f64.toBase wideParam] 1 (List.replicate 54 true)) rngUpper).1.gene 0
        = List.replicate 54 false ∧
      (BDM (plainChr [f64.toBase wideParam] 1 (List.replicate 54 true)) rngUpper).1.get_value 0
        = 0 ∧
      (plainChr [f64.toBase wideParam] 1 (List.replicate 54 true)).upperBound.getD 0 0 = 10) ∧
    ((BDM (plainChr [f64.toBase narrowParam] 1 [true, true]) rngUpper).1.gene 0
        = [true, false] ∧
      (BDM (plainChr [f64.toBase narrowParam] 1 [true, true]) rngUpper).1.get_value 0
        = (8406719304424925 / 18014398509481984) ∧
      (plainChr [f64.toBase narrowParam] 1 [true, true]).upperBound.getD 0 0
        = (3152519739159347 / 4503599627370496) ∧
      (BDM (plainChr [f64.toBase narrowParam] 1 [true, true]) rngUpper).1.get_value 0
        < (plainChr [f64.toBase narrowParam] 1 [true, true]).upperBound.getD 0 0) := by
  obtain ⟨_, w2, w3⟩ := f64_encode_wide
  obtain ⟨n1, n2⟩ := f64_encode_narrow
  obtain ⟨a1, a2⟩ := BDM_upper_gene wideParam (by decide) (List.replicate 54 true) (by decide)
  obtain ⟨b1, b2⟩ := BDM_upper_gene narrowParam (by decide) [true, true] (by decide)
  have ew : wideParam.data1 = 10 := rfl
  have en : narrowParam.data1 = (3152519739159347 / 4503599627370496) := rfl
  rw [ew] at a1 a2
  rw [en] at b1 b2
  rw [w2] at a1 a2
  rw [n1] at b1 b2
  rw [w3] at a2
  rw [n2] at b2
  refine ⟨⟨a1, a2, rfl⟩, b1, b2, rfl, ?_⟩
  rw [b2]
  show (8406719304424925 / 18014398509481984) < ((3152519739159347 / 4503599627370496) : ℚ)
  norm_num

/-- C26, witness: one real gene with bounds `[0, 10]` and width 8, mutation rate `1`.
With the draws `0, 0.9` the gene is selected and receives the upper bound: its bits are
all `1` and it decodes to `10`. With the draws `0, 0` it receives the lower bound: its
bits are all `0` and it decodes to `0`. -/
theorem BDM_spec_witness :
    ((BDM (plainChr [f64.toBase scenarioParam] 1 (List.replicate 8 false)) rngUpper).1.gene 0
        = List.replicate 8 true ∧
      (BDM (plainChr [f64.toBase scenarioParam] 1 (List.replicate 8 false)) rngUpper).1.get_value 0
        = (plainChr [f64.toBase scenarioParam] 1 (List.replicate 8 false)).upperBound.getD 0 0) ∧
    ((BDM (plainChr [f64.toBase scenarioParam] 1 (List.replicate 8 true)) rngFix).1.gene 0
        = List.replicate 8 false ∧
      (BDM (plainChr [f64.toBase scenarioParam] 1 (List.replicate 8 true)) rngFix).1.get_value 0
        = (plainChr [f64.toBase scenarioParam] 1 (List.replicate 8 true)).lowerBound.getD 0 0) :=
  have hreal : ∀ (chr : List Bool), ∀ q ∈ (plainChr [f64.toBase scenarioParam] 1 chr).ptr.param,
      ∃ P : Parameter ℚ, q = f64.toBase P ∧ P.data0 < P.data1 ∧ fl P.data0 = P.data0 ∧
        fl P.data1 = P.data1 ∧ |P.data0| ≤ 2 ^ 960 ∧ |P.data1| ≤ 2 ^ 960 ∧
        1 ≤ P.N ∧ P.N ≤ 52 := by
    intro chr q hq
    have hq2 : q = f64.toBase scenarioParam := by
      simp only [plainChr, plainGA, List.mem_singleton] at hq
      exact hq
    exact ⟨scenarioParam, hq2,
      by norm_num [Parameter.data0, Parameter.data1, scenarioParam],
      by simpa [Parameter.data0, scenarioParam] using fl_zero,
      by simpa [Parameter.data1, scenarioParam] using fl_natCast 10 (by norm_num),
      by norm_num [Parameter.data0, scenarioParam],
      by norm_num [Parameter.data1, scenarioParam],
      by decide, by decide⟩
  have hrate : ∀ (chr : List Bool),
      0 < (plainChr [f64.toBase scenarioParam] 1 chr).mutrate := by
    intro chr
    norm_num [Chromosome.mutrate, plainChr, plainGA]
  have e10 : fl (10 - 0) = 10 := by simpa using fl_natCast 10 (by norm_num)
  have hU := (BDM_spec (plainChr [f64.toBase scenarioParam] 1 (List.replicate 8 false)) rngUpper
      (hrate _) (by decide) (hreal _) 0 (f64.toBase scenarioParam) rfl).2.2.1
      (by norm_num [mutation_upto, rngUpper, Chromosome.mutrate, plainChr, plainGA])
      (by norm_num [mutation_upto, rngUpper, Chromosome.mutrate, plainChr, plainGA])
  have hx : fl (((MAXVAL (f64.toBase scenarioParam).size : ℕ) : ℚ)
      * fl ((plainChr [f64.toBase scenarioParam] 1 (List.replicate 8 false)).upperBound.getD 0 0
        - (plainChr [f64.toBase scenarioParam] 1 (List.replicate 8 false)).lowerBound.getD 0 0))
      = ((MAXVAL (f64.toBase scenarioParam).size : ℕ) : ℚ)
      * fl ((plainChr [f64.toBase scenarioParam] 1 (List.replicate 8 false)).upperBound.getD 0 0
        - (plainChr [f64.toBase scenarioParam] 1 (List.replicate 8 false)).lowerBound.getD 0 0) := by
    show fl (((MAXVAL 8 : ℕ) : ℚ) * fl (10 - 0)) = ((MAXVAL 8 : ℕ) : ℚ) * fl (10 - 0)
    rw [e10]
    have : ((MAXVAL 8 : ℕ) : ℚ) * 10 = ((2550 : ℕ) : ℚ) := by norm_num [MAXVAL]
    rw [this]
    exact fl_natCast 2550 (by norm_num)
  have hL := (BDM_spec (plainChr [f64.toBase scenarioParam] 1 (List.replicate 8 true)) rngFix
      (hrate _) (by decide) (hreal _) 0 (f64.toBase scenarioParam) rfl).2.1
      (by norm_num [mutation_upto, rngFix, Chromosome.mutrate, plainChr, plainGA])
      (by norm_num [mutation_upto, rngFix, Chromosome.mutrate, plainChr, plainGA])
  ⟨⟨(hU.2.2.2 hx).1, (hU.2.2.2 hx).2.2 (by
      show fl (10 - 0) = 10 - 0
      rw [e10]; norm_num)⟩, hL⟩

/-! ## Binary64: arithmetic cross-over, the copied genes -/

/-- The genes that the simple arithmetic recombination copies: gene `i < pos` of each
offspring holds `encode(decode(bits))` of that gene of its own parent. -/
theorem simple_copy_gene {T : Type} [Scalar T] [Inhabited T] (x : Population T)
    (ga : GeneticAlgorithm T) (chr1 chr2 chrmat1 chrmat2 : Chromosome T)
    (idx1 idx2 pos : Nat) (r : ℚ)
    (h1 : x.mat idx1 = some chrmat1) (h2 : x.mat idx2 = some chrmat2)
    (hc1 : chr1.ptr = ga) (hc2 : chr2.ptr = ga)
    (hm1 : chrmat1.ptr = ga) (hm2 : chrmat2.ptr = ga)
    (henc : ∀ (i : Nat) (p : BaseParameter T) (x : T),
      ga.param[i]? = some p → (p.encode x).length = p.size) :
    ∃ o1 o2, RealValuedSimpleArithmeticRecombination x chr1 chr2 idx1 idx2 pos r
        = some (o1, o2) ∧
      ∀ (i : Nat) (p : BaseParameter T), i < pos → ga.param[i]? = some p →
        o1.gene i = p.encode (p.decode (chrmat1.gene i)) ∧
        o2.gene i = p.encode (p.decode (chrmat2.gene i)) := by
  simp only [RealValuedSimpleArithmeticRecombination, h1, h2]
  refine ⟨_, _, rfl, ?_⟩
  intro i p hi hp
  have a := (copy_then_blend chr1 (fun i => chrmat1.get_value i)
    (fun i => blend r (chrmat2.get_value i) (chrmat1.get_value i)) pos (chr1.nbgene - pos)
    (fun i p x hp => henc i p x (by rw [hc1] at hp; exact hp))).2 i p hi (by rw [hc1]; exact hp)
  have b := (copy_then_blend chr2 (fun i => chrmat2.get_value i)
    (fun i => blend r (chrmat1.get_value i) (chrmat2.get_value i)) pos (chr1.nbgene - pos)
    (fun i p x hp => henc i p x (by rw [hc2] at hp; exact hp))).2 i p hi (by rw [hc2]; exact hp)
  rw [transmit_sigma_gene, transmit_sigma_gene, a, b,
    get_value_eq_decode_gene chrmat1 i p (by rw [hm1]; exact hp),
    get_value_eq_decode_gene chrmat2 i p (by rw [hm2]; exact hp)]
  exact ⟨rfl, rfl⟩

/-- The genes that the single arithmetic recombination copies: gene `i ≠ pos` of each
offspring holds `encode(decode(bits))` of that gene of its own parent. -/
theorem single_copy_gene {T : Type} [Scalar T] [Inhabited T] (x : Population T)
    (ga : GeneticAlgorithm T) (chr1 chr2 chrmat1 chrmat2 : Chromosome T)
    (idx1 idx2 pos : Nat) (r : ℚ)
    (h1 : x.mat idx1 = some chrmat1) (h2 : x.mat idx2 = some chrmat2)
    (hc1 : chr1.ptr = ga) (hc2 : chr2.ptr = ga)
    (hm1 : chrmat1.ptr = ga) (hm2 : chrmat2.ptr = ga)
    (henc : ∀ (i : Nat) (p : BaseParameter T) (x : T),
      ga.param[i]? = some p → (p.encode x).length = p.size) :
    ∃ o1 o2, RealValuedSingleArithmeticRecombination x chr1 chr2 idx1 idx2 pos r
        = some (o1, o2) ∧
      ∀ (i : Nat) (p : BaseParameter T), i ≠ pos → ga.param[i]? = some p →
        o1.gene i = p.encode (p.decode (chrmat1.gene i)) ∧
        o2.gene i = p.encode (p.decode (chrmat2.gene i)) := by
  simp only [RealValuedSingleArithmeticRecombination, h1, h2]
  refine ⟨_, _, rfl, ?_⟩
  intro i p hi hp
  have a := (copy_then_one chr1 (fun i => chrmat1.get_value i) pos
    (blend r (chrmat2.get_value pos) (chrmat1.get_value pos))
    (fun i p x hp => henc i p x (by rw [hc1] at hp; exact hp))).2 i p hi (by rw [hc1]; exact hp)
  have b := (copy_then_one chr2 (fun i => chrmat2.get_value i) pos
    (blend r (chrmat1.get_value pos) (chrmat2.get_value pos))
    (fun i p x hp => henc i p x (by rw [hc2] at hp; exact hp))).2 i p hi (by rw [hc2]; exact hp)
  rw [transmit_sigma_gene, transmit_sigma_gene, a, b,
    get_value_eq_decode_gene chrmat1 i p (by rw [hm1]; exact hp),
    get_value_eq_decode_gene chrmat2 i p (by rw [hm2]; exact hp)]
  exact ⟨rfl, rfl⟩

/-- Re-encoding the decoded bits of a gene of a chromosome with a complete bit string,
for a real-typed parameter in binary64. -/
theorem f64_recode_gene (c : Chromosome ℚ) (i : Nat) (P : Parameter ℚ)
    (hp : c.ptr.param[i]? = some (f64.toBase P)) (hwf : c.chr.length = c.size)
    (hb : P.data0 < P.data1) (hlo : fl P.data0 = P.data0) (hhi : fl P.data1 = P.data1)
    (hN1 : 1 ≤ P.N) (hN : P.N ≤ 52)
    (hH : (MAXVAL P.N : ℚ) * (|P.data0| + |P.data1|) ≤ 2 ^ 47 * (P.data1 - P.data0))
    (hw : 1 / 2 ^ 1000 ≤ P.data1 - P.data0) :
    (f64.toBase P).encode ((f64.toBase P).decode (c.gene i)) = c.gene i ∨
    (1 ≤ GetValue (c.gene i) ∧
      (f64.toBase P).encode ((f64.toBase P).decode (c.gene i))
        = toBits (f64.toBase P).size (GetValue (c.gene i) - 1)) :=
  f64_recode P (c.gene i) hb hlo hhi hN1 hN (gene_length c i (f64.toBase P) hp hwf) hH hw

/-- C25, amended. Genes copied by the arithmetic cross-over, in binary64. In
`RealValuedSimpleArithmeticRecombination` for every gene `i < pos`, and in
`RealValuedSingleArithmeticRecombination` for every gene `i ≠ pos`, the bits of the gene
of offspring 1 are `encode(decode(bits))` of that gene of parent `idx1`, and those of
offspring 2 the same of parent `idx2`. For real-typed parameters with `double` bounds
`lo < hi` of magnitude at most `2^960`, `hi - lo ≥ 2^-1000`, a width `1 ≤ N ≤ 52` and
`(2^N - 1) * (|lo| + |hi|) ≤ 2^47 * (hi - lo)`, and parents with complete bit strings,
these bits are the parent's bits or the string of the parent's integer less one. The
first part is for `T = double`, the second one for `T = int` with bounds `lo < hi` that
fit in an `int`, as does their difference, and widths up to 64. -/
theorem arithmetic_copy :
    (∀ (x : Population ℚ) (ga : GeneticAlgorithm ℚ)
      (chr1 chr2 chrmat1 chrmat2 : Chromosome ℚ) (idx1 idx2 pos : Nat) (r : ℚ),
      x.mat idx1 = some chrmat1 → x.mat idx2 = some chrmat2 →
      chr1.ptr = ga → chr2.ptr = ga → chrmat1.ptr = ga → chrmat2.ptr = ga →
      chrmat1.chr.length = chrmat1.size → chrmat2.chr.length = chrmat2.size →
      (∀ q ∈ ga.param, ∃ P : Parameter ℚ,
        q = f64.toBase P ∧ P.data0 < P.data1 ∧ fl P.data0 = P.data0 ∧ fl P.data1 = P.data1 ∧
        |P.data0| ≤ 2 ^ 960 ∧ |P.data1| ≤ 2 ^ 960 ∧ 1 ≤ P.N ∧ P.N ≤ 52 ∧
        (MAXVAL P.N : ℚ) * (|P.data0| + |P.data1|) ≤ 2 ^ 47 * (P.data1 - P.data0) ∧
        1 / 2 ^ 1000 ≤ P.data1 - P.data0) →
      (∃ o1 o2, RealValuedSimpleArithmeticRecombination x chr1 chr2 idx1 idx2 pos r
          = some (o1, o2) ∧
        ∀ (i : Nat) (p : BaseParameter ℚ), i < pos → ga.param[i]? = some p →
          (o1.gene i = p.encode (p.decode (chrmat1.gene i)) ∧
            (o1.gene i = chrmat1.gene i ∨ (1 ≤ GetValue (chrmat1.gene i) ∧
              o1.gene i = toBits p.size (GetValue (chrmat1.gene i) - 1)))) ∧
          (o2.gene i = p.encode (p.decode (chrmat2.gene i)) ∧
            (o2.gene i = chrmat2.gene i ∨ (1 ≤ GetValue (chrmat2.gene i) ∧
              o2.gene i = toBits p.size (GetValue (chrmat2.gene i) - 1))))) ∧
      (∃ o1 o2, RealValuedSingleArithmeticRecombination x chr1 chr2 idx1 idx2 pos r
          = some (o1, o2) ∧
        ∀ (i : Nat) (p : BaseParameter ℚ), i ≠ pos → ga.param[i]? = some p →
          (o1.gene i = p.encode (p.decode (chrmat1.gene i)) ∧
            (o1.gene i = chrmat1.gene i ∨ (1 ≤ GetValue (chrmat1.gene i) ∧
              o1.gene i = toBits p.size (GetValue (chrmat1.gene i) - 1)))) ∧
          (o2.gene i = p.encode (p.decode (chrmat2.gene i)) ∧
            (o2.gene i = chrmat2.gene i ∨ (1 ≤ GetValue (chrmat2.gene i) ∧
              o2.gene i = toBits p.size (GetValue (chrmat2.gene i) - 1)))))) ∧
    (∀ (x : Population ℤ) (ga : GeneticAlgorithm ℤ)
      (chr1 chr2 chrmat1 chrmat2 : Chromosome ℤ) (idx1 idx2 pos : Nat) (r : ℚ),
      x.mat idx1 = some chrmat1 → x.mat idx2 = some chrmat2 →
      chr1.ptr = ga → chr2.ptr = ga → chrmat1.ptr = ga → chrmat2.ptr = ga →
      (∀ q ∈ ga.param, ∃ P : Parameter ℤ, q = f64.toBaseInt P ∧ P.data0 < P.data1 ∧
        -2 ^ 31 ≤ P.data0 ∧ P.data1 < 2 ^ 31 ∧ P.data1 - P.data0 < 2 ^ 31 ∧ P.N ≤ 64) →
      (∃ o1 o2, RealValuedSimpleArithmeticRecombination x chr1 chr2 idx1 idx2 pos r
          = some (o1, o2) ∧
        ∀ (i : Nat) (p : BaseParameter ℤ), i < pos → ga.param[i]? = some p →
          o1.gene i = p.encode (p.decode (chrmat1.gene i)) ∧
          o2.gene i = p.encode (p.decode (chrmat2.gene i))) ∧
      (∃ o1 o2, RealValuedSingleArithmeticRecombination x chr1 chr2 idx1 idx2 pos r
          = some (o1, o2) ∧
        ∀ (i : Nat) (p : BaseParameter ℤ), i ≠ pos → ga.param[i]? = some p →
          o1.gene i = p.encode (p.decode (chrmat1.gene i)) ∧
          o2.gene i = p.encode (p.decode (chrmat2.gene i)))) := by
  constructor
  · intro x ga chr1 chr2 chrmat1 chrmat2 idx1 idx2 pos r h1 h2 hc1 hc2 hm1 hm2 hw1 hw2 hreal
    have henc : ∀ (i : Nat) (p : BaseParameter ℚ) (x : ℚ),
        ga.param[i]? = some p → (p.encode x).length = p.size := by
      intro i p x hp
      obtain ⟨P, hP, _, _, _, _, _, _, hN, _⟩ := hreal p (List.getElem?_mem hp)
      subst hP
      exact f64_toBase_encode_length P (by omega) x
    have hre : ∀ (c : Chromosome ℚ) (i : Nat) (p : BaseParameter ℚ) (g : List Bool),
        c.ptr = ga → c.chr.length = c.size → ga.param[i]? = some p →
        g = p.encode (p.decode (c.gene i)) →
        g = p.encode (p.decode (c.gene i)) ∧
          (g = c.gene i ∨ (1 ≤ GetValue (c.gene i) ∧
            g = toBits p.size (GetValue (c.gene i) - 1))) := by
      intro c i p g hc hw hp hg
      refine ⟨hg, ?_⟩
      obtain ⟨P, hP, hb, hlo, hhi, -, -, hN1, hN, hH, hw2⟩ := hreal p (List.getElem?_mem hp)
      subst hP
      rw [hg]
      exact f64_recode_gene c i P (by rw [hc]; exact hp) hw hb hlo hhi hN1 hN hH hw2
    constructor
    · obtain ⟨o1, o2, e, h⟩ := simple_copy_gene x ga chr1 chr2 chrmat1 chrmat2 idx1 idx2 pos r
        h1 h2 hc1 hc2 hm1 hm2 henc
      refine ⟨o1, o2, e, ?_⟩
      intro i p hi hp
      exact ⟨hre chrmat1 i p _ hm1 hw1 hp (h i p hi hp).1,
        hre chrmat2 i p _ hm2 hw2 hp (h i p hi hp).2⟩
    · obtain ⟨o1, o2, e, h⟩ := single_copy_gene x ga chr1 chr2 chrmat1 chrmat2 idx1 idx2 pos r
        h1 h2 hc1 hc2 hm1 hm2 henc
      refine ⟨o1, o2, e, ?_⟩
      intro i p hi hp
      exact ⟨hre chrmat1 i p _ hm1 hw1 hp (h i p hi hp).1,
        hre chrmat2 i p _ hm2 hw2 hp (h i p hi hp).2⟩
  · intro x ga chr1 chr2 chrmat1 chrmat2 idx1 idx2 pos r h1 h2 hc1 hc2 hm1 hm2 hint
    have henc : ∀ (i : Nat) (p : BaseParameter ℤ) (x : ℤ),
        ga.param[i]? = some p → (p.encode x).length = p.size := by
      intro i p x hp
      obtain ⟨P, hP, _, _, _, _, hN⟩ := hint p (List.getElem?_mem hp)
      subst hP
      show (P.encodeInt x).length = P.N
      rw [encodeInt_eq_toBits P x hN, toBits_length]
    exact ⟨simple_copy_gene x ga chr1 chr2 chrmat1 chrmat2 idx1 idx2 pos r
        h1 h2 hc1 hc2 hm1 hm2 henc,
      single_copy_gene x ga chr1 chr2 chrmat1 chrmat2 idx1 idx2 pos r
        h1 h2 hc1 hc2 hm1 hm2 henc⟩

/-- The Binairo parameter (`int`, bounds `[-1, 1]`, 2 bits): the bits `10` decode to
`int(0.33333333333333326) = 0`, and `0` is encoded as `01`. -/
theorem f64_binairo_recode :
    binairoParam.encodeInt (f64.decodeInt binairoParam [true, false]) = [false, true] := by
  have b1 : fl (-1) = (-1) :=
    fl_eval _ _ (-52) (-4503599627370496) (by norm_num) (by norm_num [abs_of_neg]) (by norm_num [abs_of_neg])
      (by norm_num) (by norm_num)
  have b2 : fl 2 = 2 :=
    fl_eval _ _ (-51) 4503599627370496 (by norm_num) (by norm_num [abs_of_pos]) (by norm_num [abs_of_pos])
      (by norm_num) (by norm_num)
  have b3 : fl 3 = 3 :=
    fl_eval _ _ (-51) 6755399441055744 (by norm_num) (by norm_num [abs_of_pos]) (by norm_num [abs_of_pos])
      (by norm_num) (by norm_num)
  have b4 : fl (2 / 3) = (6004799503160661 / 9007199254740992) :=
    fl_eval _ _ (-53) 6004799503160661 (by norm_num) (by norm_num [abs_of_pos]) (by norm_num [abs_of_pos])
      (by norm_num) (by norm_num)
  have b5 : fl (6004799503160661 / 4503599627370496) = (6004799503160661 / 4503599627370496) :=
    fl_eval _ _ (-52) 6004799503160661 (by norm_num) (by norm_num [abs_of_pos]) (by norm_num [abs_of_pos])
      (by norm_num) (by norm_num)
  have b6 : fl (1501199875790165 / 4503599627370496) = (1501199875790165 / 4503599627370496) :=
    fl_eval _ _ (-54) 6004799503160660 (by norm_num) (by norm_num [abs_of_pos]) (by norm_num [abs_of_pos])
      (by norm_num) (by norm_num)
  have hM : ((MAXVAL 2 : ℕ) : ℚ) = 3 := by norm_num [MAXVAL]
  have hG : GetValue [true, false] = 2 := by decide
  have d : f64.decodeInt binairoParam [true, false] = 0 := by
    have e : f64.decodeInt binairoParam [true, false] = truncate ((1501199875790165 / 4503599627370496) : ℚ) := by
      simp only [f64.decodeInt, f64.add, f64.mul, f64.div, f64.ofNat, f64.ofInt, hG,
        binairoParam, hM, Parameter.data0, Parameter.data1]
      norm_num [fl_zero, b1, b2, b3, b4, b5, b6]
    rw [e]
    norm_num [truncate]
  rw [d, encodeInt_eq_toBits _ _ (by decide)]
  have e : binairoParam.encodeValueInt 0 = 1 := by decide
  rw [e]
  decide

/-- C25, counterexample. Simple recombination with `pos = 1` and `r = 1/2`. (a) Two
real genes with bounds `[0, 10]` and width 8, parent `idx1` with the bits `00001001` in
gene 0: offspring 1 holds `00001000` in gene 0. (b) The integer-typed parameters of
`test_ga_binairo` (bounds `[-1, 1]`, 2 bits), parent `idx1` with the bits `10` in gene 0:
offspring 1 holds `01` in gene 0. -/
theorem arithmetic_copy_differs :
    (∃ o1 o2, RealValuedSimpleArithmeticRecombination
        (duoPop
          (plainChr [f64.toBase scenarioParam, f64.toBase scenarioParam] 0
            (toBits 8 9 ++ List.replicate 8 false))
          (plainChr [f64.toBase scenarioParam, f64.toBase scenarioParam] 0
            (List.replicate 16 false)))
        (plainChr [f64.toBase scenarioParam, f64.toBase scenarioParam] 0 [])
        (plainChr [f64.toBase scenarioParam, f64.toBase scenarioParam] 0 [])
        0 1 1 (1 / 2) = some (o1, o2) ∧
      (plainChr [f64.toBase scenarioParam, f64.toBase scenarioParam] 0
          (toBits 8 9 ++ List.replicate 8 false)).gene 0 = toBits 8 9 ∧
      o1.gene 0 = toBits 8 8 ∧
      o1.gene 0 ≠ (plainChr [f64.toBase scenarioParam, f64.toBase scenarioParam] 0
          (toBits 8 9 ++ List.replicate 8 false)).gene 0) ∧
    (∃ o1 o2, RealValuedSimpleArithmeticRecombination
        (duoPop
          (plainChr [f64.toBaseInt binairoParam, f64.toBaseInt binairoParam] 0
            [true, false, false, false])
          (plainChr [f64.toBaseInt binairoParam, f64.toBaseInt binairoParam] 0
            [false, false, false, false]))
        (plainChr [f64.toBaseInt binairoParam, f64.toBaseInt binairoParam] 0 [])
        (plainChr [f64.toBaseInt binairoParam, f64.toBaseInt binairoParam] 0 [])
        0 1 1 (1 / 2) = some (o1, o2) ∧
      (plainChr [f64.toBaseInt binairoParam, f64.toBaseInt binairoParam] 0
          [true, false, false, false]).gene 0 = [true, false] ∧
      o1.gene 0 = [false, true] ∧
      o1.gene 0 ≠ (plainChr [f64.toBaseInt binairoParam, f64.toBaseInt binairoParam] 0
          [true, false, false, false]).gene 0) := by
  constructor
  · have henc : ∀ (i : Nat) (p : BaseParameter ℚ) (x : ℚ),
        (plainGA [f64.toBase scenarioParam, f64.toBase scenarioParam] 0).param[i]? = some p →
        (p.encode x).length = p.size := by
      intro i p x hp
      have hm := List.getElem?_mem hp
      have hq : p = f64.toBase scenarioParam := by
        simp only [plainGA, List.mem_cons, List.mem_singleton, or_self, List.not_mem_nil,
          or_false] at hm
        exact hm
      subst hq
      exact f64_toBase_encode_length scenarioParam (by decide) x
    obtain ⟨o1, o2, e, h⟩ := simple_copy_gene
      (duoPop
        (plainChr [f64.toBase scenarioParam, f64.toBase scenarioParam] 0
          (toBits 8 9 ++ List.replicate 8 false))
        (plainChr [f64.toBase scenarioParam, f64.toBase scenarioParam] 0
          (List.replicate 16 false)))
      (plainGA [f64.toBase scenarioParam, f64.toBase scenarioParam] 0)
      (plainChr [f64.toBase scenarioParam, f64.toBase scenarioParam] 0 [])
      (plainChr [f64.toBase scenarioParam, f64.toBase scenarioParam] 0 [])
      (plainChr [f64.toBase scenarioParam, f64.toBase scenarioParam] 0
        (toBits 8 9 ++ List.replicate 8 false))
      (plainChr [f64.toBase scenarioParam, f64.toBase scenarioParam] 0
        (List.replicate 16 false))
      0 1 1 (1 / 2) rfl rfl rfl rfl rfl rfl henc
    have hg : (plainChr [f64.toBase scenarioParam, f64.toBase scenarioParam] 0
        (toBits 8 9 ++ List.replicate 8 false)).gene 0 = toBits 8 9 := by decide
    have h0 := (h 0 (f64.toBase scenarioParam) (by decide) rfl).1
    rw [hg] at h0
    have h1 : o1.gene 0 = toBits 8 8 := h0.trans f64_recode_nine.2.1
    refine ⟨o1, o2, e, hg, h1, ?_⟩
    rw [h1, hg]
    decide
  · have henc : ∀ (i : Nat) (p : BaseParameter ℤ) (x : ℤ),
        (plainGA [f64.toBaseInt binairoParam, f64.toBaseInt binairoParam] 0).param[i]? = some p →
        (p.encode x).length = p.size := by
      intro i p x hp
      have hm := List.getElem?_mem hp
      have hq : p = f64.toBaseInt binairoParam := by
        simp only [plainGA, List.mem_cons, List.mem_singleton, or_self, List.not_mem_nil,
          or_false] at hm
        exact hm
      subst hq
      show (binairoParam.encodeInt x).length = binairoParam.N
      rw [encodeInt_eq_toBits binairoParam x (by decide), toBits_length]
    obtain ⟨o1, o2, e, h⟩ := simple_copy_gene
      (duoPop
        (plainChr [f64.toBaseInt binairoParam, f64.toBaseInt binairoParam] 0
          [true, false, false, false])
        (plainChr [f64.toBaseInt binairoParam, f64.toBaseInt binairoParam] 0
          [false, false, false, false]))
      (plainGA [f64.toBaseInt binairoParam, f64.toBaseInt binairoParam] 0)
      (plainChr [f64.toBaseInt binairoParam, f64.toBaseInt binairoParam] 0 [])
      (plainChr [f64.toBaseInt binairoParam, f64.toBaseInt binairoParam] 0 [])
      (plainChr [f64.toBaseInt binairoParam, f64.toBaseInt binairoParam] 0
        [true, false, false, false])
      (plainChr [f64.toBaseInt binairoParam, f64.toBaseInt binairoParam] 0
        [false, false, false, false])
      0 1 1 (1 / 2) rfl rfl rfl rfl rfl rfl henc
    have hg : (plainChr [f64.toBaseInt binairoParam, f64.toBaseInt binairoParam] 0
        [true, false, false, false]).gene 0 = [true, false] := by decide
    have h0 := (h 0 (f64.toBaseInt binairoParam) (by decide) rfl).1
    rw [hg] at h0
    have h1 : o1.gene 0 = [false, true] := h0.trans f64_binairo_recode
    refine ⟨o1, o2, e, hg, h1, ?_⟩
    rw [h1, hg]
    decide

/-- C25, witness: two real genes of 8 bits with bounds `[0, 10]`, the parents
`11111111 00000000` and `11111111 11111111`, `pos = 1` and `r = 1/2`; and two Binairo
genes, the parents `10 00` and `00 00`. -/
theorem arithmetic_copy_witness :
    ((∃ o1 o2, RealValuedSimpleArithmeticRecombination
        (duoPop
          (plainChr [f64.toBase scenarioParam, f64.toBase scenarioParam] 0
            (List.replicate 8 true ++ List.replicate 8 false))
          (plainChr [f64.toBase scenarioParam, f64.toBase scenarioParam] 0
            (List.replicate 16 true)))
        (plainChr [f64.toBase scenarioParam, f64.toBase scenarioParam] 0 [])
        (plainChr [f64.toBase scenarioParam, f64.toBase scenarioParam] 0 [])
        0 1 1 (1 / 2) = some (o1, o2) ∧
      ∀ (i : Nat) (p : BaseParameter ℚ), i < 1 →
        (plainGA [f64.toBase scenarioParam, f64.toBase scenarioParam] 0).param[i]? = some p →
        (o1.gene i = p.encode (p.decode
            ((plainChr [f64.toBase scenarioParam, f64.toBase scenarioParam] 0
              (List.replicate 8 true ++ List.replicate 8 false)).gene i)) ∧
          (o1.gene i = (plainChr [f64.toBase scenarioParam, f64.toBase scenarioParam] 0
              (List.replicate 8 true ++ List.replicate 8 false)).gene i ∨
            (1 ≤ GetValue ((plainChr [f64.toBase scenarioParam, f64.toBase scenarioParam] 0
                (List.replicate 8 true ++ List.replicate 8 false)).gene i) ∧
              o1.gene i = toBits p.size
                (GetValue ((plainChr [f64.toBase scenarioParam, f64.toBase scenarioParam] 0
                  (List.replicate 8 true ++ List.replicate 8 false)).gene i) - 1)))) ∧
        (o2.gene i = p.encode (p.decode
            ((plainChr [f64.toBase scenarioParam, f64.toBase scenarioParam] 0
              (List.replicate 16 true)).gene i)) ∧
          (o2.gene i = (plainChr [f64.toBase scenarioParam, f64.toBase scenarioParam] 0
              (List.replicate 16 true)).gene i ∨
            (1 ≤ GetValue ((plainChr [f64.toBase scenarioParam, f64.toBase scenarioParam] 0
                (List.replicate 16 true)).gene i) ∧
              o2.gene i = toBits p.size
                (GetValue ((plainChr [f64.toBase scenarioParam, f64.toBase scenarioParam] 0
                  (List.replicate 16 true)).gene i) - 1))))) ∧
    (∃ o1 o2, RealValuedSingleArithmeticRecombination
        (duoPop
          (plainChr [f64.toBase scenarioParam, f64.toBase scenarioParam] 0
            (List.replicate 8 true ++ List.replicate 8 false))
          (plainChr [f64.toBase scenarioParam, f64.toBase scenarioParam] 0
            (List.replicate 16 true)))
        (plainChr [f64.toBase scenarioParam, f64.toBase scenarioParam] 0 [])
        (plainChr [f64.toBase scenarioParam, f64.toBase scenarioParam] 0 [])
        0 1 1 (1 / 2) = some (o1, o2) ∧
      ∀ (i : Nat) (p : BaseParameter ℚ), i ≠ 1 →
        (plainGA [f64.toBase scenarioParam, f64.toBase scenarioParam] 0).param[i]? = some p →
        (o1.gene i = p.encode (p.decode
            ((plainChr [f64.toBase scenarioParam, f64.toBase scenarioParam] 0
              (List.replicate 8 true ++ List.replicate 8 false)).gene i)) ∧
          (o1.gene i = (plainChr [f64.toBase scenarioParam, f64.toBase scenarioParam] 0
              (List.replicate 8 true ++ List.replicate 8 false)).gene i ∨
            (1 ≤ GetValue ((plainChr [f64.toBase scenarioParam, f64.toBase scenarioParam] 0
                (List.replicate 8 true ++ List.replicate 8 false)).gene i) ∧
              o1.gene i = toBits p.size
                (GetValue ((plainChr [f64.toBase scenarioParam, f64.toBase scenarioParam] 0
                  (List.replicate 8 true ++ List.replicate 8 false)).gene i) - 1)))) ∧
        (o2.gene i = p.encode (p.decode
            ((plainChr [f64.toBase scenarioParam, f64.toBase scenarioParam] 0
              (List.replicate 16 true)).gene i)) ∧
          (o2.gene i = (plainChr [f64.toBase scenarioParam, f64.toBase scenarioParam] 0
              (List.replicate 16 true)).gene i ∨
            (1 ≤ GetValue ((plainChr [f64.toBase scenarioParam, f64.toBase scenarioParam] 0
                (List.replicate 16 true)).gene i) ∧
              o2.gene i = toBits p.size
                (GetValue ((plainChr [f64.toBase scenarioParam, f64.toBase scenarioParam] 0
                  (List.replicate 16 true)).gene i) - 1)))))) ∧
    ((∃ o1 o2, RealValuedSimpleArithmeticRecombination
        (duoPop
          (plainChr [f64.toBaseInt binairoParam, f64.toBaseInt binairoParam] 0
            [true, false, false, false])
          (plainChr [f64.toBaseInt binairoParam, f64.toBaseInt binairoParam] 0
            [false, false, false, false]))
        (plainChr [f64.toBaseInt binairoParam, f64.toBaseInt binairoParam] 0 [])
        (plainChr [f64.toBaseInt binairoParam, f64.toBaseInt binairoParam] 0 [])
        0 1 1 (1 / 2) = some (o1, o2) ∧
      ∀ (i : Nat) (p : BaseParameter ℤ), i < 1 →
        (plainGA [f64.toBaseInt binairoParam, f64.toBaseInt binairoParam] 0).param[i]? = some p →
        o1.gene i = p.encode (p.decode
          ((plainChr [f64.toBaseInt binairoParam, f64.toBaseInt binairoParam] 0
            [true, false, false, false]).gene i)) ∧
        o2.gene i = p.encode (p.decode
          ((plainChr [f64.toBaseInt binairoParam, f64.toBaseInt binairoParam] 0
            [false, false, false, false]).gene i))) ∧
    (∃ o1 o2, RealValuedSingleArithmeticRecombination
        (duoPop
          (plainChr [f64.toBaseInt binairoParam, f64.toBaseInt binairoParam] 0
            [true, false, false, false])
          (plainChr [f64.toBaseInt binairoParam, f64.toBaseInt binairoParam] 0
            [false, false, false, false]))
        (plainChr [f64.toBaseInt binairoParam, f64.toBaseInt binairoParam] 0 [])
        (plainChr [f64.toBaseInt binairoParam, f64.toBaseInt binairoParam] 0 [])
        0 1 1 (1 / 2) = some (o1, o2) ∧
      ∀ (i : Nat) (p : BaseParameter ℤ), i ≠ 1 →
        (plainGA [f64.toBaseInt binairoParam, f64.toBaseInt binairoParam] 0).param[i]? = some p →
        o1.gene i = p.encode (p.decode
          ((plainChr [f64.toBaseInt binairoParam, f64.toBaseInt binairoParam] 0
            [true, false, false, false]).gene i)) ∧
        o2.gene i = p.encode (p.decode
          ((plainChr [f64.toBaseInt binairoParam, f64.toBaseInt binairoParam] 0
            [false, false, false, false]).gene i)))) :=
  ⟨arithmetic_copy.1
    (duoPop
      (plainChr [f64.toBase scenarioParam, f64.toBase scenarioParam] 0
        (List.replicate 8 true ++ List.replicate 8 false))
      (plainChr [f64.toBase scenarioParam, f64.toBase scenarioParam] 0
        (List.replicate 16 true)))
    (plainGA [f64.toBase scenarioParam, f64.toBase scenarioParam] 0)
    (plainChr [f64.toBase scenarioParam, f64.toBase scenarioParam] 0 [])
    (plainChr [f64.toBase scenarioParam, f64.toBase scenarioParam] 0 [])
    (plainChr [f64.toBase scenarioParam, f64.toBase scenarioParam] 0
      (List.replicate 8 true ++ List.replicate 8 false))
    (plainChr [f64.toBase scenarioParam, f64.toBase scenarioParam] 0
      (List.replicate 16 true))
    0 1 1 (1 / 2) rfl rfl rfl rfl rfl rfl (by decide) (by decide)
    (by
      intro q hq
      have hq2 : q = f64.toBase scenarioParam := by
        simp only [plainGA, List.mem_cons, List.mem_singleton, or_self, List.not_mem_nil,
          or_false] at hq
        exact hq
      exact ⟨scenarioParam, hq2,
        by norm_num [Parameter.data0, Parameter.data1, scenarioParam],
        by simpa [Parameter.data0, scenarioParam] using fl_zero,
        by simpa [Parameter.data1, scenarioParam] using fl_natCast 10 (by norm_num),
        by norm_num [Parameter.data0, scenarioParam],
        by norm_num [Parameter.data1, scenarioParam],
        by decide, by decide,
        by norm_num [scenarioParam, Parameter.data0, Parameter.data1, MAXVAL],
        by norm_num [scenarioParam, Parameter.data0, Parameter.data1]⟩),
  arithmetic_copy.2
    (duoPop
      (plainChr [f64.toBaseInt binairoParam, f64.toBaseInt binairoParam] 0
        [true, false, false, false])
      (plainChr [f64.toBaseInt binairoParam, f64.toBaseInt binairoParam] 0
        [false, false, false, false]))
    (plainGA [f64.toBaseInt binairoParam, f64.toBaseInt binairoParam] 0)
    (plainChr [f64.toBaseInt binairoParam, f64.toBaseInt binairoParam] 0 [])
    (plainChr [f64.toBaseInt binairoParam, f64.toBaseInt binairoParam] 0 [])
    (plainChr [f64.toBaseInt binairoParam, f64.toBaseInt binairoParam] 0
      [true, false, false, false])
    (plainChr [f64.toBaseInt binairoParam, f64.toBaseInt binairoParam] 0
      [false, false, false, false])
    0 1 1 (1 / 2) rfl rfl rfl rfl rfl rfl
    (by
      intro q hq
      have hq2 : q = f64.toBaseInt binairoParam := by
        simp only [plainGA, List.mem_cons, List.mem_singleton, or_self, List.not_mem_nil,
          or_false] at hq
        exact hq
      exact ⟨binairoParam, hq2, by decide, by decide, by decide, by decide, by decide⟩)⟩

/-! ## Binary64: arithmetic cross-over, the values handed to `initGene` -/

/-- The arithmetic of the blend: `a` and `b` are the rounded products, `c` the rounded
sum and `r1` the rounded difference `1 - r`. -/
theorem blend_err_arith (r r1 t o a b c η : ℚ) (h0 : 0 ≤ r) (h1 : r ≤ 1) (hη : 0 ≤ η)
    (hr0 : 0 ≤ r1) (hr1 : r1 ≤ 1) (hr : |r1 - (1 - r)| ≤ (1 - r) / 2 ^ 53)
    (ha : |a - r * t| ≤ |r * t| / 2 ^ 53 + η)
    (hb : |b - r1 * o| ≤ |r1 * o| / 2 ^ 53 + η)
    (hc : |c - (a + b)| ≤ |a + b| / 2 ^ 53) :
    |c - (r * t + (1 - r) * o)| ≤ (|t| + |o|) / 2 ^ 50 + 3 * η := by
  have hT : 0 ≤ |t| := abs_nonneg t
  have hO : 0 ≤ |o| := abs_nonneg o
  have e1 : |r * t| ≤ |t| := by
    rw [abs_mul, abs_of_nonneg h0]
    exact mul_le_of_le_one_left hT h1
  have e2 : |r1 * o| ≤ |o| := by
    rw [abs_mul, abs_of_nonneg hr0]
    exact mul_le_of_le_one_left hO hr1
  have e3 : |(r1 - (1 - r)) * o| ≤ |o| / 2 ^ 53 := by
    rw [abs_mul]
    have h2 : |r1 - (1 - r)| ≤ 1 / 2 ^ 53 := by
      have : (1 - r) / 2 ^ 53 ≤ 1 / 2 ^ 53 :=
        div_le_div_of_nonneg_right (by linarith) (by positivity)
      linarith
    calc |r1 - (1 - r)| * |o| ≤ 1 / 2 ^ 53 * |o| := mul_le_mul_of_nonneg_right h2 hO
      _ = |o| / 2 ^ 53 := by ring
  have e4 : |r * t + (1 - r) * o| ≤ |t| + |o| := by
    have h3 : |(1 - r) * o| ≤ |o| := by
      rw [abs_mul, abs_of_nonneg (by linarith : (0 : ℚ) ≤ 1 - r)]
      exact mul_le_of_le_one_left hO (by linarith)
    exact le_trans (abs_add _ _) (add_le_add e1 h3)
  have a1 := abs_le.mp ha
  have b1 := abs_le.mp hb
  have x3 := abs_le.mp e3
  have x4 := abs_le.mp e4
  have d1 : |t| / 2 ^ 53 = 1 / 2 ^ 53 * |t| := by ring
  have d2 : |o| / 2 ^ 53 = 1 / 2 ^ 53 * |o| := by ring
  have f1 : |r * t| / 2 ^ 53 ≤ |t| / 2 ^ 53 := div_le_div_of_nonneg_right e1 (by positivity)
  have f2 : |r1 * o| / 2 ^ 53 ≤ |o| / 2 ^ 53 := div_le_div_of_nonneg_right e2 (by positivity)
  have hsplit : r1 * o = (1 - r) * o + (r1 - (1 - r)) * o := by ring
  -- the sum before its rounding
  have s1 : a + b - (r * t + (1 - r) * o) ≤ |t| / 2 ^ 53 + 2 * (|o| / 2 ^ 53) + 2 * η := by
    linarith [a1.2, b1.2, x3.2]
  have s2 : -(|t| / 2 ^ 53 + 2 * (|o| / 2 ^ 53) + 2 * η) ≤ a + b - (r * t + (1 - r) * o) := by
    linarith [a1.1, b1.1, x3.1]
  have s3 : |a + b| ≤ |t| + |o| + (|t| / 2 ^ 53 + 2 * (|o| / 2 ^ 53) + 2 * η) := by
    rw [abs_le]
    constructor <;> linarith [x4.1, x4.2]
  have s4 : |a + b| / 2 ^ 53
      ≤ (|t| + |o| + (|t| / 2 ^ 53 + 2 * (|o| / 2 ^ 53) + 2 * η)) / 2 ^ 53 :=
    div_le_div_of_nonneg_right s3 (by positivity)
  have c1 := abs_le.mp (le_trans hc s4)
  have k1 : (|t| + |o| + (|t| / 2 ^ 53 + 2 * (|o| / 2 ^ 53) + 2 * η)) / 2 ^ 53
      + (|t| / 2 ^ 53 + 2 * (|o| / 2 ^ 53) + 2 * η) ≤ (|t| + |o|) / 2 ^ 50 + 3 * η := by
    have g1 : (|t| + |o| + (|t| / 2 ^ 53 + 2 * (|o| / 2 ^ 53) + 2 * η)) / 2 ^ 53
        + (|t| / 2 ^ 53 + 2 * (|o| / 2 ^ 53) + 2 * η)
        = |t| * (2 / 2 ^ 53 + 1 / 2 ^ 106) + |o| * (3 / 2 ^ 53 + 2 / 2 ^ 106)
          + η * (2 + 2 / 2 ^ 53) := by ring
    have g2 : |t| * (2 / 2 ^ 53 + 1 / 2 ^ 106) ≤ |t| * (1 / 2 ^ 50) :=
      mul_le_mul_of_nonneg_left (by norm_num) hT
    have g3 : |o| * (3 / 2 ^ 53 + 2 / 2 ^ 106) ≤ |o| * (1 / 2 ^ 50) :=
      mul_le_mul_of_nonneg_left (by norm_num) hO
    have g4 : η * (2 + 2 / 2 ^ 53) ≤ η * 3 := mul_le_mul_of_nonneg_left (by norm_num) hη
    have g5 : (|t| + |o|) / 2 ^ 50 = |t| * (1 / 2 ^ 50) + |o| * (1 / 2 ^ 50) := by ring
    linarith
  rw [abs_le]
  constructor <;> linarith [c1.1, c1.2]

/-- The rounded blend `r * t + (1 - r) * o` against the exact one. -/
theorem f64_blend_err (r t o : ℚ) (hr : fl r = r) (h0 : 0 ≤ r) (h1 : r ≤ 1) :
    |f64.add (f64.mul r t) (f64.mul (f64.sub 1 r) o) - (r * t + (1 - r) * o)|
      ≤ (|t| + |o|) / 2 ^ 50 + 3 * (1 / 2 ^ 1075) := by
  unfold f64.add f64.mul f64.sub
  have hr1 := fl_err_sub 1 r fl_one hr
  rw [abs_of_nonneg (by linarith : (0 : ℚ) ≤ 1 - r)] at hr1
  exact blend_err_arith r (fl (1 - r)) t o (fl (r * t)) (fl (fl (1 - r) * o))
    (fl (fl (r * t) + fl (fl (1 - r) * o))) (1 / 2 ^ 1075) h0 h1 (by positivity)
    (fl_nonneg (by linarith)) (fl_le_one (by linarith)) hr1 (fl_err _) (fl_err _)
    (fl_err_add _ _ (fl_idem _) (fl_idem _))

theorem abs_le_of_mem_Icc (lo hi v : ℚ) (h1 : lo ≤ v) (h2 : v ≤ hi) : |v| ≤ |lo| + |hi| := by
  rw [abs_le]
  constructor
  · have := neg_abs_le lo
    have := abs_nonneg hi
    linarith
  · have := le_abs_self hi
    have := abs_nonneg lo
    linarith

/-- The real-typed blend of two values of `[lo, hi]` lies within
`(|lo| + |hi|) / 2^49 + 3 * 2^-1075` of the interval. -/
theorem blend_real_near (r lo hi own other : ℚ) (hr : fl r = r) (h0 : 0 ≤ r) (h1 : r ≤ 1)
    (ho : lo ≤ own ∧ own ≤ hi) (ht : lo ≤ other ∧ other ≤ hi) :
    lo - ((|lo| + |hi|) / 2 ^ 49 + 3 * (1 / 2 ^ 1075)) ≤ blend r other own ∧
    blend r other own ≤ hi + ((|lo| + |hi|) / 2 ^ 49 + 3 * (1 / 2 ^ 1075)) ∧
    fl (blend r other own) = blend r other own := by
  have e := abs_le.mp (f64_blend_err r other own hr h0 h1)
  have a1 := abs_le_of_mem_Icc lo hi own ho.1 ho.2
  have a2 := abs_le_of_mem_Icc lo hi other ht.1 ht.2
  have hk : (|other| + |own|) / 2 ^ 50 ≤ (|lo| + |hi|) / 2 ^ 49 := by
    have : (|lo| + |hi|) / 2 ^ 49 = (2 * (|lo| + |hi|)) / 2 ^ 50 := by ring
    rw [this]
    exact div_le_div_of_nonneg_right (by linarith) (by positivity)
  have x1 : lo ≤ r * other + (1 - r) * own := by nlinarith [ho.1, ht.1]
  have x2 : r * other + (1 - r) * own ≤ hi := by nlinarith [ho.2, ht.2]
  have hb : blend r other own
      = f64.add (f64.mul r other) (f64.mul (f64.sub 1 r) own) := rfl
  rw [hb]
  refine ⟨by linarith [e.1], by linarith [e.2], ?_⟩
  unfold f64.add
  exact fl_idem _

/-- The integer-typed blend of two values of `[lo, hi]` lies in `[lo, hi]`, or it is
`lo - 1` with `0 < lo`, or `hi + 1` with `hi < 0`. -/
theorem blend_int_near (r : ℚ) (lo hi own other : ℤ) (hr : fl r = r) (h0 : 0 ≤ r)
    (h1 : r ≤ 1) (hlo : -2 ^ 31 ≤ lo) (hhi : hi < 2 ^ 31)
    (ho : lo ≤ own ∧ own ≤ hi) (ht : lo ≤ other ∧ other ≤ hi) :
    (lo ≤ blend r other own ∧ blend r other own ≤ hi) ∨
    (blend r other own = lo - 1 ∧ 0 < lo) ∨ (blend r other own = hi + 1 ∧ hi < 0) := by
  have hb : blend r other own
      = truncate (f64.add (f64.mul r (other : ℚ)) (f64.mul (f64.sub 1 r) (own : ℚ))) := rfl
  have e := abs_le.mp (f64_blend_err r (other : ℚ) (own : ℚ) hr h0 h1)
  have c1 : (lo : ℚ) ≤ (own : ℚ) := by exact_mod_cast ho.1
  have c2 : (own : ℚ) ≤ (hi : ℚ) := by exact_mod_cast ho.2
  have c3 : (lo : ℚ) ≤ (other : ℚ) := by exact_mod_cast ht.1
  have c4 : (other : ℚ) ≤ (hi : ℚ) := by exact_mod_cast ht.2
  have c5 : (-2 ^ 31 : ℚ) ≤ (lo : ℚ) := by exact_mod_cast hlo
  have c6 : (hi : ℚ) < 2 ^ 31 := by exact_mod_cast hhi
  have a1 : |(own : ℚ)| ≤ 2 ^ 31 := by rw [abs_le]; constructor <;> linarith
  have a2 : |(other : ℚ)| ≤ 2 ^ 31 := by rw [abs_le]; constructor <;> linarith
  have hk : (|(other : ℚ)| + |(own : ℚ)|) / 2 ^ 50 + 3 * (1 / 2 ^ 1075) ≤ 1 / 2 := by
    have k1 : (|(other : ℚ)| + |(own : ℚ)|) / 2 ^ 50 ≤ (2 ^ 31 + 2 ^ 31) / 2 ^ 50 :=
      div_le_div_of_nonneg_right (by linarith) (by positivity)
    have k2 : ((2 : ℚ) ^ 31 + 2 ^ 31) / 2 ^ 50 ≤ 1 / 4 := by norm_num
    have k3 : (3 : ℚ) * (1 / 2 ^ 1075) ≤ 1 / 4 := by
      have : (1 : ℚ) / 2 ^ 1075 ≤ 1 / 2 ^ 4 :=
        div_le_div_of_nonneg_left (by norm_num) (by positivity)
          (pow_le_pow_right₀ (by norm_num) (by norm_num))
      have : (1 : ℚ) / 2 ^ 4 = 1 / 16 := by norm_num
      linarith
    linarith
  have x1 : (lo : ℚ) ≤ r * (other : ℚ) + (1 - r) * (own : ℚ) := by nlinarith
  have x2 : r * (other : ℚ) + (1 - r) * (own : ℚ) ≤ (hi : ℚ) := by nlinarith
  obtain ⟨q, hq⟩ : ∃ q : ℚ,
      q = f64.add (f64.mul r (other : ℚ)) (f64.mul (f64.sub 1 r) (own : ℚ)) := ⟨_, rfl⟩
  rw [hb, ← hq]
  rw [← hq] at e
  have q1 : (lo : ℚ) - 1 / 2 ≤ q := by linarith [e.1]
  have q2 : q ≤ (hi : ℚ) + 1 / 2 := by linarith [e.2]
  unfold truncate
  by_cases hq0 : 0 ≤ q
  · rw [if_pos hq0]
    have f0 : 0 ≤ ⌊q⌋ := Int.floor_nonneg.mpr hq0
    have f1 : ⌊q⌋ ≤ hi := by
      have h3 : (⌊q⌋ : ℚ) ≤ q := Int.floor_le q
      have h4 : (⌊q⌋ : ℚ) < (hi : ℚ) + 1 := by linarith
      have h5 : (⌊q⌋ : ℚ) < ((hi + 1 : ℤ) : ℚ) := by push_cast; exact h4
      have h6 : ⌊q⌋ < hi + 1 := by exact_mod_cast h5
      omega
    have f2 : lo - 1 ≤ ⌊q⌋ := by
      rw [Int.le_floor]
      push_cast
      linarith
    by_cases hl : lo ≤ ⌊q⌋
    · exact Or.inl ⟨hl, f1⟩
    · exact Or.inr (Or.inl ⟨by omega, by omega⟩)
  · rw [if_neg hq0]
    have hq0' : q < 0 := lt_of_not_ge hq0
    have f0 : ⌈q⌉ ≤ 0 := by
      rw [Int.ceil_le]
      push_cast
      exact hq0'.le
    have f1 : lo ≤ ⌈q⌉ := by
      have h3 : q ≤ (⌈q⌉ : ℚ) := Int.le_ceil q
      have h4 : (lo : ℚ) - 1 < (⌈q⌉ : ℚ) := by linarith
      have h5 : ((lo - 1 : ℤ) : ℚ) < (⌈q⌉ : ℚ) := by push_cast; exact h4
      have h6 : lo - 1 < ⌈q⌉ := by exact_mod_cast h5
      omega
    have f2 : ⌈q⌉ ≤ hi + 1 := by
      rw [Int.ceil_le]
      push_cast
      linarith
    by_cases hl : ⌈q⌉ ≤ hi
    · exact Or.inl ⟨f1, hl⟩
    · exact Or.inr (Or.inr ⟨by omega, by omega⟩)

/-- The arithmetic of `encode` at a value within `ε` of the interval: `d` is the distance
from the lower bound (or to it), `D` is `1` (or `0`), `q` the rounded quotient. -/
theorem near_arith (M w K d D q η : ℚ) (hw : 0 < w) (hM0 : 0 ≤ M) (hM47 : M ≤ 2 ^ 47)
    (hH : M * K ≤ 2 ^ 47 * w) (hηM : η * M ≤ w / 2 ^ 20) (hη1 : η ≤ 1 / 2 ^ 53)
    (hD1 : D ≤ 1) (hd0 : 0 ≤ d) (hd : d ≤ D * w + (K / 2 ^ 49 + 3 * η))
    (hq : |q - M * d / w| ≤ M * d / w / 2 ^ 50 + η) :
    q < M * D + 1 := by
  obtain ⟨x, hx⟩ : ∃ x : ℚ, x = M * d / w := ⟨_, rfl⟩
  rw [← hx] at hq
  have hx0 : 0 ≤ x := by rw [hx]; exact div_nonneg (mul_nonneg hM0 hd0) hw.le
  have h1 : M * d ≤ (M * D + (1 / 4 + 3 / 2 ^ 20)) * w := by
    have h2 : M * d ≤ M * (D * w + (K / 2 ^ 49 + 3 * η)) := mul_le_mul_of_nonneg_left hd hM0
    have h3 : M * (D * w + (K / 2 ^ 49 + 3 * η))
        = M * D * w + (M * K) / 2 ^ 49 + 3 * (η * M) := by ring
    have h4 : (M * K) / 2 ^ 49 ≤ (2 ^ 47 * w) / 2 ^ 49 :=
      div_le_div_of_nonneg_right hH (by positivity)
    have h5 : ((2 : ℚ) ^ 47 * w) / 2 ^ 49 = 1 / 4 * w := by ring
    have h6 : 3 * (w / 2 ^ 20) = 3 / 2 ^ 20 * w := by ring
    have h7 : (M * D + (1 / 4 + 3 / 2 ^ 20)) * w = M * D * w + 1 / 4 * w + 3 / 2 ^ 20 * w := by
      ring
    linarith
  have hxu : x ≤ M * D + (1 / 4 + 3 / 2 ^ 20) := by
    rw [hx, div_le_iff₀ hw]
    exact h1
  have hMD : M * D ≤ M := mul_le_of_le_one_right hM0 hD1
  have hx50 : x / 2 ^ 50 ≤ 1 / 4 := by
    have c : (1 : ℚ) / 4 + 3 / 2 ^ 20 ≤ 1 := by norm_num
    have : x ≤ 2 ^ 47 + 1 := by linarith
    have h2 : x / 2 ^ 50 ≤ (2 ^ 47 + 1) / 2 ^ 50 :=
      div_le_div_of_nonneg_right this (by positivity)
    have h3 : ((2 : ℚ) ^ 47 + 1) / 2 ^ 50 ≤ 1 / 4 := by norm_num
    linarith
  have q1 := abs_le.mp hq
  have c1 : (3 : ℚ) / 2 ^ 20 ≤ 1 / 8 := by norm_num
  have c2 : (1 : ℚ) / 2 ^ 53 ≤ 1 / 8 := by norm_num
  linarith [q1.2]

theorem double_to_uint64_nonpos (q : ℚ) (hq : q ≤ 0) : double_to_uint64 q = 0 := by
  unfold double_to_uint64 truncate
  by_cases h0 : 0 ≤ q
  · have : q = 0 := le_antisymm hq h0
    subst this
    simp
  · rw [if_neg h0]
    have : ⌈q⌉ ≤ 0 := by
      rw [Int.ceil_le]
      exact_mod_cast hq
    rw [Int.toNat_of_nonpos this]
    rfl

/-- The quotient that `encode` converts to an integer, at a `double` within
`(|lo| + |hi|) / 2^49 + 3 * 2^-1075` of `[lo, hi]`: it lies in `(-1, 2^N)`, so the
conversion is defined and the integer is at most `MAXVAL`. -/
theorem f64_encodeValue_range (p : Parameter ℚ) (v : ℚ) (hb : p.data0 < p.data1)
    (hlo : fl p.data0 = p.data0) (hhi : fl p.data1 = p.data1) (hv : fl v = v)
    (hN1 : 1 ≤ p.N) (hN : p.N ≤ 52)
    (hH : (MAXVAL p.N : ℚ) * (|p.data0| + |p.data1|) ≤ 2 ^ 47 * (p.data1 - p.data0))
    (hw : 1 / 2 ^ 1000 ≤ p.data1 - p.data0)
    (hv1 : p.data0 - ((|p.data0| + |p.data1|) / 2 ^ 49 + 3 * (1 / 2 ^ 1075)) ≤ v)
    (hv2 : v ≤ p.data1 + ((|p.data0| + |p.data1|) / 2 ^ 49 + 3 * (1 / 2 ^ 1075))) :
    -1 < f64.div (f64.mul (f64.ofNat (MAXVAL p.N)) (f64.sub v p.data0))
        (f64.sub p.data1 p.data0) ∧
    f64.div (f64.mul (f64.ofNat (MAXVAL p.N)) (f64.sub v p.data0))
        (f64.sub p.data1 p.data0) < 2 ^ p.N ∧
    f64.encodeValue p v ≤ MAXVAL p.N := by
  have hw0 : 0 < p.data1 - p.data0 := by linarith
  have hM1 : (1 : ℚ) ≤ (MAXVAL p.N : ℚ) := by exact_mod_cast MAXVAL_pos p.N hN1
  have hη1 : (1 : ℚ) / 2 ^ 1075 ≤ 1 / 2 ^ 53 :=
    div_le_div_of_nonneg_left (by norm_num) (by positivity)
      (pow_le_pow_right₀ (by norm_num) (by norm_num))
  have hwK : p.data1 - p.data0 ≤ |p.data0| + |p.data1| := by
    have := neg_abs_le p.data0
    have := le_abs_self p.data1
    linarith
  have hM47 : (MAXVAL p.N : ℚ) ≤ 2 ^ 47 := by
    have h1 : (MAXVAL p.N : ℚ) * (p.data1 - p.data0) ≤ 2 ^ 47 * (p.data1 - p.data0) :=
      le_trans (mul_le_mul_of_nonneg_left hwK (by linarith)) hH
    exact le_of_mul_le_mul_right h1 hw0
  have hηM : (1 : ℚ) / 2 ^ 1075 * (MAXVAL p.N : ℚ) ≤ (p.data1 - p.data0) / 2 ^ 20 := by
    have e1 : (1 : ℚ) / 2 ^ 1075 * 2 ^ 47 = 1 / 2 ^ 1000 / 2 ^ 20 / 2 ^ 8 := by
      rw [show (1075 : ℕ) = 1000 + 20 + 8 + 47 from rfl, pow_add, pow_add, pow_add]
      field_simp
      ring
    have e2 : (1 : ℚ) / 2 ^ 1000 / 2 ^ 20 / 2 ^ 8 ≤ 1 / 2 ^ 1000 / 2 ^ 20 :=
      div_le_self (by positivity) (by norm_num)
    have e3 : (1 : ℚ) / 2 ^ 1000 / 2 ^ 20 ≤ (p.data1 - p.data0) / 2 ^ 20 :=
      div_le_div_of_nonneg_right hw (by positivity)
    have e4 : (1 : ℚ) / 2 ^ 1075 * (MAXVAL p.N : ℚ) ≤ 1 / 2 ^ 1075 * 2 ^ 47 :=
      mul_le_mul_of_nonneg_left hM47 (by positivity)
    linarith
  have hMc : (MAXVAL p.N : ℚ) + 1 = 2 ^ p.N := by rw [MAXVAL_cast]; ring
  have hQ : f64.div (f64.mul (f64.ofNat (MAXVAL p.N)) (f64.sub v p.data0))
      (f64.sub p.data1 p.data0)
      = fl (fl ((MAXVAL p.N : ℚ) * fl (v - p.data0)) / fl (p.data1 - p.data0)) := by
    unfold f64.div f64.mul f64.ofNat f64.sub
    rw [fl_MAXVAL p.N (by omega)]
  have hev : f64.encodeValue p v = double_to_uint64
      (fl (fl ((MAXVAL p.N : ℚ) * fl (v - p.data0)) / fl (p.data1 - p.data0))) := by
    rw [f64_encodeValue_eq, fl_MAXVAL p.N (by omega)]
  rw [hQ, hev]
  by_cases hlv : p.data0 ≤ v
  · obtain ⟨q0, qe⟩ := f64_encode_quotient p.data0 p.data1 v p.N hlo hhi hv hb hlv
    have key := near_arith (MAXVAL p.N : ℚ) (p.data1 - p.data0) (|p.data0| + |p.data1|)
      (v - p.data0) 1 _ (1 / 2 ^ 1075) hw0 (by linarith) hM47 hH hηM hη1
      (le_refl _) (by linarith) (by linarith) qe
    rw [mul_one, hMc] at key
    refine ⟨by linarith, key, ?_⟩
    have h64 : fl (fl ((MAXVAL p.N : ℚ) * fl (v - p.data0)) / fl (p.data1 - p.data0))
        < 2 ^ 64 := by
      have : (2 : ℚ) ^ 47 + 1 < 2 ^ 64 := by norm_num
      linarith
    have hfl := double_to_uint64_floor _ q0 h64
    have f2 : ⌊fl (fl ((MAXVAL p.N : ℚ) * fl (v - p.data0)) / fl (p.data1 - p.data0))⌋
        < ((MAXVAL p.N : ℕ) : ℤ) + 1 := by
      rw [Int.floor_lt]
      push_cast
      linarith
    rw [← hfl] at f2
    omega
  · have hlv' : v < p.data0 := lt_of_not_ge hlv
    obtain ⟨q0, qe⟩ := f64_quotient p.data0 p.data1 p.data0 v p.N hlo hhi hlo hv hb hlv'.le
    have key := near_arith (MAXVAL p.N : ℚ) (p.data1 - p.data0) (|p.data0| + |p.data1|)
      (p.data0 - v) 0 _ (1 / 2 ^ 1075) hw0 (by linarith) hM47 hH hηM hη1
      (by norm_num) (by linarith) (by linarith) qe
    rw [mul_zero, zero_add] at key
    have hneg : fl (fl ((MAXVAL p.N : ℚ) * fl (v - p.data0)) / fl (p.data1 - p.data0))
        = - fl (fl ((MAXVAL p.N : ℚ) * fl (p.data0 - v)) / fl (p.data1 - p.data0)) := by
      have e1 : v - p.data0 = -(p.data0 - v) := by ring
      rw [e1, fl_neg, mul_neg, fl_neg, neg_div, fl_neg]
    rw [hneg]
    have hpow : (0 : ℚ) < 2 ^ p.N := by positivity
    refine ⟨by linarith, by linarith, ?_⟩
    rw [double_to_uint64_nonpos _ (by linarith)]
    exact Nat.zero_le _

/-- C33, amended. The values that the arithmetic cross-over hands to `initGene`, in
binary64. The simple, single and whole arithmetic recombinations are sequences of calls
`initGene(i, value)` on each offspring; every value is the parent's own value or the
blend `(T)(r*other + (1-r)*own)`, whose products, difference and sum are rounded. For
every `double` blend ratio `r` in `[0, 1]` and every pair of parents whose decoded genes
lie in `[lo_i, hi_i]`: for `T = double` (bounds `lo < hi` that are `double` of magnitude
at most `2^960`, width `1 ≤ N ≤ 52`) every value lies within `ε = (|lo| + |hi|)/2^49 + 3 * 2^-1075` of
`[lo_i, hi_i]`, and when `(2^N - 1) * (|lo| + |hi|) ≤ 2^47 * (hi - lo)` and
`hi - lo ≥ 2^-1000` the quotient that `encode` converts to an integer lies in
`(-1, 2^N)`, so the integer is at most `MAXVAL = 2^N - 1`; for `T = int` (bounds
`lo < hi` that fit in an `int`, as does their difference) every value lies in `[lo_i, hi_i]` and the integer that
`encode` computes for it is at most `MAXVAL`, or the value is `lo_i - 1` with
`0 < lo_i`, or `hi_i + 1` with `hi_i < 0`. -/
theorem arithmetic_values_near_bounds :
    (∀ (x : Population ℚ) (Ps : List (Parameter ℚ))
      (chr1 chr2 chrmat1 chrmat2 : Chromosome ℚ) (idx1 idx2 pos : Nat) (r : ℚ),
      x.mat idx1 = some chrmat1 → x.mat idx2 = some chrmat2 → 0 ≤ r → r ≤ 1 → fl r = r →
      (∀ P ∈ Ps, P.data0 < P.data1 ∧ fl P.data0 = P.data0 ∧ fl P.data1 = P.data1 ∧
        |P.data0| ≤ 2 ^ 960 ∧ |P.data1| ≤ 2 ^ 960 ∧ 1 ≤ P.N ∧ P.N ≤ 52) →
      (∀ (i : Nat) (P : Parameter ℚ), Ps[i]? = some P →
        (P.data0 ≤ chrmat1.get_value i ∧ chrmat1.get_value i ≤ P.data1 ∧
          fl (chrmat1.get_value i) = chrmat1.get_value i) ∧
        (P.data0 ≤ chrmat2.get_value i ∧ chrmat2.get_value i ≤ P.data1 ∧
          fl (chrmat2.get_value i) = chrmat2.get_value i)) →
      RealValuedSimpleArithmeticRecombination x chr1 chr2 idx1 idx2 pos r
        = some (transmit_sigma
            (initGene_calls chr1 (Simple_calls chrmat1 chrmat2 pos chr1.nbgene r))
            chrmat1 chrmat2,
          transmit_sigma
            (initGene_calls chr2 (Simple_calls chrmat2 chrmat1 pos chr1.nbgene r))
            chrmat1 chrmat2) ∧
      RealValuedSingleArithmeticRecombination x chr1 chr2 idx1 idx2 pos r
        = some (transmit_sigma
            (initGene_calls chr1 (Single_calls chrmat1 chrmat2 pos chr1.nbgene r))
            chrmat1 chrmat2,
          transmit_sigma
            (initGene_calls chr2 (Single_calls chrmat2 chrmat1 pos chr2.nbgene r))
            chrmat1 chrmat2) ∧
      RealValuedWholeArithmeticRecombination x chr1 chr2 idx1 idx2 r
        = some (transmit_sigma
            (initGene_calls chr1 (Whole_calls chrmat1 chrmat2 chr1.nbgene r)) chrmat1 chrmat2,
          transmit_sigma
            (initGene_calls chr2 (Whole_calls chrmat2 chrmat1 chr2.nbgene r))
            chrmat1 chrmat2) ∧
      ∀ calls ∈ [Simple_calls chrmat1 chrmat2 pos chr1.nbgene r,
          Simple_calls chrmat2 chrmat1 pos chr1.nbgene r,
          Single_calls chrmat1 chrmat2 pos chr1.nbgene r,
          Single_calls chrmat2 chrmat1 pos chr2.nbgene r,
          Whole_calls chrmat1 chrmat2 chr1.nbgene r,
          Whole_calls chrmat2 chrmat1 chr2.nbgene r],
        ∀ iv ∈ calls, ∀ P : Parameter ℚ, Ps[iv.1]? = some P →
          P.data0 - ((|P.data0| + |P.data1|) / 2 ^ 49 + 3 * (1 / 2 ^ 1075)) ≤ iv.2 ∧
          iv.2 ≤ P.data1 + ((|P.data0| + |P.data1|) / 2 ^ 49 + 3 * (1 / 2 ^ 1075)) ∧
          ((MAXVAL P.N : ℚ) * (|P.data0| + |P.data1|) ≤ 2 ^ 47 * (P.data1 - P.data0) →
            1 / 2 ^ 1000 ≤ P.data1 - P.data0 →
            -1 < f64.div (f64.mul (f64.ofNat (MAXVAL P.N)) (f64.sub iv.2 P.data0))
                (f64.sub P.data1 P.data0) ∧
            f64.div (f64.mul (f64.ofNat (MAXVAL P.N)) (f64.sub iv.2 P.data0))
                (f64.sub P.data1 P.data0) < 2 ^ P.N ∧
            f64.encodeValue P iv.2 ≤ MAXVAL P.N)) ∧
    (∀ (x : Population ℤ) (Ps : List (Parameter ℤ))
      (chr1 chr2 chrmat1 chrmat2 : Chromosome ℤ) (idx1 idx2 pos : Nat) (r : ℚ),
      x.mat idx1 = some chrmat1 → x.mat idx2 = some chrmat2 → 0 ≤ r → r ≤ 1 → fl r = r →
      (∀ P ∈ Ps, P.data0 < P.data1 ∧ -2 ^ 31 ≤ P.data0 ∧ P.data1 < 2 ^ 31 ∧
        P.data1 - P.data0 < 2 ^ 31) →
      (∀ (i : Nat) (P : Parameter ℤ), Ps[i]? = some P →
        (P.data0 ≤ chrmat1.get_value i ∧ chrmat1.get_value i ≤ P.data1) ∧
        (P.data0 ≤ chrmat2.get_value i ∧ chrmat2.get_value i ≤ P.data1)) →
      RealValuedSimpleArithmeticRecombination x chr1 chr2 idx1 idx2 pos r
        = some (transmit_sigma
            (initGene_calls chr1 (Simple_calls chrmat1 chrmat2 pos chr1.nbgene r))
            chrmat1 chrmat2,
          transmit_sigma
            (initGene_calls chr2 (Simple_calls chrmat2 chrmat1 pos chr1.nbgene r))
            chrmat1 chrmat2) ∧
      RealValuedSingleArithmeticRecombination x chr1 chr2 idx1 idx2 pos r
        = some (transmit_sigma
            (initGene_calls chr1 (Single_calls chrmat1 chrmat2 pos chr1.nbgene r))
            chrmat1 chrmat2,
          transmit_sigma
            (initGene_calls chr2 (Single_calls chrmat2 chrmat1 pos chr2.nbgene r))
            chrmat1 chrmat2) ∧
      RealValuedWholeArithmeticRecombination x chr1 chr2 idx1 idx2 r
        = some (transmit_sigma
            (initGene_calls chr1 (Whole_calls chrmat1 chrmat2 chr1.nbgene r)) chrmat1 chrmat2,
          transmit_sigma
            (initGene_calls chr2 (Whole_calls chrmat2 chrmat1 chr2.nbgene r))
            chrmat1 chrmat2) ∧
      ∀ calls ∈ [Simple_calls chrmat1 chrmat2 pos chr1.nbgene r,
          Simple_calls chrmat2 chrmat1 pos chr1.nbgene r,
          Single_calls chrmat1 chrmat2 pos chr1.nbgene r,
          Single_calls chrmat2 chrmat1 pos chr2.nbgene r,
          Whole_calls chrmat1 chrmat2 chr1.nbgene r,
          Whole_calls chrmat2 chrmat1 chr2.nbgene r],
        ∀ iv ∈ calls, ∀ P : Parameter ℤ, Ps[iv.1]? = some P →
          (P.data0 ≤ iv.2 ∧ iv.2 ≤ P.data1 ∧ P.encodeValueInt iv.2 ≤ MAXVAL P.N) ∨
          (iv.2 = P.data0 - 1 ∧ 0 < P.data0) ∨ (iv.2 = P.data1 + 1 ∧ P.data1 < 0)) := by
  constructor
  · intro x Ps chr1 chr2 chrmat1 chrmat2 idx1 idx2 pos r h1 h2 hr0 hr1 hrd hvalid hin
    refine ⟨Simple_eq_calls x chr1 chr2 chrmat1 chrmat2 idx1 idx2 pos r h1 h2,
      Single_eq_calls x chr1 chr2 chrmat1 chrmat2 idx1 idx2 pos r h1 h2,
      Whole_eq_calls x chr1 chr2 chrmat1 chrmat2 idx1 idx2 r h1 h2, ?_⟩
    have key : ∀ (own other : Chromosome ℚ) (n : Nat) (calls : List (Nat × ℚ)),
        (∀ (i : Nat) (P : Parameter ℚ), Ps[i]? = some P →
          (P.data0 ≤ own.get_value i ∧ own.get_value i ≤ P.data1 ∧
            fl (own.get_value i) = own.get_value i) ∧
          (P.data0 ≤ other.get_value i ∧ other.get_value i ≤ P.data1 ∧
            fl (other.get_value i) = other.get_value i)) →
        (calls = Simple_calls own other pos n r ∨ calls = Single_calls own other pos n r ∨
          calls = Whole_calls own other n r) →
      ∀ iv ∈ calls, ∀ P : Parameter ℚ, Ps[iv.1]? = some P →
        P.data0 - ((|P.data0| + |P.data1|) / 2 ^ 49 + 3 * (1 / 2 ^ 1075)) ≤ iv.2 ∧
        iv.2 ≤ P.data1 + ((|P.data0| + |P.data1|) / 2 ^ 49 + 3 * (1 / 2 ^ 1075)) ∧
        ((MAXVAL P.N : ℚ) * (|P.data0| + |P.data1|) ≤ 2 ^ 47 * (P.data1 - P.data0) →
          1 / 2 ^ 1000 ≤ P.data1 - P.data0 →
          -1 < f64.div (f64.mul (f64.ofNat (MAXVAL P.N)) (f64.sub iv.2 P.data0))
              (f64.sub P.data1 P.data0) ∧
          f64.div (f64.mul (f64.ofNat (MAXVAL P.N)) (f64.sub iv.2 P.data0))
              (f64.sub P.data1 P.data0) < 2 ^ P.N ∧
          f64.encodeValue P iv.2 ≤ MAXVAL P.N) := by
      intro own other n calls hb hc iv hiv P hP
      obtain ⟨ho, ht⟩ := hb iv.1 P hP
      obtain ⟨hlt, hlo, hhi, -, -, hN1, hN⟩ := hvalid P (List.getElem?_mem hP)
      have hε : 0 ≤ (|P.data0| + |P.data1|) / 2 ^ 49 + 3 * (1 / 2 ^ 1075) := by positivity
      have hv : P.data0 - ((|P.data0| + |P.data1|) / 2 ^ 49 + 3 * (1 / 2 ^ 1075)) ≤ iv.2 ∧
          iv.2 ≤ P.data1 + ((|P.data0| + |P.data1|) / 2 ^ 49 + 3 * (1 / 2 ^ 1075)) ∧
          fl iv.2 = iv.2 := by
        rcases calls_values own other pos n r calls hc iv hiv with e | e
        · rw [e]; exact ⟨by linarith [ho.1], by linarith [ho.2.1], ho.2.2⟩
        · rw [e]
          exact blend_real_near r _ _ _ _ hrd hr0 hr1 ⟨ho.1, ho.2.1⟩ ⟨ht.1, ht.2.1⟩
      exact ⟨hv.1, hv.2.1, fun hH hw =>
        f64_encodeValue_range P iv.2 hlt hlo hhi hv.2.2 hN1 hN hH hw hv.1 hv.2.1⟩
    have hin2 : ∀ (i : Nat) (P : Parameter ℚ), Ps[i]? = some P →
        (P.data0 ≤ chrmat2.get_value i ∧ chrmat2.get_value i ≤ P.data1 ∧
          fl (chrmat2.get_value i) = chrmat2.get_value i) ∧
        (P.data0 ≤ chrmat1.get_value i ∧ chrmat1.get_value i ≤ P.data1 ∧
          fl (chrmat1.get_value i) = chrmat1.get_value i) :=
      fun i P hP => ⟨(hin i P hP).2, (hin i P hP).1⟩
    intro calls hcalls
    simp only [List.mem_cons, List.mem_singleton, List.not_mem_nil, or_false] at hcalls
    rcases hcalls with h | h | h | h | h | h
    · exact key chrmat1 chrmat2 chr1.nbgene calls hin (Or.inl h)
    · exact key chrmat2 chrmat1 chr1.nbgene calls hin2 (Or.inl h)
    · exact key chrmat1 chrmat2 chr1.nbgene calls hin (Or.inr (Or.inl h))
    · exact key chrmat2 chrmat1 chr2.nbgene calls hin2 (Or.inr (Or.inl h))
    · exact key chrmat1 chrmat2 chr1.nbgene calls hin (Or.inr (Or.inr h))
    · exact key chrmat2 chrmat1 chr2.nbgene calls hin2 (Or.inr (Or.inr h))
  · intro x Ps chr1 chr2 chrmat1 chrmat2 idx1 idx2 pos r h1 h2 hr0 hr1 hrd hvalid hin
    refine ⟨Simple_eq_calls x chr1 chr2 chrmat1 chrmat2 idx1 idx2 pos r h1 h2,
      Single_eq_calls x chr1 chr2 chrmat1 chrmat2 idx1 idx2 pos r h1 h2,
      Whole_eq_calls x chr1 chr2 chrmat1 chrmat2 idx1 idx2 r h1 h2, ?_⟩
    have key : ∀ (own other : Chromosome ℤ) (n : Nat) (calls : List (Nat × ℤ)),
        (∀ (i : Nat) (P : Parameter ℤ), Ps[i]? = some P →
          (P.data0 ≤ own.get_value i ∧ own.get_value i ≤ P.data1) ∧
          (P.data0 ≤ other.get_value i ∧ other.get_value i ≤ P.data1)) →
        (calls = Simple_calls own other pos n r ∨ calls = Single_calls own other pos n r ∨
          calls = Whole_calls own other n r) →
      ∀ iv ∈ calls, ∀ P : Parameter ℤ, Ps[iv.1]? = some P →
        (P.data0 ≤ iv.2 ∧ iv.2 ≤ P.data1 ∧ P.encodeValueInt iv.2 ≤ MAXVAL P.N) ∨
        (iv.2 = P.data0 - 1 ∧ 0 < P.data0) ∨ (iv.2 = P.data1 + 1 ∧ P.data1 < 0) := by
      intro own other n calls hb hc iv hiv P hP
      obtain ⟨ho, ht⟩ := hb iv.1 P hP
      obtain ⟨hlt, hlo, hhi, -⟩ := hvalid P (List.getElem?_mem hP)
      have hW : P.data1 - P.data0 < 2 ^ 64 := by
        have : (2 : ℤ) ^ 31 + 2 ^ 31 < 2 ^ 64 := by norm_num
        linarith
      have hcase : (P.data0 ≤ iv.2 ∧ iv.2 ≤ P.data1) ∨
          (iv.2 = P.data0 - 1 ∧ 0 < P.data0) ∨ (iv.2 = P.data1 + 1 ∧ P.data1 < 0) := by
        rcases calls_values own other pos n r calls hc iv hiv with e | e
        · rw [e]; exact Or.inl ho
        · rw [e]; exact blend_int_near r _ _ _ _ hrd hr0 hr1 hlo hhi ho ht
      rcases hcase with hv | hv | hv
      · exact Or.inl ⟨hv.1, hv.2, encodeValueInt_le_MAXVAL P iv.2 hlt hW hv.1 hv.2⟩
      · exact Or.inr (Or.inl hv)
      · exact Or.inr (Or.inr hv)
    have hin2 : ∀ (i : Nat) (P : Parameter ℤ), Ps[i]? = some P →
        (P.data0 ≤ chrmat2.get_value i ∧ chrmat2.get_value i ≤ P.data1) ∧
        (P.data0 ≤ chrmat1.get_value i ∧ chrmat1.get_value i ≤ P.data1) :=
      fun i P hP => ⟨(hin i P hP).2, (hin i P hP).1⟩
    intro calls hcalls
    simp only [List.mem_cons, List.mem_singleton, List.not_mem_nil, or_false] at hcalls
    rcases hcalls with h | h | h | h | h | h
    · exact key chrmat1 chrmat2 chr1.nbgene calls hin (Or.inl h)
    · exact key chrmat2 chrmat1 chr1.nbgene calls hin2 (Or.inl h)
    · exact key chrmat1 chrmat2 chr1.nbgene calls hin (Or.inr (Or.inl h))
    · exact key chrmat2 chrmat1 chr2.nbgene calls hin2 (Or.inr (Or.inl h))
    · exact key chrmat1 chrmat2 chr1.nbgene calls hin (Or.inr (Or.inr h))
    · exact key chrmat2 chrmat1 chr2.nbgene calls hin2 (Or.inr (Or.inr h))

theorem fl_ten : fl 10 = 10 := by simpa using fl_natCast 10 (by norm_num)

/-- The integer-typed blend of `3` and `3` with `r = 0.3`: the rounded sum is
`2.9999999999999996`, converted to the `int` `2`. -/
theorem blend_int_below :
    fl (5404319552844595 / 18014398509481984) = (5404319552844595 / 18014398509481984) ∧ blend (5404319552844595 / 18014398509481984) (3 : ℤ) (3 : ℤ) = 2 := by
  have a1 : fl (5404319552844595 / 18014398509481984) = (5404319552844595 / 18014398509481984) :=
    fl_eval _ _ (-54) 5404319552844595 (by norm_num) (by norm_num [abs_of_pos]) (by norm_num [abs_of_pos])
      (by norm_num) (by norm_num)
  have a2 : fl (16212958658533785 / 18014398509481984) = (2026619832316723 / 2251799813685248) :=
    fl_eval_tie _ _ (-53) 8106479329266892 (by norm_num) (by norm_num [abs_of_pos]) (by norm_num [abs_of_pos])
      (by norm_num) (by norm_num) (by norm_num)
  have a3 : fl (12610078956637389 / 18014398509481984) = (3152519739159347 / 4503599627370496) :=
    fl_eval_tie _ _ (-53) 6305039478318694 (by norm_num) (by norm_num [abs_of_pos]) (by norm_num [abs_of_pos])
      (by norm_num) (by norm_num) (by norm_num)
  have a4 : fl (9457559217478041 / 4503599627370496) = (1182194902184755 / 562949953421312) :=
    fl_eval_tie _ _ (-51) 4728779608739020 (by norm_num) (by norm_num [abs_of_pos]) (by norm_num [abs_of_pos])
      (by norm_num) (by norm_num) (by norm_num)
  have a5 : fl (6755399441055743 / 2251799813685248) = (6755399441055743 / 2251799813685248) :=
    fl_eval _ _ (-51) 6755399441055743 (by norm_num) (by norm_num [abs_of_pos]) (by norm_num [abs_of_pos])
      (by norm_num) (by norm_num)
  refine ⟨a1, ?_⟩
  have e : blend (5404319552844595 / 18014398509481984) (3 : ℤ) (3 : ℤ) = truncate ((6755399441055743 / 2251799813685248) : ℚ) := by
    show truncate (f64.add (f64.mul (5404319552844595 / 18014398509481984) ((3 : ℤ) : ℚ))
      (f64.mul (f64.sub 1 (5404319552844595 / 18014398509481984)) ((3 : ℤ) : ℚ))) = _
    simp only [f64.add, f64.mul, f64.sub]
    norm_num [fl_zero, a1, a2, a3, a4, a5]
  rw [e]
  unfold truncate
  rw [if_pos (by norm_num), Int.floor_eq_iff]
  constructor <;> norm_num

/-- The real-typed blend of `10` and `10` with `r = 0.08`: the rounded sum is
`10.000000000000002`. -/
theorem blend_real_above :
    fl (5764607523034235 / 72057594037927936) = (5764607523034235 / 72057594037927936) ∧ blend (5764607523034235 / 72057594037927936) (10 : ℚ) (10 : ℚ) = (5629499534213121 / 562949953421312) := by
  have b1 : fl (5764607523034235 / 72057594037927936) = (5764607523034235 / 72057594037927936) :=
    fl_eval _ _ (-56) 5764607523034235 (by norm_num) (by norm_num [abs_of_pos]) (by norm_num [abs_of_pos])
      (by norm_num) (by norm_num)
  have b2 : fl (28823037615171175 / 36028797018963968) = (3602879701896397 / 4503599627370496) :=
    fl_eval _ _ (-53) 7205759403792794 (by norm_num) (by norm_num [abs_of_pos]) (by norm_num [abs_of_pos])
      (by norm_num) (by norm_num)
  have b3 : fl (66292986514893701 / 72057594037927936) = (8286623314361713 / 9007199254740992) :=
    fl_eval _ _ (-53) 8286623314361713 (by norm_num) (by norm_num [abs_of_pos]) (by norm_num [abs_of_pos])
      (by norm_num) (by norm_num)
  have b4 : fl (41433116571808565 / 4503599627370496) = (5179139571476071 / 562949953421312) :=
    fl_eval _ _ (-49) 5179139571476071 (by norm_num) (by norm_num [abs_of_pos]) (by norm_num [abs_of_pos])
      (by norm_num) (by norm_num)
  have b5 : fl (45035996273704965 / 4503599627370496) = (5629499534213121 / 562949953421312) :=
    fl_eval _ _ (-49) 5629499534213121 (by norm_num) (by norm_num [abs_of_pos]) (by norm_num [abs_of_pos])
      (by norm_num) (by norm_num)
  have b6 : fl 10 = 10 :=
    fl_eval _ _ (-49) 5629499534213120 (by norm_num) (by norm_num [abs_of_pos]) (by norm_num [abs_of_pos])
      (by norm_num) (by norm_num)
  refine ⟨b1, ?_⟩
  show f64.add (f64.mul (5764607523034235 / 72057594037927936) 10) (f64.mul (f64.sub 1 (5764607523034235 / 72057594037927936)) 10) = _
  simp only [f64.add, f64.mul, f64.sub]
  norm_num [fl_zero, b1, b2, b3, b4, b5, b6]

theorem f64_decode_scenario_ones :
    f64.decode scenarioParam (List.replicate 8 true) = 10 := by
  have h := (f64_decode_bounds scenarioParam (List.replicate 8 true)
    (by norm_num [scenarioParam, Parameter.data0, Parameter.data1])
    (by simpa [scenarioParam, Parameter.data0] using fl_zero) (by decide) (by decide)).2.2.2
  have e : f64.add scenarioParam.data0 (f64.sub scenarioParam.data1 scenarioParam.data0)
      = 10 := by
    show fl (0 + fl (10 - 0)) = 10
    norm_num [fl_ten]
  exact h.trans e

theorem f64_decode_wide_ones :
    f64.decode wideParam (List.replicate 54 true) = 10 := by
  have h := (f64_decode_bounds wideParam (List.replicate 54 true)
    (by norm_num [wideParam, Parameter.data0, Parameter.data1])
    (by simpa [wideParam, Parameter.data0] using fl_zero) (by decide) (by decide)).2.2.2
  have e : f64.add wideParam.data0 (f64.sub wideParam.data1 wideParam.data0) = 10 := by
    show fl (0 + fl (10 - 0)) = 10
    norm_num [fl_ten]
  exact h.trans e

/-- C33, counterexample. One gene, both parents with the same bits. (a) `T = int`,
bounds `[3, 10]`, width 8, parents with the bits `00000000` (value `3`), `r = 0.3`: the
whole recombination calls `initGene(0, 2)`, and `2 < 3` is encoded as an integer above
`MAXVAL`. (b) `T = double`, bounds `[0, 10]`, width 8, parents with the bits `11111111`
(value `10`), `r = 0.08`: the whole recombination calls
`initGene(0, 10.000000000000002)`. (c) `T = double`, bounds `[0, 10]`, width 54, parents
with the bits all `1` (value `10`): the simple recombination with `pos = 1` calls
`initGene(0, 10)`, for which `encode` computes the integer `2^54 > MAXVAL`. -/
theorem arithmetic_value_outside :
    (RealValuedWholeArithmeticRecombination (duoPop (plainChr [f64.toBaseInt offsetParamInt] 0 (List.replicate 8 false)) (plainChr [f64.toBaseInt offsetParamInt] 0 (List.replicate 8 false))) (plainChr [f64.toBaseInt offsetParamInt] 0 []) (plainChr [f64.toBaseInt offsetParamInt] 0 []) 0 1 (5404319552844595 / 18014398509481984)
        = some (transmit_sigma (initGene_calls (plainChr [f64.toBaseInt offsetParamInt] 0 []) [(0, 2)]) (plainChr [f64.toBaseInt offsetParamInt] 0 (List.replicate 8 false)) (plainChr [f64.toBaseInt offsetParamInt] 0 (List.replicate 8 false)),
          transmit_sigma (initGene_calls (plainChr [f64.toBaseInt offsetParamInt] 0 []) [(0, 2)]) (plainChr [f64.toBaseInt offsetParamInt] 0 (List.replicate 8 false)) (plainChr [f64.toBaseInt offsetParamInt] 0 (List.replicate 8 false))) ∧
      (plainChr [f64.toBaseInt offsetParamInt] 0 (List.replicate 8 false)).get_value 0 = 3 ∧ (2 : ℤ) < offsetParamInt.data0 ∧
      MAXVAL offsetParamInt.N < offsetParamInt.encodeValueInt 2) ∧
    (RealValuedWholeArithmeticRecombination (duoPop (plainChr [f64.toBase scenarioParam] 0 (List.replicate 8 true)) (plainChr [f64.toBase scenarioParam] 0 (List.replicate 8 true))) (plainChr [f64.toBase scenarioParam] 0 []) (plainChr [f64.toBase scenarioParam] 0 []) 0 1 (5764607523034235 / 72057594037927936)
        = some (transmit_sigma (initGene_calls (plainChr [f64.toBase scenarioParam] 0 []) [(0, (5629499534213121 / 562949953421312))]) (plainChr [f64.toBase scenarioParam] 0 (List.replicate 8 true)) (plainChr [f64.toBase scenarioParam] 0 (List.replicate 8 true)),
          transmit_sigma (initGene_calls (plainChr [f64.toBase scenarioParam] 0 []) [(0, (5629499534213121 / 562949953421312))]) (plainChr [f64.toBase scenarioParam] 0 (List.replicate 8 true)) (plainChr [f64.toBase scenarioParam] 0 (List.replicate 8 true))) ∧
      (plainChr [f64.toBase scenarioParam] 0 (List.replicate 8 true)).get_value 0 = 10 ∧ scenarioParam.data1 < (5629499534213121 / 562949953421312)) ∧
    (RealValuedSimpleArithmeticRecombination (duoPop (plainChr [f64.toBase wideParam] 0 (List.replicate 54 true)) (plainChr [f64.toBase wideParam] 0 (List.replicate 54 true))) (plainChr [f64.toBase wideParam] 0 []) (plainChr [f64.toBase wideParam] 0 []) 0 1 1 (1 / 2)
        = some (transmit_sigma (initGene_calls (plainChr [f64.toBase wideParam] 0 []) [(0, 10)]) (plainChr [f64.toBase wideParam] 0 (List.replicate 54 true)) (plainChr [f64.toBase wideParam] 0 (List.replicate 54 true)),
          transmit_sigma (initGene_calls (plainChr [f64.toBase wideParam] 0 []) [(0, 10)]) (plainChr [f64.toBase wideParam] 0 (List.replicate 54 true)) (plainChr [f64.toBase wideParam] 0 (List.replicate 54 true))) ∧
      (plainChr [f64.toBase wideParam] 0 (List.replicate 54 true)).get_value 0 = 10 ∧ MAXVAL wideParam.N < f64.encodeValue wideParam 10) := by
  refine ⟨?_, ?_, ?_⟩
  · have hg : (plainChr [f64.toBaseInt offsetParamInt] 0 (List.replicate 8 false)).get_value 0 = 3 := by
      rw [get_value_eq_decode_gene (plainChr [f64.toBaseInt offsetParamInt] 0 (List.replicate 8 false)) 0 (f64.toBaseInt offsetParamInt) rfl]
      have hgene : (plainChr [f64.toBaseInt offsetParamInt] 0 (List.replicate 8 false)).gene 0 = List.replicate 8 false := by decide
      rw [hgene]
      exact (f64_decodeInt_bounds offsetParamInt (List.replicate 8 false) (by decide)
        (by decide) (by decide) (by decide) (by decide)).2.2.1
    have hcalls : Whole_calls (plainChr [f64.toBaseInt offsetParamInt] 0 (List.replicate 8 false)) (plainChr [f64.toBaseInt offsetParamInt] 0 (List.replicate 8 false)) 1 (5404319552844595 / 18014398509481984) = [(0, 2)] := by
      show [((0 : ℕ), blend (5404319552844595 / 18014398509481984) ((plainChr [f64.toBaseInt offsetParamInt] 0 (List.replicate 8 false)).get_value 0) ((plainChr [f64.toBaseInt offsetParamInt] 0 (List.replicate 8 false)).get_value 0))] = _
      rw [hg, blend_int_below.2]
    refine ⟨?_, hg, by decide, by decide⟩
    rw [Whole_eq_calls (duoPop (plainChr [f64.toBaseInt offsetParamInt] 0 (List.replicate 8 false)) (plainChr [f64.toBaseInt offsetParamInt] 0 (List.replicate 8 false))) (plainChr [f64.toBaseInt offsetParamInt] 0 []) (plainChr [f64.toBaseInt offsetParamInt] 0 []) (plainChr [f64.toBaseInt offsetParamInt] 0 (List.replicate 8 false)) (plainChr [f64.toBaseInt offsetParamInt] 0 (List.replicate 8 false)) 0 1 _ rfl rfl]
    show some (transmit_sigma (initGene_calls (plainChr [f64.toBaseInt offsetParamInt] 0 []) (Whole_calls (plainChr [f64.toBaseInt offsetParamInt] 0 (List.replicate 8 false)) (plainChr [f64.toBaseInt offsetParamInt] 0 (List.replicate 8 false)) 1 (5404319552844595 / 18014398509481984))) (plainChr [f64.toBaseInt offsetParamInt] 0 (List.replicate 8 false)) (plainChr [f64.toBaseInt offsetParamInt] 0 (List.replicate 8 false)),
      transmit_sigma (initGene_calls (plainChr [f64.toBaseInt offsetParamInt] 0 []) (Whole_calls (plainChr [f64.toBaseInt offsetParamInt] 0 (List.replicate 8 false)) (plainChr [f64.toBaseInt offsetParamInt] 0 (List.replicate 8 false)) 1 (5404319552844595 / 18014398509481984))) (plainChr [f64.toBaseInt offsetParamInt] 0 (List.replicate 8 false)) (plainChr [f64.toBaseInt offsetParamInt] 0 (List.replicate 8 false))) = _
    rw [hcalls]
  · have hg : (plainChr [f64.toBase scenarioParam] 0 (List.replicate 8 true)).get_value 0 = 10 := by
      rw [get_value_eq_decode_gene (plainChr [f64.toBase scenarioParam] 0 (List.replicate 8 true)) 0 (f64.toBase scenarioParam) rfl]
      have hgene : (plainChr [f64.toBase scenarioParam] 0 (List.replicate 8 true)).gene 0 = List.replicate 8 true := by decide
      rw [hgene]
      exact f64_decode_scenario_ones
    have hcalls : Whole_calls (plainChr [f64.toBase scenarioParam] 0 (List.replicate 8 true)) (plainChr [f64.toBase scenarioParam] 0 (List.replicate 8 true)) 1 (5764607523034235 / 72057594037927936) = [(0, (5629499534213121 / 562949953421312))] := by
      show [((0 : ℕ), blend (5764607523034235 / 72057594037927936) ((plainChr [f64.toBase scenarioParam] 0 (List.replicate 8 true)).get_value 0) ((plainChr [f64.toBase scenarioParam] 0 (List.replicate 8 true)).get_value 0))] = _
      rw [hg, blend_real_above.2]
    refine ⟨?_, hg, by norm_num [scenarioParam, Parameter.data1]⟩
    rw [Whole_eq_calls (duoPop (plainChr [f64.toBase scenarioParam] 0 (List.replicate 8 true)) (plainChr [f64.toBase scenarioParam] 0 (List.replicate 8 true))) (plainChr [f64.toBase scenarioParam] 0 []) (plainChr [f64.toBase scenarioParam] 0 []) (plainChr [f64.toBase scenarioParam] 0 (List.replicate 8 true)) (plainChr [f64.toBase scenarioParam] 0 (List.replicate 8 true)) 0 1 _ rfl rfl]
    show some (transmit_sigma (initGene_calls (plainChr [f64.toBase scenarioParam] 0 []) (Whole_calls (plainChr [f64.toBase scenarioParam] 0 (List.replicate 8 true)) (plainChr [f64.toBase scenarioParam] 0 (List.replicate 8 true)) 1 (5764607523034235 / 72057594037927936))) (plainChr [f64.toBase scenarioParam] 0 (List.replicate 8 true)) (plainChr [f64.toBase scenarioParam] 0 (List.replicate 8 true)),
      transmit_sigma (initGene_calls (plainChr [f64.toBase scenarioParam] 0 []) (Whole_calls (plainChr [f64.toBase scenarioParam] 0 (List.replicate 8 true)) (plainChr [f64.toBase scenarioParam] 0 (List.replicate 8 true)) 1 (5764607523034235 / 72057594037927936))) (plainChr [f64.toBase scenarioParam] 0 (List.replicate 8 true)) (plainChr [f64.toBase scenarioParam] 0 (List.replicate 8 true))) = _
    rw [hcalls]
  · have hg : (plainChr [f64.toBase wideParam] 0 (List.replicate 54 true)).get_value 0 = 10 := by
      rw [get_value_eq_decode_gene (plainChr [f64.toBase wideParam] 0 (List.replicate 54 true)) 0 (f64.toBase wideParam) rfl]
      have hgene : (plainChr [f64.toBase wideParam] 0 (List.replicate 54 true)).gene 0 = List.replicate 54 true := by decide
      rw [hgene]
      exact f64_decode_wide_ones
    have hcalls : Simple_calls (plainChr [f64.toBase wideParam] 0 (List.replicate 54 true)) (plainChr [f64.toBase wideParam] 0 (List.replicate 54 true)) 1 1 (1 / 2) = [(0, 10)] := by
      show [((0 : ℕ), (plainChr [f64.toBase wideParam] 0 (List.replicate 54 true)).get_value 0)] ++ [] = _
      rw [hg]
      rfl
    refine ⟨?_, hg, ?_⟩
    · rw [Simple_eq_calls (duoPop (plainChr [f64.toBase wideParam] 0 (List.replicate 54 true)) (plainChr [f64.toBase wideParam] 0 (List.replicate 54 true))) (plainChr [f64.toBase wideParam] 0 []) (plainChr [f64.toBase wideParam] 0 []) (plainChr [f64.toBase wideParam] 0 (List.replicate 54 true)) (plainChr [f64.toBase wideParam] 0 (List.replicate 54 true)) 0 1 1 _ rfl rfl]
      show some (transmit_sigma (initGene_calls (plainChr [f64.toBase wideParam] 0 []) (Simple_calls (plainChr [f64.toBase wideParam] 0 (List.replicate 54 true)) (plainChr [f64.toBase wideParam] 0 (List.replicate 54 true)) 1 1 (1 / 2))) (plainChr [f64.toBase wideParam] 0 (List.replicate 54 true)) (plainChr [f64.toBase wideParam] 0 (List.replicate 54 true)),
        transmit_sigma (initGene_calls (plainChr [f64.toBase wideParam] 0 []) (Simple_calls (plainChr [f64.toBase wideParam] 0 (List.replicate 54 true)) (plainChr [f64.toBase wideParam] 0 (List.replicate 54 true)) 1 1 (1 / 2))) (plainChr [f64.toBase wideParam] 0 (List.replicate 54 true)) (plainChr [f64.toBase wideParam] 0 (List.replicate 54 true))) = _
      rw [hcalls]
    · rw [f64_encode_wide.1]
      decide

/-- C33, witness: two real genes of 8 bits with bounds `[0, 10]`, the parents
`11111111 00000000` and `11111111 11111111`, `pos = 1` and `r = 1/2`; and two Binairo
genes (`int`, bounds `[-1, 1]`, 2 bits), the parents `10 00` and `00 00`. -/
theorem arithmetic_values_near_bounds_witness :
    (∀ iv ∈ Simple_calls
        (plainChr [f64.toBase scenarioParam, f64.toBase scenarioParam] 0
          (List.replicate 8 true ++ List.replicate 8 false))
        (plainChr [f64.toBase scenarioParam, f64.toBase scenarioParam] 0
          (List.replicate 16 true)) 1
        (plainChr [f64.toBase scenarioParam, f64.toBase scenarioParam] 0 []).nbgene (1 / 2),
      ∀ P : Parameter ℚ, [scenarioParam, scenarioParam][iv.1]? = some P →
        P.data0 - ((|P.data0| + |P.data1|) / 2 ^ 49 + 3 * (1 / 2 ^ 1075)) ≤ iv.2 ∧
        iv.2 ≤ P.data1 + ((|P.data0| + |P.data1|) / 2 ^ 49 + 3 * (1 / 2 ^ 1075)) ∧
        f64.encodeValue P iv.2 ≤ MAXVAL P.N) ∧
    (∀ iv ∈ Whole_calls
        (plainChr [f64.toBaseInt binairoParam, f64.toBaseInt binairoParam] 0
          [true, false, false, false])
        (plainChr [f64.toBaseInt binairoParam, f64.toBaseInt binairoParam] 0
          [false, false, false, false])
        (plainChr [f64.toBaseInt binairoParam, f64.toBaseInt binairoParam] 0 []).nbgene (1 / 2),
      ∀ P : Parameter ℤ, [binairoParam, binairoParam][iv.1]? = some P →
        (P.data0 ≤ iv.2 ∧ iv.2 ≤ P.data1 ∧ P.encodeValueInt iv.2 ≤ MAXVAL P.N) ∨
        (iv.2 = P.data0 - 1 ∧ 0 < P.data0) ∨ (iv.2 = P.data1 + 1 ∧ P.data1 < 0)) :=
  have hb : scenarioParam.data0 < scenarioParam.data1 := by
    norm_num [Parameter.data0, Parameter.data1, scenarioParam]
  have hlo : fl scenarioParam.data0 = scenarioParam.data0 := by
    simpa [scenarioParam, Parameter.data0] using fl_zero
  have hhi : fl scenarioParam.data1 = scenarioParam.data1 := by
    simpa [scenarioParam, Parameter.data1] using fl_ten
  have hreal : ∀ (c : List Bool) (i : Nat) (P : Parameter ℚ),
      c.length = 16 → [scenarioParam, scenarioParam][i]? = some P →
      P.data0 ≤ (plainChr [f64.toBase scenarioParam, f64.toBase scenarioParam] 0 c).get_value i ∧
      (plainChr [f64.toBase scenarioParam, f64.toBase scenarioParam] 0 c).get_value i
        ≤ P.data1 ∧
      fl ((plainChr [f64.toBase scenarioParam, f64.toBase scenarioParam] 0 c).get_value i)
        = (plainChr [f64.toBase scenarioParam, f64.toBase scenarioParam] 0 c).get_value i := by
    intro c i P hc hP
    have hi : i < 2 := by
      rcases List.getElem?_eq_some_iff.mp hP with ⟨h, _⟩
      simpa using h
    have hP2 : P = scenarioParam := by
      have hm := List.getElem?_mem hP
      simp only [List.mem_cons, List.mem_singleton, or_self, List.not_mem_nil,
        or_false] at hm
      exact hm
    subst hP2
    have hp : (plainChr [f64.toBase scenarioParam, f64.toBase scenarioParam] 0 c).ptr.param[i]?
        = some (f64.toBase scenarioParam) := by
      interval_cases i <;> rfl
    have hwf : (plainChr [f64.toBase scenarioParam, f64.toBase scenarioParam] 0 c).chr.length
        = (plainChr [f64.toBase scenarioParam, f64.toBase scenarioParam] 0 c).size := by
      show c.length = 16
      exact hc
    rw [get_value_eq_decode_gene _ i (f64.toBase scenarioParam) hp]
    have hl := gene_length _ i (f64.toBase scenarioParam) hp hwf
    obtain ⟨d1, d2, _, d4⟩ := f64_decode_bounds scenarioParam _ hb hlo (by decide) hl
    have e : f64.add scenarioParam.data0 (f64.sub scenarioParam.data1 scenarioParam.data0)
        = scenarioParam.data1 := by
      rw [← d4]
      exact f64_decode_scenario_ones
    rw [e] at d2
    exact ⟨d1, d2, f64_decode_double scenarioParam _⟩
  have hint : ∀ (c : List Bool) (i : Nat) (P : Parameter ℤ),
      c.length = 4 → [binairoParam, binairoParam][i]? = some P →
      P.data0 ≤ (plainChr [f64.toBaseInt binairoParam, f64.toBaseInt binairoParam] 0 c).get_value i ∧
      (plainChr [f64.toBaseInt binairoParam, f64.toBaseInt binairoParam] 0 c).get_value i
        ≤ P.data1 := by
    intro c i P hc hP
    have hi : i < 2 := by
      rcases List.getElem?_eq_some_iff.mp hP with ⟨h, _⟩
      simpa using h
    have hP2 : P = binairoParam := by
      have hm := List.getElem?_mem hP
      simp only [List.mem_cons, List.mem_singleton, or_self, List.not_mem_nil,
        or_false] at hm
      exact hm
    subst hP2
    have hp : (plainChr [f64.toBaseInt binairoParam, f64.toBaseInt binairoParam] 0 c).ptr.param[i]?
        = some (f64.toBaseInt binairoParam) := by
      interval_cases i <;> rfl
    have hwf : (plainChr [f64.toBaseInt binairoParam, f64.toBaseInt binairoParam] 0 c).chr.length
        = (plainChr [f64.toBaseInt binairoParam, f64.toBaseInt binairoParam] 0 c).size := by
      show c.length = 4
      exact hc
    rw [get_value_eq_decode_gene _ i (f64.toBaseInt binairoParam) hp]
    have hl := gene_length _ i (f64.toBaseInt binairoParam) hp hwf
    obtain ⟨d1, d2, _, _⟩ := f64_decodeInt_bounds binairoParam _ (by decide) (by decide)
      (by decide) (by decide) hl
    exact ⟨d1, d2⟩
  have hR := (arithmetic_values_near_bounds.1
    (duoPop
      (plainChr [f64.toBase scenarioParam, f64.toBase scenarioParam] 0
        (List.replicate 8 true ++ List.replicate 8 false))
      (plainChr [f64.toBase scenarioParam, f64.toBase scenarioParam] 0
        (List.replicate 16 true)))
    [scenarioParam, scenarioParam]
    (plainChr [f64.toBase scenarioParam, f64.toBase scenarioParam] 0 [])
    (plainChr [f64.toBase scenarioParam, f64.toBase scenarioParam] 0 [])
    (plainChr [f64.toBase scenarioParam, f64.toBase scenarioParam] 0
      (List.replicate 8 true ++ List.replicate 8 false))
    (plainChr [f64.toBase scenarioParam, f64.toBase scenarioParam] 0
      (List.replicate 16 true))
    0 1 1 (1 / 2) rfl rfl (by norm_num) (by norm_num) fl_small_values.2.2.2.2.1
    (by
      intro P hP
      have hP2 : P = scenarioParam := by
        simp only [List.mem_cons, List.mem_singleton, or_self, List.not_mem_nil,
          or_false] at hP
        exact hP
      subst hP2
      exact ⟨hb, hlo, hhi, by norm_num [Parameter.data0, scenarioParam],
        by norm_num [Parameter.data1, scenarioParam], by decide, by decide⟩)
    (fun i P hP => ⟨hreal _ i P (by decide) hP, hreal _ i P (by decide) hP⟩)).2.2.2
      _ (List.mem_cons_self _ _)
  have hZ := (arithmetic_values_near_bounds.2
    (duoPop
      (plainChr [f64.toBaseInt binairoParam, f64.toBaseInt binairoParam] 0
        [true, false, false, false])
      (plainChr [f64.toBaseInt binairoParam, f64.toBaseInt binairoParam] 0
        [false, false, false, false]))
    [binairoParam, binairoParam]
    (plainChr [f64.toBaseInt binairoParam, f64.toBaseInt binairoParam] 0 [])
    (plainChr [f64.toBaseInt binairoParam, f64.toBaseInt binairoParam] 0 [])
    (plainChr [f64.toBaseInt binairoParam, f64.toBaseInt binairoParam] 0
      [true, false, false, false])
    (plainChr [f64.toBaseInt binairoParam, f64.toBaseInt binairoParam] 0
      [false, false, false, false])
    0 1 1 (1 / 2) rfl rfl (by norm_num) (by norm_num) fl_small_values.2.2.2.2.1
    (by
      intro P hP
      have hP2 : P = binairoParam := by
        simp only [List.mem_cons, List.mem_singleton, or_self, List.not_mem_nil,
          or_false] at hP
        exact hP
      subst hP2
      exact ⟨by decide, by decide, by decide, by decide⟩)
    (fun i P hP => ⟨hint _ i P (by decide) hP, hint _ i P (by decide) hP⟩)).2.2.2
      _ (List.mem_cons_of_mem _ (List.mem_cons_of_mem _ (List.mem_cons_of_mem _
        (List.mem_cons_of_mem _ (List.mem_cons_self _ _)))))
  ⟨fun iv hiv P hP =>
    have hP2 : P = scenarioParam := by
      have hm := List.getElem?_mem hP
      simp only [List.mem_cons, List.mem_singleton, or_self, List.not_mem_nil,
        or_false] at hm
      exact hm
    ⟨(hR iv hiv P hP).1, (hR iv hiv P hP).2.1,
      ((hR iv hiv P hP).2.2
        (by rw [hP2]; norm_num [scenarioParam, Parameter.data0, Parameter.data1, MAXVAL])
        (by rw [hP2]; norm_num [scenarioParam, Parameter.data0, Parameter.data1])).2.2⟩,
    hZ⟩

end galgo
